import Mathlib

/-!
# A shallow embedding of the `wkt` package (Well Known Text parser)

The development follows the two source files of the package:

* `wkt.go`      : `Opt`, `Coord`, the five geometry types and their `Equal` methods, `Parse`;
* `scantext.go` : the `scanner` (cursor over the input bytes) and its scan routines.

Modelling conventions.

* A byte is a natural number (`'(' = 40`, `')' = 41`, `',' = 44`, ...); `[]byte` is `List Nat`.
* `float64` and `fmt.Fscan` belong to the Go standard library, not to the package.  They are
  parameters of the development, collected in `Num F`: the carrier `F`, its zero value, the
  comparison `==` and the scanner `fscan`.  Nothing is assumed about them.
* A method with pointer receiver `*scanner` becomes a function that returns the new scanner next
  to its result; the scanner is returned on the error path too, because the cursor keeps the
  position reached when a call fails.
* The three `for { ... }` loops are structural recursions on a fuel argument; running out of
  fuel is the separate error `Err.outOfFuel`.
* An out of range index (a Go run time panic) is the separate error `Err.panic`.
-/

namespace wkt

/-! ## wkt.go : options, coordinates, geometries -/

/-- The Go type `Opt` (`type Opt uint`). -/
abbrev Opt := Nat

/-- Constant `Z` of the `iota` block. -/
def Z : Opt := 1
/-- Constant `M` of the `iota` block. -/
def M : Opt := 2
/-- Constant `ZM` of the `iota` block. -/
def ZM : Opt := 3

/-- Method `Opt.Is3d`: `o&Z != 0`. -/
def Opt.Is3d (o : Opt) : Bool := (o &&& Z) != 0
/-- Method `Opt.IsMeasured`: `o&M != 0`. -/
def Opt.IsMeasured (o : Opt) : Bool := (o &&& M) != 0

/-- The Go struct `Coord`. -/
structure Coord (F : Type) where
  X : F
  Y : F
  Z : F
  M : F
deriving DecidableEq, Repr

/-- The parts of the Go standard library the package relies on: the type `float64` with its
zero value and its comparison `==`, and `fmt.Fscan(r, f)` for `f : *float64`.  The scanner is
given the unread bytes of the reader and answers `none` on error, or the value together with the
number of bytes it took from the reader. -/
structure Num (F : Type) where
  zero : F
  eq : F → F → Bool
  fscan : List Nat → Option (F × Nat)

/-- The zero value of `Coord` (the named result `c` of `scanCoord` before any assignment). -/
def Coord.zero {F : Type} (N : Num F) : Coord F := ⟨N.zero, N.zero, N.zero, N.zero⟩

/-- Go comparison `c == o` of two `Coord` structs: field by field. -/
def coordEq {F : Type} (N : Num F) (c o : Coord F) : Bool :=
  N.eq c.X o.X && N.eq c.Y o.Y && N.eq c.Z o.Z && N.eq c.M o.M

/-- The interface `Geom` with its five implementations; the second component is the embedded
`Opt`. -/
inductive Geom (F : Type) where
  | Point (c : Coord F) (o : Opt)
  | MultiPoint (Coords : List (Coord F)) (o : Opt)
  | LineString (Coords : List (Coord F)) (o : Opt)
  | Polygon (Rings : List (List (Coord F))) (o : Opt)
  | MultiPolygon (Polygons : List (List (List (Coord F)))) (o : Opt)
deriving DecidableEq, Repr

/-- The embedded `Opt` of a geometry. -/
def Geom.opt {F : Type} : Geom F → Opt
  | .Point _ o => o
  | .MultiPoint _ o => o
  | .LineString _ o => o
  | .Polygon _ o => o
  | .MultiPolygon _ o => o

/-- Method `Is3d` of a geometry (promoted from the embedded `Opt`). -/
def Geom.Is3d {F : Type} (g : Geom F) : Bool := Opt.Is3d g.opt
/-- Method `IsMeasured` of a geometry (promoted from the embedded `Opt`). -/
def Geom.IsMeasured {F : Type} (g : Geom F) : Bool := Opt.IsMeasured g.opt

/-- The range loop shared by `equalCoords`, `equalRings` and `MultiPolygon.Equal`:
`for i, x := range c { if !eq(x, o[i]) { return false } }; return true`.
The second list is the part of `o` from index `i` on; it cannot run out, the lengths having
been compared before the loop. -/
def rangeEq {α : Type} (eq : α → α → Bool) : List α → List α → Bool
  | [], _ => true
  | _ :: _, [] => false
  | x :: c, y :: o => if !eq x y then false else rangeEq eq c o

/-- Function `equalCoords`. -/
def equalCoords {F : Type} (N : Num F) (c o : List (Coord F)) : Bool :=
  if c.length != o.length then false else rangeEq (coordEq N) c o

/-- Function `equalRings`. -/
def equalRings {F : Type} (N : Num F) (r o : List (List (Coord F))) : Bool :=
  if r.length != o.length then false else rangeEq (equalCoords N) r o

/-- The five `Equal` methods: `a.Equal(b)`.  The type assertion `g.(*T)` fails exactly when
`b` is another variant. -/
def Geom.Equal {F : Type} (N : Num F) : Geom F → Geom F → Bool
  | .Point c o, .Point c2 o2 => coordEq N c c2 && o == o2
  | .MultiPoint cs o, .MultiPoint cs2 o2 => o == o2 && equalCoords N cs cs2
  | .LineString cs o, .LineString cs2 o2 => o == o2 && equalCoords N cs cs2
  | .Polygon rs o, .Polygon rs2 o2 =>
    if o != o2 then false else equalRings N rs rs2
  | .MultiPolygon ps o, .MultiPolygon ps2 o2 =>
    if o != o2 then false
    else if ps.length != ps2.length then false
    else rangeEq (equalRings N) ps ps2
  | _, _ => false

/-! ## scantext.go : the scanner -/

/-- The errors of the package, one constructor per `return ..., err` site. -/
inductive Err where
  /-- Value `io.ErrUnexpectedEOF`. -/
  | unexpectedEOF
  /-- Message "expect '(' got %q". -/
  | expectOpen (c : Nat)
  /-- Message "expect ',' or ')' got %q". -/
  | expectCommaOrClose (c : Nat)
  /-- Message "no ident byte %q". -/
  | noIdent (b : Nat)
  /-- The error returned by `fmt.Fscan`. -/
  | fscan
  /-- Message "expect ')' got ','". -/
  | expectCloseGotComma
  /-- Message "a polygon ring must have at least 4 points, got %d". -/
  | ringTooShort (n : Nat)
  /-- Message "a polygon ring must be closed". -/
  | ringNotClosed
  /-- Message "expected 1 got %d points". -/
  | pointCount (n : Nat)
  /-- Message "unknown geom '%s'". -/
  | unknownGeom (ident : List Nat)
  /-- An index out of range: a run time panic in Go. -/
  | panic
  /-- The fuel of a loop of the embedding ran out (not a Go error). -/
  | outOfFuel
deriving DecidableEq, Repr

/-- The Go struct `scanner`. -/
structure scanner where
  raw : List Nat
  i : Nat
  opt : Opt
deriving DecidableEq, Repr

/-- Method `peek`. -/
def peek (s : scanner) : Except Err Nat :=
  if h : s.i >= s.raw.length then .error .unexpectedEOF
  else .ok (s.raw.get ⟨s.i, by omega⟩)

/-- The whitespace test of `skipWs`: `b == ' ' || b == '\n' || b == '\t' || b == '\r'`. -/
def isWs (b : Nat) : Bool := b == 32 || b == 10 || b == 9 || b == 13

/-- The range loop of `skipWs` over the slice `s.raw[s.i:]`, started at index `i`: the index
of the first byte that is not whitespace, if the loop finds one. -/
def skipWsLoop : List Nat → Nat → Option Nat
  | [], _ => none
  | b :: bs, i => if isWs b then skipWsLoop bs (i + 1) else some i

/-- Method `skipWs`. -/
def skipWs (s : scanner) : scanner :=
  if s.i >= s.raw.length then s
  else
    match skipWsLoop (s.raw.drop s.i) 0 with
    | some i => { s with i := s.i + i }
    | none => s

/-- Method `scanStart`. -/
def scanStart (s : scanner) : Except Err Unit × scanner :=
  let s := skipWs s
  match peek s with
  | .error err => (.error err, s)
  | .ok c =>
    if c != 40 then (.error (.expectOpen c), s)
    else (.ok (), { s with i := s.i + 1 })

/-- Method `scanContinue`. -/
def scanContinue (s : scanner) : Except Err Bool × scanner :=
  let s := skipWs s
  match peek s with
  | .error err => (.error err, s)
  | .ok c =>
    let comma := c == 44
    if !comma && c != 41 then (.error (.expectCommaOrClose c), s)
    else (.ok comma, { s with i := s.i + 1 })

/-- The range loop of `scanIdent` over the slice `s.raw[s.i:]`.  Arguments: the rest of the
slice, the index of its first byte, and the variables `ident`, `i`, `b`; the result is the
value of `ident`, `i`, `b` when the loop is left. -/
def scanIdentLoop : List Nat → Nat → List Nat → Nat → Nat → List Nat × Nat × Nat
  | [], _, ident, i, b => (ident, i, b)
  | x :: xs, idx, ident, _, _ =>
    let lower := decide (x >= 97) && decide (x <= 122)
    if lower || (decide (x >= 65) && decide (x <= 90)) then
      let b := if lower then x - 97 + 65 else x
      scanIdentLoop xs (idx + 1) (ident ++ [b]) idx b
    else (ident, idx, x)

/-- Method `scanIdent`. -/
def scanIdent (s : scanner) : Except Err (List Nat) × scanner :=
  let s := skipWs s
  if s.i >= s.raw.length then (.error .unexpectedEOF, s)
  else
    match scanIdentLoop (s.raw.drop s.i) 0 [] 0 0 with
    | (ident, i, b) =>
      if ident.length == 0 then (.error (.noIdent b), s)
      else (.ok ident, { s with i := s.i + i })

/-- The targets `&c.X`, `&c.Y`, `&c.Z`, `&c.M` of the slice `fs` in `scanCoord`. -/
inductive Fld where
  | X | Y | Z | M
deriving DecidableEq, Repr

/-- Assignment `*f = v` through one of the pointers of `fs`. -/
def Coord.set {F : Type} (c : Coord F) : Fld → F → Coord F
  | .X, v => { c with X := v }
  | .Y, v => { c with Y := v }
  | .Z, v => { c with Z := v }
  | .M, v => { c with M := v }

/-- The loop `for _, f := range fs` of `scanCoord`.  Arguments: the rest of `fs`, the unread
bytes of the reader `r`, the coordinate `c`, the scanner and the number of literals read so
far.  The last component of the result is the number of literals read by successful calls of
`fmt.Fscan`; it is not a result of the Go function. -/
def scanFields {F : Type} (N : Num F) :
    List Fld → List Nat → Coord F → scanner → Nat → (Except Err (Coord F × Bool) × scanner) × Nat
  | [], _, c, s, n => ((.ok (c, false), s), n)
  | f :: fs, r, c, s, n =>
    match N.fscan r with
    | none => ((.error .fscan, s), n)
    | some (v, k) =>
      let c := c.set f v
      let r := r.drop k
      let s := skipWs { s with i := s.raw.length - r.length }
      match peek s with
      | .error _ => ((.error .unexpectedEOF, s), n + 1)
      | .ok b =>
        let comma := b == 44
        if comma || b == 41 then ((.ok (c, comma), { s with i := s.i + 1 }), n + 1)
        else scanFields N fs r c s (n + 1)

/-- Method `scanCoord`, together with the number of literals it read. -/
def scanCoordCount {F : Type} (N : Num F) (s : scanner) :
    (Except Err (Coord F × Bool) × scanner) × Nat :=
  let s := skipWs s
  if s.i >= s.raw.length then ((.error .unexpectedEOF, s), 0)
  else
    let r := s.raw.drop s.i
    let fs := if s.opt == M then [Fld.X, Fld.Y, Fld.M] else [Fld.X, Fld.Y, Fld.Z, Fld.M]
    scanFields N fs r (Coord.zero N) s 0

/-- Method `scanCoord`. -/
def scanCoord {F : Type} (N : Num F) (s : scanner) : Except Err (Coord F × Bool) × scanner :=
  (scanCoordCount N s).1

/-- The loop `for { ... }` of `scanCoords`, with the variables `multi` and `cs`. -/
def scanCoordsLoop {F : Type} (N : Num F) (multi : Bool) :
    Nat → scanner → List (Coord F) → Except Err (List (Coord F)) × scanner
  | 0, s, _ => (.error .outOfFuel, s)
  | fuel + 1, s, cs =>
    match scanCoord N s with
    | (.error err, s) => (.error err, s)
    | (.ok (c, comma), s) =>
      let cs := cs ++ [c]
      if comma then
        if multi then (.error .expectCloseGotComma, s)
        else scanCoordsLoop N multi fuel s cs
      else if multi then
        match scanContinue s with
        | (.error err, s) => (.error err, s)
        | (.ok comma, s) =>
          if comma then
            match scanStart s with
            | (.error err, s) => (.error err, s)
            | (.ok (), s) => scanCoordsLoop N multi fuel s cs
          else (.ok cs, s)
      else (.ok cs, s)

/-- Method `scanCoords`. -/
def scanCoords {F : Type} (N : Num F) (multi : Bool) (s : scanner) :
    Except Err (List (Coord F)) × scanner :=
  match scanStart s with
  | (.error err, s) => (.error err, s)
  | (.ok (), s) =>
    if multi then
      match scanStart s with
      | (.error _, s) => scanCoordsLoop N false (s.raw.length + 1) s []
      | (.ok (), s) => scanCoordsLoop N true (s.raw.length + 1) s []
    else scanCoordsLoop N false (s.raw.length + 1) s []

/-- The loop `for { ... }` of `scanPolydata`, with the variable `poly`. -/
def scanPolydataLoop {F : Type} (N : Num F) :
    Nat → scanner → List (List (Coord F)) → Except Err (List (List (Coord F))) × scanner
  | 0, s, _ => (.error .outOfFuel, s)
  | fuel + 1, s, poly =>
    match scanCoords N false s with
    | (.error err, s) => (.error err, s)
    | (.ok cs, s) =>
      if cs.length < 4 then (.error (.ringTooShort cs.length), s)
      else
        match cs.head?, cs.getLast? with
        | some c0, some cn =>
          if !coordEq N c0 cn then (.error .ringNotClosed, s)
          else
            let poly := poly ++ [cs]
            match scanContinue s with
            | (.error err, s) => (.error err, s)
            | (.ok comma, s) =>
              if comma then scanPolydataLoop N fuel s poly
              else (.ok poly, s)
        | _, _ => (.error .panic, s)

/-- Method `scanPolydata`. -/
def scanPolydata {F : Type} (N : Num F) (s : scanner) :
    Except Err (List (List (Coord F))) × scanner :=
  match scanStart s with
  | (.error err, s) => (.error err, s)
  | (.ok (), s) => scanPolydataLoop N (s.raw.length + 1) s []

/-- The loop `for { ... }` of `scanMultiPolydata`, with the variable `multi`. -/
def scanMultiPolydataLoop {F : Type} (N : Num F) :
    Nat → scanner → List (List (List (Coord F))) →
      Except Err (List (List (List (Coord F)))) × scanner
  | 0, s, _ => (.error .outOfFuel, s)
  | fuel + 1, s, multi =>
    match scanPolydata N s with
    | (.error err, s) => (.error err, s)
    | (.ok poly, s) =>
      let multi := multi ++ [poly]
      match scanContinue s with
      | (.error err, s) => (.error err, s)
      | (.ok comma, s) =>
        if comma then scanMultiPolydataLoop N fuel s multi
        else (.ok multi, s)

/-- Method `scanMultiPolydata`. -/
def scanMultiPolydata {F : Type} (N : Num F) (s : scanner) :
    Except Err (List (List (List (Coord F)))) × scanner :=
  match scanStart s with
  | (.error err, s) => (.error err, s)
  | (.ok (), s) => scanMultiPolydataLoop N (s.raw.length + 1) s []

/-- The bytes of an ASCII string. -/
def ascii (str : String) : List Nat := str.toList.map Char.toNat

/-- The first `switch` of `scanGeom`: the option selected by the identifier `zmident`. -/
def optOfIdent (zmident : List Nat) : Opt :=
  if zmident = ascii "Z" then Z
  else if zmident = ascii "M" then M
  else if zmident = ascii "ZM" then ZM
  else 0

/-- The second `switch` of `scanGeom` (on `ident`), run after `s.opt` has been set. -/
def scanBody {F : Type} (N : Num F) (ident : List Nat) (s : scanner) :
    Except Err (Geom F) × scanner :=
  if ident = ascii "POINT" ∨ ident = ascii "MULTIPOINT" ∨ ident = ascii "LINESTRING" then
    match scanCoords N (ident == ascii "MULTIPOINT") s with
    | (.error err, s) => (.error err, s)
    | (.ok cs, s) =>
      if ident = ascii "POINT" then
        if cs.length != 1 then (.error (.pointCount cs.length), s)
        else
          match cs.head? with
          | some c => (.ok (.Point c s.opt), s)
          | none => (.error .panic, s)
      else if ident = ascii "MULTIPOINT" then (.ok (.MultiPoint cs s.opt), s)
      else (.ok (.LineString cs s.opt), s)
  else if ident = ascii "POLYGON" then
    match scanPolydata N s with
    | (.error err, s) => (.error err, s)
    | (.ok rings, s) => (.ok (.Polygon rings s.opt), s)
  else if ident = ascii "MULTIPOLYGON" then
    match scanMultiPolydata N s with
    | (.error err, s) => (.error err, s)
    | (.ok multi, s) => (.ok (.MultiPolygon multi s.opt), s)
  else (.error (.unknownGeom ident), s)

/-- Method `scanGeom`. -/
def scanGeom {F : Type} (N : Num F) (s : scanner) : Except Err (Geom F) × scanner :=
  match scanIdent s with
  | (.error err, s) => (.error err, s)
  | (.ok ident, s) =>
    match scanIdent s with
    | (.error _, s) => scanBody N ident { s with opt := optOfIdent [] }
    | (.ok zmident, s) => scanBody N ident { s with opt := optOfIdent zmident }

/-- Function `Parse` of wkt.go. -/
def Parse {F : Type} (N : Num F) (data : List Nat) : Except Err (Geom F) :=
  (scanGeom N { raw := data, i := 0, opt := 0 }).1

/-! ## A concrete numeric back end for closed examples -/

/-- The bytes `fmt.Fscan` skips before a token: space and `\t`, `\n`, `\v`, `\f`, `\r`. -/
def isSpaceByte (b : Nat) : Bool := b == 32 || (decide (9 ≤ b) && decide (b ≤ 13))

/-- Test for a decimal digit. -/
def isDigit (b : Nat) : Bool := decide (48 ≤ b) && decide (b ≤ 57)

/-- The bytes that would continue a Go float token after its integer digits
(`_ . e E p P x X`); a literal followed by one of them is outside the fragment of `decFscan`. -/
def continuesToken : Option Nat → Bool
  | some b => b == 95 || b == 46 || b == 101 || b == 69 || b == 112 || b == 80 ||
      b == 120 || b == 88
  | none => false

/-- The value of a run of decimal digits. -/
def digitsVal (ds : List Nat) : Nat := ds.foldl (fun a d => 10 * a + (d - 48)) 0

/-- The scanner `fmt.Fscan` on the fragment used in the closed examples: optional white space,
an optional sign, and a run of decimal digits of value below `2 ^ 53` (so that the `float64`
is the integer itself) that is not followed by a byte continuing the token.  Everything else
is answered with `none`. -/
def decFscan (r : List Nat) : Option (Int × Nat) :=
  let ws := r.takeWhile isSpaceByte
  let r1 := r.dropWhile isSpaceByte
  let neg := r1.head? == some 45
  let sgn := if r1.head? == some 45 || r1.head? == some 43 then 1 else 0
  let r2 := r1.drop sgn
  let ds := r2.takeWhile isDigit
  let r3 := r2.dropWhile isDigit
  if ds.length == 0 then none
  else if continuesToken r3.head? then none
  else if digitsVal ds ≥ 2 ^ 53 then none
  else some (if neg then - (digitsVal ds : Int) else (digitsVal ds : Int), ws.length + sgn + ds.length)

/-- Integer valued `float64` with the scanner `decFscan`. -/
def dec : Num Int := { zero := 0, eq := fun a b => a == b, fscan := decFscan }

/-! ## Predicates used in the statements -/

/-- A ring as the package accepts it: at least 4 coordinates, first `==` last. -/
def ringOK {F : Type} (N : Num F) (r : List (Coord F)) : Prop :=
  4 ≤ r.length ∧ ∃ a b, r.head? = some a ∧ r.getLast? = some b ∧ coordEq N a b = true

/-- All rings of a geometry (none for the three variants without rings). -/
def Geom.rings {F : Type} : Geom F → List (List (Coord F))
  | .Polygon rs _ => rs
  | .MultiPolygon ps _ => ps.flatten
  | _ => []

/-- The five variants of `Geom`. -/
inductive Variant where
  | Point | MultiPoint | LineString | Polygon | MultiPolygon
deriving DecidableEq, Repr

/-- The variant (dynamic type) of a geometry. -/
def Geom.variant {F : Type} : Geom F → Variant
  | .Point _ _ => .Point
  | .MultiPoint _ _ => .MultiPoint
  | .LineString _ _ => .LineString
  | .Polygon _ _ => .Polygon
  | .MultiPolygon _ _ => .MultiPolygon

/-- Exact equality of two coordinates: `==` on each of X, Y, Z and M. -/
def sameCoord {F : Type} (N : Num F) (c o : Coord F) : Prop :=
  N.eq c.X o.X = true ∧ N.eq c.Y o.Y = true ∧ N.eq c.Z o.Z = true ∧ N.eq c.M o.M = true

/-- Equality of geometries as the specification words it: the same variant, the same `Opt`,
and coordinate / ring / polygon sequences of the same length at every level that are equal
element by element in the same order (`List.Forall₂` relates lists of equal length position
by position). -/
def sameGeom {F : Type} (N : Num F) : Geom F → Geom F → Prop
  | .Point c o, .Point c2 o2 => o = o2 ∧ sameCoord N c c2
  | .MultiPoint cs o, .MultiPoint cs2 o2 => o = o2 ∧ List.Forall₂ (sameCoord N) cs cs2
  | .LineString cs o, .LineString cs2 o2 => o = o2 ∧ List.Forall₂ (sameCoord N) cs cs2
  | .Polygon rs o, .Polygon rs2 o2 =>
    o = o2 ∧ List.Forall₂ (List.Forall₂ (sameCoord N)) rs rs2
  | .MultiPolygon ps o, .MultiPolygon ps2 o2 =>
    o = o2 ∧ List.Forall₂ (List.Forall₂ (List.Forall₂ (sameCoord N))) ps ps2
  | _, _ => False

/-- Reading a field of a coordinate through one of the pointers of `fs`. -/
def Coord.get {F : Type} (c : Coord F) : Fld → F
  | .X => c.X
  | .Y => c.Y
  | .Z => c.Z
  | .M => c.M

/-- All coordinates of a geometry, in order. -/
def Geom.coords {F : Type} : Geom F → List (Coord F)
  | .Point c _ => [c]
  | .MultiPoint cs _ => cs
  | .LineString cs _ => cs
  | .Polygon rs _ => rs.flatten
  | .MultiPolygon ps _ => ps.flatten.flatten

/-- Test for an ASCII letter, as in `scanIdent`. -/
def isLetter (b : Nat) : Bool :=
  (decide (b >= 97) && decide (b <= 122)) || (decide (b >= 65) && decide (b <= 90))

/-- Folding a byte to upper case, as in `scanIdent`: `b - 'a' + 'A'` for a lower case letter. -/
def upper (b : Nat) : Nat := if decide (b >= 97) && decide (b <= 122) then b - 97 + 65 else b

/-- Numeric literals: `t` is the text of a literal of value `v` for the scanner of `N` when it starts with a
byte that is neither white space nor a delimiter, and `fscan` reads it, after any white space,
as `v` whenever it is followed by white space or by a delimiter `,` `)`. -/
def Lit {F : Type} (N : Num F) (t : List Nat) (v : F) : Prop :=
  (∃ b t2, t = b :: t2 ∧ isWs b = false ∧ b ≠ 44 ∧ b ≠ 41 ∧ b ≠ 40) ∧
  ∀ (w rest : List Nat) (b : Nat), (∀ x ∈ w, isWs x = true) →
    (isWs b = true ∨ b = 44 ∨ b = 41) →
    N.fscan (w ++ (t ++ b :: rest)) = some (v, w.length + t.length)

/-- The text of a run of literals; each entry is the text of a literal, its value and the
white space that follows it. -/
def litsText {F : Type} : List (List Nat × F × List Nat) → List Nat
  | [] => []
  | (t, _, w) :: more => t ++ (w ++ litsText more)

/-- The values of a run of literals. -/
def litsVals {F : Type} (toks : List (List Nat × F × List Nat)) : List F :=
  toks.map (fun p => p.2.1)

/-- A run of literals is well formed: every entry is a literal followed by white space, which
is not empty between two literals. -/
def litsOK {F : Type} (N : Num F) : List (List Nat × F × List Nat) → Prop
  | [] => True
  | (t, v, w) :: more =>
    Lit N t v ∧ (∀ x ∈ w, isWs x = true) ∧ (more ≠ [] → w ≠ []) ∧ litsOK N more

/-- The targets of `scanCoord` under option `o`. -/
def fieldsOf (o : Opt) : List Fld :=
  if o == M then [Fld.X, Fld.Y, Fld.M] else [Fld.X, Fld.Y, Fld.Z, Fld.M]

/-- Storing values through the targets, in order. -/
def assign {F : Type} (c : Coord F) : List Fld → List F → Coord F
  | f :: fs, v :: vs => assign (c.set f v) fs vs
  | _, _ => c

/-- Coordinate texts: `t` is a coordinate text of value `c` under option `o` when it starts with a byte that is
neither white space nor `(`, and wherever it stands in front of a delimiter `,` or `)`,
`scanCoord` returns `c`, reports whether the delimiter is a comma, and leaves the cursor behind
the delimiter. -/
def CoordText {F : Type} (N : Num F) (o : Opt) (t : List Nat) (c : Coord F) : Prop :=
  (∃ b t2, t = b :: t2 ∧ isWs b = false ∧ b ≠ 40) ∧
  ∀ (s : scanner) (d : Nat) (rest : List Nat), s.opt = o →
    s.raw.drop s.i = t ++ d :: rest → (d = 44 ∨ d = 41) →
    scanCoord N s = (.ok (c, d == 44), { s with i := s.i + t.length + 1 })

/-- The text of a flat coordinate list after its opening `(`; each entry is white space, a
coordinate text and its value.  The entries are separated by `,` and the last one is followed
by `)`. -/
def flatList {F : Type} : List (List Nat × List Nat × Coord F) → List Nat
  | [] => []
  | (w, t, _) :: more => w ++ (t ++ (if more.isEmpty then 41 else 44) :: flatList more)

/-- The text of a nested coordinate list after its opening `(`: every coordinate text stands
in parentheses of its own; the entries are separated by `,` and the last one is followed by
`)`. -/
def nestedList {F : Type} : List (List Nat × List Nat × Coord F) → List Nat
  | [] => []
  | (w, t, _) :: more =>
    w ++ (40 :: (t ++ 41 :: (if more.isEmpty then 41 else 44) :: nestedList more))

/-- The values of a coordinate list. -/
def elemVals {F : Type} (es : List (List Nat × List Nat × Coord F)) : List (Coord F) :=
  es.map (fun e => e.2.2)

/-- Every entry of a coordinate list is white space followed by a coordinate text of the
given value. -/
def elemsOK {F : Type} (N : Num F) (o : Opt) (es : List (List Nat × List Nat × Coord F)) :
    Prop :=
  ∀ e ∈ es, (∀ x ∈ e.1, isWs x = true) ∧ CoordText N o e.2.1 e.2.2

/-- The text in front of the body of a geometry: white space, the keyword, white space, the
dimension suffix (possibly empty) and white space. -/
def headerText (ws0 kw ws1 sfx ws2 : List Nat) : List Nat :=
  ws0 ++ (kw ++ (ws1 ++ (sfx ++ ws2)))

/-- The parts of a header are well formed: runs of white space, a non-empty keyword made of
letters, a suffix made of letters that is separated from the keyword by white space. -/
def headerOK (ws0 kw ws1 sfx ws2 : List Nat) : Prop :=
  (∀ x ∈ ws0, isWs x = true) ∧ (∀ x ∈ kw, isLetter x = true) ∧ kw ≠ [] ∧
  (∀ x ∈ ws1, isWs x = true) ∧ (∀ x ∈ sfx, isLetter x = true) ∧ (sfx ≠ [] → ws1 ≠ []) ∧
  (∀ x ∈ ws2, isWs x = true)

/-- The first identifier of an input: the maximal run of ASCII letters after the leading white
space, folded to upper case. -/
def firstIdent (data : List Nat) : List Nat :=
  ((data.dropWhile isWs).takeWhile isLetter).map upper

/-- The second identifier of an input: the maximal run of ASCII letters (folded to upper case)
that follows the first run of letters and the white space after it. -/
def secondIdent (data : List Nat) : List Nat :=
  ((((data.dropWhile isWs).dropWhile isLetter).dropWhile isWs).takeWhile isLetter).map upper

/-- The identifier kept by `zmident, _ := s.scanIdent()`: the empty string on error. -/
def identOr (r : Except Err (List Nat)) : List Nat :=
  match r with
  | .ok ident => ident
  | .error _ => []

/-- Two scanners that agree on the cursor, the option, the length of the buffer and the unread
bytes. -/
def tailEq (s1 s2 : scanner) : Prop :=
  s1.i = s2.i ∧ s1.opt = s2.opt ∧ s1.raw.length = s2.raw.length ∧
  s1.raw.drop s1.i = s2.raw.drop s2.i

/-- Two bytes that are equal, or letters that differ in case only. -/
def caseEq (a b : Nat) : Prop :=
  a = b ∨ (isLetter a = true ∧ isLetter b = true ∧ upper a = upper b)

/-- Two scanners with the same cursor and option whose buffers differ in the case of letters
only. -/
def caseSim (s1 s2 : scanner) : Prop :=
  s1.i = s2.i ∧ s1.opt = s2.opt ∧ List.Forall₂ caseEq s1.raw s2.raw

/-- The identifier is one of the five keywords of `scanGeom`. -/
def knownIdent (ident : List Nat) : Prop :=
  ident = ascii "POINT" ∨ ident = ascii "MULTIPOINT" ∨ ident = ascii "LINESTRING" ∨
  ident = ascii "POLYGON" ∨ ident = ascii "MULTIPOLYGON"

/-- The errors that are no Go errors: the exhausted fuel of a loop of the embedding and the
index out of range. -/
def Err.artefact : Err → Prop
  | .outOfFuel => True
  | .panic => True
  | _ => False

/-- A coordinate list given by runs of literals: every entry is white space and a run of
literals; its text is the text of the run and its value stores the values of the literals
through the targets of option `o`, the fields without a literal being zero. -/
def runElems {F : Type} (N : Num F) (o : Opt)
    (ls : List (List Nat × List (List Nat × F × List Nat))) :
    List (List Nat × List Nat × Coord F) :=
  ls.map (fun e => (e.1, litsText e.2, assign (Coord.zero N) (fieldsOf o) (litsVals e.2)))

/-- Every entry of a list of runs is white space followed by a well formed run of at least one
literal and of at most as many literals as option `o` has targets. -/
def runsOK {F : Type} (N : Num F) (o : Opt)
    (ls : List (List Nat × List (List Nat × F × List Nat))) : Prop :=
  ∀ e ∈ ls, (∀ x ∈ e.1, isWs x = true) ∧ e.2 ≠ [] ∧ e.2.length ≤ (fieldsOf o).length ∧
    litsOK N e.2

/-- Comparison `==` of `float64` on the carrier `Option Int`, where `none` is NaN and `some n`
is the integer `n`: NaN is different from every value, itself included. -/
def nanEq : Option Int → Option Int → Bool
  | some a, some b => a == b
  | _, _ => false

/-- The scanner `fmt.Fscan` on the fragment of `decFscan`, extended by the token `nan` (in any
case of letters), which `fmt.Fscan` reads as NaN whatever follows it. -/
def nanFscan (r : List Nat) : Option (Option Int × Nat) :=
  if ((r.dropWhile isSpaceByte).take 3).map upper = ascii "NAN" then
    some (none, (r.takeWhile isSpaceByte).length + 3)
  else (decFscan r).map (fun p => (some p.1, p.2))

/-- Integer valued `float64` with NaN (`none`) and the scanner `nanFscan`. -/
def decNaN : Num (Option Int) := { zero := some 0, eq := nanEq, fscan := nanFscan }

/-- No sequence of the geometry is empty: a MultiPoint or LineString has a coordinate, a
Polygon has a ring, a MultiPolygon has a polygon, every polygon has a ring and every ring has
a coordinate. -/
def Geom.nonEmpty {F : Type} : Geom F → Prop
  | .Point _ _ => True
  | .MultiPoint cs _ => cs ≠ []
  | .LineString cs _ => cs ≠ []
  | .Polygon rs _ => rs ≠ [] ∧ ∀ r ∈ rs, r ≠ []
  | .MultiPolygon ps _ => ps ≠ [] ∧ ∀ p ∈ ps, p ≠ [] ∧ ∀ r ∈ p, r ≠ []

/-- The text of the leading entries of a nested coordinate list, read from behind the `(` of
the first entry: each entry is a coordinate text closed by `)`, the separating `,`, and the
white space and `(` that open the next entry.  In an entry `(w, t, c)` the white space `w` is
the one behind the comma. -/
def nestedIn {F : Type} : List (List Nat × List Nat × Coord F) → List Nat
  | [] => []
  | (w, t, _) :: more => t ++ 41 :: 44 :: (w ++ 40 :: nestedIn more)

/-- The text of the leading entries of a flat coordinate list: each entry is white space and a
coordinate text, followed by the separating `,`. -/
def flatPre {F : Type} : List (List Nat × List Nat × Coord F) → List Nat
  | [] => []
  | (w, t, _) :: more => w ++ (t ++ 44 :: flatPre more)

/-- The scanner over the input followed by the bytes `t`, with the same cursor and option. -/
def extend (t : List Nat) (s : scanner) : scanner := { s with raw := s.raw ++ t }

/-- All unread bytes of the scanner are white space (or there is none). -/
def dead (s : scanner) : Prop := ∀ x ∈ s.raw.drop s.i, isWs x = true

/-- A property of `fmt.Fscan`: it decides on the bytes it takes and on the byte behind them, so
that when it has taken fewer bytes than the reader holds, bytes appended to the reader do not
change what it reads. -/
def prefixStable {F : Type} (N : Num F) : Prop :=
  ∀ (r t : List Nat) (v : F) (k : Nat),
    N.fscan r = some (v, k) → k < r.length → N.fscan (r ++ t) = some (v, k)

/-- The bytes that end a token: white space and the delimiters `(`, `)` and `,`. -/
def isSep (b : Nat) : Bool := isWs b || b == 40 || b == 41 || b == 44

/-- A position between `a` and `b` at which white space may be inserted or removed: the start
of the text, or a position next to white space or next to a delimiter. -/
def boundary (a b : List Nat) : Prop :=
  a = [] ∨ (∃ x, a.getLast? = some x ∧ isSep x = true) ∨ (∃ y, b.head? = some y ∧ isSep y = true)

/-- Two texts that are equal, or differ by the white space `w` inserted in the second one at a
boundary. -/
def wsRel (w u1 u2 : List Nat) : Prop :=
  u1 = u2 ∨ ∃ a b, u1 = a ++ b ∧ u2 = a ++ (w ++ b) ∧ boundary a b

/-- As `wsRel`, the white space being inserted behind at least one byte. -/
def wsRelS (w u1 u2 : List Nat) : Prop :=
  u1 = u2 ∨ ∃ a b, a ≠ [] ∧ u1 = a ++ b ∧ u2 = a ++ (w ++ b) ∧ boundary a b

/-- Two scanners with the same option whose unread bytes are related by `wsRel`. -/
def wsSim (w : List Nat) (s1 s2 : scanner) : Prop :=
  s1.opt = s2.opt ∧ wsRel w (s1.raw.drop s1.i) (s2.raw.drop s2.i)

/-- Two results of a scan routine that are both errors, or the same value with related
scanners. -/
def simOut {α : Type} (w : List Nat) (o1 o2 : Except Err α × scanner) : Prop :=
  (∃ e1 e2, o1.1 = .error e1 ∧ o2.1 = .error e2) ∨
  (∃ v, o1.1 = .ok v ∧ o2.1 = .ok v ∧ wsSim w o1.2 o2.2)

/-- A property of `fmt.Fscan`: white space inserted in its input at a boundary does not change
what it reads.  It fails on both inputs, or it reads the same value; it takes the same number
of bytes when they end in front of the inserted white space, and the inserted bytes in
addition when they lie among the bytes it takes. -/
def wsStable {F : Type} (N : Num F) : Prop :=
  ∀ (a w b : List Nat), (∀ x ∈ w, isWs x = true) → boundary a b →
    (N.fscan (a ++ b) = none ∧ N.fscan (a ++ (w ++ b)) = none) ∨
    (∃ v k1 k2, N.fscan (a ++ b) = some (v, k1) ∧ N.fscan (a ++ (w ++ b)) = some (v, k2) ∧
      ((k1 ≤ a.length ∧ k2 = k1) ∨ (a.length ≤ k1 ∧ k2 = k1 + w.length)))

/-- A property of `fmt.Fscan`: when it succeeds it has taken at least one byte, and the last
byte it has taken is neither white space nor a delimiter. -/
def tokenEnd {F : Type} (N : Num F) : Prop :=
  ∀ (r : List Nat) (v : F) (k : Nat), N.fscan r = some (v, k) →
    1 ≤ k ∧ k ≤ r.length ∧ ∀ x, r[k - 1]? = some x → isSep x = false

/-- The part of `decFscan` behind the sign: a run of decimal digits read from `r2`, with the
sign `neg` and the number `off` of bytes in front of the digits. -/
def decDigits (neg : Bool) (off : Nat) (r2 : List Nat) : Option (Int × Nat) :=
  let ds := r2.takeWhile isDigit
  let r3 := r2.dropWhile isDigit
  if ds.length == 0 then none
  else if continuesToken r3.head? then none
  else if digitsVal ds ≥ 2 ^ 53 then none
  else some (if neg then - (digitsVal ds : Int) else (digitsVal ds : Int), off + ds.length)

/-! # Theorems -/

/-! ## The ring invariant -/

theorem scanPolydataLoop_ringOK {F : Type} (N : Num F) :
    ∀ (fuel : Nat) (s : scanner) (poly res : List (List (Coord F))) (s2 : scanner),
      scanPolydataLoop N fuel s poly = (.ok res, s2) →
      (∀ r ∈ poly, ringOK N r) → ∀ r ∈ res, ringOK N r := by
  intro fuel
  induction fuel with
  | zero => intro s poly res s2 h; simp [scanPolydataLoop] at h
  | succ n ih =>
    intro s poly res s2 h hp
    unfold scanPolydataLoop at h
    split at h
    · simp at h
    · rename_i cs s1 hcs
      split at h
      · simp at h
      · rename_i hlen
        split at h
        · rename_i c0 cn h0 hn
          split at h
          · simp at h
          · rename_i hclosed
            have hring : ringOK N cs := by
              refine ⟨by omega, c0, cn, h0, hn, ?_⟩
              simpa using hclosed
            have hp2 : ∀ r ∈ poly ++ [cs], ringOK N r := by
              intro r hr
              rcases List.mem_append.mp hr with h1 | h1
              · exact hp r h1
              · simp at h1; subst h1; exact hring
            split at h
            · simp at h
            · rename_i comma s3 hcont
              split at h
              · exact ih _ _ _ _ h hp2
              · simp at h
                obtain ⟨h1, _⟩ := h
                subst h1
                exact hp2
        · simp at h


theorem scanPolydata_ringOK {F : Type} (N : Num F) (s s2 : scanner)
    (res : List (List (Coord F))) (h : scanPolydata N s = (.ok res, s2)) :
    ∀ r ∈ res, ringOK N r := by
  unfold scanPolydata at h
  split at h
  · simp at h
  · exact scanPolydataLoop_ringOK N _ _ _ _ _ h (by simp)

theorem scanMultiPolydataLoop_ringOK {F : Type} (N : Num F) :
    ∀ (fuel : Nat) (s : scanner) (multi res : List (List (List (Coord F)))) (s2 : scanner),
      scanMultiPolydataLoop N fuel s multi = (.ok res, s2) →
      (∀ p ∈ multi, ∀ r ∈ p, ringOK N r) → ∀ p ∈ res, ∀ r ∈ p, ringOK N r := by
  intro fuel
  induction fuel with
  | zero => intro s multi res s2 h; simp [scanMultiPolydataLoop] at h
  | succ n ih =>
    intro s multi res s2 h hp
    unfold scanMultiPolydataLoop at h
    split at h
    · simp at h
    · rename_i poly s1 hpoly
      have hp2 : ∀ p ∈ multi ++ [poly], ∀ r ∈ p, ringOK N r := by
        intro p hp1
        rcases List.mem_append.mp hp1 with h1 | h1
        · exact hp p h1
        · simp at h1; subst h1; exact scanPolydata_ringOK N _ _ _ hpoly
      split at h
      · simp at h
      · split at h
        · exact ih _ _ _ _ h hp2
        · simp at h
          obtain ⟨h1, _⟩ := h
          subst h1
          exact hp2

theorem scanMultiPolydata_ringOK {F : Type} (N : Num F) (s s2 : scanner)
    (res : List (List (List (Coord F)))) (h : scanMultiPolydata N s = (.ok res, s2)) :
    ∀ p ∈ res, ∀ r ∈ p, ringOK N r := by
  unfold scanMultiPolydata at h
  split at h
  · simp at h
  · exact scanMultiPolydataLoop_ringOK N _ _ _ _ _ h (by simp)

theorem scanBody_ringOK {F : Type} (N : Num F) (ident : List Nat) (s s2 : scanner)
    (g : Geom F) (h : scanBody N ident s = (.ok g, s2)) : ∀ r ∈ g.rings, ringOK N r := by
  unfold scanBody at h
  split at h
  · split at h
    · simp at h
    · split at h
      · split at h
        · simp at h
        · split at h
          · simp at h; obtain ⟨h1, _⟩ := h; subst h1; simp [Geom.rings]
          · simp at h
      · split at h
        · simp at h; obtain ⟨h1, _⟩ := h; subst h1; simp [Geom.rings]
        · simp at h; obtain ⟨h1, _⟩ := h; subst h1; simp [Geom.rings]
  · split at h
    · split at h
      · simp at h
      · rename_i rings s1 hr
        simp at h; obtain ⟨h1, _⟩ := h; subst h1
        simpa [Geom.rings] using scanPolydata_ringOK N _ _ _ hr
    · split at h
      · split at h
        · simp at h
        · rename_i multi s1 hr
          simp at h; obtain ⟨h1, _⟩ := h; subst h1
          intro r hr1
          simp only [Geom.rings, List.mem_flatten] at hr1
          obtain ⟨p, hp, hrp⟩ := hr1
          exact scanMultiPolydata_ringOK N _ _ _ hr p hp r hrp
      · simp at h

/-- The geometry returned by `Parse` is the one returned by `scanBody` on some identifier and
scanner. -/
theorem Parse_ok_scanBody {F : Type} (N : Num F) (data : List Nat) (g : Geom F)
    (h : Parse N data = .ok g) : ∃ ident s s2, scanBody N ident s = (.ok g, s2) := by
  unfold Parse scanGeom at h
  split at h
  · simp at h
  · split at h
    · exact ⟨_, _, _, Prod.ext h rfl⟩
    · exact ⟨_, _, _, Prod.ext h rfl⟩

/-- C1: when `Parse` succeeds, every ring of the result (the rings of a Polygon, the rings of
every polygon of a MultiPolygon) has at least 4 coordinates and its first coordinate is `==`
to its last one. -/
theorem C1_parse_rings_closed {F : Type} (N : Num F) (data : List Nat) (g : Geom F)
    (h : Parse N data = .ok g) :
    (∀ rings o, g = .Polygon rings o → ∀ r ∈ rings, ringOK N r) ∧
    (∀ polys o, g = .MultiPolygon polys o → ∀ p ∈ polys, ∀ r ∈ p, ringOK N r) := by
  obtain ⟨ident, s, s2, hb⟩ := Parse_ok_scanBody N data g h
  have hr := scanBody_ringOK N ident s s2 g hb
  constructor
  · intro rings o hg; subst hg; simpa [Geom.rings] using hr
  · intro polys o hg p hp r hrp; subst hg
    exact hr r (by simp only [Geom.rings, List.mem_flatten]; exact ⟨p, hp, hrp⟩)

theorem C1_parse_rings_closed_witness :
    (Parse dec (ascii "POLYGON((30 10, 10 20, 20 40, 40 40, 30 10))") =
        .ok (.Polygon [[⟨30, 10, 0, 0⟩, ⟨10, 20, 0, 0⟩, ⟨20, 40, 0, 0⟩, ⟨40, 40, 0, 0⟩,
          ⟨30, 10, 0, 0⟩]] 0) ∧
      ∀ r ∈ [[(⟨30, 10, 0, 0⟩ : Coord Int), ⟨10, 20, 0, 0⟩, ⟨20, 40, 0, 0⟩, ⟨40, 40, 0, 0⟩,
          ⟨30, 10, 0, 0⟩]], ringOK dec r) ∧
    Parse dec (ascii "POLYGON((30 10, 10 20, 20 40))") = .error (.ringTooShort 3) ∧
    Parse dec (ascii "POLYGON((30 10, 10 20, 20 40, 30 11))") = .error .ringNotClosed ∧
    Parse dec (ascii "MULTIPOLYGON(((30 10, 10 20, 20 40, 30 10)),((0 0, 1 1, 0 0)))") =
      .error (.ringTooShort 3) :=
  ⟨⟨by rfl, (C1_parse_rings_closed dec
    (ascii "POLYGON((30 10, 10 20, 20 40, 40 40, 30 10))") _ (by rfl)).1 _ 0 rfl⟩,
    by rfl, by rfl, by rfl⟩

/-! ## Equality of geometries -/

theorem coordEq_iff {F : Type} (N : Num F) (c o : Coord F) :
    coordEq N c o = true ↔ sameCoord N c o := by
  simp [coordEq, sameCoord, and_assoc]

theorem rangeEq_iff {α : Type} (eq : α → α → Bool) (R : α → α → Prop)
    (hR : ∀ x y, eq x y = true ↔ R x y) :
    ∀ c o : List α, c.length = o.length → (rangeEq eq c o = true ↔ List.Forall₂ R c o)
  | [], [], _ => by simp [rangeEq]
  | [], _ :: _, h => by simp at h
  | _ :: _, [], h => by simp at h
  | x :: c, y :: o, h => by
    have ih := rangeEq_iff eq R hR c o (by simpa using h)
    by_cases hxy : eq x y = true
    · simp [rangeEq, hxy, ih, (hR x y).mp hxy]
    · have : ¬ R x y := fun h1 => hxy ((hR x y).mpr h1)
      simp [rangeEq, hxy, this]

theorem lenRangeEq_iff {α : Type} (eq : α → α → Bool) (R : α → α → Prop)
    (hR : ∀ x y, eq x y = true ↔ R x y) (c o : List α) :
    ((if c.length != o.length then false else rangeEq eq c o) = true) ↔ List.Forall₂ R c o := by
  by_cases h : c.length = o.length
  · simp [h, rangeEq_iff eq R hR c o h]
  · have : ¬ List.Forall₂ R c o := fun h1 => h h1.length_eq
    simp [h, this]

theorem equalCoords_iff {F : Type} (N : Num F) (c o : List (Coord F)) :
    equalCoords N c o = true ↔ List.Forall₂ (sameCoord N) c o :=
  lenRangeEq_iff _ _ (coordEq_iff N) c o

theorem equalRings_iff {F : Type} (N : Num F) (r o : List (List (Coord F))) :
    equalRings N r o = true ↔ List.Forall₂ (List.Forall₂ (sameCoord N)) r o :=
  lenRangeEq_iff _ _ (equalCoords_iff N) r o

theorem Equal_iff_sameGeom {F : Type} (N : Num F) (a b : Geom F) :
    Geom.Equal N a b = true ↔ sameGeom N a b := by
  cases a <;> cases b <;>
    simp [Geom.Equal, sameGeom, coordEq_iff, equalCoords_iff, equalRings_iff, and_comm]
  rename_i ps o ps2 o2
  intro _
  have h := lenRangeEq_iff _ _ (equalRings_iff N) ps ps2
  simpa using h

theorem Equal_variant {F : Type} (N : Num F) (a b : Geom F)
    (h : a.variant ≠ b.variant) : Geom.Equal N a b = false := by
  cases a <;> cases b <;> simp [Geom.variant] at h <;> simp [Geom.Equal]

/-- C5: `a.Equal(b)` is true exactly when `a` and `b` are the same variant, carry the same
`Opt`, and their coordinate / ring / polygon sequences have the same length at every level and
are element-wise `==` (on X, Y, Z and M) in the same order; `Equal` between two different
variants is false. -/
theorem C5_equal_iff_same {F : Type} (N : Num F) (a b : Geom F) :
    (Geom.Equal N a b = true ↔ sameGeom N a b) ∧
    (sameGeom N a b → a.variant = b.variant ∧ a.opt = b.opt) ∧
    (a.variant ≠ b.variant → Geom.Equal N a b = false) := by
  refine ⟨Equal_iff_sameGeom N a b, ?_, Equal_variant N a b⟩
  cases a <;> cases b <;> simp [sameGeom, Geom.variant, Geom.opt] <;> intro h _ <;> exact h

theorem C5_equal_iff_same_witness :
    Geom.Equal dec (.MultiPoint [⟨30, 10, 0, 0⟩, ⟨10, 30, 0, 0⟩] 0)
        (.MultiPoint [⟨30, 10, 0, 0⟩, ⟨10, 30, 0, 0⟩] 0) = true ∧
      Geom.Equal dec (.MultiPoint [⟨30, 10, 0, 0⟩, ⟨10, 30, 0, 0⟩] 0)
        (.MultiPoint [⟨10, 30, 0, 0⟩, ⟨30, 10, 0, 0⟩] 0) = false ∧
      Geom.Equal dec (.MultiPoint [⟨30, 10, 0, 0⟩] 0) (.LineString [⟨30, 10, 0, 0⟩] 0) = false :=
  ⟨by decide, by decide,
    (C5_equal_iff_same dec (.MultiPoint [⟨30, 10, 0, 0⟩] 0) (.LineString [⟨30, 10, 0, 0⟩] 0)).2.2
      (by decide)⟩

/-! ## Frame: the scan routines change neither the buffer nor the option -/

theorem skipWs_raw (s : scanner) : (skipWs s).raw = s.raw := by
  unfold skipWs; split
  · rfl
  · split <;> rfl

theorem skipWs_opt (s : scanner) : (skipWs s).opt = s.opt := by
  unfold skipWs; split
  · rfl
  · split <;> rfl

theorem skipWs_le (s : scanner) : s.i ≤ (skipWs s).i := by
  unfold skipWs; split
  · exact Nat.le_refl _
  · split
    · exact Nat.le_add_right _ _
    · exact Nat.le_refl _

theorem scanStart_frame (s : scanner) :
    (scanStart s).2.raw = s.raw ∧ (scanStart s).2.opt = s.opt := by
  unfold scanStart
  simp only
  split
  · exact ⟨skipWs_raw s, skipWs_opt s⟩
  · split
    · exact ⟨skipWs_raw s, skipWs_opt s⟩
    · exact ⟨skipWs_raw s, skipWs_opt s⟩

theorem scanContinue_frame (s : scanner) :
    (scanContinue s).2.raw = s.raw ∧ (scanContinue s).2.opt = s.opt := by
  unfold scanContinue
  simp only
  split
  · exact ⟨skipWs_raw s, skipWs_opt s⟩
  · split
    · exact ⟨skipWs_raw s, skipWs_opt s⟩
    · exact ⟨skipWs_raw s, skipWs_opt s⟩

theorem scanIdent_frame (s : scanner) :
    (scanIdent s).2.raw = s.raw ∧ (scanIdent s).2.opt = s.opt := by
  unfold scanIdent
  simp only
  split
  · exact ⟨skipWs_raw s, skipWs_opt s⟩
  · split
    · exact ⟨skipWs_raw s, skipWs_opt s⟩
    · exact ⟨skipWs_raw s, skipWs_opt s⟩

theorem scanFields_frame {F : Type} (N : Num F) :
    ∀ (fs : List Fld) (r : List Nat) (c : Coord F) (s : scanner) (n : Nat),
      (scanFields N fs r c s n).1.2.raw = s.raw ∧ (scanFields N fs r c s n).1.2.opt = s.opt
  | [], _, _, _, _ => by simp [scanFields]
  | f :: fs, r, c, s, n => by
    unfold scanFields
    split
    · simp
    · simp only
      split
      · simp [skipWs_raw, skipWs_opt]
      · split
        · simp [skipWs_raw, skipWs_opt]
        · rename_i v k _ _ _ _ _
          have ih := scanFields_frame N fs (List.drop k r) (c.set f v)
            (skipWs { s with i := s.raw.length - (List.drop k r).length }) (n + 1)
          simpa [skipWs_raw, skipWs_opt] using ih

theorem scanCoord_frame {F : Type} (N : Num F) (s : scanner) :
    (scanCoord N s).2.raw = s.raw ∧ (scanCoord N s).2.opt = s.opt := by
  unfold scanCoord scanCoordCount
  simp only
  split
  · exact ⟨skipWs_raw s, skipWs_opt s⟩
  · have h := scanFields_frame N
      (if (skipWs s).opt == M then [Fld.X, Fld.Y, Fld.M] else [Fld.X, Fld.Y, Fld.Z, Fld.M])
      ((skipWs s).raw.drop (skipWs s).i) (Coord.zero N) (skipWs s) 0
    simpa [skipWs_raw, skipWs_opt] using h


theorem scanCoordsLoop_frame {F : Type} (N : Num F) (multi : Bool) :
    ∀ (fuel : Nat) (s : scanner) (cs : List (Coord F)),
      (scanCoordsLoop N multi fuel s cs).2.raw = s.raw ∧
      (scanCoordsLoop N multi fuel s cs).2.opt = s.opt := by
  intro fuel
  induction fuel with
  | zero => intro s cs; simp [scanCoordsLoop]
  | succ n ih =>
    intro s cs
    have h1 := scanCoord_frame N s
    unfold scanCoordsLoop
    split
    · rename_i hc; rw [hc] at h1; exact h1
    · rename_i c comma s1 hc
      rw [hc] at h1
      simp only at h1 ⊢
      split
      · split
        · exact h1
        · have := ih s1 (cs ++ [c]); rw [h1.1, h1.2] at this; exact this
      · split
        · have h2 := scanContinue_frame s1
          split
          · rename_i hk; rw [hk] at h2; simp only at h2; rw [h1.1, h1.2] at h2; exact h2
          · rename_i comma2 s2 hk
            rw [hk] at h2; simp only at h2; rw [h1.1, h1.2] at h2
            split
            · have h3 := scanStart_frame s2
              split
              · rename_i hs; rw [hs] at h3; simp only at h3; rw [h2.1, h2.2] at h3; exact h3
              · rename_i s3 hs
                rw [hs] at h3; simp only at h3; rw [h2.1, h2.2] at h3
                have := ih s3 (cs ++ [c]); rw [h3.1, h3.2] at this; exact this
            · exact h2
        · exact h1

theorem scanCoords_frame {F : Type} (N : Num F) (multi : Bool) (s : scanner) :
    (scanCoords (F := F) N multi s).2.raw = s.raw ∧ (scanCoords (F := F) N multi s).2.opt = s.opt := by
  have h1 := scanStart_frame s
  unfold scanCoords
  split
  · rename_i hs; rw [hs] at h1; exact h1
  · rename_i s1 hs
    rw [hs] at h1; simp only at h1
    split
    · have h2 := scanStart_frame s1
      split
      · rename_i s2 hs2
        rw [hs2] at h2; simp only at h2; rw [h1.1, h1.2] at h2
        have := scanCoordsLoop_frame N false (s2.raw.length + 1) s2 ([] : List (Coord F))
        rw [h2.1, h2.2] at this; rw [h2.1]; exact this
      · rename_i s2 hs2
        rw [hs2] at h2; simp only at h2; rw [h1.1, h1.2] at h2
        have := scanCoordsLoop_frame N true (s2.raw.length + 1) s2 ([] : List (Coord F))
        rw [h2.1, h2.2] at this; rw [h2.1]; exact this
    · have := scanCoordsLoop_frame N false (s1.raw.length + 1) s1 ([] : List (Coord F))
      rw [h1.1, h1.2] at this; rw [h1.1]; exact this


theorem scanStart_frame_eq {s s2 : scanner} {r : Except Err Unit} (h : scanStart s = (r, s2)) :
    s2.raw = s.raw ∧ s2.opt = s.opt := by
  have := scanStart_frame s; rw [h] at this; exact this

theorem scanContinue_frame_eq {s s2 : scanner} {r : Except Err Bool}
    (h : scanContinue s = (r, s2)) : s2.raw = s.raw ∧ s2.opt = s.opt := by
  have := scanContinue_frame s; rw [h] at this; exact this

theorem scanIdent_frame_eq {s s2 : scanner} {r : Except Err (List Nat)}
    (h : scanIdent s = (r, s2)) : s2.raw = s.raw ∧ s2.opt = s.opt := by
  have := scanIdent_frame s; rw [h] at this; exact this

theorem scanCoord_frame_eq {F : Type} {N : Num F} {s s2 : scanner}
    {r : Except Err (Coord F × Bool)} (h : scanCoord N s = (r, s2)) :
    s2.raw = s.raw ∧ s2.opt = s.opt := by
  have := scanCoord_frame N s; rw [h] at this; exact this

theorem scanCoordsLoop_frame_eq {F : Type} {N : Num F} {multi : Bool} {fuel : Nat}
    {s s2 : scanner} {cs : List (Coord F)} {r : Except Err (List (Coord F))}
    (h : scanCoordsLoop N multi fuel s cs = (r, s2)) : s2.raw = s.raw ∧ s2.opt = s.opt := by
  have := scanCoordsLoop_frame N multi fuel s cs; rw [h] at this; exact this

theorem scanCoords_frame_eq {F : Type} {N : Num F} {multi : Bool} {s s2 : scanner}
    {r : Except Err (List (Coord F))} (h : scanCoords N multi s = (r, s2)) :
    s2.raw = s.raw ∧ s2.opt = s.opt := by
  have := scanCoords_frame N multi s; rw [h] at this; exact this

theorem scanPolydataLoop_frame {F : Type} (N : Num F) :
    ∀ (fuel : Nat) (s s2 : scanner) (poly : List (List (Coord F)))
      (r : Except Err (List (List (Coord F)))),
      scanPolydataLoop N fuel s poly = (r, s2) → s2.raw = s.raw ∧ s2.opt = s.opt := by
  intro fuel
  induction fuel with
  | zero => intro s s2 poly r h; simp [scanPolydataLoop] at h; rw [← h.2]; simp
  | succ n ih =>
    intro s s2 poly r h
    unfold scanPolydataLoop at h
    split at h
    · rename_i hc
      have h1 := scanCoords_frame_eq hc
      simp at h; rw [← h.2]; exact h1
    · rename_i cs s1 hc
      have h1 := scanCoords_frame_eq hc
      split at h
      · simp at h; rw [← h.2]; exact h1
      · split at h
        · split at h
          · simp at h; rw [← h.2]; exact h1
          · split at h
            · rename_i hk
              have h2 := scanContinue_frame_eq hk
              simp at h; rw [← h.2, h2.1, h2.2]; exact h1
            · rename_i comma s3 hk
              have h2 := scanContinue_frame_eq hk
              split at h
              · have h3 := ih _ _ _ _ h
                rw [h3.1, h3.2, h2.1, h2.2]; exact h1
              · simp at h; rw [← h.2, h2.1, h2.2]; exact h1
        · simp at h; rw [← h.2]; exact h1

theorem scanPolydata_frame_eq {F : Type} {N : Num F} {s s2 : scanner}
    {r : Except Err (List (List (Coord F)))} (h : scanPolydata N s = (r, s2)) :
    s2.raw = s.raw ∧ s2.opt = s.opt := by
  unfold scanPolydata at h
  split at h
  · rename_i hs
    have h1 := scanStart_frame_eq hs
    simp at h; rw [← h.2]; exact h1
  · rename_i s1 hs
    have h1 := scanStart_frame_eq hs
    have h2 := scanPolydataLoop_frame N _ _ _ _ _ h
    rw [h2.1, h2.2]; exact h1

theorem scanMultiPolydataLoop_frame {F : Type} (N : Num F) :
    ∀ (fuel : Nat) (s s2 : scanner) (multi : List (List (List (Coord F))))
      (r : Except Err (List (List (List (Coord F))))),
      scanMultiPolydataLoop N fuel s multi = (r, s2) → s2.raw = s.raw ∧ s2.opt = s.opt := by
  intro fuel
  induction fuel with
  | zero => intro s s2 multi r h; simp [scanMultiPolydataLoop] at h; rw [← h.2]; simp
  | succ n ih =>
    intro s s2 multi r h
    unfold scanMultiPolydataLoop at h
    split at h
    · rename_i hc
      have h1 := scanPolydata_frame_eq hc
      simp at h; rw [← h.2]; exact h1
    · rename_i poly s1 hc
      have h1 := scanPolydata_frame_eq hc
      split at h
      · rename_i hk
        have h2 := scanContinue_frame_eq hk
        simp at h; rw [← h.2, h2.1, h2.2]; exact h1
      · rename_i comma s3 hk
        have h2 := scanContinue_frame_eq hk
        split at h
        · have h3 := ih _ _ _ _ h
          rw [h3.1, h3.2, h2.1, h2.2]; exact h1
        · simp at h; rw [← h.2, h2.1, h2.2]; exact h1

theorem scanMultiPolydata_frame_eq {F : Type} {N : Num F} {s s2 : scanner}
    {r : Except Err (List (List (List (Coord F))))} (h : scanMultiPolydata N s = (r, s2)) :
    s2.raw = s.raw ∧ s2.opt = s.opt := by
  unfold scanMultiPolydata at h
  split at h
  · rename_i hs
    have h1 := scanStart_frame_eq hs
    simp at h; rw [← h.2]; exact h1
  · rename_i s1 hs
    have h1 := scanStart_frame_eq hs
    have h2 := scanMultiPolydataLoop_frame N _ _ _ _ _ h
    rw [h2.1, h2.2]; exact h1

/-! ## Lifting a property of the coordinates read by `scanCoord` to the parsed geometry -/

theorem scanCoordsLoop_all {F : Type} (N : Num F) (P : Coord F → Prop) (o : Opt)
    (hP : ∀ (s s2 : scanner) (c : Coord F) (b : Bool),
      s.opt = o → scanCoord N s = (.ok (c, b), s2) → P c) (multi : Bool) :
    ∀ (fuel : Nat) (s s2 : scanner) (cs res : List (Coord F)),
      s.opt = o → (∀ c ∈ cs, P c) → scanCoordsLoop N multi fuel s cs = (.ok res, s2) →
      ∀ c ∈ res, P c := by
  intro fuel
  induction fuel with
  | zero => intro s s2 cs res _ _ h; simp [scanCoordsLoop] at h
  | succ n ih =>
    intro s s2 cs res ho hcs h
    unfold scanCoordsLoop at h
    split at h
    · simp at h
    · rename_i c comma s1 hc
      have h1 := scanCoord_frame_eq hc
      have hcs2 : ∀ x ∈ cs ++ [c], P x := by
        intro x hx
        rcases List.mem_append.mp hx with h0 | h0
        · exact hcs x h0
        · simp at h0; subst h0; exact hP _ _ _ _ ho hc
      simp only at h
      split at h
      · split at h
        · simp at h
        · exact ih _ _ _ _ (by rw [h1.2, ho]) hcs2 h
      · split at h
        · split at h
          · simp at h
          · rename_i comma2 s3 hk
            have h2 := scanContinue_frame_eq hk
            split at h
            · split at h
              · simp at h
              · rename_i s4 hs
                have h3 := scanStart_frame_eq hs
                exact ih _ _ _ _ (by rw [h3.2, h2.2, h1.2, ho]) hcs2 h
            · simp at h; rw [← h.1]; exact hcs2
        · simp at h; rw [← h.1]; exact hcs2

theorem scanCoords_all {F : Type} (N : Num F) (P : Coord F → Prop) (o : Opt)
    (hP : ∀ (s s2 : scanner) (c : Coord F) (b : Bool),
      s.opt = o → scanCoord N s = (.ok (c, b), s2) → P c)
    (multi : Bool) (s s2 : scanner) (res : List (Coord F)) (ho : s.opt = o)
    (h : scanCoords N multi s = (.ok res, s2)) : ∀ c ∈ res, P c := by
  unfold scanCoords at h
  split at h
  · simp at h
  · rename_i s1 hs
    have h1 := scanStart_frame_eq hs
    split at h
    · split at h
      · rename_i s3 hs3
        have h3 := scanStart_frame_eq hs3
        exact scanCoordsLoop_all N P o hP _ _ _ _ _ _ (by rw [h3.2, h1.2, ho]) (by simp) h
      · rename_i s3 hs3
        have h3 := scanStart_frame_eq hs3
        exact scanCoordsLoop_all N P o hP _ _ _ _ _ _ (by rw [h3.2, h1.2, ho]) (by simp) h
    · exact scanCoordsLoop_all N P o hP _ _ _ _ _ _ (by rw [h1.2, ho]) (by simp) h


theorem scanPolydataLoop_all {F : Type} (N : Num F) (P : Coord F → Prop) (o : Opt)
    (hP : ∀ (s s2 : scanner) (c : Coord F) (b : Bool),
      s.opt = o → scanCoord N s = (.ok (c, b), s2) → P c) :
    ∀ (fuel : Nat) (s s2 : scanner) (poly res : List (List (Coord F))),
      s.opt = o → (∀ r ∈ poly, ∀ c ∈ r, P c) → scanPolydataLoop N fuel s poly = (.ok res, s2) →
      ∀ r ∈ res, ∀ c ∈ r, P c := by
  intro fuel
  induction fuel with
  | zero => intro s s2 poly res _ _ h; simp [scanPolydataLoop] at h
  | succ n ih =>
    intro s s2 poly res ho hpoly h
    unfold scanPolydataLoop at h
    split at h
    · simp at h
    · rename_i cs s1 hc
      have h1 := scanCoords_frame_eq hc
      have hp2 : ∀ r ∈ poly ++ [cs], ∀ c ∈ r, P c := by
        intro r hr
        rcases List.mem_append.mp hr with h0 | h0
        · exact hpoly r h0
        · simp at h0; subst h0; exact scanCoords_all N P o hP _ _ _ _ ho hc
      split at h
      · simp at h
      · split at h
        · split at h
          · simp at h
          · split at h
            · simp at h
            · rename_i comma s3 hk
              have h2 := scanContinue_frame_eq hk
              split at h
              · exact ih _ _ _ _ (by rw [h2.2, h1.2, ho]) hp2 h
              · simp at h; rw [← h.1]; exact hp2
        · simp at h

theorem scanPolydata_all {F : Type} (N : Num F) (P : Coord F → Prop) (o : Opt)
    (hP : ∀ (s s2 : scanner) (c : Coord F) (b : Bool),
      s.opt = o → scanCoord N s = (.ok (c, b), s2) → P c)
    (s s2 : scanner) (res : List (List (Coord F))) (ho : s.opt = o)
    (h : scanPolydata N s = (.ok res, s2)) : ∀ r ∈ res, ∀ c ∈ r, P c := by
  unfold scanPolydata at h
  split at h
  · simp at h
  · rename_i s1 hs
    have h1 := scanStart_frame_eq hs
    exact scanPolydataLoop_all N P o hP _ _ _ _ _ (by rw [h1.2, ho]) (by simp) h

theorem scanMultiPolydataLoop_all {F : Type} (N : Num F) (P : Coord F → Prop) (o : Opt)
    (hP : ∀ (s s2 : scanner) (c : Coord F) (b : Bool),
      s.opt = o → scanCoord N s = (.ok (c, b), s2) → P c) :
    ∀ (fuel : Nat) (s s2 : scanner) (multi res : List (List (List (Coord F)))),
      s.opt = o → (∀ p ∈ multi, ∀ r ∈ p, ∀ c ∈ r, P c) →
      scanMultiPolydataLoop N fuel s multi = (.ok res, s2) →
      ∀ p ∈ res, ∀ r ∈ p, ∀ c ∈ r, P c := by
  intro fuel
  induction fuel with
  | zero => intro s s2 multi res _ _ h; simp [scanMultiPolydataLoop] at h
  | succ n ih =>
    intro s s2 multi res ho hmulti h
    unfold scanMultiPolydataLoop at h
    split at h
    · simp at h
    · rename_i poly s1 hc
      have h1 := scanPolydata_frame_eq hc
      have hp2 : ∀ p ∈ multi ++ [poly], ∀ r ∈ p, ∀ c ∈ r, P c := by
        intro p hp
        rcases List.mem_append.mp hp with h0 | h0
        · exact hmulti p h0
        · simp at h0; subst h0; exact scanPolydata_all N P o hP _ _ _ ho hc
      split at h
      · simp at h
      · rename_i comma s3 hk
        have h2 := scanContinue_frame_eq hk
        split at h
        · exact ih _ _ _ _ (by rw [h2.2, h1.2, ho]) hp2 h
        · simp at h; rw [← h.1]; exact hp2

theorem scanMultiPolydata_all {F : Type} (N : Num F) (P : Coord F → Prop) (o : Opt)
    (hP : ∀ (s s2 : scanner) (c : Coord F) (b : Bool),
      s.opt = o → scanCoord N s = (.ok (c, b), s2) → P c)
    (s s2 : scanner) (res : List (List (List (Coord F)))) (ho : s.opt = o)
    (h : scanMultiPolydata N s = (.ok res, s2)) : ∀ p ∈ res, ∀ r ∈ p, ∀ c ∈ r, P c := by
  unfold scanMultiPolydata at h
  split at h
  · simp at h
  · rename_i s1 hs
    have h1 := scanStart_frame_eq hs
    exact scanMultiPolydataLoop_all N P o hP _ _ _ _ _ (by rw [h1.2, ho]) (by simp) h

theorem scanBody_frame_eq {F : Type} {N : Num F} {ident : List Nat} {s s2 : scanner}
    {r : Except Err (Geom F)} (h : scanBody N ident s = (r, s2)) :
    s2.raw = s.raw ∧ s2.opt = s.opt := by
  unfold scanBody at h
  split at h
  · split at h
    · rename_i hc
      have h1 := scanCoords_frame_eq hc
      simp at h; rw [← h.2]; exact h1
    · rename_i cs s1 hc
      have h1 := scanCoords_frame_eq hc
      split at h
      · split at h
        · simp at h; rw [← h.2]; exact h1
        · split at h <;> (simp at h; rw [← h.2]; exact h1)
      · split at h <;> (simp at h; rw [← h.2]; exact h1)
  · split at h
    · split at h
      · rename_i hc
        have h1 := scanPolydata_frame_eq hc
        simp at h; rw [← h.2]; exact h1
      · rename_i cs s1 hc
        have h1 := scanPolydata_frame_eq hc
        simp at h; rw [← h.2]; exact h1
    · split at h
      · split at h
        · rename_i hc
          have h1 := scanMultiPolydata_frame_eq hc
          simp at h; rw [← h.2]; exact h1
        · rename_i cs s1 hc
          have h1 := scanMultiPolydata_frame_eq hc
          simp at h; rw [← h.2]; exact h1
      · simp at h; rw [← h.2]; exact ⟨rfl, rfl⟩

/-- The geometry built by `scanBody` carries the option of the scanner, and every property of
the coordinates returned by `scanCoord` under that option holds of all its coordinates. -/
theorem scanBody_all {F : Type} (N : Num F) (P : Coord F → Prop) (o : Opt)
    (hP : ∀ (s s2 : scanner) (c : Coord F) (b : Bool),
      s.opt = o → scanCoord N s = (.ok (c, b), s2) → P c)
    (ident : List Nat) (s s2 : scanner) (g : Geom F) (ho : s.opt = o)
    (h : scanBody N ident s = (.ok g, s2)) : g.opt = o ∧ ∀ c ∈ g.coords, P c := by
  unfold scanBody at h
  split at h
  · split at h
    · simp at h
    · rename_i cs s1 hc
      have h1 := scanCoords_frame_eq hc
      have hall := scanCoords_all N P o hP _ _ _ _ ho hc
      split at h
      · split at h
        · simp at h
        · split at h
          · rename_i c hhead
            simp at h; rw [← h.1]
            refine ⟨by simp [Geom.opt, h1.2, ho], ?_⟩
            intro x hx
            simp [Geom.coords] at hx
            subst hx
            exact hall _ (List.mem_of_mem_head? hhead)
          · simp at h
      · split at h
        · simp at h; rw [← h.1]
          exact ⟨by simp [Geom.opt, h1.2, ho], by simpa [Geom.coords] using hall⟩
        · simp at h; rw [← h.1]
          exact ⟨by simp [Geom.opt, h1.2, ho], by simpa [Geom.coords] using hall⟩
  · split at h
    · split at h
      · simp at h
      · rename_i rings s1 hc
        have h1 := scanPolydata_frame_eq hc
        have hall := scanPolydata_all N P o hP _ _ _ ho hc
        simp at h; rw [← h.1]
        refine ⟨by simp [Geom.opt, h1.2, ho], ?_⟩
        intro c hc1
        simp only [Geom.coords, List.mem_flatten] at hc1
        obtain ⟨r, hr, hcr⟩ := hc1
        exact hall r hr c hcr
    · split at h
      · split at h
        · simp at h
        · rename_i multi s1 hc
          have h1 := scanMultiPolydata_frame_eq hc
          have hall := scanMultiPolydata_all N P o hP _ _ _ ho hc
          simp at h; rw [← h.1]
          refine ⟨by simp [Geom.opt, h1.2, ho], ?_⟩
          intro c hc1
          simp only [Geom.coords, List.mem_flatten] at hc1
          obtain ⟨r, ⟨p, hp, hrp⟩, hcr⟩ := hc1
          exact hall p hp r hrp c hcr
      · simp at h

/-! ## The literals read by `scanCoord` -/

theorem Coord.get_set_ne {F : Type} (c : Coord F) (f g : Fld) (v : F) (h : g ≠ f) :
    (c.set f v).get g = c.get g := by
  cases f <;> cases g <;> simp [Coord.set, Coord.get] at h ⊢

theorem Coord.get_set_eq {F : Type} (c : Coord F) (f : Fld) (v : F) :
    (c.set f v).get f = v := by
  cases f <;> simp [Coord.set, Coord.get]

/-- A successful run of the loop of `scanCoord` reads `k` literals, with `k` at most the number
of targets (and at least one when there is a target), and leaves every field alone that is
not among the first `k` targets. -/
theorem scanFields_spec {F : Type} (N : Num F) :
    ∀ (fs : List Fld) (r : List Nat) (c : Coord F) (s : scanner) (n : Nat)
      (c2 : Coord F) (b : Bool) (s2 : scanner) (n2 : Nat),
      scanFields N fs r c s n = ((.ok (c2, b), s2), n2) →
      ∃ k, n2 = n + k ∧ k ≤ fs.length ∧ (fs ≠ [] → 1 ≤ k) ∧
        ∀ f, f ∉ fs.take k → c2.get f = c.get f
  | [], r, c, s, n, c2, b, s2, n2, h => by
    simp [scanFields] at h
    exact ⟨0, by omega, by simp, by simp, by intro f _; rw [h.1.1.1]⟩
  | f :: fs, r, c, s, n, c2, b, s2, n2, h => by
    unfold scanFields at h
    split at h
    · simp at h
    · rename_i v k0 hf
      simp only at h
      split at h
      · simp at h
      · split at h
        · simp at h
          refine ⟨1, by omega, by simp, by simp, ?_⟩
          intro g hg
          simp at hg
          rw [← h.1.1.1]
          exact Coord.get_set_ne c f g v hg
        · obtain ⟨k, hk1, hk2, _, hk4⟩ := scanFields_spec N fs _ _ _ _ _ _ _ _ h
          refine ⟨k + 1, by omega, by simp; omega, by simp, ?_⟩
          intro g hg
          simp at hg
          rw [hk4 g hg.2]
          exact Coord.get_set_ne c f g v hg.1

/-- The count of literals and the untouched fields for `scanCoord`: at least one literal and
at most four are read (at most three with option `M`); `Z` and `M` keep the zero value unless
a third (fourth) literal was read, and `Z` is never assigned with option `M`. -/
theorem scanCoordCount_spec {F : Type} (N : Num F) (s s2 : scanner) (c : Coord F) (b : Bool)
    (n : Nat) (h : scanCoordCount N s = ((.ok (c, b), s2), n)) :
    1 ≤ n ∧ n ≤ 4 ∧ (s.opt = M → n ≤ 3) ∧
    (n ≤ 1 → c.Y = N.zero) ∧ (n ≤ 2 → c.Z = N.zero ∧ c.M = N.zero) ∧
    (n ≤ 3 → s.opt ≠ M → c.M = N.zero) ∧ (s.opt = M → c.Z = N.zero) := by
  unfold scanCoordCount at h
  simp only at h
  split at h
  · simp at h
  · obtain ⟨k, hk1, hk2, hk3, hk4⟩ := scanFields_spec N _ _ _ _ _ _ _ _ _ h
    rw [skipWs_opt] at hk2 hk3 hk4
    have hn : n = k := by omega
    subst hn
    by_cases ho : s.opt = M
    · simp only [ho, beq_self_eq_true, if_true] at hk2 hk3 hk4
      simp at hk2 hk3
      refine ⟨hk3, by omega, fun _ => hk2, ?_, ?_, ?_, ?_⟩
      · intro h1
        have := hk4 Fld.Y (by
          have : n = 1 := by omega
          subst this; simp)
        simpa [Coord.get, Coord.zero] using this
      · intro h2
        have hz := hk4 Fld.Z (by intro hm; have := List.mem_of_mem_take hm; simp at this)
        have hm := hk4 Fld.M (by
          have : n = 1 ∨ n = 2 := by omega
          rcases this with h | h <;> subst h <;> simp)
        exact ⟨by simpa [Coord.get, Coord.zero] using hz, by simpa [Coord.get, Coord.zero] using hm⟩
      · intro _ h3; exact absurd ho h3
      · intro _
        have hz := hk4 Fld.Z (by intro hm; have := List.mem_of_mem_take hm; simp at this)
        simpa [Coord.get, Coord.zero] using hz
    · have ho2 : (s.opt == M) = false := by simpa using ho
      simp only [ho2] at hk2 hk3 hk4
      simp at hk2 hk3
      refine ⟨hk3, hk2, fun h => absurd h ho, ?_, ?_, ?_, fun h => absurd h ho⟩
      · intro h1
        have := hk4 Fld.Y (by
          have : n = 1 := by omega
          subst this; simp)
        simpa [Coord.get, Coord.zero] using this
      · intro h2
        have hn : n = 1 ∨ n = 2 := by omega
        have hz := hk4 Fld.Z (by rcases hn with h | h <;> subst h <;> simp)
        have hm := hk4 Fld.M (by rcases hn with h | h <;> subst h <;> simp)
        exact ⟨by simpa [Coord.get, Coord.zero] using hz, by simpa [Coord.get, Coord.zero] using hm⟩
      · intro h3 _
        have hn : n = 1 ∨ n = 2 ∨ n = 3 := by omega
        have hm := hk4 Fld.M (by rcases hn with h | h | h <;> subst h <;> simp)
        simpa [Coord.get, Coord.zero] using hm


theorem scanCoord_eq_count {F : Type} {N : Num F} {s s2 : scanner} {c : Coord F} {b : Bool}
    (h : scanCoord N s = (.ok (c, b), s2)) :
    ∃ n, scanCoordCount N s = ((.ok (c, b), s2), n) :=
  ⟨(scanCoordCount N s).2, by unfold scanCoord at h; rw [← h]⟩

/-- The scanner on which `scanBody` runs when `Parse` succeeds: the buffer is the input. -/
theorem Parse_ok_scanBody_raw {F : Type} (N : Num F) (data : List Nat) (g : Geom F)
    (h : Parse N data = .ok g) :
    ∃ ident s s2, s.raw = data ∧ scanBody N ident s = (.ok g, s2) := by
  unfold Parse scanGeom at h
  split at h
  · simp at h
  · rename_i ident s1 h1
    have f1 := scanIdent_frame_eq h1
    split at h
    · rename_i s3 h3
      have f3 := scanIdent_frame_eq h3
      exact ⟨_, _, _, by simp [f3.1, f1.1], Prod.ext h rfl⟩
    · rename_i s3 h3
      have f3 := scanIdent_frame_eq h3
      exact ⟨_, _, _, by simp [f3.1, f1.1], Prod.ext h rfl⟩

/-- Counterexample to C2 as stated: `point(1 2 3 4)` has no dimension suffix, so `Is3d` and
`IsMeasured` are false, yet the Point that `Parse` returns has `Z = 3` and `M = 4`. -/
theorem C2_counterexample :
    Parse dec (ascii "point(1 2 3 4)") = .ok (.Point ⟨1, 2, 3, 4⟩ 0) ∧
    Geom.Is3d (Geom.Point (⟨1, 2, 3, 4⟩ : Coord Int) 0) = false ∧
    Geom.IsMeasured (Geom.Point (⟨1, 2, 3, 4⟩ : Coord Int) 0) = false ∧
    (⟨1, 2, 3, 4⟩ : Coord Int).Z ≠ dec.zero ∧ (⟨1, 2, 3, 4⟩ : Coord Int).M ≠ dec.zero :=
  ⟨by rfl, by decide, by decide, by decide, by decide⟩

/-- C2 (amended): when `Parse` succeeds, every coordinate `c` of the result was returned by
a call of `scanCoord` under the option of the geometry; with option `M` its `Z` is zero; and
if that call read `n` literals, then `Z` and `M` are zero when `n ≤ 2`, and `M` is zero when
`n ≤ 3` and the option is not `M`.  (Literals beyond the second are stored whatever the
option declares.) -/
theorem C2_unfilled_fields_zero {F : Type} (N : Num F) (data : List Nat) (g : Geom F)
    (h : Parse N data = .ok g) :
    ∀ c ∈ g.coords, (g.opt = M → c.Z = N.zero) ∧
      ∃ (s s2 : scanner) (b : Bool) (n : Nat), s.opt = g.opt ∧
        scanCoordCount N s = ((.ok (c, b), s2), n) ∧
        (n ≤ 2 → c.Z = N.zero ∧ c.M = N.zero) ∧ (n ≤ 3 → g.opt ≠ M → c.M = N.zero) := by
  obtain ⟨ident, s, s2, hb⟩ := Parse_ok_scanBody N data g h
  have hall := scanBody_all N
    (fun c => (s.opt = M → c.Z = N.zero) ∧
      ∃ (s1 s2 : scanner) (b : Bool) (n : Nat), s1.opt = s.opt ∧
        scanCoordCount N s1 = ((.ok (c, b), s2), n) ∧
        (n ≤ 2 → c.Z = N.zero ∧ c.M = N.zero) ∧ (n ≤ 3 → s.opt ≠ M → c.M = N.zero))
    s.opt (by
      intro s1 s3 c b ho hc
      obtain ⟨n, hn⟩ := scanCoord_eq_count hc
      have hs := scanCoordCount_spec N _ _ _ _ _ hn
      refine ⟨fun hm => hs.2.2.2.2.2.2 (by rw [ho, hm]), s1, s3, b, n, ho, hn, hs.2.2.2.2.1, ?_⟩
      intro h3 hm
      exact hs.2.2.2.2.2.1 h3 (by rw [ho]; exact hm))
    ident s s2 g rfl hb
  obtain ⟨hopt, hc⟩ := hall
  intro c hcm
  have := hc c hcm
  rw [hopt]
  exact this

theorem C2_unfilled_fields_zero_witness :
    Parse dec (ascii "point m(1 2 4)") = .ok (.Point ⟨1, 2, 0, 4⟩ M) ∧
    (⟨1, 2, 0, 4⟩ : Coord Int).Z = dec.zero :=
  ⟨by rfl, ((C2_unfilled_fields_zero dec (ascii "point m(1 2 4)") (.Point ⟨1, 2, 0, 4⟩ M)
    (by rfl)) ⟨1, 2, 0, 4⟩ (by simp [Geom.coords])).1 rfl⟩

/-- Counterexample to C9 as stated: `POINT(1)` and `POINT Z(1 2)` are accepted by `Parse`,
and on `POINT(1)` the call of `scanCoord` after the `(` succeeds having read one literal. -/
theorem C9_counterexample :
    Parse dec (ascii "POINT(1)") = .ok (.Point ⟨1, 0, 0, 0⟩ 0) ∧
    Parse dec (ascii "POINT Z(1 2)") = .ok (.Point ⟨1, 2, 0, 0⟩ Z) ∧
    scanCoordCount dec { raw := ascii "POINT(1)", i := 6, opt := 0 } =
      ((.ok (⟨1, 0, 0, 0⟩, false), { raw := ascii "POINT(1)", i := 8, opt := 0 }), 1) :=
  ⟨by rfl, by rfl, by rfl⟩

/-- C9 (amended): if `scanCoord` succeeds it has read at least one and at most four numeric
literals, and at most three when the option is `M`; the fields for which no literal was read
keep the zero value: `Y` when one literal was read, `Z` and `M` when at most two were read,
`M` when at most three were read and the option is not `M`, and `Z` when the option is `M`. -/
theorem C9_literals_read_bounds {F : Type} (N : Num F) (s s2 : scanner) (c : Coord F) (b : Bool)
    (n : Nat) (h : scanCoordCount N s = ((.ok (c, b), s2), n)) :
    1 ≤ n ∧ n ≤ 4 ∧ (s.opt = M → n ≤ 3) ∧
    (n ≤ 1 → c.Y = N.zero) ∧ (n ≤ 2 → c.Z = N.zero ∧ c.M = N.zero) ∧
    (n ≤ 3 → s.opt ≠ M → c.M = N.zero) ∧ (s.opt = M → c.Z = N.zero) :=
  scanCoordCount_spec N s s2 c b n h

theorem C9_literals_read_bounds_witness :
    (scanCoordCount dec { raw := ascii "POINT(1)", i := 6, opt := 0 } =
        ((.ok (⟨1, 0, 0, 0⟩, false), { raw := ascii "POINT(1)", i := 8, opt := 0 }), 1) ∧
      (⟨1, 0, 0, 0⟩ : Coord Int).Y = dec.zero ∧ (⟨1, 0, 0, 0⟩ : Coord Int).Z = dec.zero ∧
      (⟨1, 0, 0, 0⟩ : Coord Int).M = dec.zero) ∧
    (scanCoordCount dec { raw := ascii "POINT Z(1 2 3)", i := 8, opt := Z } =
        ((.ok (⟨1, 2, 3, 0⟩, false), { raw := ascii "POINT Z(1 2 3)", i := 14, opt := Z }), 3) ∧
      (⟨1, 2, 3, 0⟩ : Coord Int).M = dec.zero) ∧
    (scanCoordCount dec { raw := ascii "POINT M(1 2 4)", i := 8, opt := M } =
        ((.ok (⟨1, 2, 0, 4⟩, false), { raw := ascii "POINT M(1 2 4)", i := 14, opt := M }), 3) ∧
      3 ≤ 3 ∧ (⟨1, 2, 0, 4⟩ : Coord Int).Z = dec.zero) := by
  have h1 := C9_literals_read_bounds dec { raw := ascii "POINT(1)", i := 6, opt := 0 }
    { raw := ascii "POINT(1)", i := 8, opt := 0 } ⟨1, 0, 0, 0⟩ false 1 (by rfl)
  have h2 := C9_literals_read_bounds dec { raw := ascii "POINT Z(1 2 3)", i := 8, opt := Z }
    { raw := ascii "POINT Z(1 2 3)", i := 14, opt := Z } ⟨1, 2, 3, 0⟩ false 3 (by rfl)
  have h3 := C9_literals_read_bounds dec { raw := ascii "POINT M(1 2 4)", i := 8, opt := M }
    { raw := ascii "POINT M(1 2 4)", i := 14, opt := M } ⟨1, 2, 0, 4⟩ false 3 (by rfl)
  exact ⟨⟨by rfl, h1.2.2.2.1 (by decide), (h1.2.2.2.2.1 (by decide)).1,
      (h1.2.2.2.2.1 (by decide)).2⟩,
    ⟨by rfl, h2.2.2.2.2.2.1 (by decide) (by decide)⟩,
    ⟨by rfl, h3.2.2.1 rfl, h3.2.2.2.2.2.2 rfl⟩⟩

/-! ## The scan routines on a buffer whose unread part is known -/

theorem drop_cons_lt {l : List Nat} {i b : Nat} {r : List Nat} (h : l.drop i = b :: r) :
    i < l.length := by
  by_contra hc
  rw [List.drop_eq_nil_of_le (by omega)] at h
  simp at h

theorem drop_add_of_drop {l a r : List Nat} {i : Nat} (h : l.drop i = a ++ r) :
    l.drop (i + a.length) = r := by
  rw [← List.drop_drop, h, List.drop_left]

theorem drop_succ_of_drop {l r : List Nat} {i b : Nat} (h : l.drop i = b :: r) :
    l.drop (i + 1) = r := by
  rw [← List.drop_drop, h]; rfl

theorem peek_of_drop {s : scanner} {b : Nat} {r : List Nat}
    (h : s.raw.drop s.i = b :: r) : peek s = .ok b := by
  have hlt := drop_cons_lt h
  rw [List.drop_eq_getElem_cons hlt] at h
  unfold peek
  rw [dif_neg (by omega)]
  simp only [List.cons.injEq] at h
  simp [List.get_eq_getElem, h.1]

theorem peek_of_drop_nil {s : scanner} (h : s.raw.drop s.i = []) :
    peek s = .error .unexpectedEOF := by
  unfold peek
  rw [dif_pos (by simpa using h)]

theorem skipWsLoop_append (ws : List Nat) (b : Nat) (rest : List Nat)
    (hws : ∀ x ∈ ws, isWs x = true) (hb : isWs b = false) :
    ∀ k, skipWsLoop (ws ++ b :: rest) k = some (k + ws.length) := by
  induction ws with
  | nil => intro k; simp [skipWsLoop, hb]
  | cons x xs ih =>
    intro k
    have hx : isWs x = true := hws x (by simp)
    rw [List.cons_append, skipWsLoop]
    simp only [hx, if_true]
    rw [ih (fun y hy => hws y (by simp [hy]))]
    simp; omega

theorem skipWsLoop_all (ws : List Nat) (hws : ∀ x ∈ ws, isWs x = true) :
    ∀ k, skipWsLoop ws k = none := by
  induction ws with
  | nil => intro k; simp [skipWsLoop]
  | cons x xs ih =>
    intro k
    have hx : isWs x = true := hws x (by simp)
    simp only [skipWsLoop, hx, if_true]
    exact ih (fun y hy => hws y (by simp [hy])) _

/-- Method `skipWs` in front of white space followed by another byte: the cursor moves to that
byte. -/
theorem skipWs_at {s : scanner} {w : List Nat} {b : Nat} {rest : List Nat}
    (h : s.raw.drop s.i = w ++ b :: rest) (hws : ∀ x ∈ w, isWs x = true)
    (hb : isWs b = false) : skipWs s = { s with i := s.i + w.length } := by
  have hlt : s.i < s.raw.length := by
    by_contra hc
    rw [List.drop_eq_nil_of_le (by omega)] at h
    simp at h
  unfold skipWs
  rw [if_neg (by omega), h, skipWsLoop_append w b rest hws hb]
  simp

/-- Method `skipWs` when only white space is left: the cursor does not move. -/
theorem skipWs_all {s : scanner} (hws : ∀ x ∈ s.raw.drop s.i, isWs x = true) :
    skipWs s = s := by
  unfold skipWs
  split
  · rfl
  · rw [skipWsLoop_all _ hws]

theorem scanStart_at {s : scanner} {ws rest : List Nat}
    (h : s.raw.drop s.i = ws ++ 40 :: rest) (hws : ∀ x ∈ ws, isWs x = true) :
    scanStart s = (.ok (), { s with i := s.i + ws.length + 1 }) := by
  have h1 := skipWs_at h hws (by decide)
  have h2 : peek { s with i := s.i + ws.length } = .ok 40 :=
    peek_of_drop (r := rest) (by simpa using drop_add_of_drop h)
  unfold scanStart
  simp only [h1, h2]
  simp

theorem scanStart_at_fail {s : scanner} {ws rest : List Nat} {b : Nat}
    (h : s.raw.drop s.i = ws ++ b :: rest) (hws : ∀ x ∈ ws, isWs x = true)
    (hb : isWs b = false) (hb2 : b ≠ 40) :
    scanStart s = (.error (.expectOpen b), { s with i := s.i + ws.length }) := by
  have h1 := skipWs_at h hws hb
  have h2 : peek { s with i := s.i + ws.length } = .ok b :=
    peek_of_drop (r := rest) (by simpa using drop_add_of_drop h)
  unfold scanStart
  simp only [h1, h2]
  simp [hb2]

theorem scanContinue_at {s : scanner} {ws rest : List Nat} {d : Nat}
    (h : s.raw.drop s.i = ws ++ d :: rest) (hws : ∀ x ∈ ws, isWs x = true)
    (hd : d = 44 ∨ d = 41) :
    scanContinue s = (.ok (d == 44), { s with i := s.i + ws.length + 1 }) := by
  have h1 := skipWs_at h hws (by rcases hd with h | h <;> subst h <;> decide)
  have h2 : peek { s with i := s.i + ws.length } = .ok d :=
    peek_of_drop (r := rest) (by simpa using drop_add_of_drop h)
  unfold scanContinue
  simp only [h1, h2]
  rcases hd with h | h <;> subst h <;> simp

theorem scanIdentLoop_letters (ls : List Nat) (hls : ∀ x ∈ ls, isLetter x = true)
    (b : Nat) (rest : List Nat) (hb : isLetter b = false) :
    ∀ (idx : Nat) (ident : List Nat) (i0 b0 : Nat),
      scanIdentLoop (ls ++ b :: rest) idx ident i0 b0 =
        (ident ++ ls.map upper, idx + ls.length, b) := by
  induction ls with
  | nil =>
    intro idx ident i0 b0
    unfold isLetter at hb
    simp [scanIdentLoop, hb]
  | cons x xs ih =>
    intro idx ident i0 b0
    have hx : isLetter x = true := hls x (by simp)
    unfold isLetter at hx
    rw [List.cons_append, scanIdentLoop]
    simp only [hx, if_true]
    rw [ih (fun y hy => hls y (by simp [hy]))]
    simp [upper]
    omega

/-- Method `scanIdent` in front of white space, a non-empty run of letters and a byte that is
not a letter: the folded run is returned and the cursor is left on that byte. -/
theorem scanIdent_at {s : scanner} {ws ls rest : List Nat} {b : Nat}
    (h : s.raw.drop s.i = ws ++ (ls ++ b :: rest)) (hws : ∀ x ∈ ws, isWs x = true)
    (hls : ∀ x ∈ ls, isLetter x = true) (hne : ls ≠ []) (hb : isLetter b = false) :
    scanIdent s = (.ok (ls.map upper), { s with i := s.i + ws.length + ls.length }) := by
  obtain ⟨x, xs, rfl⟩ := List.exists_cons_of_ne_nil hne
  have hx : isLetter x = true := hls x (by simp)
  have hxw : isWs x = false := by
    unfold isLetter at hx; unfold isWs
    simp at hx ⊢; omega
  have h1 := skipWs_at (by simpa using h) hws hxw
  have h2 : List.drop (s.i + ws.length) s.raw = (x :: xs) ++ b :: rest := drop_add_of_drop h
  have hlt := drop_cons_lt (by simpa using h2)
  unfold scanIdent
  simp only [h1]
  rw [if_neg (by simp; omega)]
  simp only [h2, scanIdentLoop_letters (x :: xs) hls b rest hb]
  simp


theorem scanIdent_at_fail {s : scanner} {ws rest : List Nat} {b : Nat}
    (h : s.raw.drop s.i = ws ++ b :: rest) (hws : ∀ x ∈ ws, isWs x = true)
    (hbw : isWs b = false) (hb : isLetter b = false) :
    scanIdent s = (.error (.noIdent b), { s with i := s.i + ws.length }) := by
  have h1 := skipWs_at h hws hbw
  have h2 : List.drop (s.i + ws.length) s.raw = b :: rest := drop_add_of_drop h
  have hlt := drop_cons_lt h2
  unfold scanIdent
  simp only [h1]
  rw [if_neg (by simp; omega)]
  simp only [h2]
  unfold isLetter at hb
  simp [scanIdentLoop, hb]

theorem skipWs_nonws {s : scanner} {b : Nat} {r : List Nat}
    (h : s.raw.drop s.i = b :: r) (hb : isWs b = false) : skipWs s = s := by
  have := skipWs_at (w := []) (by simpa using h) (by simp) hb
  simpa using this

theorem litsText_head {F : Type} (N : Num F) (toks : List (List Nat × F × List Nat))
    (hok : litsOK N toks) (hne : toks ≠ []) :
    ∃ b t2, litsText toks = b :: t2 ∧ isWs b = false ∧ b ≠ 44 ∧ b ≠ 41 ∧ b ≠ 40 := by
  obtain ⟨⟨t, v, w⟩, more, rfl⟩ := List.exists_cons_of_ne_nil hne
  obtain ⟨⟨⟨b, t2, ht, hb⟩, _⟩, _⟩ := hok
  exact ⟨b, t2 ++ (w ++ litsText more), by simp [litsText, ht], hb⟩

/-- The loop of `scanCoord` on a run of literals that ends with a delimiter: every literal is
stored through its target and the delimiter is consumed. -/
theorem scanFields_lits {F : Type} (N : Num F) :
    ∀ (toks : List (List Nat × F × List Nat)) (fs : List Fld) (w0 : List Nat) (c : Coord F)
      (s : scanner) (n : Nat) (pre : List Nat) (d : Nat) (rest : List Nat),
      toks ≠ [] → toks.length ≤ fs.length → litsOK N toks → (∀ x ∈ w0, isWs x = true) →
      (d = 44 ∨ d = 41) → s.raw = pre ++ (w0 ++ (litsText toks ++ d :: rest)) →
      scanFields N fs (w0 ++ (litsText toks ++ d :: rest)) c s n =
        ((.ok (assign c fs (litsVals toks), d == 44),
          { s with i := pre.length + w0.length + (litsText toks).length + 1 }),
          n + toks.length)
  | [], _, _, _, _, _, _, _, _, hne, _, _, _, _, _ => absurd rfl hne
  | _ :: _, [], _, _, _, _, _, _, _, _, hlen, _, _, _, _ => by simp at hlen
  | (t, v, w) :: more, f :: fs, w0, c, s, n, pre, d, rest, _, hlen, hok, hw0, hd, hraw => by
    obtain ⟨hlit, hw, hwne, hmore⟩ := hok
    have hdw : isWs d = false := by rcases hd with h | h <;> subst h <;> decide
    -- the byte after the literal
    have hnext : ∃ b tl, w ++ (litsText more ++ d :: rest) = b :: tl ∧
        (isWs b = true ∨ b = 44 ∨ b = 41) := by
      cases w with
      | cons x w2 => exact ⟨x, _, rfl, Or.inl (hw x (by simp))⟩
      | nil =>
        have hm : more = [] := by
          by_contra hc; exact hwne hc rfl
        subst hm
        exact ⟨d, rest, by simp [litsText], Or.inr hd⟩
    obtain ⟨b, tl, hbtl, hb⟩ := hnext
    have hfs : N.fscan (w0 ++ (litsText ((t, v, w) :: more) ++ d :: rest)) =
        some (v, w0.length + t.length) := by
      have := hlit.2 w0 tl b hw0 hb
      rw [← hbtl] at this
      simpa [litsText, List.append_assoc] using this
    have hdrop : List.drop (w0.length + t.length)
        (w0 ++ (litsText ((t, v, w) :: more) ++ d :: rest)) =
        w ++ (litsText more ++ d :: rest) := by
      have : w0 ++ (litsText ((t, v, w) :: more) ++ d :: rest) =
          (w0 ++ t) ++ (w ++ (litsText more ++ d :: rest)) := by
        simp [litsText, List.append_assoc]
      rw [this, ← List.length_append, List.drop_left]
    unfold scanFields
    simp only [hfs, hdrop]
    -- the cursor after the literal
    have hlen2 : s.raw.length - (w ++ (litsText more ++ d :: rest)).length =
        pre.length + w0.length + t.length := by
      rw [hraw]; simp [litsText]; omega
    have hat : List.drop (pre.length + w0.length + t.length) s.raw =
        w ++ (litsText more ++ d :: rest) := by
      have : s.raw = (pre ++ w0 ++ t) ++ (w ++ (litsText more ++ d :: rest)) := by
        rw [hraw]; simp [litsText, List.append_assoc]
      rw [this, ← List.length_append, ← List.length_append, List.drop_left]
    rw [hlen2]
    cases more with
    | nil =>
      have hat2 : List.drop (pre.length + w0.length + t.length) s.raw = w ++ d :: rest := by
        simpa [litsText] using hat
      have hsk := skipWs_at (s := { s with i := pre.length + w0.length + t.length })
        hat2 hw hdw
      have hpk : peek { s with i := pre.length + w0.length + t.length + w.length } = .ok d :=
        peek_of_drop (r := rest) (by simpa using drop_add_of_drop hat2)
      simp only at hsk
      simp only [hsk, hpk]
      rcases hd with h | h <;> subst h <;> simp [assign, litsVals, litsText] <;> omega
    | cons tok2 more2 =>
      obtain ⟨b2, t3, hb2, hb2w, hb2c, hb2p, _⟩ := litsText_head N (tok2 :: more2) hmore (by simp)
      have hat2 : List.drop (pre.length + w0.length + t.length) s.raw =
          w ++ b2 :: (t3 ++ d :: rest) := by
        rw [hat, hb2]; simp
      have hsk := skipWs_at (s := { s with i := pre.length + w0.length + t.length })
        hat2 hw hb2w
      have hpk : peek { s with i := pre.length + w0.length + t.length + w.length } = .ok b2 :=
        peek_of_drop (r := t3 ++ d :: rest) (by simpa using drop_add_of_drop hat2)
      simp only at hsk
      simp only [hsk, hpk]
      have hnd : (b2 == 44 || b2 == 41) = false := by simp [hb2c, hb2p]
      simp only [hnd]
      have ih := scanFields_lits N (tok2 :: more2) fs w (c.set f v)
        { s with i := pre.length + w0.length + t.length + w.length } (n + 1)
        (pre ++ w0 ++ t) d rest (by simp) (by simpa using hlen) hmore hw hd
        (by simp only; rw [hraw]; simp [litsText, List.append_assoc])
      simp only [Bool.false_eq_true, if_false]
      rw [ih]
      simp [assign, litsVals, litsText]
      omega


/-- Method `scanCoord` on a run of at most `|fieldsOf o|` literals that ends with a delimiter. -/
theorem scanCoordCount_lits {F : Type} (N : Num F) (toks : List (List Nat × F × List Nat))
    (s : scanner) (d : Nat) (rest : List Nat) (hne : toks ≠ [])
    (hlen : toks.length ≤ (fieldsOf s.opt).length) (hok : litsOK N toks)
    (hd : d = 44 ∨ d = 41) (h : s.raw.drop s.i = litsText toks ++ d :: rest) :
    scanCoordCount N s =
      ((.ok (assign (Coord.zero N) (fieldsOf s.opt) (litsVals toks), d == 44),
        { s with i := s.i + (litsText toks).length + 1 }), toks.length) := by
  obtain ⟨b, t2, hb, hbw, _⟩ := litsText_head N toks hok hne
  have hsk : skipWs s = s := skipWs_nonws (r := t2 ++ d :: rest) (by rw [h, hb]; simp) hbw
  have hlt : s.i < s.raw.length :=
    drop_cons_lt (b := b) (r := t2 ++ d :: rest) (by rw [h, hb]; simp)
  have hraw : s.raw = s.raw.take s.i ++ ([] ++ (litsText toks ++ d :: rest)) := by
    rw [List.nil_append, ← h, List.take_append_drop]
  have hf := scanFields_lits N toks (fieldsOf s.opt) [] (Coord.zero N) s 0 (s.raw.take s.i) d rest
    hne hlen hok (by simp) hd hraw
  unfold scanCoordCount
  simp only [hsk]
  rw [if_neg (by omega), h]
  simp only [List.nil_append] at hf
  unfold fieldsOf at hf
  rw [hf]
  simp [fieldsOf, List.length_take, Nat.min_eq_left (Nat.le_of_lt hlt)]

/-- A well formed run of literals with at most as many literals as the option has targets is
a coordinate text. -/
theorem coordText_of_lits {F : Type} (N : Num F) (o : Opt)
    (toks : List (List Nat × F × List Nat)) (hne : toks ≠ [])
    (hlen : toks.length ≤ (fieldsOf o).length) (hok : litsOK N toks) :
    CoordText N o (litsText toks) (assign (Coord.zero N) (fieldsOf o) (litsVals toks)) := by
  obtain ⟨b, t2, hb, hbw, _, _, hbo⟩ := litsText_head N toks hok hne
  refine ⟨⟨b, t2, hb, hbw, hbo⟩, ?_⟩
  intro s d rest ho h hd
  subst ho
  have := scanCoordCount_lits N toks s d rest hne hlen hok hd h
  unfold scanCoord
  rw [this]

/-- C4: on a coordinate text made of exactly the number of literals the option asks for
(2, plus 1 for Z, plus 1 for M) and terminated by `,` or `)`, `scanCoord` succeeds, consumes
the text and the delimiter, reports whether the delimiter is a comma, and returns X = first
literal, Y = second literal and: no option, Z = M = 0; option Z, Z = third literal and M = 0;
option M, M = third literal and Z = 0; option ZM, Z = third and M = fourth literal. -/
theorem C4_scanCoord_fields {F : Type} (N : Num F) (toks : List (List Nat × F × List Nat))
    (s : scanner) (d : Nat) (rest : List Nat)
    (ho : s.opt = 0 ∨ s.opt = Z ∨ s.opt = M ∨ s.opt = ZM)
    (hlen : toks.length = 2 + (if Opt.Is3d s.opt then 1 else 0) +
      (if Opt.IsMeasured s.opt then 1 else 0))
    (hok : litsOK N toks) (hd : d = 44 ∨ d = 41)
    (h : s.raw.drop s.i = litsText toks ++ d :: rest) :
    ∃ c : Coord F,
      scanCoord N s = (.ok (c, d == 44), { s with i := s.i + (litsText toks).length + 1 }) ∧
      some c.X = (litsVals toks)[0]? ∧ some c.Y = (litsVals toks)[1]? ∧
      (s.opt = 0 → c.Z = N.zero ∧ c.M = N.zero) ∧
      (s.opt = Z → some c.Z = (litsVals toks)[2]? ∧ c.M = N.zero) ∧
      (s.opt = M → some c.M = (litsVals toks)[2]? ∧ c.Z = N.zero) ∧
      (s.opt = ZM → some c.Z = (litsVals toks)[2]? ∧ some c.M = (litsVals toks)[3]?) := by
  have hne : toks ≠ [] := by
    intro hc; subst hc; simp at hlen; split_ifs at hlen; omega
  have hlen2 : toks.length ≤ (fieldsOf s.opt).length := by
    rcases ho with h1 | h1 | h1 | h1 <;> rw [h1] at hlen ⊢ <;>
      simp [fieldsOf, Opt.Is3d, Opt.IsMeasured, Z, M, ZM] at hlen ⊢ <;> omega
  have hc := scanCoordCount_lits N toks s d rest hne hlen2 hok hd h
  refine ⟨assign (Coord.zero N) (fieldsOf s.opt) (litsVals toks), ?_, ?_⟩
  · unfold scanCoord; rw [hc]
  · rcases ho with h1 | h1 | h1 | h1 <;> rw [h1] at hlen ⊢ <;>
      simp [Opt.Is3d, Opt.IsMeasured, Z, M, ZM] at hlen
    · match toks, hlen with
      | [a, b], _ => simp [fieldsOf, M, Z, ZM, assign, litsVals, Coord.set, Coord.zero]
    · match toks, hlen with
      | [a, b, c], _ => simp [fieldsOf, M, Z, ZM, assign, litsVals, Coord.set, Coord.zero]
    · match toks, hlen with
      | [a, b, c], _ => simp [fieldsOf, M, Z, ZM, assign, litsVals, Coord.set, Coord.zero]
    · match toks, hlen with
      | [a, b, c, e], _ => simp [fieldsOf, M, Z, ZM, assign, litsVals, Coord.set, Coord.zero]


/-! ## Literals of the concrete back end -/


/-- A non-empty run of decimal digits of value below `2 ^ 53` is a literal of `dec`. -/
theorem dec_lit (ds : List Nat) (hne : ds ≠ []) (hds : ∀ x ∈ ds, isDigit x = true)
    (hval : digitsVal ds < 2 ^ 53) : Lit dec ds (digitsVal ds : Int) := by
  obtain ⟨d0, ds2, rfl⟩ := List.exists_cons_of_ne_nil hne
  have hd0 : isDigit d0 = true := hds d0 (by simp)
  have hd0' : 48 ≤ d0 ∧ d0 ≤ 57 := by simpa [isDigit] using hd0
  refine ⟨⟨d0, ds2, rfl, ?_, ?_, ?_, ?_⟩, ?_⟩
  · simp [isWs]; omega
  · omega
  · omega
  · omega
  · intro w rest b hw hb
    have hbs : ∀ x ∈ w, isSpaceByte x = true := by
      intro x hx
      have := hw x hx
      simp [isWs] at this
      simp [isSpaceByte]; omega
    have hd0s : isSpaceByte d0 = false := by simp [isSpaceByte]; omega
    have hbd : isDigit b = false := by
      rcases hb with h | h | h
      · simp [isWs] at h; simp [isDigit]; omega
      · subst h; decide
      · subst h; decide
    have hbc : continuesToken (some b) = false := by
      rcases hb with h | h | h
      · simp [isWs] at h; simp [continuesToken]; omega
      · subst h; decide
      · subst h; decide
    have h1 : List.takeWhile isSpaceByte (w ++ (d0 :: ds2 ++ b :: rest)) = w := by
      rw [List.takeWhile_append_of_pos hbs]
      simp [List.takeWhile, hd0s]
    have h2 : List.dropWhile isSpaceByte (w ++ (d0 :: ds2 ++ b :: rest)) =
        d0 :: ds2 ++ b :: rest := by
      rw [List.dropWhile_append_of_pos hbs]
      simp [List.dropWhile, hd0s]
    have h3 : List.takeWhile isDigit (d0 :: ds2 ++ b :: rest) = d0 :: ds2 := by
      rw [List.takeWhile_append_of_pos hds]
      simp [List.takeWhile, hbd]
    have h4 : List.dropWhile isDigit (d0 :: ds2 ++ b :: rest) = b :: rest := by
      rw [List.dropWhile_append_of_pos hds]
      simp [List.dropWhile, hbd]
    have hs1 : (some d0 == some 45) = false := by simp; omega
    have hs2 : (some d0 == some 43) = false := by simp; omega
    simp only [List.cons_append] at h1 h2 h3 h4
    show decFscan _ = _
    unfold decFscan
    simp only [List.cons_append, h1, h2, List.head?_cons, hs1, hs2, Bool.or_self,
      Bool.false_eq_true, if_false, List.drop_zero, h3, h4]
    have hval2 : digitsVal (d0 :: ds2) < 9007199254740992 := by
      have : (2 : Nat) ^ 53 = 9007199254740992 := by norm_num
      omega
    simp [hbc, hval2]


theorem C4_scanCoord_fields_witness :
    scanCoord dec { raw := ascii "POINT M(1 2 4)", i := 8, opt := M } =
      (.ok (⟨1, 2, 0, 4⟩, false), { raw := ascii "POINT M(1 2 4)", i := 14, opt := M }) := by
  obtain ⟨c, h1, hx, hy, _, _, hm, _⟩ := C4_scanCoord_fields dec
    [([49], (1 : Int), [32]), ([50], (2 : Int), [32]), ([52], (4 : Int), [])]
    { raw := ascii "POINT M(1 2 4)", i := 8, opt := M } 41 []
    (Or.inr (Or.inr (Or.inl rfl))) (by decide)
    ⟨dec_lit [49] (by simp) (by decide) (by decide), by decide, by simp,
      dec_lit [50] (by simp) (by decide) (by decide), by decide, by simp,
      dec_lit [52] (by simp) (by decide) (by decide), by simp, by simp, trivial⟩
    (Or.inr rfl) (by rfl)
  obtain ⟨hm1, hz⟩ := hm rfl
  have hc : c = ⟨1, 2, 0, 4⟩ := by
    cases c
    simp [litsVals] at hx hy hm1 hz
    simp [hx, hy, hm1]
    exact hz
  rw [h1, hc]
  rfl

/-! ## Coordinate lists -/

theorem scanCoord_congr {F : Type} (N : Num F) (s s2 : scanner) (h : skipWs s = skipWs s2) :
    scanCoord N s = scanCoord N s2 := by
  unfold scanCoord scanCoordCount
  simp only [h]

/-- Method `scanCoord` in front of white space, a coordinate text and a delimiter. -/
theorem scanCoord_at {F : Type} (N : Num F) {o : Opt} {s : scanner} {w t : List Nat}
    {c : Coord F} {d : Nat} {rest : List Nat} (ht : CoordText N o t c) (ho : s.opt = o)
    (hw : ∀ x ∈ w, isWs x = true) (hd : d = 44 ∨ d = 41)
    (h : s.raw.drop s.i = w ++ (t ++ d :: rest)) :
    scanCoord N s = (.ok (c, d == 44), { s with i := s.i + w.length + t.length + 1 }) := by
  obtain ⟨⟨b, t2, hb, hbw, _⟩, hsc⟩ := ht
  subst hb
  have h1 : skipWs s = { s with i := s.i + w.length } :=
    skipWs_at (by simpa using h) hw hbw
  have hat : List.drop (s.i + w.length) s.raw = (b :: t2) ++ d :: rest := drop_add_of_drop h
  have h2 : skipWs { s with i := s.i + w.length } = { s with i := s.i + w.length } :=
    skipWs_nonws (by simpa using hat) hbw
  rw [scanCoord_congr N s { s with i := s.i + w.length } (by rw [h1, h2])]
  rw [hsc { s with i := s.i + w.length } d rest ho hat hd]

theorem flatList_length {F : Type} (es : List (List Nat × List Nat × Coord F)) :
    es.length ≤ (flatList es).length := by
  induction es with
  | nil => simp [flatList]
  | cons e more ih =>
    obtain ⟨w, t, c⟩ := e
    simp [flatList]; omega

theorem nestedList_length {F : Type} (es : List (List Nat × List Nat × Coord F)) :
    es.length ≤ (nestedList es).length := by
  induction es with
  | nil => simp [nestedList]
  | cons e more ih =>
    obtain ⟨w, t, c⟩ := e
    simp [nestedList]; omega

/-- The loop of `scanCoords` in flat mode on a flat coordinate list. -/
theorem scanCoordsLoop_flat {F : Type} (N : Num F) (o : Opt) :
    ∀ (es : List (List Nat × List Nat × Coord F)) (fuel : Nat) (s : scanner)
      (cs : List (Coord F)) (rest : List Nat),
      es ≠ [] → es.length ≤ fuel → elemsOK N o es → s.opt = o →
      s.raw.drop s.i = flatList es ++ rest →
      scanCoordsLoop N false fuel s cs =
        (.ok (cs ++ elemVals es), { s with i := s.i + (flatList es).length })
  | [], _, _, _, _, hne, _, _, _, _ => absurd rfl hne
  | (w, t, c) :: more, 0, _, _, _, _, hf, _, _, _ => by simp at hf
  | (w, t, c) :: more, fuel + 1, s, cs, rest, _, hf, hok, ho, h => by
    obtain ⟨hw, ht⟩ := hok (w, t, c) (by simp)
    have hok2 : elemsOK N o more := fun e he => hok e (by simp [he])
    cases more with
    | nil =>
      have hc := scanCoord_at N ht ho hw (Or.inr rfl) (d := 41) (s := s)
        (by simpa [flatList] using h)
      unfold scanCoordsLoop
      rw [hc]
      simp [flatList, elemVals]
      omega
    | cons e2 more2 =>
      have hc := scanCoord_at N ht ho hw (Or.inl rfl) (d := 44) (s := s)
        (by simpa [flatList] using h)
      have hat : List.drop (s.i + w.length + t.length + 1) s.raw =
          flatList (e2 :: more2) ++ rest := by
        have h2 : List.drop s.i s.raw = (w ++ t ++ [44]) ++ (flatList (e2 :: more2) ++ rest) := by
          rw [h]; simp [flatList]
        have := drop_add_of_drop h2
        simpa [Nat.add_assoc] using this
      have ih := scanCoordsLoop_flat N o (e2 :: more2) fuel
        { s with i := s.i + w.length + t.length + 1 } (cs ++ [c]) rest (by simp)
        (by simpa using hf) hok2 ho hat
      unfold scanCoordsLoop
      rw [hc]
      simp only [beq_self_eq_true, if_true, Bool.false_eq_true, if_false]
      rw [ih]
      simp [flatList, elemVals]
      omega


/-- The loop of `scanCoords` in nested mode, started behind the `(` of the first entry of a
nested coordinate list. -/
theorem scanCoordsLoop_nested {F : Type} (N : Num F) (o : Opt) :
    ∀ (more : List (List Nat × List Nat × Coord F)) (t : List Nat) (c : Coord F) (fuel : Nat)
      (s : scanner) (cs : List (Coord F)) (rest : List Nat),
      more.length < fuel → CoordText N o t c → elemsOK N o more → s.opt = o →
      s.raw.drop s.i =
        t ++ 41 :: (if more.isEmpty then 41 else 44) :: (nestedList more ++ rest) →
      scanCoordsLoop N true fuel s cs =
        (.ok (cs ++ c :: elemVals more),
          { s with i := s.i + (t.length + 2 + (nestedList more).length) })
  | _, _, _, 0, _, _, _, hf, _, _, _, _ => by simp at hf
  | [], t, c, fuel + 1, s, cs, rest, _, ht, _, ho, h => by
    have hc := scanCoord_at N ht ho (w := []) (by simp) (Or.inr rfl) (d := 41) (s := s)
      (by simpa using h)
    have hat : List.drop (s.i + t.length + 1) s.raw = [] ++ 41 :: rest := by
      have h2 : List.drop s.i s.raw = (t ++ [41]) ++ (41 :: rest) := by
        rw [h]; simp [nestedList]
      have := drop_add_of_drop h2
      simpa [Nat.add_assoc] using this
    have hk := scanContinue_at (s := { s with i := s.i + t.length + 1 }) hat (by simp)
      (Or.inr rfl)
    unfold scanCoordsLoop
    rw [hc]
    simp only [List.length_nil, Nat.add_zero] at hk ⊢
    simp only [hk]
    simp [nestedList, elemVals]
    omega
  | (w2, t2, c2) :: more2, t, c, fuel + 1, s, cs, rest, hf, ht, hok, ho, h => by
    obtain ⟨hw2, ht2⟩ := hok (w2, t2, c2) (by simp)
    have hok2 : elemsOK N o more2 := fun e he => hok e (by simp [he])
    have hc := scanCoord_at N ht ho (w := []) (by simp) (Or.inr rfl) (d := 41) (s := s)
      (by simpa using h)
    have hat : List.drop (s.i + t.length + 1) s.raw =
        [] ++ 44 :: (nestedList ((w2, t2, c2) :: more2) ++ rest) := by
      have h2 : List.drop s.i s.raw =
          (t ++ [41]) ++ (44 :: (nestedList ((w2, t2, c2) :: more2) ++ rest)) := by
        rw [h]; simp
      have := drop_add_of_drop h2
      simpa [Nat.add_assoc] using this
    have hk := scanContinue_at (s := { s with i := s.i + t.length + 1 }) hat (by simp)
      (Or.inl rfl)
    have hat2 : List.drop (s.i + t.length + 1 + 1) s.raw =
        w2 ++ 40 :: (t2 ++ 41 :: (if more2.isEmpty then 41 else 44) ::
          (nestedList more2 ++ rest)) := by
      have := drop_succ_of_drop (by simpa using hat)
      rw [this]; simp [nestedList]
    have hs := scanStart_at (s := { s with i := s.i + t.length + 1 + 1 }) hat2 hw2
    have hat3 : List.drop (s.i + t.length + 1 + 1 + w2.length + 1) s.raw =
        t2 ++ 41 :: (if more2.isEmpty then 41 else 44) :: (nestedList more2 ++ rest) := by
      have h2 := drop_add_of_drop hat2
      exact drop_succ_of_drop h2
    have ih := scanCoordsLoop_nested N o more2 t2 c2 fuel
      { s with i := s.i + t.length + 1 + 1 + w2.length + 1 } (cs ++ [c]) rest
      (by simpa using hf) ht2 hok2 ho hat3
    unfold scanCoordsLoop
    rw [hc]
    simp only [List.length_nil, Nat.add_zero] at hk hs ⊢
    simp only [hk]
    simp only [beq_self_eq_true, if_true, Bool.false_eq_true, if_false]
    simp only [hs]
    rw [ih]
    simp [nestedList, elemVals]
    omega

/-- Method `scanCoords` without the nested trial, on a flat coordinate list. -/
theorem scanCoords_flat {F : Type} (N : Num F) (o : Opt)
    (es : List (List Nat × List Nat × Coord F)) (s : scanner) (w0 rest : List Nat)
    (hne : es ≠ []) (hok : elemsOK N o es) (ho : s.opt = o)
    (hw0 : ∀ x ∈ w0, isWs x = true)
    (h : s.raw.drop s.i = w0 ++ 40 :: (flatList es ++ rest)) :
    scanCoords N false s =
      (.ok (elemVals es), { s with i := s.i + w0.length + 1 + (flatList es).length }) := by
  have hs := scanStart_at h hw0
  have hat : List.drop (s.i + w0.length + 1) s.raw = flatList es ++ rest :=
    drop_succ_of_drop (drop_add_of_drop h)
  have hlen : es.length ≤ s.raw.length + 1 := by
    have h1 := flatList_length es
    have h2 : (List.drop (s.i + w0.length + 1) s.raw).length ≤ s.raw.length := by
      rw [List.length_drop]; omega
    rw [hat] at h2
    simp at h2
    omega
  have hl := scanCoordsLoop_flat N o es (s.raw.length + 1)
    { s with i := s.i + w0.length + 1 } [] rest hne hlen hok ho hat
  unfold scanCoords
  rw [hs]
  simp only [Bool.false_eq_true, if_false]
  rw [hl]
  simp

/-- Method `scanCoords` with the nested trial, on a flat coordinate list: the trial fails and
the list is read in flat mode. -/
theorem scanCoords_multi_flat {F : Type} (N : Num F) (o : Opt)
    (es : List (List Nat × List Nat × Coord F)) (s : scanner) (w0 rest : List Nat)
    (hne : es ≠ []) (hok : elemsOK N o es) (ho : s.opt = o)
    (hw0 : ∀ x ∈ w0, isWs x = true)
    (h : s.raw.drop s.i = w0 ++ 40 :: (flatList es ++ rest)) :
    scanCoords N true s =
      (.ok (elemVals es), { s with i := s.i + w0.length + 1 + (flatList es).length }) := by
  obtain ⟨⟨w, t, c⟩, more, rfl⟩ := List.exists_cons_of_ne_nil hne
  obtain ⟨hw, ht⟩ := hok (w, t, c) (by simp)
  obtain ⟨⟨b, t2, hb, hbw, hbo⟩, _⟩ := ht
  simp only at hb hw
  have hs := scanStart_at h hw0
  have hat : List.drop (s.i + w0.length + 1) s.raw =
      w ++ b :: (t2 ++ (if more.isEmpty then 41 else 44) :: (flatList more ++ rest)) := by
    have := drop_succ_of_drop (drop_add_of_drop h)
    rw [this]; simp [flatList, hb]
  have hs2 := scanStart_at_fail (s := { s with i := s.i + w0.length + 1 }) hat hw hbw hbo
  have hat2 : List.drop (s.i + w0.length + 1 + w.length) s.raw =
      flatList (([], t, c) :: more) ++ rest := by
    have := drop_add_of_drop hat
    rw [this]; simp [flatList, hb]
  have hok2 : elemsOK N o (([], t, c) :: more) := by
    intro e he
    simp at he
    rcases he with h1 | h1
    · subst h1; exact ⟨by simp, (hok (w, t, c) (by simp)).2⟩
    · exact hok e (by simp [h1])
  have hlen : (([], t, c) :: more).length ≤ s.raw.length + 1 := by
    have h1 := flatList_length (([], t, c) :: more)
    have h2 : (List.drop (s.i + w0.length + 1 + w.length) s.raw).length ≤ s.raw.length := by
      rw [List.length_drop]; omega
    rw [hat2] at h2
    simp at h2 h1 ⊢
    omega
  have hl := scanCoordsLoop_flat N o (([], t, c) :: more) (s.raw.length + 1)
    { s with i := s.i + w0.length + 1 + w.length } [] rest (by simp) hlen hok2 ho hat2
  unfold scanCoords
  rw [hs]
  simp only [if_true]
  rw [hs2]
  simp only
  rw [hl]
  simp [flatList, elemVals]
  omega

/-- Method `scanCoords` with the nested trial, on a nested coordinate list. -/
theorem scanCoords_multi_nested {F : Type} (N : Num F) (o : Opt)
    (es : List (List Nat × List Nat × Coord F)) (s : scanner) (w0 rest : List Nat)
    (hne : es ≠ []) (hok : elemsOK N o es) (ho : s.opt = o)
    (hw0 : ∀ x ∈ w0, isWs x = true)
    (h : s.raw.drop s.i = w0 ++ 40 :: (nestedList es ++ rest)) :
    scanCoords N true s =
      (.ok (elemVals es), { s with i := s.i + w0.length + 1 + (nestedList es).length }) := by
  obtain ⟨⟨w, t, c⟩, more, rfl⟩ := List.exists_cons_of_ne_nil hne
  obtain ⟨hw, ht⟩ := hok (w, t, c) (by simp)
  have hok2 : elemsOK N o more := fun e he => hok e (by simp [he])
  have hs := scanStart_at h hw0
  have hat : List.drop (s.i + w0.length + 1) s.raw =
      w ++ 40 :: (t ++ 41 :: (if more.isEmpty then 41 else 44) ::
        (nestedList more ++ rest)) := by
    have := drop_succ_of_drop (drop_add_of_drop h)
    rw [this]; simp [nestedList]
  have hs2 := scanStart_at (s := { s with i := s.i + w0.length + 1 }) hat hw
  have hat2 : List.drop (s.i + w0.length + 1 + w.length + 1) s.raw =
      t ++ 41 :: (if more.isEmpty then 41 else 44) :: (nestedList more ++ rest) :=
    drop_succ_of_drop (drop_add_of_drop hat)
  have hlen : more.length < s.raw.length + 1 := by
    have h1 := nestedList_length more
    have h2 : (List.drop (s.i + w0.length + 1 + w.length + 1) s.raw).length ≤ s.raw.length := by
      rw [List.length_drop]; omega
    rw [hat2] at h2
    simp at h2
    omega
  have hl := scanCoordsLoop_nested N o more t c (s.raw.length + 1)
    { s with i := s.i + w0.length + 1 + w.length + 1 } [] rest hlen ht hok2 ho hat2
  unfold scanCoords
  rw [hs]
  simp only [if_true]
  rw [hs2]
  simp only
  rw [hl]
  simp [nestedList, elemVals]
  omega


/-! ## The header of a geometry -/

theorem isLetter_of_isWs {x : Nat} (h : isWs x = true) : isLetter x = false := by
  simp [isWs] at h
  simp [isLetter]
  omega

theorem ws_open_head (w body : List Nat) (hw : ∀ x ∈ w, isWs x = true) :
    ∃ b r, w ++ 40 :: body = b :: r ∧ isLetter b = false := by
  cases w with
  | nil => exact ⟨40, body, rfl, by decide⟩
  | cons x w2 => exact ⟨x, w2 ++ 40 :: body, rfl, isLetter_of_isWs (hw x (by simp))⟩

/-- Method `scanGeom` on a well formed header followed by `(`: the keyword and the suffix are
read, and the body is scanned with the cursor in front of the `(`, up to white space. -/
theorem scanGeom_header {F : Type} (N : Num F) (ws0 kw ws1 sfx ws2 body : List Nat)
    (hh : headerOK ws0 kw ws1 sfx ws2) :
    ∃ (p : Nat) (w : List Nat), (∀ x ∈ w, isWs x = true) ∧
      (headerText ws0 kw ws1 sfx ws2 ++ 40 :: body).drop p = w ++ 40 :: body ∧
      scanGeom N { raw := headerText ws0 kw ws1 sfx ws2 ++ 40 :: body, i := 0, opt := 0 } =
        scanBody N (kw.map upper)
          { raw := headerText ws0 kw ws1 sfx ws2 ++ 40 :: body, i := p,
            opt := optOfIdent (sfx.map upper) } := by
  obtain ⟨hws0, hkw, hkne, hws1, hsfx, hgap, hws2⟩ := hh
  by_cases hs : sfx = []
  · subst hs
    have hw12 : ∀ x ∈ ws1 ++ ws2, isWs x = true := by
      intro x hx
      rcases List.mem_append.mp hx with h | h
      · exact hws1 x h
      · exact hws2 x h
    obtain ⟨b, r, hbr, hb⟩ := ws_open_head (ws1 ++ ws2) body hw12
    have hdata : headerText ws0 kw ws1 [] ws2 ++ 40 :: body =
        ws0 ++ (kw ++ ((ws1 ++ ws2) ++ 40 :: body)) := by
      simp [headerText]
    rw [hdata]
    have hd0 : List.drop 0 (ws0 ++ (kw ++ ((ws1 ++ ws2) ++ 40 :: body))) =
        ws0 ++ (kw ++ b :: r) := by rw [hbr]; rfl
    have h1 := scanIdent_at
      (s := { raw := ws0 ++ (kw ++ ((ws1 ++ ws2) ++ 40 :: body)), i := 0, opt := 0 })
      hd0 hws0 hkw hkne hb
    have hat : List.drop (0 + ws0.length + kw.length)
        (ws0 ++ (kw ++ ((ws1 ++ ws2) ++ 40 :: body))) = (ws1 ++ ws2) ++ 40 :: body := by
      have h0 : List.drop 0 (ws0 ++ (kw ++ ((ws1 ++ ws2) ++ 40 :: body))) =
          (ws0 ++ kw) ++ ((ws1 ++ ws2) ++ 40 :: body) := by simp
      have := drop_add_of_drop h0
      rw [List.length_append, ← Nat.add_assoc] at this
      exact this
    have h2 := scanIdent_at_fail
      (s := { raw := ws0 ++ (kw ++ ((ws1 ++ ws2) ++ 40 :: body)),
              i := 0 + ws0.length + kw.length, opt := 0 })
      hat hw12 (by decide) (by decide)
    refine ⟨0 + ws0.length + kw.length + (ws1 ++ ws2).length, [], by simp, ?_, ?_⟩
    · exact drop_add_of_drop hat
    · unfold scanGeom
      rw [h1]
      simp only
      rw [h2]
      simp
  · have hws1ne := hgap hs
    obtain ⟨x, ws1b, rfl⟩ := List.exists_cons_of_ne_nil hws1ne
    obtain ⟨b, r, hbr, hb⟩ := ws_open_head ws2 body hws2
    have hdata : headerText ws0 kw (x :: ws1b) sfx ws2 ++ 40 :: body =
        ws0 ++ (kw ++ x :: (ws1b ++ (sfx ++ (ws2 ++ 40 :: body)))) := by
      simp [headerText]
    rw [hdata]
    have hd0 : List.drop 0 (ws0 ++ (kw ++ x :: (ws1b ++ (sfx ++ (ws2 ++ 40 :: body))))) =
        ws0 ++ (kw ++ x :: (ws1b ++ (sfx ++ (ws2 ++ 40 :: body)))) := rfl
    have h1 := scanIdent_at
      (s := { raw := ws0 ++ (kw ++ x :: (ws1b ++ (sfx ++ (ws2 ++ 40 :: body)))),
              i := 0, opt := 0 })
      hd0 hws0 hkw hkne (isLetter_of_isWs (hws1 x (by simp)))
    have h3 : List.drop (0 + ws0.length + kw.length)
        (ws0 ++ (kw ++ x :: (ws1b ++ (sfx ++ (ws2 ++ 40 :: body))))) =
        ((x :: ws1b) ++ sfx) ++ (ws2 ++ 40 :: body) := by
      have h0 : List.drop 0 (ws0 ++ (kw ++ x :: (ws1b ++ (sfx ++ (ws2 ++ 40 :: body))))) =
          (ws0 ++ kw) ++ (((x :: ws1b) ++ sfx) ++ (ws2 ++ 40 :: body)) := by simp
      have := drop_add_of_drop h0
      rw [List.length_append, ← Nat.add_assoc] at this
      exact this
    have hat : List.drop (0 + ws0.length + kw.length)
        (ws0 ++ (kw ++ x :: (ws1b ++ (sfx ++ (ws2 ++ 40 :: body))))) =
        (x :: ws1b) ++ (sfx ++ b :: r) := by
      rw [h3, hbr, List.append_assoc]
    have h2 := scanIdent_at
      (s := { raw := ws0 ++ (kw ++ x :: (ws1b ++ (sfx ++ (ws2 ++ 40 :: body)))),
              i := 0 + ws0.length + kw.length, opt := 0 })
      hat hws1 hsfx hs hb
    refine ⟨0 + ws0.length + kw.length + (x :: ws1b).length + sfx.length, ws2, hws2, ?_, ?_⟩
    · have := drop_add_of_drop h3
      rw [List.length_append, ← Nat.add_assoc] at this
      exact this
    · unfold scanGeom
      rw [h1]
      simp only
      rw [h2]


theorem Parse_header {F : Type} (N : Num F) (ws0 kw ws1 sfx ws2 body : List Nat)
    (hh : headerOK ws0 kw ws1 sfx ws2) :
    ∃ (p : Nat) (w : List Nat), (∀ x ∈ w, isWs x = true) ∧
      (headerText ws0 kw ws1 sfx ws2 ++ 40 :: body).drop p = w ++ 40 :: body ∧
      Parse N (headerText ws0 kw ws1 sfx ws2 ++ 40 :: body) =
        (scanBody N (kw.map upper)
          { raw := headerText ws0 kw ws1 sfx ws2 ++ 40 :: body, i := p,
            opt := optOfIdent (sfx.map upper) }).1 := by
  obtain ⟨p, w, hw, hd, hg⟩ := scanGeom_header N ws0 kw ws1 sfx ws2 body hh
  exact ⟨p, w, hw, hd, by unfold Parse; rw [hg]⟩

theorem scanBody_multipoint {F : Type} (N : Num F) (s s2 : scanner) (cs : List (Coord F))
    (h : scanCoords N true s = (.ok cs, s2)) :
    scanBody N (ascii "MULTIPOINT") s = (.ok (.MultiPoint cs s2.opt), s2) := by
  have h1 : ascii "MULTIPOINT" ≠ ascii "POINT" := by decide
  unfold scanBody
  rw [if_pos (Or.inr (Or.inl rfl))]
  simp [h, h1]

theorem scanBody_point_one {F : Type} (N : Num F) (s s2 : scanner) (c : Coord F)
    (h : scanCoords N false s = (.ok [c], s2)) :
    scanBody N (ascii "POINT") s = (.ok (.Point c s2.opt), s2) := by
  have h1 : (ascii "POINT" == ascii "MULTIPOINT") = false := by decide
  unfold scanBody
  rw [if_pos (Or.inl rfl)]
  simp [h, h1]

theorem scanBody_point_many {F : Type} (N : Num F) (s s2 : scanner) (cs : List (Coord F))
    (h : scanCoords N false s = (.ok cs, s2)) (hlen : cs.length ≠ 1) :
    scanBody N (ascii "POINT") s = (.error (.pointCount cs.length), s2) := by
  have h1 : (ascii "POINT" == ascii "MULTIPOINT") = false := by decide
  unfold scanBody
  rw [if_pos (Or.inl rfl)]
  simp [h, h1, hlen]

theorem equalCoords_self {F : Type} (N : Num F) (cs : List (Coord F))
    (h : ∀ c ∈ cs, coordEq N c c = true) : equalCoords N cs cs = true := by
  rw [equalCoords_iff]
  exact List.forall₂_same.mpr (fun c hc => (coordEq_iff N c c).mp (h c hc))

/-- For a non-empty list of coordinate texts, `Parse` of the flat form
`MULTIPOINT(c1, ..., cn)` and of the nested form `MULTIPOINT((c1), ..., (cn))` both succeed
and return the MultiPoint of the n coordinates in input order; the two results are `Equal`
(the comparison of a coordinate with itself being true, as it is for numbers). -/
theorem parse_multipoint_lists {F : Type} (N : Num F) (ws0 kw ws1 sfx ws2 rest : List Nat)
    (es : List (List Nat × List Nat × Coord F))
    (hh : headerOK ws0 kw ws1 sfx ws2) (hkw : kw.map upper = ascii "MULTIPOINT")
    (hne : es ≠ []) (hok : elemsOK N (optOfIdent (sfx.map upper)) es) :
    ∃ g1 g2 : Geom F,
      Parse N (headerText ws0 kw ws1 sfx ws2 ++ 40 :: (flatList es ++ rest)) = .ok g1 ∧
      Parse N (headerText ws0 kw ws1 sfx ws2 ++ 40 :: (nestedList es ++ rest)) = .ok g2 ∧
      g1 = .MultiPoint (elemVals es) (optOfIdent (sfx.map upper)) ∧ g2 = g1 ∧
      ((∀ c ∈ elemVals es, coordEq N c c = true) → Geom.Equal N g1 g2 = true) := by
  obtain ⟨p1, w1, hw1, hd1, hp1⟩ := Parse_header N ws0 kw ws1 sfx ws2 (flatList es ++ rest) hh
  obtain ⟨p2, w2, hw2, hd2, hp2⟩ := Parse_header N ws0 kw ws1 sfx ws2 (nestedList es ++ rest) hh
  have hf := scanCoords_multi_flat N _ es
    { raw := headerText ws0 kw ws1 sfx ws2 ++ 40 :: (flatList es ++ rest), i := p1,
      opt := optOfIdent (sfx.map upper) } w1 rest hne hok rfl hw1 hd1
  have hn := scanCoords_multi_nested N _ es
    { raw := headerText ws0 kw ws1 sfx ws2 ++ 40 :: (nestedList es ++ rest), i := p2,
      opt := optOfIdent (sfx.map upper) } w2 rest hne hok rfl hw2 hd2
  refine ⟨_, _, ?_, ?_, rfl, rfl, ?_⟩
  · rw [hp1, hkw, scanBody_multipoint N _ _ _ hf]
  · rw [hp2, hkw, scanBody_multipoint N _ _ _ hn]
  · intro hself
    simp [Geom.Equal, equalCoords_self N _ hself]

theorem elemsOK_runElems {F : Type} (N : Num F) (o : Opt)
    (ls : List (List Nat × List (List Nat × F × List Nat))) (h : runsOK N o ls) :
    elemsOK N o (runElems N o ls) := by
  intro e he
  simp only [runElems, List.mem_map] at he
  obtain ⟨a, ha, rfl⟩ := he
  obtain ⟨h1, h2, h3, h4⟩ := h a ha
  exact ⟨h1, coordText_of_lits N o a.2 h2 h3 h4⟩

theorem runElems_ne_nil {F : Type} (N : Num F) (o : Opt)
    (ls : List (List Nat × List (List Nat × F × List Nat))) (h : ls ≠ []) :
    runElems N o ls ≠ [] := by
  simpa [runElems] using h

/-- C3: for a non-empty list of coordinates, each a run of one or more literals separated by
white space and of at most as many literals as the dimension suffix has fields (in particular
of exactly the number the suffix requires), `Parse` of the flat form `MULTIPOINT(c1, ..., cn)`
and of the nested form `MULTIPOINT((c1), ..., (cn))` both succeed and return the MultiPoint of
the n coordinates in input order; the two results are `Equal` (the comparison of a coordinate
with itself being true, as it is for numbers). -/
theorem C3_multipoint_flat_nested {F : Type} (N : Num F) (ws0 kw ws1 sfx ws2 rest : List Nat)
    (ls : List (List Nat × List (List Nat × F × List Nat)))
    (hh : headerOK ws0 kw ws1 sfx ws2) (hkw : kw.map upper = ascii "MULTIPOINT")
    (hne : ls ≠ []) (hok : runsOK N (optOfIdent (sfx.map upper)) ls) :
    ∃ g1 g2 : Geom F,
      Parse N (headerText ws0 kw ws1 sfx ws2 ++
        40 :: (flatList (runElems N (optOfIdent (sfx.map upper)) ls) ++ rest)) = .ok g1 ∧
      Parse N (headerText ws0 kw ws1 sfx ws2 ++
        40 :: (nestedList (runElems N (optOfIdent (sfx.map upper)) ls) ++ rest)) = .ok g2 ∧
      g1 = .MultiPoint (elemVals (runElems N (optOfIdent (sfx.map upper)) ls))
        (optOfIdent (sfx.map upper)) ∧
      g2 = g1 ∧
      ((∀ c ∈ elemVals (runElems N (optOfIdent (sfx.map upper)) ls), coordEq N c c = true) →
        Geom.Equal N g1 g2 = true) :=
  parse_multipoint_lists N ws0 kw ws1 sfx ws2 rest _ hh hkw (runElems_ne_nil N _ ls hne)
    (elemsOK_runElems N _ ls hok)

theorem C3_multipoint_flat_nested_witness :
    ∃ g1 g2 : Geom Int,
      Parse dec (ascii "MULTIPOINT(30 10, 10 30)") = .ok g1 ∧
      Parse dec (ascii "MULTIPOINT((30 10), (10 30))") = .ok g2 ∧
      g1 = .MultiPoint [⟨30, 10, 0, 0⟩, ⟨10, 30, 0, 0⟩] 0 ∧ g2 = g1 ∧
      Geom.Equal dec g1 g2 = true := by
  obtain ⟨g1, g2, h1, h2, h3, h4, h5⟩ :=
    C3_multipoint_flat_nested dec [] (ascii "MULTIPOINT") [] [] [] []
      [([], [(ascii "30", (30 : Int), [32]), (ascii "10", (10 : Int), [])]),
       ([32], [(ascii "10", (10 : Int), [32]), (ascii "30", (30 : Int), [])])]
      ⟨by simp, by decide, by decide, by simp, by simp, by simp, by simp⟩ (by decide) (by simp)
      (by
        intro e he
        simp at he
        rcases he with h | h
        · subst h
          exact ⟨by simp, by simp, by decide,
            dec_lit (ascii "30") (by decide) (by decide) (by decide), by decide, by simp,
            dec_lit (ascii "10") (by decide) (by decide) (by decide), by simp, by simp, trivial⟩
        · subst h
          exact ⟨by decide, by simp, by decide,
            dec_lit (ascii "10") (by decide) (by decide) (by decide), by decide, by simp,
            dec_lit (ascii "30") (by decide) (by decide) (by decide), by simp, by simp, trivial⟩)
  exact ⟨g1, g2, h1, h2, h3, h4, h5 (by decide)⟩

/-- For an input whose keyword is POINT and whose body is a parenthesised list of n
comma-separated coordinate texts, `Parse` succeeds exactly when n = 1 (returning the Point of
that coordinate); with two or more coordinates it fails with the error "expected 1 got n
points". -/
theorem parse_point_lists {F : Type} (N : Num F) (ws0 kw ws1 sfx ws2 rest : List Nat)
    (es : List (List Nat × List Nat × Coord F))
    (hh : headerOK ws0 kw ws1 sfx ws2) (hkw : kw.map upper = ascii "POINT")
    (hne : es ≠ []) (hok : elemsOK N (optOfIdent (sfx.map upper)) es) :
    ((∃ g, Parse N (headerText ws0 kw ws1 sfx ws2 ++ 40 :: (flatList es ++ rest)) = .ok g) ↔
      es.length = 1) ∧
    (es.length ≠ 1 →
      Parse N (headerText ws0 kw ws1 sfx ws2 ++ 40 :: (flatList es ++ rest)) =
        .error (.pointCount es.length)) ∧
    (∀ e, es = [e] →
      Parse N (headerText ws0 kw ws1 sfx ws2 ++ 40 :: (flatList es ++ rest)) =
        .ok (.Point e.2.2 (optOfIdent (sfx.map upper)))) := by
  obtain ⟨p1, w1, hw1, hd1, hp1⟩ := Parse_header N ws0 kw ws1 sfx ws2 (flatList es ++ rest) hh
  have hf := scanCoords_flat N _ es
    { raw := headerText ws0 kw ws1 sfx ws2 ++ 40 :: (flatList es ++ rest), i := p1,
      opt := optOfIdent (sfx.map upper) } w1 rest hne hok rfl hw1 hd1
  have hmany : es.length ≠ 1 →
      Parse N (headerText ws0 kw ws1 sfx ws2 ++ 40 :: (flatList es ++ rest)) =
        .error (.pointCount es.length) := by
    intro hlen
    rw [hp1, hkw, scanBody_point_many N _ _ _ hf (by simpa [elemVals] using hlen)]
    simp [elemVals]
  have hone : ∀ e, es = [e] →
      Parse N (headerText ws0 kw ws1 sfx ws2 ++ 40 :: (flatList es ++ rest)) =
        .ok (.Point e.2.2 (optOfIdent (sfx.map upper))) := by
    intro e he
    subst he
    rw [hp1, hkw, scanBody_point_one N _ _ e.2.2 (by simpa [elemVals] using hf)]
  refine ⟨⟨?_, ?_⟩, hmany, hone⟩
  · rintro ⟨g, hg⟩
    by_contra hlen
    rw [hmany hlen] at hg
    simp at hg
  · intro hlen
    match es, hlen with
    | [e], _ => exact ⟨_, hone e rfl⟩

/-- The check of the number of points on well formed coordinates: for an input whose keyword
is POINT and whose body is a parenthesised list of n comma-separated coordinates, each a run
of literals separated by white space with no more literals than `scanCoord` has targets,
`Parse` succeeds exactly when n = 1 (returning the Point of that coordinate); with two or more
coordinates it fails with the error "expected 1 got n points". -/
theorem point_one_coordinate_runs {F : Type} (N : Num F) (ws0 kw ws1 sfx ws2 rest : List Nat)
    (ls : List (List Nat × List (List Nat × F × List Nat)))
    (hh : headerOK ws0 kw ws1 sfx ws2) (hkw : kw.map upper = ascii "POINT")
    (hne : ls ≠ []) (hok : runsOK N (optOfIdent (sfx.map upper)) ls) :
    ((∃ g, Parse N (headerText ws0 kw ws1 sfx ws2 ++
        40 :: (flatList (runElems N (optOfIdent (sfx.map upper)) ls) ++ rest)) = .ok g) ↔
      ls.length = 1) ∧
    (ls.length ≠ 1 →
      Parse N (headerText ws0 kw ws1 sfx ws2 ++
        40 :: (flatList (runElems N (optOfIdent (sfx.map upper)) ls) ++ rest)) =
        .error (.pointCount ls.length)) ∧
    (∀ e, ls = [e] →
      Parse N (headerText ws0 kw ws1 sfx ws2 ++
        40 :: (flatList (runElems N (optOfIdent (sfx.map upper)) ls) ++ rest)) =
        .ok (.Point (assign (Coord.zero N) (fieldsOf (optOfIdent (sfx.map upper)))
          (litsVals e.2)) (optOfIdent (sfx.map upper)))) := by
  have h := parse_point_lists N ws0 kw ws1 sfx ws2 rest _ hh hkw
    (runElems_ne_nil N _ ls hne) (elemsOK_runElems N _ ls hok)
  have hl : (runElems N (optOfIdent (sfx.map upper)) ls).length = ls.length := by
    simp [runElems]
  rw [hl] at h
  refine ⟨h.1, h.2.1, ?_⟩
  intro e he
  subst he
  exact h.2.2 _ rfl

theorem point_one_coordinate_runs_witness :
    Parse dec (ascii "POINT(0 0,0 0)") = .error (.pointCount 2) :=
  (point_one_coordinate_runs dec [] (ascii "POINT") [] [] [] []
    [([], [(ascii "0", (0 : Int), [32]), (ascii "0", (0 : Int), [])]),
     ([], [(ascii "0", (0 : Int), [32]), (ascii "0", (0 : Int), [])])]
    ⟨by simp, by decide, by decide, by simp, by simp, by simp, by simp⟩ (by decide) (by simp)
    (by
      intro e he
      simp at he
      subst he
      exact ⟨by simp, by simp, by decide,
        dec_lit (ascii "0") (by decide) (by decide) (by decide), by decide, by simp,
        dec_lit (ascii "0") (by decide) (by decide) (by decide), by simp, by simp, trivial⟩)).2.1
    (by simp)

/-- C8, the failing input: `POINT M(1 2 3 4,5 6 7)` has a body of two comma-separated
coordinates and `Parse` returns the Point `(1, 2, 0, 3)` with option `M`.  The call of
`scanCoord` behind the `(` has three targets; it reads `1 2 3`, finds `4` where a delimiter
is due, leaves its loop by exhaustion and reports a coordinate without a comma, with the
cursor in front of `4`, so that `scanCoords` returns one coordinate and the check of the
number of points passes.  With three literals in the first coordinate the check rejects the
input, and without option the same happens at the fifth literal. -/
theorem C8_point_second_coordinate_ignored :
    Parse dec (ascii "POINT M(1 2 3 4,5 6 7)") = .ok (.Point ⟨1, 2, 0, 3⟩ M) ∧
    scanCoord dec { raw := ascii "POINT M(1 2 3 4,5 6 7)", i := 8, opt := M } =
      (.ok (⟨1, 2, 0, 3⟩, false),
        { raw := ascii "POINT M(1 2 3 4,5 6 7)", i := 14, opt := M }) ∧
    Parse dec (ascii "POINT M(1 2 3,5 6 7)") = .error (.pointCount 2) ∧
    Parse dec (ascii "POINT(1 2 3 4 5,6 7)") = .ok (.Point ⟨1, 2, 3, 4⟩ 0) :=
  ⟨by rfl, by rfl, by rfl, by rfl⟩

/-! ## The identifier read by `scanIdent` -/

/-- A list splits into a maximal prefix satisfying `p` and a rest that is empty or starts with
an element that fails `p`. -/
theorem span_cases (p : Nat → Bool) (l : List Nat) :
    (∀ x ∈ l.takeWhile p, p x = true) ∧ l = l.takeWhile p ++ l.dropWhile p ∧
    (l.dropWhile p = [] ∨ ∃ b r, l.dropWhile p = b :: r ∧ p b = false) := by
  refine ⟨fun x hx => List.mem_takeWhile_imp hx, (List.takeWhile_append_dropWhile p l).symm, ?_⟩
  cases h : l.dropWhile p with
  | nil => exact Or.inl rfl
  | cons b r =>
    refine Or.inr ⟨b, r, rfl, ?_⟩
    have := List.head?_dropWhile_not p l
    rw [h] at this
    simpa using this

theorem scanIdentLoop_end (ls : List Nat) (hls : ∀ x ∈ ls, isLetter x = true) (hne : ls ≠ []) :
    ∀ (idx : Nat) (ident : List Nat) (i0 b0 : Nat),
      ∃ b, scanIdentLoop ls idx ident i0 b0 = (ident ++ ls.map upper, idx + ls.length - 1, b) := by
  induction ls with
  | nil => exact absurd rfl hne
  | cons x xs ih =>
    intro idx ident i0 b0
    have hx : isLetter x = true := hls x (by simp)
    unfold isLetter at hx
    cases xs with
    | nil =>
      rw [scanIdentLoop]
      simp only [hx, if_true]
      exact ⟨upper x, by simp [scanIdentLoop, upper]⟩
    | cons y ys =>
      rw [scanIdentLoop]
      simp only [hx, if_true]
      obtain ⟨b, hb⟩ := ih (fun z hz => hls z (by simp [hz])) (by simp) (idx + 1)
        (ident ++ [if (decide (x ≥ 97) && decide (x ≤ 122)) = true then x - 97 + 65 else x]) idx
        (if (decide (x ≥ 97) && decide (x ≤ 122)) = true then x - 97 + 65 else x)
      refine ⟨b, ?_⟩
      rw [hb]
      simp [upper]
      omega

/-- Method `scanIdent` in front of white space and a non-empty run of letters that reaches the
end of the input: the folded run is returned, but the cursor is left on the last letter. -/
theorem scanIdent_at_end {s : scanner} {w ls : List Nat}
    (h : s.raw.drop s.i = w ++ ls) (hws : ∀ x ∈ w, isWs x = true)
    (hls : ∀ x ∈ ls, isLetter x = true) (hne : ls ≠ []) :
    scanIdent s = (.ok (ls.map upper), { s with i := s.i + w.length + ls.length - 1 }) := by
  obtain ⟨x, xs, rfl⟩ := List.exists_cons_of_ne_nil hne
  have hx : isLetter x = true := hls x (by simp)
  have hxw : isWs x = false := by
    unfold isLetter at hx; unfold isWs
    simp at hx ⊢; omega
  have h1 := skipWs_at (by simpa using h) hws hxw
  have h2 : List.drop (s.i + w.length) s.raw = x :: xs := drop_add_of_drop h
  have hlt := drop_cons_lt h2
  obtain ⟨b, hb⟩ := scanIdentLoop_end (x :: xs) hls (by simp) 0 [] 0 0
  unfold scanIdent
  simp only [h1]
  rw [if_neg (by simp; omega)]
  simp only [h2, hb]
  simp


theorem scanIdent_nil {s : scanner} (h : s.raw.drop s.i = []) :
    scanIdent s = (.error .unexpectedEOF, s) := by
  have hge : s.i ≥ s.raw.length := by simpa using h
  have h1 : skipWs s = s := by unfold skipWs; rw [if_pos hge]
  unfold scanIdent
  simp only [h1]
  rw [if_pos hge]

theorem scanIdent_allws {s : scanner} {x : Nat} {xs : List Nat}
    (h : s.raw.drop s.i = x :: xs) (hws : ∀ y ∈ x :: xs, isWs y = true) :
    scanIdent s = (.error (.noIdent x), s) := by
  have hlt := drop_cons_lt h
  have h1 : skipWs s = s := skipWs_all (by rw [h]; exact hws)
  have hx : isLetter x = false := isLetter_of_isWs (hws x (by simp))
  unfold isLetter at hx
  unfold scanIdent
  simp only [h1]
  rw [if_neg (by omega), h]
  simp [scanIdentLoop, hx]

/-- The five ways `scanIdent` can run, according to the unread bytes: nothing left; only white
space left; white space and a byte that is no letter; white space, letters and a byte that is
no letter; white space and letters up to the end of the input. -/
theorem scanIdent_total (s : scanner) :
    (s.raw.drop s.i = [] ∧ scanIdent s = (.error .unexpectedEOF, s)) ∨
    (∃ x xs, s.raw.drop s.i = x :: xs ∧ (∀ y ∈ x :: xs, isWs y = true) ∧
      scanIdent s = (.error (.noIdent x), s)) ∨
    (∃ w b r, s.raw.drop s.i = w ++ b :: r ∧ (∀ y ∈ w, isWs y = true) ∧ isWs b = false ∧
      isLetter b = false ∧ scanIdent s = (.error (.noIdent b), { s with i := s.i + w.length })) ∨
    (∃ w ls b r, s.raw.drop s.i = w ++ (ls ++ b :: r) ∧ (∀ y ∈ w, isWs y = true) ∧
      (∀ y ∈ ls, isLetter y = true) ∧ ls ≠ [] ∧ isLetter b = false ∧
      scanIdent s = (.ok (ls.map upper), { s with i := s.i + w.length + ls.length })) ∨
    (∃ w ls, s.raw.drop s.i = w ++ ls ∧ (∀ y ∈ w, isWs y = true) ∧
      (∀ y ∈ ls, isLetter y = true) ∧ ls ≠ [] ∧
      scanIdent s = (.ok (ls.map upper), { s with i := s.i + w.length + ls.length - 1 })) := by
  obtain ⟨hw, hl, hd⟩ := span_cases isWs (s.raw.drop s.i)
  rcases hd with hd | ⟨b, r, hd, hb⟩
  · -- only white space is left
    rw [hd, List.append_nil] at hl
    cases hc : s.raw.drop s.i with
    | nil => exact Or.inl ⟨rfl, scanIdent_nil hc⟩
    | cons x xs =>
      have hws : ∀ y ∈ x :: xs, isWs y = true := by
        intro y hy
        rw [← hc] at hy
        rw [hl] at hy
        exact hw y hy
      exact Or.inr (Or.inl ⟨x, xs, rfl, hws, scanIdent_allws hc hws⟩)
  · rw [hd] at hl
    obtain ⟨hls, hl2, hd2⟩ := span_cases isLetter (b :: r)
    by_cases hrun : (b :: r).takeWhile isLetter = []
    · -- the first byte after the white space is no letter
      have hbl : isLetter b = false := by
        by_contra hc
        simp [List.takeWhile, hc] at hrun
      exact Or.inr (Or.inr (Or.inl ⟨_, b, r, hl, hw, hb, hbl, scanIdent_at_fail hl hw hb hbl⟩))
    · rcases hd2 with hd2 | ⟨b2, r2, hd2, hb2⟩
      · rw [hd2, List.append_nil] at hl2
        rw [hl2] at hl
        exact Or.inr (Or.inr (Or.inr (Or.inr ⟨_, _, hl, hw, hls, hrun,
          scanIdent_at_end hl hw hls hrun⟩)))
      · rw [hd2] at hl2
        rw [hl2] at hl
        exact Or.inr (Or.inr (Or.inr (Or.inl ⟨_, _, b2, r2, hl, hw, hls, hrun, hb2,
          scanIdent_at hl hw hls hrun hb2⟩)))


theorem isWs_of_isLetter {x : Nat} (h : isLetter x = true) : isWs x = false := by
  simp [isLetter] at h
  simp [isWs]
  omega

theorem dropWhile_ws_append (w b r) (hw : ∀ y ∈ w, isWs y = true) (hb : isWs b = false) :
    (w ++ b :: r).dropWhile isWs = b :: r := by
  rw [List.dropWhile_append_of_pos hw]
  simp [List.dropWhile, hb]

theorem takeWhile_letters_append (ls b r) (hls : ∀ y ∈ ls, isLetter y = true)
    (hb : isLetter b = false) :
    (ls ++ b :: r).takeWhile isLetter = ls ∧ (ls ++ b :: r).dropWhile isLetter = b :: r := by
  rw [List.takeWhile_append_of_pos hls, List.dropWhile_append_of_pos hls]
  simp [List.takeWhile, List.dropWhile, hb]

theorem takeWhile_letters_all (ls : List Nat) (hls : ∀ y ∈ ls, isLetter y = true) :
    ls.takeWhile isLetter = ls ∧ ls.dropWhile isLetter = [] := by
  have h1 := @List.takeWhile_append_of_pos _ isLetter ls [] hls
  have h2 := @List.dropWhile_append_of_pos _ isLetter ls [] hls
  simpa using And.intro h1 h2

/-- The identifier returned by `scanIdent` (the empty one on error) is the first identifier of
the unread bytes. -/
theorem scanIdent_lex (s : scanner) :
    identOr (scanIdent s).1 = firstIdent (s.raw.drop s.i) := by
  rcases scanIdent_total s with ⟨hl, h⟩ | ⟨x, xs, hl, hws, h⟩ | ⟨w, b, r, hl, hw, hb, hbl, h⟩ |
      ⟨w, ls, b, r, hl, hw, hls, hne, hb, h⟩ | ⟨w, ls, hl, hw, hls, hne, h⟩
  · rw [h, hl]; simp [identOr, firstIdent]
  · rw [h, hl]
    have : (x :: xs).dropWhile isWs = [] := by
      have := @List.dropWhile_append_of_pos _ isWs (x :: xs) [] hws
      simpa using this
    simp [identOr, firstIdent, this]
  · rw [h, hl]
    simp [identOr, firstIdent, dropWhile_ws_append w b r hw hb, List.takeWhile, hbl]
  · obtain ⟨x, xs, rfl⟩ := List.exists_cons_of_ne_nil hne
    have hx := isWs_of_isLetter (hls x (by simp))
    rw [h, hl]
    have h1 : (w ++ (x :: xs ++ b :: r)).dropWhile isWs = x :: xs ++ b :: r := by
      simpa using dropWhile_ws_append w x (xs ++ b :: r) hw hx
    simp only [identOr, firstIdent, h1, (takeWhile_letters_append (x :: xs) b r hls hb).1]
  · obtain ⟨x, xs, rfl⟩ := List.exists_cons_of_ne_nil hne
    have hx := isWs_of_isLetter (hls x (by simp))
    rw [h, hl]
    have h1 : (w ++ (x :: xs)).dropWhile isWs = x :: xs := dropWhile_ws_append w x xs hw hx
    simp only [identOr, firstIdent, h1, (takeWhile_letters_all (x :: xs) hls).1]

/-- Method `scanIdent` fails only with the errors of an exhausted input or of a missing letter. -/
theorem scanIdent_error {s s2 : scanner} {e : Err} (h : scanIdent s = (.error e, s2)) :
    e = .unexpectedEOF ∨ ∃ b, e = .noIdent b := by
  rcases scanIdent_total s with ⟨_, h1⟩ | ⟨x, xs, _, _, h1⟩ | ⟨w, b, r, _, _, _, _, h1⟩ |
      ⟨w, ls, b, r, _, _, _, _, _, h1⟩ | ⟨w, ls, _, _, _, _, h1⟩ <;> rw [h1] at h <;>
    simp at h
  · exact Or.inl h.1.symm
  · exact Or.inr ⟨x, h.1.symm⟩
  · exact Or.inr ⟨b, h.1.symm⟩

/-- After a successful `scanIdent` the cursor stands behind the run of letters, in front of
what follows it; or the run reached the end of the input and the cursor stands on its last
letter. -/
theorem scanIdent_ok_pos {s s2 : scanner} {ident : List Nat}
    (h : scanIdent s = (.ok ident, s2)) :
    (s2.raw.drop s2.i = ((s.raw.drop s.i).dropWhile isWs).dropWhile isLetter ∧
      s2.raw.drop s2.i ≠ []) ∨
    (∃ b, s2.raw.drop s2.i = [b] ∧ isLetter b = true) := by
  have hfr := scanIdent_frame_eq h
  rcases scanIdent_total s with ⟨_, h1⟩ | ⟨x, xs, _, _, h1⟩ | ⟨w, b, r, _, _, _, _, h1⟩ |
      ⟨w, ls, b, r, hl, hw, hls, hne, hb, h1⟩ | ⟨w, ls, hl, hw, hls, hne, h1⟩ <;>
    rw [h1] at h <;> simp at h
  · obtain ⟨x, xs, rfl⟩ := List.exists_cons_of_ne_nil hne
    have hx := isWs_of_isLetter (hls x (by simp))
    left
    have h2 : List.drop (s.i + w.length + (x :: xs).length) s.raw = b :: r := by
      have h3 : List.drop s.i s.raw = (w ++ (x :: xs)) ++ b :: r := by rw [hl]; simp
      have := drop_add_of_drop h3
      rw [List.length_append, ← Nat.add_assoc] at this
      exact this
    have h1d : (w ++ (x :: xs ++ b :: r)).dropWhile isWs = x :: xs ++ b :: r := by
      simpa using dropWhile_ws_append w x (xs ++ b :: r) hw hx
    rw [← h.2, hl, h1d, (takeWhile_letters_append (x :: xs) b r hls hb).2]
    simp only
    rw [h2]
    simp
  · right
    obtain ⟨hl1, hl2⟩ := List.exists_cons_of_ne_nil hne
    have hlen : 0 < ls.length := List.length_pos.mpr hne
    have h3 : List.drop s.i s.raw = (w ++ ls.dropLast) ++ [ls.getLast hne] := by
      rw [hl, List.append_assoc, List.dropLast_append_getLast]
    have h4 := drop_add_of_drop h3
    have h5 : s.i + (w ++ ls.dropLast).length = s.i + w.length + ls.length - 1 := by
      simp; omega
    rw [h5] at h4
    refine ⟨ls.getLast hne, ?_, hls _ (List.getLast_mem hne)⟩
    rw [← h.2]
    exact h4


/-! ## The keyword and the dimension suffix -/

theorem scanBody_variant {F : Type} (N : Num F) (ident : List Nat) (s s2 : scanner)
    (g : Geom F) (h : scanBody N ident s = (.ok g, s2)) :
    (ident = ascii "POINT" ∧ g.variant = .Point) ∨
    (ident = ascii "MULTIPOINT" ∧ g.variant = .MultiPoint) ∨
    (ident = ascii "LINESTRING" ∧ g.variant = .LineString) ∨
    (ident = ascii "POLYGON" ∧ g.variant = .Polygon) ∨
    (ident = ascii "MULTIPOLYGON" ∧ g.variant = .MultiPolygon) := by
  unfold scanBody at h
  split at h
  · rename_i hid
    split at h
    · simp at h
    · split at h
      · rename_i hp
        split at h
        · simp at h
        · split at h
          · simp at h; rw [← h.1]; exact Or.inl ⟨hp, rfl⟩
          · simp at h
      · rename_i hp
        split at h
        · rename_i hm
          simp at h; rw [← h.1]; exact Or.inr (Or.inl ⟨hm, rfl⟩)
        · rename_i hm
          simp at h; rw [← h.1]
          rcases hid with h1 | h1 | h1
          · exact absurd h1 hp
          · exact absurd h1 hm
          · exact Or.inr (Or.inr (Or.inl ⟨h1, rfl⟩))
  · split at h
    · rename_i hpoly
      split at h
      · simp at h
      · simp at h; rw [← h.1]; exact Or.inr (Or.inr (Or.inr (Or.inl ⟨hpoly, rfl⟩)))
    · split at h
      · rename_i hmp
        split at h
        · simp at h
        · simp at h; rw [← h.1]; exact Or.inr (Or.inr (Or.inr (Or.inr ⟨hmp, rfl⟩)))
      · simp at h

theorem scanBody_unknown {F : Type} (N : Num F) (ident : List Nat) (s : scanner)
    (h1 : ident ≠ ascii "POINT") (h2 : ident ≠ ascii "MULTIPOINT")
    (h3 : ident ≠ ascii "LINESTRING") (h4 : ident ≠ ascii "POLYGON")
    (h5 : ident ≠ ascii "MULTIPOLYGON") :
    scanBody (F := F) N ident s = (.error (.unknownGeom ident), s) := by
  unfold scanBody
  simp [h1, h2, h3, h4, h5]

/-- Function `Parse` after the keyword has been read: the body is scanned by `scanBody` under
the option selected by the second identifier. -/
theorem Parse_of_ident {F : Type} (N : Num F) (data : List Nat) (ident : List Nat)
    (s1 : scanner) (h : scanIdent { raw := data, i := 0, opt := 0 } = (.ok ident, s1)) :
    Parse N data = (scanBody N ident
      { (scanIdent s1).2 with opt := optOfIdent (identOr (scanIdent s1).1) }).1 := by
  unfold Parse scanGeom
  rw [h]
  simp only
  split
  · rename_i h2; rw [h2]; simp [identOr]
  · rename_i h2; rw [h2]; simp [identOr]

/-- C6: if `Parse` succeeds, the first identifier of the input (the first maximal run of ASCII
letters after the leading white space, folded to upper case) is one of POINT, MULTIPOINT,
LINESTRING, POLYGON, MULTIPOLYGON and the variant of the result is the one it names; an input
whose first identifier is anything else makes `Parse` fail, with the error of `scanIdent` or
with "unknown geom". -/
theorem C6_keyword_selects_variant {F : Type} (N : Num F) (data : List Nat) :
    (∀ g : Geom F, Parse N data = .ok g →
      (firstIdent data = ascii "POINT" ∧ g.variant = .Point) ∨
      (firstIdent data = ascii "MULTIPOINT" ∧ g.variant = .MultiPoint) ∨
      (firstIdent data = ascii "LINESTRING" ∧ g.variant = .LineString) ∨
      (firstIdent data = ascii "POLYGON" ∧ g.variant = .Polygon) ∨
      (firstIdent data = ascii "MULTIPOLYGON" ∧ g.variant = .MultiPolygon)) ∧
    (firstIdent data ≠ ascii "POINT" → firstIdent data ≠ ascii "MULTIPOINT" →
      firstIdent data ≠ ascii "LINESTRING" → firstIdent data ≠ ascii "POLYGON" →
      firstIdent data ≠ ascii "MULTIPOLYGON" →
      Parse N data = .error .unexpectedEOF ∨ (∃ b, Parse N data = .error (.noIdent b)) ∨
        Parse N data = .error (.unknownGeom (firstIdent data))) := by
  have hlex := scanIdent_lex { raw := data, i := 0, opt := 0 }
  simp only [List.drop_zero] at hlex
  cases hsi : scanIdent { raw := data, i := 0, opt := 0 } with
  | mk res s1 =>
    cases res with
    | error e =>
      have hP : Parse N data = .error e := by
        unfold Parse scanGeom; rw [hsi]
      constructor
      · intro g hg; rw [hP] at hg; simp at hg
      · intro _ _ _ _ _
        rcases scanIdent_error hsi with h | ⟨b, h⟩
        · exact Or.inl (by rw [hP, h])
        · exact Or.inr (Or.inl ⟨b, by rw [hP, h]⟩)
    | ok ident =>
      rw [hsi] at hlex
      simp only [identOr] at hlex
      have hP := Parse_of_ident N data ident s1 hsi
      rw [← hlex]
      constructor
      · intro g hg
        rw [hP] at hg
        exact scanBody_variant N ident _ _ g (Prod.ext hg rfl)
      · intro h1 h2 h3 h4 h5
        right; right
        rw [hP, scanBody_unknown N ident _ h1 h2 h3 h4 h5]

theorem C6_keyword_selects_variant_witness :
    ((firstIdent (ascii " point z(1 2 3)") = ascii "POINT" ∧
        (Geom.Point (⟨1, 2, 3, 0⟩ : Coord Int) Z).variant = .Point) ∨
      (firstIdent (ascii " point z(1 2 3)") = ascii "MULTIPOINT" ∧
        (Geom.Point (⟨1, 2, 3, 0⟩ : Coord Int) Z).variant = .MultiPoint) ∨
      (firstIdent (ascii " point z(1 2 3)") = ascii "LINESTRING" ∧
        (Geom.Point (⟨1, 2, 3, 0⟩ : Coord Int) Z).variant = .LineString) ∨
      (firstIdent (ascii " point z(1 2 3)") = ascii "POLYGON" ∧
        (Geom.Point (⟨1, 2, 3, 0⟩ : Coord Int) Z).variant = .Polygon) ∨
      (firstIdent (ascii " point z(1 2 3)") = ascii "MULTIPOLYGON" ∧
        (Geom.Point (⟨1, 2, 3, 0⟩ : Coord Int) Z).variant = .MultiPolygon)) ∧
    (Parse dec (ascii "POINTS(1 2)") = .error .unexpectedEOF ∨
      (∃ b, Parse dec (ascii "POINTS(1 2)") = .error (.noIdent b)) ∨
      Parse dec (ascii "POINTS(1 2)") = .error (.unknownGeom (firstIdent (ascii "POINTS(1 2)")))) :=
  ⟨(C6_keyword_selects_variant dec (ascii " point z(1 2 3)")).1 (.Point ⟨1, 2, 3, 0⟩ Z) (by rfl),
    (C6_keyword_selects_variant dec (ascii "POINTS(1 2)")).2 (by decide) (by decide) (by decide)
      (by decide) (by decide)⟩

theorem scanBody_of_scanStart_error {F : Type} (N : Num F) (ident : List Nat) (s s2 : scanner)
    (e : Err) (h : scanStart s = (.error e, s2)) :
    (scanBody (F := F) N ident s).1 = .error e ∨
      (scanBody (F := F) N ident s).1 = .error (.unknownGeom ident) := by
  unfold scanBody
  split
  · left
    unfold scanCoords
    rw [h]
  · split
    · left
      unfold scanPolydata
      rw [h]
    · split
      · left
        unfold scanMultiPolydata
        rw [h]
      · right; rfl

/-- When the cursor stands on a last byte that is a letter, the second identifier and the body
cannot be read: `scanBody` fails. -/
theorem scanBody_fail_on_last_letter {F : Type} (N : Num F) (ident : List Nat) (s : scanner)
    (b : Nat) (o : Opt) (h : s.raw.drop s.i = [b]) (hb : isLetter b = true) :
    ∃ e, (scanBody (F := F) N ident { (scanIdent s).2 with opt := o }).1 = .error e := by
  have h0 : s.raw.drop s.i = [] ++ [b] := by simpa using h
  have h1 := scanIdent_at_end (s := s) h0 (by simp) (by simpa using hb) (by simp)
  simp only [List.length_nil, List.length_singleton, Nat.add_zero, Nat.add_sub_cancel] at h1
  rw [h1]
  have h4 : List.drop s.i s.raw = [] ++ b :: [] := by simpa using h
  have h2 := scanStart_at_fail (s := { raw := s.raw, i := s.i, opt := o }) h4 (by simp)
    (isWs_of_isLetter hb) (by intro hc; subst hc; simp [isLetter] at hb)
  rcases scanBody_of_scanStart_error (F := F) N ident _ _ _ h2 with h3 | h3
  · exact ⟨_, h3⟩
  · exact ⟨_, h3⟩

theorem Is3d_optOfIdent (z : List Nat) :
    Opt.Is3d (optOfIdent z) = true ↔ (z = ascii "Z" ∨ z = ascii "ZM") := by
  unfold optOfIdent
  by_cases h1 : z = ascii "Z"
  · simp [h1, Opt.Is3d, Z]
  · by_cases h2 : z = ascii "M"
    · subst h2; simp [Opt.Is3d, Z, M]; decide
    · by_cases h3 : z = ascii "ZM"
      · subst h3; simp [Opt.Is3d, Z, M, ZM]; decide
      · simp [h1, h2, h3, Opt.Is3d, Z]

theorem IsMeasured_optOfIdent (z : List Nat) :
    Opt.IsMeasured (optOfIdent z) = true ↔ (z = ascii "M" ∨ z = ascii "ZM") := by
  unfold optOfIdent
  by_cases h1 : z = ascii "Z"
  · subst h1; simp [Opt.IsMeasured, Z, M]; decide
  · by_cases h2 : z = ascii "M"
    · subst h2; simp [h1, Opt.IsMeasured, Z, M]
    · by_cases h3 : z = ascii "ZM"
      · subst h3; simp [Opt.IsMeasured, Z, M, ZM]; decide
      · simp [h1, h2, h3, Opt.IsMeasured, M]

/-- When `Parse` succeeds, the option of the result is the one selected by the second
identifier of the input. -/
theorem Parse_opt {F : Type} (N : Num F) (data : List Nat) (g : Geom F)
    (h : Parse N data = .ok g) : g.opt = optOfIdent (secondIdent data) := by
  cases hsi : scanIdent { raw := data, i := 0, opt := 0 } with
  | mk res s1 =>
    cases res with
    | error e =>
      have hP : Parse N data = .error e := by
        unfold Parse scanGeom; rw [hsi]
      rw [hP] at h; simp at h
    | ok ident =>
      have hP := Parse_of_ident N data ident s1 hsi
      rw [hP] at h
      rcases scanIdent_ok_pos hsi with ⟨hpos, _⟩ | ⟨b, hb1, hb2⟩
      · have hlex := scanIdent_lex s1
        rw [hpos] at hlex
        simp only [List.drop_zero] at hlex
        have hsec : firstIdent (List.dropWhile isLetter (List.dropWhile isWs data)) =
            secondIdent data := rfl
        rw [hsec] at hlex
        rw [hlex] at h
        exact (scanBody_all N (fun _ => True) _ (fun _ _ _ _ _ _ => trivial) ident _ _ g rfl
          (Prod.ext h rfl)).1
      · obtain ⟨e, he⟩ := scanBody_fail_on_last_letter (F := F) N ident s1 b
          (optOfIdent (identOr (scanIdent s1).1)) hb1 hb2
        rw [he] at h; simp at h

/-- C7: when `Parse` succeeds, `Is3d()` of the result is true exactly when the second
identifier of the input (the run of letters read after the keyword, folded to upper case) is
Z or ZM, and `IsMeasured()` is true exactly when it is M or ZM; with no second identifier or
any other run of letters both are false. -/
theorem C7_suffix_selects_option {F : Type} (N : Num F) (data : List Nat) (g : Geom F)
    (h : Parse N data = .ok g) :
    (g.Is3d = true ↔ (secondIdent data = ascii "Z" ∨ secondIdent data = ascii "ZM")) ∧
    (g.IsMeasured = true ↔ (secondIdent data = ascii "M" ∨ secondIdent data = ascii "ZM")) := by
  have ho := Parse_opt N data g h
  unfold Geom.Is3d Geom.IsMeasured
  rw [ho]
  exact ⟨Is3d_optOfIdent _, IsMeasured_optOfIdent _⟩

theorem C7_suffix_selects_option_witness :
    ((Geom.Point (⟨1, 2, 0, 4⟩ : Coord Int) M).Is3d = true ↔
      (secondIdent (ascii "point m(1 2 4)") = ascii "Z" ∨
        secondIdent (ascii "point m(1 2 4)") = ascii "ZM")) ∧
    ((Geom.Point (⟨1, 2, 0, 4⟩ : Coord Int) M).IsMeasured = true ↔
      (secondIdent (ascii "point m(1 2 4)") = ascii "M" ∨
        secondIdent (ascii "point m(1 2 4)") = ascii "ZM")) :=
  C7_suffix_selects_option dec (ascii "point m(1 2 4)") (.Point ⟨1, 2, 0, 4⟩ M) (by rfl)

/-! ## The scan routines depend on the unread bytes only -/

theorem peek_eq_head (s : scanner) :
    peek s = match s.raw.drop s.i with
      | [] => .error .unexpectedEOF
      | b :: _ => .ok b := by
  cases h : s.raw.drop s.i with
  | nil => exact peek_of_drop_nil h
  | cons b r => exact peek_of_drop h

theorem tailEq_advance {s1 s2 : scanner} (h : tailEq s1 s2) (k : Nat) :
    tailEq { s1 with i := s1.i + k } { s2 with i := s2.i + k } := by
  obtain ⟨hi, ho, hl, hd⟩ := h
  refine ⟨by simp [hi], ho, hl, ?_⟩
  simp only
  rw [← List.drop_drop, ← List.drop_drop, hd]

theorem skipWs_tailEq {s1 s2 : scanner} (h : tailEq s1 s2) :
    tailEq (skipWs s1) (skipWs s2) := by
  obtain ⟨raw1, i1, o1⟩ := s1
  obtain ⟨raw2, i2, o2⟩ := s2
  have h0 := h
  obtain ⟨hi, ho, hl, hd⟩ := h
  simp only at hi ho hl hd
  subst hi ho
  unfold skipWs
  simp only
  rw [hd, hl]
  split
  · exact h0
  · split
    · exact tailEq_advance h0 _
    · exact h0

theorem peek_tailEq {s1 s2 : scanner} (h : tailEq s1 s2) : peek s1 = peek s2 := by
  rw [peek_eq_head, peek_eq_head, h.2.2.2]

theorem scanStart_tailEq {s1 s2 : scanner} (h : tailEq s1 s2) :
    (scanStart s1).1 = (scanStart s2).1 ∧ tailEq (scanStart s1).2 (scanStart s2).2 := by
  have h1 := skipWs_tailEq h
  have h2 := peek_tailEq h1
  unfold scanStart
  simp only [h2]
  split
  · exact ⟨rfl, h1⟩
  · split
    · exact ⟨rfl, h1⟩
    · exact ⟨rfl, tailEq_advance h1 1⟩

theorem scanContinue_tailEq {s1 s2 : scanner} (h : tailEq s1 s2) :
    (scanContinue s1).1 = (scanContinue s2).1 ∧
      tailEq (scanContinue s1).2 (scanContinue s2).2 := by
  have h1 := skipWs_tailEq h
  have h2 := peek_tailEq h1
  unfold scanContinue
  simp only [h2]
  split
  · exact ⟨rfl, h1⟩
  · split
    · exact ⟨rfl, h1⟩
    · exact ⟨rfl, tailEq_advance h1 1⟩

/-- A suffix of the buffer stays a suffix when bytes are dropped from it. -/
theorem suffix_drop {raw r : List Nat} (h : raw.drop (raw.length - r.length) = r) (k : Nat) :
    raw.drop (raw.length - (r.drop k).length) = r.drop k := by
  have hlen : r.length ≤ raw.length := by
    have := congrArg List.length h
    rw [List.length_drop] at this
    omega
  by_cases hk : k ≤ r.length
  · have : raw.length - (r.drop k).length = (raw.length - r.length) + k := by
      rw [List.length_drop]; omega
    rw [this, ← List.drop_drop, h]
  · have : r.drop k = [] := List.drop_eq_nil_of_le (by omega)
    rw [this]
    simp

theorem scanFields_tailEq {F : Type} (N : Num F) :
    ∀ (fs : List Fld) (r : List Nat) (c : Coord F) (s1 s2 : scanner) (n : Nat),
      tailEq s1 s2 → s1.raw.drop (s1.raw.length - r.length) = r →
      s2.raw.drop (s2.raw.length - r.length) = r →
      (scanFields N fs r c s1 n).1.1 = (scanFields N fs r c s2 n).1.1 ∧
      tailEq (scanFields N fs r c s1 n).1.2 (scanFields N fs r c s2 n).1.2
  | [], _, _, _, _, _, h, _, _ => by simp [scanFields, h]
  | f :: fs, r, c, s1, s2, n, h, hr1, hr2 => by
    unfold scanFields
    cases hf : N.fscan r with
    | none => exact ⟨rfl, h⟩
    | some vk =>
      obtain ⟨v, k⟩ := vk
      simp only
      have hs1 := suffix_drop hr1 k
      have hs2 := suffix_drop hr2 k
      have ht : tailEq { s1 with i := s1.raw.length - (r.drop k).length }
          { s2 with i := s2.raw.length - (r.drop k).length } := by
        refine ⟨by simp [h.2.2.1], h.2.1, h.2.2.1, ?_⟩
        simp only
        rw [hs1, hs2]
      have ht2 := skipWs_tailEq ht
      have hp := peek_tailEq ht2
      rw [hp]
      split
      · exact ⟨rfl, ht2⟩
      · split
        · exact ⟨rfl, tailEq_advance ht2 1⟩
        · have hraw1 : (skipWs { s1 with i := s1.raw.length - (r.drop k).length }).raw =
              s1.raw := skipWs_raw _
          have hraw2 : (skipWs { s2 with i := s2.raw.length - (r.drop k).length }).raw =
              s2.raw := skipWs_raw _
          exact scanFields_tailEq N fs (r.drop k) (c.set f v) _ _ (n + 1) ht2
            (by rw [hraw1]; exact hs1) (by rw [hraw2]; exact hs2)

theorem scanCoord_tailEq {F : Type} (N : Num F) {s1 s2 : scanner} (h : tailEq s1 s2) :
    (scanCoord N s1).1 = (scanCoord N s2).1 ∧ tailEq (scanCoord N s1).2 (scanCoord N s2).2 := by
  have h1 := skipWs_tailEq h
  unfold scanCoord scanCoordCount
  simp only
  generalize skipWs s1 = t1 at h1 ⊢
  generalize skipWs s2 = t2 at h1 ⊢
  obtain ⟨raw1, i1, o1⟩ := t1
  obtain ⟨raw2, i2, o2⟩ := t2
  have h0 := h1
  obtain ⟨hi, ho, hl, hd⟩ := h1
  simp only at hi ho hl hd
  subst hi ho
  simp only
  rw [hd, hl]
  split
  · exact ⟨rfl, h0⟩
  · rename_i hlt
    have hr2 : raw2.drop (raw2.length - (raw2.drop i1).length) = raw2.drop i1 := by
      rw [List.length_drop]
      congr 1
      omega
    have hr1 : raw1.drop (raw1.length - (raw2.drop i1).length) = raw2.drop i1 := by
      rw [← hd, List.length_drop]
      congr 1
      omega
    exact scanFields_tailEq N _ _ _ _ _ 0 h0 hr1 hr2


theorem scanCoordsLoop_tailEq {F : Type} (N : Num F) (multi : Bool) :
    ∀ (fuel : Nat) (s1 s2 : scanner) (cs : List (Coord F)), tailEq s1 s2 →
      (scanCoordsLoop N multi fuel s1 cs).1 = (scanCoordsLoop N multi fuel s2 cs).1 ∧
      tailEq (scanCoordsLoop N multi fuel s1 cs).2 (scanCoordsLoop N multi fuel s2 cs).2 := by
  intro fuel
  induction fuel with
  | zero => intro s1 s2 cs h; exact ⟨rfl, h⟩
  | succ n ih =>
    intro s1 s2 cs h
    obtain ⟨hr, ht⟩ := scanCoord_tailEq N h
    unfold scanCoordsLoop
    cases h1 : scanCoord N s1 with
    | mk r1 t1 =>
      cases h2 : scanCoord N s2 with
      | mk r2 t2 =>
        rw [h1, h2] at hr ht
        simp only at hr ht
        subst hr
        cases r1 with
        | error e => exact ⟨rfl, ht⟩
        | ok cc =>
          obtain ⟨c, comma⟩ := cc
          simp only
          cases comma with
          | true =>
            simp only [if_true]
            cases multi with
            | true => exact ⟨rfl, ht⟩
            | false => exact ih t1 t2 _ ht
          | false =>
            simp only [Bool.false_eq_true, if_false]
            cases multi with
            | false => exact ⟨rfl, ht⟩
            | true =>
              simp only [if_true]
              obtain ⟨hr3, ht3⟩ := scanContinue_tailEq ht
              cases h3 : scanContinue t1 with
              | mk r3 u1 =>
                cases h4 : scanContinue t2 with
                | mk r4 u2 =>
                  rw [h3, h4] at hr3 ht3
                  simp only at hr3 ht3
                  subst hr3
                  cases r3 with
                  | error e => exact ⟨rfl, ht3⟩
                  | ok comma2 =>
                    simp only
                    cases comma2 with
                    | false => exact ⟨rfl, ht3⟩
                    | true =>
                      simp only [if_true]
                      obtain ⟨hr5, ht5⟩ := scanStart_tailEq ht3
                      cases h5 : scanStart u1 with
                      | mk r5 v1 =>
                        cases h6 : scanStart u2 with
                        | mk r6 v2 =>
                          rw [h5, h6] at hr5 ht5
                          simp only at hr5 ht5
                          subst hr5
                          cases r5 with
                          | error e => exact ⟨rfl, ht5⟩
                          | ok u => exact ih v1 v2 _ ht5

theorem scanCoords_tailEq {F : Type} (N : Num F) (multi : Bool) {s1 s2 : scanner}
    (h : tailEq s1 s2) :
    (scanCoords (F := F) N multi s1).1 = (scanCoords (F := F) N multi s2).1 ∧
      tailEq (scanCoords (F := F) N multi s1).2 (scanCoords (F := F) N multi s2).2 := by
  obtain ⟨hr, ht⟩ := scanStart_tailEq h
  unfold scanCoords
  cases h1 : scanStart s1 with
  | mk r1 t1 =>
    cases h2 : scanStart s2 with
    | mk r2 t2 =>
      rw [h1, h2] at hr ht
      simp only at hr ht
      subst hr
      cases r1 with
      | error e => exact ⟨rfl, ht⟩
      | ok u =>
        simp only
        have hraw1 := (scanStart_frame_eq h1).1
        have hraw2 := (scanStart_frame_eq h2).1
        have hlen : t1.raw.length = t2.raw.length := ht.2.2.1
        cases multi with
        | false =>
          simp only [Bool.false_eq_true, if_false]
          rw [hlen]
          exact scanCoordsLoop_tailEq N false _ t1 t2 _ ht
        | true =>
          simp only [if_true]
          obtain ⟨hr3, ht3⟩ := scanStart_tailEq ht
          cases h3 : scanStart t1 with
          | mk r3 u1 =>
            cases h4 : scanStart t2 with
            | mk r4 u2 =>
              rw [h3, h4] at hr3 ht3
              simp only at hr3 ht3
              subst hr3
              have hlen2 : u1.raw.length = u2.raw.length := ht3.2.2.1
              cases r3 with
              | error e =>
                simp only
                rw [hlen2]
                exact scanCoordsLoop_tailEq N false _ u1 u2 _ ht3
              | ok u =>
                simp only
                rw [hlen2]
                exact scanCoordsLoop_tailEq N true _ u1 u2 _ ht3

theorem scanPolydataLoop_tailEq {F : Type} (N : Num F) :
    ∀ (fuel : Nat) (s1 s2 : scanner) (poly : List (List (Coord F))), tailEq s1 s2 →
      (scanPolydataLoop N fuel s1 poly).1 = (scanPolydataLoop N fuel s2 poly).1 ∧
      tailEq (scanPolydataLoop N fuel s1 poly).2 (scanPolydataLoop N fuel s2 poly).2 := by
  intro fuel
  induction fuel with
  | zero => intro s1 s2 cs h; exact ⟨rfl, h⟩
  | succ n ih =>
    intro s1 s2 poly h
    obtain ⟨hr, ht⟩ := scanCoords_tailEq (F := F) N false h
    unfold scanPolydataLoop
    cases h1 : scanCoords (F := F) N false s1 with
    | mk r1 t1 =>
      cases h2 : scanCoords (F := F) N false s2 with
      | mk r2 t2 =>
        rw [h1, h2] at hr ht
        simp only at hr ht
        subst hr
        cases r1 with
        | error e => exact ⟨rfl, ht⟩
        | ok cs =>
          simp only
          split
          · exact ⟨rfl, ht⟩
          · split
            · split
              · exact ⟨rfl, ht⟩
              · obtain ⟨hr3, ht3⟩ := scanContinue_tailEq ht
                cases h3 : scanContinue t1 with
                | mk r3 u1 =>
                  cases h4 : scanContinue t2 with
                  | mk r4 u2 =>
                    rw [h3, h4] at hr3 ht3
                    simp only at hr3 ht3
                    subst hr3
                    cases r3 with
                    | error e => exact ⟨rfl, ht3⟩
                    | ok comma =>
                      simp only
                      cases comma with
                      | false => exact ⟨rfl, ht3⟩
                      | true =>
                        simp only [if_true]
                        exact ih u1 u2 _ ht3
            · exact ⟨rfl, ht⟩

theorem scanPolydata_tailEq {F : Type} (N : Num F) {s1 s2 : scanner} (h : tailEq s1 s2) :
    (scanPolydata (F := F) N s1).1 = (scanPolydata (F := F) N s2).1 ∧
      tailEq (scanPolydata (F := F) N s1).2 (scanPolydata (F := F) N s2).2 := by
  obtain ⟨hr, ht⟩ := scanStart_tailEq h
  unfold scanPolydata
  cases h1 : scanStart s1 with
  | mk r1 t1 =>
    cases h2 : scanStart s2 with
    | mk r2 t2 =>
      rw [h1, h2] at hr ht
      simp only at hr ht
      subst hr
      cases r1 with
      | error e => exact ⟨rfl, ht⟩
      | ok u =>
        simp only
        have hlen : t1.raw.length = t2.raw.length := ht.2.2.1
        rw [hlen]
        exact scanPolydataLoop_tailEq N _ t1 t2 _ ht

theorem scanMultiPolydataLoop_tailEq {F : Type} (N : Num F) :
    ∀ (fuel : Nat) (s1 s2 : scanner) (multi : List (List (List (Coord F)))), tailEq s1 s2 →
      (scanMultiPolydataLoop N fuel s1 multi).1 = (scanMultiPolydataLoop N fuel s2 multi).1 ∧
      tailEq (scanMultiPolydataLoop N fuel s1 multi).2
        (scanMultiPolydataLoop N fuel s2 multi).2 := by
  intro fuel
  induction fuel with
  | zero => intro s1 s2 cs h; exact ⟨rfl, h⟩
  | succ n ih =>
    intro s1 s2 multi h
    obtain ⟨hr, ht⟩ := scanPolydata_tailEq (F := F) N h
    unfold scanMultiPolydataLoop
    cases h1 : scanPolydata (F := F) N s1 with
    | mk r1 t1 =>
      cases h2 : scanPolydata (F := F) N s2 with
      | mk r2 t2 =>
        rw [h1, h2] at hr ht
        simp only at hr ht
        subst hr
        cases r1 with
        | error e => exact ⟨rfl, ht⟩
        | ok poly =>
          simp only
          obtain ⟨hr3, ht3⟩ := scanContinue_tailEq ht
          cases h3 : scanContinue t1 with
          | mk r3 u1 =>
            cases h4 : scanContinue t2 with
            | mk r4 u2 =>
              rw [h3, h4] at hr3 ht3
              simp only at hr3 ht3
              subst hr3
              cases r3 with
              | error e => exact ⟨rfl, ht3⟩
              | ok comma =>
                simp only
                cases comma with
                | false => exact ⟨rfl, ht3⟩
                | true =>
                  simp only [if_true]
                  exact ih u1 u2 _ ht3

theorem scanMultiPolydata_tailEq {F : Type} (N : Num F) {s1 s2 : scanner} (h : tailEq s1 s2) :
    (scanMultiPolydata (F := F) N s1).1 = (scanMultiPolydata (F := F) N s2).1 ∧
      tailEq (scanMultiPolydata (F := F) N s1).2 (scanMultiPolydata (F := F) N s2).2 := by
  obtain ⟨hr, ht⟩ := scanStart_tailEq h
  unfold scanMultiPolydata
  cases h1 : scanStart s1 with
  | mk r1 t1 =>
    cases h2 : scanStart s2 with
    | mk r2 t2 =>
      rw [h1, h2] at hr ht
      simp only at hr ht
      subst hr
      cases r1 with
      | error e => exact ⟨rfl, ht⟩
      | ok u =>
        simp only
        have hlen : t1.raw.length = t2.raw.length := ht.2.2.1
        rw [hlen]
        exact scanMultiPolydataLoop_tailEq N _ t1 t2 _ ht

/-! ## Inputs that differ in the case of letters -/

theorem caseEq_isWs {a b : Nat} (h : caseEq a b) : isWs a = isWs b := by
  rcases h with h | ⟨h1, h2, _⟩
  · rw [h]
  · rw [isWs_of_isLetter h1, isWs_of_isLetter h2]

theorem caseEq_isLetter {a b : Nat} (h : caseEq a b) : isLetter a = isLetter b := by
  rcases h with h | ⟨h1, h2, _⟩
  · rw [h]
  · rw [h1, h2]

theorem caseEq_upper {a b : Nat} (h : caseEq a b) : upper a = upper b := by
  rcases h with h | ⟨_, _, h3⟩
  · rw [h]
  · exact h3

theorem caseEq_of_not_letter {a b : Nat} (h : caseEq a b) (ha : isLetter a = false) : a = b := by
  rcases h with h | ⟨h1, _, _⟩
  · exact h
  · rw [h1] at ha; simp at ha

theorem skipWsLoop_caseEq {l1 l2 : List Nat} (h : List.Forall₂ caseEq l1 l2) :
    ∀ k, skipWsLoop l1 k = skipWsLoop l2 k := by
  induction h with
  | nil => intro k; rfl
  | cons hab _ ih =>
    intro k
    simp only [skipWsLoop, caseEq_isWs hab, ih]

theorem scanIdentLoop_caseEq {l1 l2 : List Nat} (h : List.Forall₂ caseEq l1 l2) :
    ∀ (idx : Nat) (ident : List Nat) (i0 b0 : Nat),
      scanIdentLoop l1 idx ident i0 b0 = scanIdentLoop l2 idx ident i0 b0 := by
  induction h with
  | nil => intro idx ident i0 b0; rfl
  | @cons a b l1 l2 hab _ ih =>
    intro idx ident i0 b0
    have hl := caseEq_isLetter hab
    have hu := caseEq_upper hab
    unfold isLetter at hl
    unfold upper at hu
    unfold scanIdentLoop
    simp only [hl, hu, ih]
    split
    · rfl
    · rename_i hnl
      have : isLetter b = false := by unfold isLetter; simpa using hnl
      have hab2 : a = b := by
        apply caseEq_of_not_letter hab
        rw [caseEq_isLetter hab]; exact this
      rw [hab2]

theorem caseSim_length {s1 s2 : scanner} (h : caseSim s1 s2) :
    s1.raw.length = s2.raw.length := h.2.2.length_eq

theorem skipWs_caseSim {s1 s2 : scanner} (h : caseSim s1 s2) :
    caseSim (skipWs s1) (skipWs s2) := by
  have hlen := caseSim_length h
  obtain ⟨raw1, i1, o1⟩ := s1
  obtain ⟨raw2, i2, o2⟩ := s2
  have h0 := h
  obtain ⟨hi, ho, hr⟩ := h
  simp only at hi ho hr hlen
  subst hi ho
  unfold skipWs
  simp only
  rw [skipWsLoop_caseEq (List.forall₂_drop i1 hr) 0, hlen]
  split
  · exact h0
  · split
    · exact ⟨rfl, rfl, hr⟩
    · exact h0

theorem scanIdent_caseSim {s1 s2 : scanner} (h : caseSim s1 s2) :
    (scanIdent s1).1 = (scanIdent s2).1 ∧ caseSim (scanIdent s1).2 (scanIdent s2).2 := by
  have h1 := skipWs_caseSim h
  unfold scanIdent
  simp only
  generalize skipWs s1 = t1 at h1 ⊢
  generalize skipWs s2 = t2 at h1 ⊢
  have hlen := caseSim_length h1
  obtain ⟨raw1, i1, o1⟩ := t1
  obtain ⟨raw2, i2, o2⟩ := t2
  have h0 := h1
  obtain ⟨hi, ho, hr⟩ := h1
  simp only at hi ho hr hlen
  subst hi ho
  simp only
  rw [scanIdentLoop_caseEq (List.forall₂_drop i1 hr) 0 [] 0 0, hlen]
  split
  · exact ⟨rfl, h0⟩
  · split
    · exact ⟨rfl, h0⟩
    · exact ⟨rfl, rfl, rfl, hr⟩


theorem mem_take_of_drop {l : List Nat} {i p a : Nat} {r : List Nat}
    (h : l.drop i = a :: r) (hip : i < p) : a ∈ l.take p := by
  have hp : p = i + (p - i) := by omega
  rw [hp, List.take_add, h]
  obtain ⟨k, hk⟩ : ∃ k, p - i = k + 1 := ⟨p - i - 1, by omega⟩
  rw [hk]
  simp

theorem drop_eq_of_le {l1 l2 : List Nat} {p q : Nat} (h : l1.drop p = l2.drop p)
    (hpq : p ≤ q) : l1.drop q = l2.drop q := by
  have hq : q = p + (q - p) := by omega
  rw [hq, ← List.drop_drop, ← List.drop_drop, h]

/-- Method `scanStart` on two buffers that differ in the case of letters only and agree from
position `p` on, the bytes before `p` being white space and letters: either both calls
succeed and leave scanners that agree on the unread bytes, or both fail. -/
theorem scanStart_caseSim {s1 s2 : scanner} (p : Nat) (h : caseSim s1 s2)
    (hd : s1.raw.drop p = s2.raw.drop p)
    (hreg : ∀ x ∈ s1.raw.take p, isWs x = true ∨ isLetter x = true) :
    (∃ t1 t2, scanStart s1 = (.ok (), t1) ∧ scanStart s2 = (.ok (), t2) ∧ tailEq t1 t2) ∨
    (∃ e1 e2 t1 t2, scanStart s1 = (.error e1, t1) ∧ scanStart s2 = (.error e2, t2) ∧
      (e1 = e2 ∨ ∃ c1 c2, e1 = .expectOpen c1 ∧ e2 = .expectOpen c2)) := by
  have h1 := skipWs_caseSim h
  rw [← skipWs_raw s1] at hd hreg
  rw [← skipWs_raw s2] at hd
  unfold scanStart
  simp only
  generalize skipWs s1 = t1 at h1 hd hreg ⊢
  generalize skipWs s2 = t2 at h1 hd ⊢
  have hlen := caseSim_length h1
  obtain ⟨raw1, i1, o1⟩ := t1
  obtain ⟨raw2, i2, o2⟩ := t2
  obtain ⟨hi, ho, hr⟩ := h1
  simp only at hi ho hr hlen hd hreg
  subst hi ho
  have hdr := List.forall₂_drop i1 hr
  rw [peek_eq_head, peek_eq_head]
  simp only
  generalize hc1 : raw1.drop i1 = d1 at hdr ⊢
  generalize hc2 : raw2.drop i1 = d2 at hdr ⊢
  cases hdr with
  | nil =>
    right
    exact ⟨_, _, _, _, rfl, rfl, Or.inl rfl⟩
  | @cons a b l1 l2 hab hl =>
    simp only
    by_cases ha : a = 40
    · subst ha
      have hb : 40 = b := caseEq_of_not_letter hab (by decide)
      subst hb
      left
      have hge : p ≤ i1 := by
        by_contra hlt
        have hm := mem_take_of_drop hc1 (by omega : i1 < p)
        rcases hreg 40 hm with h2 | h2 <;> simp [isWs, isLetter] at h2
      refine ⟨_, _, rfl, rfl, rfl, rfl, hlen, ?_⟩
      exact drop_eq_of_le hd (by simp; omega)
    · have hb : b ≠ 40 := by
        intro hb
        subst hb
        rcases hab with h2 | ⟨_, h3, _⟩
        · exact ha h2
        · simp [isLetter] at h3
      right
      refine ⟨.expectOpen a, .expectOpen b, { raw := raw1, i := i1, opt := o1 },
        { raw := raw2, i := i1, opt := o1 }, ?_, ?_, Or.inr ⟨a, b, rfl, rfl⟩⟩
      · simp [ha]
      · simp [hb]


theorem scanCoords_of_start_ok {F : Type} (N : Num F) (multi : Bool) {s1 s2 t1 t2 : scanner}
    (h1 : scanStart s1 = (.ok (), t1)) (h2 : scanStart s2 = (.ok (), t2)) (ht : tailEq t1 t2) :
    (scanCoords (F := F) N multi s1).1 = (scanCoords (F := F) N multi s2).1 ∧
      (scanCoords (F := F) N multi s1).2.opt = (scanCoords (F := F) N multi s2).2.opt := by
  have hlen : t1.raw.length = t2.raw.length := ht.2.2.1
  unfold scanCoords
  rw [h1, h2]
  simp only
  cases multi with
  | false =>
    simp only [Bool.false_eq_true, if_false]
    rw [hlen]
    have := scanCoordsLoop_tailEq (F := F) N false (t2.raw.length + 1) t1 t2 [] ht
    exact ⟨this.1, this.2.2.1⟩
  | true =>
    simp only [if_true]
    obtain ⟨hr3, ht3⟩ := scanStart_tailEq ht
    cases h3 : scanStart t1 with
    | mk r3 u1 =>
      cases h4 : scanStart t2 with
      | mk r4 u2 =>
        rw [h3, h4] at hr3 ht3
        simp only at hr3 ht3
        subst hr3
        have hlen2 : u1.raw.length = u2.raw.length := ht3.2.2.1
        cases r3 with
        | error e =>
          simp only
          rw [hlen2]
          have := scanCoordsLoop_tailEq (F := F) N false (u2.raw.length + 1) u1 u2 [] ht3
          exact ⟨this.1, this.2.2.1⟩
        | ok u =>
          simp only
          rw [hlen2]
          have := scanCoordsLoop_tailEq (F := F) N true (u2.raw.length + 1) u1 u2 [] ht3
          exact ⟨this.1, this.2.2.1⟩

theorem scanPolydata_of_start_ok {F : Type} (N : Num F) {s1 s2 t1 t2 : scanner}
    (h1 : scanStart s1 = (.ok (), t1)) (h2 : scanStart s2 = (.ok (), t2)) (ht : tailEq t1 t2) :
    (scanPolydata (F := F) N s1).1 = (scanPolydata (F := F) N s2).1 ∧
      (scanPolydata (F := F) N s1).2.opt = (scanPolydata (F := F) N s2).2.opt := by
  have hlen : t1.raw.length = t2.raw.length := ht.2.2.1
  unfold scanPolydata
  rw [h1, h2]
  simp only
  rw [hlen]
  have := scanPolydataLoop_tailEq (F := F) N (t2.raw.length + 1) t1 t2 [] ht
  exact ⟨this.1, this.2.2.1⟩

theorem scanMultiPolydata_of_start_ok {F : Type} (N : Num F) {s1 s2 t1 t2 : scanner}
    (h1 : scanStart s1 = (.ok (), t1)) (h2 : scanStart s2 = (.ok (), t2)) (ht : tailEq t1 t2) :
    (scanMultiPolydata (F := F) N s1).1 = (scanMultiPolydata (F := F) N s2).1 ∧
      (scanMultiPolydata (F := F) N s1).2.opt = (scanMultiPolydata (F := F) N s2).2.opt := by
  have hlen : t1.raw.length = t2.raw.length := ht.2.2.1
  unfold scanMultiPolydata
  rw [h1, h2]
  simp only
  rw [hlen]
  have := scanMultiPolydataLoop_tailEq (F := F) N (t2.raw.length + 1) t1 t2 [] ht
  exact ⟨this.1, this.2.2.1⟩

/-- Method `scanBody` on two scanners whose opening `(` is read alike. -/
theorem scanBody_of_start_ok {F : Type} (N : Num F) (ident : List Nat) {s1 s2 t1 t2 : scanner}
    (h1 : scanStart s1 = (.ok (), t1)) (h2 : scanStart s2 = (.ok (), t2)) (ht : tailEq t1 t2) :
    (scanBody (F := F) N ident s1).1 = (scanBody (F := F) N ident s2).1 := by
  unfold scanBody
  split
  · obtain ⟨hr, ho⟩ := scanCoords_of_start_ok (F := F) N (ident == ascii "MULTIPOINT") h1 h2 ht
    cases hc1 : scanCoords (F := F) N (ident == ascii "MULTIPOINT") s1 with
    | mk r1 u1 =>
      cases hc2 : scanCoords (F := F) N (ident == ascii "MULTIPOINT") s2 with
      | mk r2 u2 =>
        rw [hc1, hc2] at hr ho
        simp only at hr ho
        subst hr
        cases r1 with
        | error e => rfl
        | ok cs =>
          simp only
          rw [ho]
          split
          · split
            · rfl
            · split <;> rfl
          · split <;> rfl
  · split
    · obtain ⟨hr, ho⟩ := scanPolydata_of_start_ok (F := F) N h1 h2 ht
      cases hc1 : scanPolydata (F := F) N s1 with
      | mk r1 u1 =>
        cases hc2 : scanPolydata (F := F) N s2 with
        | mk r2 u2 =>
          rw [hc1, hc2] at hr ho
          simp only at hr ho
          subst hr
          cases r1 with
          | error e => rfl
          | ok cs => simp only; rw [ho]
    · split
      · obtain ⟨hr, ho⟩ := scanMultiPolydata_of_start_ok (F := F) N h1 h2 ht
        cases hc1 : scanMultiPolydata (F := F) N s1 with
        | mk r1 u1 =>
          cases hc2 : scanMultiPolydata (F := F) N s2 with
          | mk r2 u2 =>
            rw [hc1, hc2] at hr ho
            simp only at hr ho
            subst hr
            cases r1 with
            | error e => rfl
            | ok cs => simp only; rw [ho]
      · rfl

/-- Method `scanBody` when the opening `(` cannot be read: the error of `scanStart` for a
known identifier, "unknown geom" otherwise. -/
theorem scanBody_of_start_error {F : Type} (N : Num F) (ident : List Nat) {s t : scanner}
    {e : Err} (h : scanStart s = (.error e, t)) :
    (knownIdent ident → (scanBody (F := F) N ident s).1 = .error e) ∧
    (¬ knownIdent ident → (scanBody (F := F) N ident s).1 = .error (.unknownGeom ident)) := by
  unfold knownIdent
  constructor
  · intro hk
    unfold scanBody
    split
    · unfold scanCoords; rw [h]
    · rename_i h1
      split
      · unfold scanPolydata; rw [h]
      · rename_i h2
        split
        · unfold scanMultiPolydata; rw [h]
        · rename_i h3
          rcases hk with hk | hk | hk | hk | hk
          · exact absurd (Or.inl hk) h1
          · exact absurd (Or.inr (Or.inl hk)) h1
          · exact absurd (Or.inr (Or.inr hk)) h1
          · exact absurd hk h2
          · exact absurd hk h3
  · intro hk
    have h1 : ident ≠ ascii "POINT" := fun hc => hk (Or.inl hc)
    have h2 : ident ≠ ascii "MULTIPOINT" := fun hc => hk (Or.inr (Or.inl hc))
    have h3 : ident ≠ ascii "LINESTRING" := fun hc => hk (Or.inr (Or.inr (Or.inl hc)))
    have h4 : ident ≠ ascii "POLYGON" := fun hc => hk (Or.inr (Or.inr (Or.inr (Or.inl hc))))
    have h5 : ident ≠ ascii "MULTIPOLYGON" :=
      fun hc => hk (Or.inr (Or.inr (Or.inr (Or.inr hc))))
    rw [scanBody_unknown N ident s h1 h2 h3 h4 h5]

/-- Function `Parse` on two inputs that differ in the case of letters only, agree from position
`p` on and have only white space and letters before `p`: the results are equal, or both are
the error "expect '(' got ..." for two bytes. -/
theorem Parse_caseSim {F : Type} (N : Num F) (d1 d2 : List Nat) (p : Nat)
    (hsim : List.Forall₂ caseEq d1 d2) (hd : d1.drop p = d2.drop p)
    (hreg : ∀ x ∈ d1.take p, isWs x = true ∨ isLetter x = true) :
    Parse (F := F) N d1 = Parse N d2 ∨
      ∃ c1 c2, Parse (F := F) N d1 = .error (.expectOpen c1) ∧
        Parse (F := F) N d2 = .error (.expectOpen c2) := by
  have h0 : caseSim { raw := d1, i := 0, opt := 0 } { raw := d2, i := 0, opt := 0 } :=
    ⟨rfl, rfl, hsim⟩
  obtain ⟨hr1, hs1⟩ := scanIdent_caseSim h0
  cases hi1 : scanIdent { raw := d1, i := 0, opt := 0 } with
  | mk r1 t1 =>
    cases hi2 : scanIdent { raw := d2, i := 0, opt := 0 } with
    | mk r2 t2 =>
      rw [hi1, hi2] at hr1 hs1
      simp only at hr1 hs1
      subst hr1
      cases r1 with
      | error e =>
        left
        unfold Parse scanGeom
        rw [hi1, hi2]
      | ok ident =>
        rw [Parse_of_ident N d1 ident t1 hi1, Parse_of_ident N d2 ident t2 hi2]
        obtain ⟨hr2, hs2⟩ := scanIdent_caseSim hs1
        rw [hr2]
        have hraw1 : (scanIdent t1).2.raw = d1 := by
          rw [(scanIdent_frame t1).1, (scanIdent_frame_eq hi1).1]
        have hraw2 : (scanIdent t2).2.raw = d2 := by
          rw [(scanIdent_frame t2).1, (scanIdent_frame_eq hi2).1]
        have hsim2 : caseSim
            { (scanIdent t1).2 with opt := optOfIdent (identOr (scanIdent t2).1) }
            { (scanIdent t2).2 with opt := optOfIdent (identOr (scanIdent t2).1) } :=
          ⟨hs2.1, rfl, hs2.2.2⟩
        rcases scanStart_caseSim p hsim2 (by simp only; rw [hraw1, hraw2]; exact hd)
            (by simp only; rw [hraw1]; exact hreg) with
          ⟨u1, u2, hu1, hu2, hu⟩ | ⟨e1, e2, u1, u2, hu1, hu2, he⟩
        · left
          exact scanBody_of_start_ok N ident hu1 hu2 hu
        · have hb1 := scanBody_of_start_error (F := F) N ident hu1
          have hb2 := scanBody_of_start_error (F := F) N ident hu2
          by_cases hk : knownIdent ident
          · rw [hb1.1 hk, hb2.1 hk]
            rcases he with he | ⟨c1, c2, hc1, hc2⟩
            · left; rw [he]
            · right; exact ⟨c1, c2, by rw [hc1], by rw [hc2]⟩
          · left
            rw [hb1.2 hk, hb2.2 hk]


theorem forall2_caseEq_refl (l : List Nat) : List.Forall₂ caseEq l l :=
  List.forall₂_same.mpr (fun _ _ => Or.inl rfl)

theorem forall2_caseEq_letters :
    ∀ (k1 k2 : List Nat), (∀ x ∈ k1, isLetter x = true) → (∀ x ∈ k2, isLetter x = true) →
      k1.map upper = k2.map upper → List.Forall₂ caseEq k1 k2
  | [], [], _, _, _ => List.Forall₂.nil
  | [], _ :: _, _, _, h => by simp at h
  | _ :: _, [], _, _, h => by simp at h
  | a :: k1, b :: k2, h1, h2, h => by
    simp only [List.map_cons, List.cons.injEq] at h
    exact List.Forall₂.cons (Or.inr ⟨h1 a (by simp), h2 b (by simp), h.1⟩)
      (forall2_caseEq_letters k1 k2 (fun x hx => h1 x (by simp [hx]))
        (fun x hx => h2 x (by simp [hx])) h.2)

theorem forall2_caseEq_append {a1 a2 b1 b2 : List Nat} (ha : List.Forall₂ caseEq a1 a2)
    (hb : List.Forall₂ caseEq b1 b2) : List.Forall₂ caseEq (a1 ++ b1) (a2 ++ b2) := by
  induction ha with
  | nil => exact hb
  | cons h _ ih => exact List.Forall₂.cons h ih

theorem Equal_self {F : Type} (N : Num F) (g : Geom F)
    (h : ∀ c ∈ g.coords, coordEq N c c = true) : Geom.Equal N g g = true := by
  rw [Equal_iff_sameGeom]
  have hc : ∀ c ∈ g.coords, sameCoord N c c := fun c hc => (coordEq_iff N c c).mp (h c hc)
  cases g with
  | Point c o => exact ⟨rfl, hc c (by simp [Geom.coords])⟩
  | MultiPoint cs o =>
    exact ⟨rfl, List.forall₂_same.mpr (fun c h1 => hc c (by simpa [Geom.coords] using h1))⟩
  | LineString cs o =>
    exact ⟨rfl, List.forall₂_same.mpr (fun c h1 => hc c (by simpa [Geom.coords] using h1))⟩
  | Polygon rs o =>
    refine ⟨rfl, List.forall₂_same.mpr (fun r hr => List.forall₂_same.mpr (fun c h1 => ?_))⟩
    exact hc c (by simp only [Geom.coords, List.mem_flatten]; exact ⟨r, hr, h1⟩)
  | MultiPolygon ps o =>
    refine ⟨rfl, List.forall₂_same.mpr (fun q hq => List.forall₂_same.mpr (fun r hr =>
      List.forall₂_same.mpr (fun c h1 => ?_)))⟩
    exact hc c (by
      simp only [Geom.coords, List.mem_flatten]
      exact ⟨r, ⟨q, hq, hr⟩, h1⟩)

/-- C10: two inputs that differ only in the case of the letters of the leading keyword and of
the dimension suffix have the same outcome: `Parse` fails on both (with the same error, or
with the error "expect '(' got ..." naming the two variants of a letter), or it succeeds on
both with the same geometry (same variant, same `Opt`, same coordinates), and the two results
are `Equal` as soon as every coordinate is `==` to itself. -/
theorem C10_case_insensitive {F : Type} (N : Num F)
    (ws0 kw1 kw2 ws1 sfx1 sfx2 rest : List Nat)
    (hws0 : ∀ x ∈ ws0, isWs x = true)
    (hk1 : ∀ x ∈ kw1, isLetter x = true) (hk2 : ∀ x ∈ kw2, isLetter x = true)
    (hk : kw1.map upper = kw2.map upper)
    (hws1 : ∀ x ∈ ws1, isWs x = true)
    (hs1 : ∀ x ∈ sfx1, isLetter x = true) (hs2 : ∀ x ∈ sfx2, isLetter x = true)
    (hs : sfx1.map upper = sfx2.map upper) :
    (Parse (F := F) N (ws0 ++ (kw1 ++ (ws1 ++ (sfx1 ++ rest)))) =
        Parse N (ws0 ++ (kw2 ++ (ws1 ++ (sfx2 ++ rest)))) ∨
      ∃ c1 c2,
        Parse (F := F) N (ws0 ++ (kw1 ++ (ws1 ++ (sfx1 ++ rest)))) = .error (.expectOpen c1) ∧
        Parse (F := F) N (ws0 ++ (kw2 ++ (ws1 ++ (sfx2 ++ rest)))) = .error (.expectOpen c2)) ∧
    ∀ g1 g2 : Geom F, Parse N (ws0 ++ (kw1 ++ (ws1 ++ (sfx1 ++ rest)))) = .ok g1 →
      Parse N (ws0 ++ (kw2 ++ (ws1 ++ (sfx2 ++ rest)))) = .ok g2 →
      g1 = g2 ∧ ((∀ c ∈ g1.coords, coordEq N c c = true) → Geom.Equal N g1 g2 = true) := by
  have hsim : List.Forall₂ caseEq (ws0 ++ (kw1 ++ (ws1 ++ (sfx1 ++ rest))))
      (ws0 ++ (kw2 ++ (ws1 ++ (sfx2 ++ rest)))) :=
    forall2_caseEq_append (forall2_caseEq_refl ws0)
      (forall2_caseEq_append (forall2_caseEq_letters kw1 kw2 hk1 hk2 hk)
        (forall2_caseEq_append (forall2_caseEq_refl ws1)
          (forall2_caseEq_append (forall2_caseEq_letters sfx1 sfx2 hs1 hs2 hs)
            (forall2_caseEq_refl rest))))
  have hlk : kw1.length = kw2.length := by
    have := congrArg List.length hk; simpa using this
  have hls : sfx1.length = sfx2.length := by
    have := congrArg List.length hs; simpa using this
  have e1 : ws0 ++ (kw1 ++ (ws1 ++ (sfx1 ++ rest))) = (ws0 ++ (kw1 ++ (ws1 ++ sfx1))) ++ rest := by
    simp
  have e2 : ws0 ++ (kw2 ++ (ws1 ++ (sfx2 ++ rest))) = (ws0 ++ (kw2 ++ (ws1 ++ sfx2))) ++ rest := by
    simp
  have hlen : (ws0 ++ (kw2 ++ (ws1 ++ sfx2))).length = (ws0 ++ (kw1 ++ (ws1 ++ sfx1))).length := by
    simp [hlk, hls]
  have hd : (ws0 ++ (kw1 ++ (ws1 ++ (sfx1 ++ rest)))).drop (ws0 ++ (kw1 ++ (ws1 ++ sfx1))).length =
      (ws0 ++ (kw2 ++ (ws1 ++ (sfx2 ++ rest)))).drop (ws0 ++ (kw1 ++ (ws1 ++ sfx1))).length := by
    rw [e1, List.drop_left, e2, ← hlen, List.drop_left]
  have hreg : ∀ x ∈ (ws0 ++ (kw1 ++ (ws1 ++ (sfx1 ++ rest)))).take
      (ws0 ++ (kw1 ++ (ws1 ++ sfx1))).length, isWs x = true ∨ isLetter x = true := by
    rw [e1, List.take_left]
    intro x hx
    simp only [List.mem_append] at hx
    rcases hx with h | h | h | h
    · exact Or.inl (hws0 x h)
    · exact Or.inr (hk1 x h)
    · exact Or.inl (hws1 x h)
    · exact Or.inr (hs1 x h)
  have hmain := Parse_caseSim (F := F) N _ _ _ hsim hd hreg
  refine ⟨hmain, ?_⟩
  intro g1 g2 h1 h2
  have hg : g1 = g2 := by
    rcases hmain with h | ⟨c1, c2, hc1, _⟩
    · rw [h1, h2] at h
      simpa using h
    · rw [h1] at hc1; simp at hc1
  subst hg
  exact ⟨rfl, Equal_self N g1⟩

theorem C10_case_insensitive_witness :
    Parse dec (ascii " point z(1 2 3)") = .ok (.Point ⟨1, 2, 3, 0⟩ Z) ∧
    Parse dec (ascii " PoInT Z(1 2 3)") = .ok (.Point ⟨1, 2, 3, 0⟩ Z) ∧
    Geom.Equal dec (.Point ⟨1, 2, 3, 0⟩ Z) (.Point ⟨1, 2, 3, 0⟩ Z) = true :=
  ⟨by rfl, by rfl,
    ((C10_case_insensitive dec (ascii " ") (ascii "point") (ascii "PoInT") (ascii " ")
      (ascii "z") (ascii "Z") (ascii "(1 2 3)") (by decide) (by decide) (by decide) (by decide)
      (by decide) (by decide) (by decide) (by decide)).2 (.Point ⟨1, 2, 3, 0⟩ Z)
      (.Point ⟨1, 2, 3, 0⟩ Z) (by rfl) (by rfl)).2 (by decide)⟩

/-- C10, counterexample: `point(nan 0)` and `POINT(nan 0)` differ only in the case of the
letters of the keyword; `Parse` succeeds on both with the same Point, whose `X` is NaN, and
the two results are not `Equal`. -/
theorem C10_counterexample :
    Parse decNaN (ascii "point(nan 0)") = .ok (.Point ⟨none, some 0, some 0, some 0⟩ 0) ∧
    Parse decNaN (ascii "POINT(nan 0)") = .ok (.Point ⟨none, some 0, some 0, some 0⟩ 0) ∧
    Geom.Equal decNaN (.Point ⟨none, some 0, some 0, some 0⟩ 0)
      (.Point ⟨none, some 0, some 0, some 0⟩ 0) = false :=
  ⟨by rfl, by rfl, by rfl⟩

/-! ## Progress of the cursor and adequacy of the fuel -/

theorem peek_ok_lt {s : scanner} {b : Nat} (h : peek s = .ok b) : s.i < s.raw.length := by
  unfold peek at h
  split at h
  · simp at h
  · omega

theorem peek_error {s : scanner} {e : Err} (h : peek s = .error e) : e = .unexpectedEOF := by
  unfold peek at h
  split at h
  · simp at h; exact h.symm
  · simp at h

theorem scanStart_ok_pos {s t : scanner} (h : scanStart s = (.ok (), t)) :
    s.i < t.i ∧ t.i ≤ s.raw.length := by
  unfold scanStart at h
  simp only at h
  split at h
  · simp at h
  · rename_i c hp
    have h1 := peek_ok_lt hp
    have h2 := skipWs_le s
    rw [skipWs_raw] at h1
    split at h
    · simp at h
    · simp at h
      rw [← h]
      simp only
      omega

theorem scanContinue_ok_pos {s t : scanner} {b : Bool} (h : scanContinue s = (.ok b, t)) :
    s.i < t.i ∧ t.i ≤ s.raw.length := by
  unfold scanContinue at h
  simp only at h
  split at h
  · simp at h
  · rename_i c hp
    have h1 := peek_ok_lt hp
    have h2 := skipWs_le s
    rw [skipWs_raw] at h1
    split at h
    · simp at h
    · simp at h
      rw [← h.2]
      simp only
      omega

theorem scanStart_le {s t : scanner} {r : Except Err Unit} (h : scanStart s = (r, t)) :
    s.i ≤ t.i := by
  have := skipWs_le s
  unfold scanStart at h
  simp only at h
  split at h
  · simp at h; rw [← h.2]; exact this
  · split at h
    · simp at h; rw [← h.2]; exact this
    · simp at h; rw [← h.2]; simp only; omega

theorem scanContinue_le {s t : scanner} {r : Except Err Bool} (h : scanContinue s = (r, t)) :
    s.i ≤ t.i := by
  have := skipWs_le s
  unfold scanContinue at h
  simp only at h
  split at h
  · simp at h; rw [← h.2]; exact this
  · split at h
    · simp at h; rw [← h.2]; exact this
    · simp at h; rw [← h.2]; simp only; omega

theorem scanStart_error {s t : scanner} {e : Err} (h : scanStart s = (.error e, t)) :
    e = .unexpectedEOF ∨ ∃ c, e = .expectOpen c := by
  unfold scanStart at h
  simp only at h
  split at h
  · rename_i e2 hp
    simp at h
    rw [← h.1]
    exact Or.inl (peek_error hp)
  · split at h
    · simp at h; exact Or.inr ⟨_, h.1.symm⟩
    · simp at h

theorem scanContinue_error {s t : scanner} {e : Err} (h : scanContinue s = (.error e, t)) :
    e = .unexpectedEOF ∨ ∃ c, e = .expectCommaOrClose c := by
  unfold scanContinue at h
  simp only at h
  split at h
  · rename_i e2 hp
    simp at h
    rw [← h.1]
    exact Or.inl (peek_error hp)
  · split at h
    · simp at h; exact Or.inr ⟨_, h.1.symm⟩
    · simp at h

theorem scanStart_sound {s t : scanner} {e : Err} (h : scanStart s = (.error e, t)) :
    ¬ e.artefact := by
  rcases scanStart_error h with h1 | ⟨c, h1⟩ <;> subst h1 <;> simp [Err.artefact]

theorem scanContinue_sound {s t : scanner} {e : Err} (h : scanContinue s = (.error e, t)) :
    ¬ e.artefact := by
  rcases scanContinue_error h with h1 | ⟨c, h1⟩ <;> subst h1 <;> simp [Err.artefact]

/-- The loop of `scanCoord` never leaves the cursor in front of the position of its reader, it
fails with the error of `fmt.Fscan` or of the exhausted input only, and a result with the comma
flag has consumed the comma. -/
theorem scanFields_pos {F : Type} (N : Num F) :
    ∀ (fs : List Fld) (r : List Nat) (c : Coord F) (s : scanner) (n : Nat),
      s.raw.length - r.length ≤ s.i →
      s.raw.length - r.length ≤ (scanFields N fs r c s n).1.2.i ∧
      (∀ e, (scanFields N fs r c s n).1.1 = .error e → e = .fscan ∨ e = .unexpectedEOF) ∧
      (∀ c2, (scanFields N fs r c s n).1.1 = .ok (c2, true) →
        s.raw.length - r.length < (scanFields N fs r c s n).1.2.i ∧
        (scanFields N fs r c s n).1.2.i ≤ s.raw.length)
  | [], r, c, s, n, h => by simp [scanFields, h]
  | f :: fs, r, c, s, n, h => by
    unfold scanFields
    split
    · refine ⟨by simp [h], ?_, by simp⟩
      intro e he
      simp at he
      exact Or.inl he.symm
    · rename_i v k hf
      simp only
      have hle := skipWs_le { s with i := s.raw.length - (r.drop k).length }
      simp only at hle
      have hlen : (r.drop k).length ≤ r.length := by rw [List.length_drop]; omega
      split
      · refine ⟨by simp only; omega, ?_, by simp⟩
        intro e he
        simp at he
        exact Or.inr he.symm
      · rename_i b hp
        have hlt := peek_ok_lt hp
        rw [skipWs_raw] at hlt
        simp only at hlt
        split
        · refine ⟨by simp only; omega, by simp, ?_⟩
          intro c2 _
          simp only
          omega
        · have ih := scanFields_pos N fs (r.drop k) (c.set f v)
            (skipWs { s with i := s.raw.length - (r.drop k).length }) (n + 1)
            (by rw [skipWs_raw]; exact hle)
          rw [skipWs_raw] at ih
          simp only at ih
          refine ⟨by omega, ih.2.1, ?_⟩
          intro c2 hc2
          have := ih.2.2 c2 hc2
          omega

theorem scanCoord_pos {F : Type} (N : Num F) (s : scanner) :
    s.i ≤ (scanCoord N s).2.i ∧
    (∀ e, (scanCoord N s).1 = .error e → e = .fscan ∨ e = .unexpectedEOF) ∧
    (∀ c, (scanCoord N s).1 = .ok (c, true) →
      s.i < (scanCoord N s).2.i ∧ (scanCoord N s).2.i ≤ s.raw.length) := by
  have hle := skipWs_le s
  have hl : (skipWs s).raw.length = s.raw.length := by rw [skipWs_raw]
  unfold scanCoord scanCoordCount
  simp only
  split
  · refine ⟨hle, ?_, by simp⟩
    intro e he
    simp at he
    exact Or.inr he.symm
  · rename_i hlt
    have hd : ((skipWs s).raw.drop (skipWs s).i).length =
        (skipWs s).raw.length - (skipWs s).i := List.length_drop _ _
    have h := scanFields_pos N
      (if (skipWs s).opt == M then [Fld.X, Fld.Y, Fld.M] else [Fld.X, Fld.Y, Fld.Z, Fld.M])
      ((skipWs s).raw.drop (skipWs s).i) (Coord.zero N) (skipWs s) 0
      (by omega)
    refine ⟨by omega, h.2.1, ?_⟩
    intro c hc
    have := h.2.2 c hc
    omega

theorem scanCoord_sound {F : Type} {N : Num F} {s t : scanner} {e : Err}
    (h : scanCoord N s = (.error e, t)) : ¬ e.artefact := by
  have := (scanCoord_pos N s).2.1 e (by rw [h])
  rcases this with h1 | h1 <;> subst h1 <;> simp [Err.artefact]

theorem scanCoordsLoop_pos {F : Type} (N : Num F) (multi : Bool) :
    ∀ (fuel : Nat) (s : scanner) (cs : List (Coord F)),
      s.i ≤ (scanCoordsLoop N multi fuel s cs).2.i ∧
      (s.raw.length - s.i < fuel →
        ∀ e, (scanCoordsLoop N multi fuel s cs).1 = .error e → ¬ e.artefact) := by
  intro fuel
  induction fuel with
  | zero => intro s cs; simp [scanCoordsLoop]
  | succ n ih =>
    intro s cs
    have hp := scanCoord_pos N s
    unfold scanCoordsLoop
    cases h1 : scanCoord N s with
    | mk r1 t1 =>
      rw [h1] at hp
      simp only at hp
      have hf := (scanCoord_frame_eq h1).1
      cases r1 with
      | error e =>
        refine ⟨hp.1, fun _ e2 he2 => ?_⟩
        simp at he2
        rw [← he2]
        exact scanCoord_sound h1
      | ok cc =>
        obtain ⟨c, comma⟩ := cc
        simp only
        cases comma with
        | true =>
          simp only [if_true]
          have hlt := hp.2.2 c rfl
          cases multi with
          | true =>
            refine ⟨hp.1, fun _ e2 he2 => ?_⟩
            simp at he2
            rw [← he2]; simp [Err.artefact]
          | false =>
            simp only [Bool.false_eq_true, if_false]
            have := ih t1 (cs ++ [c])
            rw [hf] at this
            exact ⟨by omega, fun hfuel => this.2 (by omega)⟩
        | false =>
          simp only [Bool.false_eq_true, if_false]
          cases multi with
          | false => exact ⟨hp.1, fun _ => by simp⟩
          | true =>
            simp only [if_true]
            cases h3 : scanContinue t1 with
            | mk r3 u1 =>
              have hf3 := (scanContinue_frame_eq h3).1
              have hle3 := scanContinue_le h3
              cases r3 with
              | error e =>
                simp only
                refine ⟨by omega, fun _ e2 he2 => ?_⟩
                simp at he2
                rw [← he2]
                exact scanContinue_sound h3
              | ok comma2 =>
                have hp3 := scanContinue_ok_pos h3
                simp only
                cases comma2 with
                | false =>
                  simp only [Bool.false_eq_true, if_false]
                  exact ⟨by omega, fun _ => by simp⟩
                | true =>
                  simp only [if_true]
                  cases h5 : scanStart u1 with
                  | mk r5 v1 =>
                    have hf5 := (scanStart_frame_eq h5).1
                    have hle5 := scanStart_le h5
                    cases r5 with
                    | error e =>
                      simp only
                      refine ⟨by omega, fun _ e2 he2 => ?_⟩
                      simp at he2
                      rw [← he2]
                      exact scanStart_sound h5
                    | ok u =>
                      have hp5 := scanStart_ok_pos h5
                      have := ih v1 (cs ++ [c])
                      rw [hf5, hf3, hf] at this
                      rw [hf3, hf] at hp5
                      rw [hf] at hp3
                      simp only
                      exact ⟨by omega, fun hfuel => this.2 (by omega)⟩

/-- Method `scanCoords` never moves the cursor backwards, and the fuel of its loop is enough:
its errors are Go errors. -/
theorem scanCoords_pos {F : Type} (N : Num F) (multi : Bool) (s : scanner) :
    s.i ≤ (scanCoords (F := F) N multi s).2.i ∧
    (∀ e, (scanCoords (F := F) N multi s).1 = .error e → ¬ e.artefact) := by
  unfold scanCoords
  cases h1 : scanStart s with
  | mk r1 t1 =>
    have hle1 := scanStart_le h1
    cases r1 with
    | error e =>
      simp only
      refine ⟨hle1, fun e2 he2 => ?_⟩
      simp at he2
      rw [← he2]
      exact scanStart_sound h1
    | ok u =>
      simp only
      cases multi with
      | false =>
        simp only [Bool.false_eq_true, if_false]
        have := scanCoordsLoop_pos (F := F) N false (t1.raw.length + 1) t1 []
        exact ⟨by omega, this.2 (by omega)⟩
      | true =>
        simp only [if_true]
        cases h3 : scanStart t1 with
        | mk r3 u1 =>
          have hle3 := scanStart_le h3
          cases r3 with
          | error e =>
            simp only
            have := scanCoordsLoop_pos (F := F) N false (u1.raw.length + 1) u1 []
            exact ⟨by omega, this.2 (by omega)⟩
          | ok u =>
            simp only
            have := scanCoordsLoop_pos (F := F) N true (u1.raw.length + 1) u1 []
            exact ⟨by omega, this.2 (by omega)⟩


theorem scanPolydataLoop_pos {F : Type} (N : Num F) :
    ∀ (fuel : Nat) (s : scanner) (poly : List (List (Coord F))),
      s.i ≤ (scanPolydataLoop N fuel s poly).2.i ∧
      (s.raw.length - s.i < fuel →
        ∀ e, (scanPolydataLoop N fuel s poly).1 = .error e → ¬ e.artefact) := by
  intro fuel
  induction fuel with
  | zero => intro s poly; simp [scanPolydataLoop]
  | succ n ih =>
    intro s poly
    have hp := scanCoords_pos (F := F) N false s
    unfold scanPolydataLoop
    cases h1 : scanCoords (F := F) N false s with
    | mk r1 t1 =>
      rw [h1] at hp
      simp only at hp
      have hf := (scanCoords_frame_eq h1).1
      cases r1 with
      | error e =>
        simp only
        exact ⟨hp.1, fun _ e2 he2 => by simp at he2; rw [← he2]; exact hp.2 e rfl⟩
      | ok cs =>
        simp only
        split
        · refine ⟨hp.1, fun _ e2 he2 => ?_⟩
          simp at he2
          rw [← he2]; simp [Err.artefact]
        · rename_i hlen
          split
          · split
            · refine ⟨hp.1, fun _ e2 he2 => ?_⟩
              simp at he2
              rw [← he2]; simp [Err.artefact]
            · cases h3 : scanContinue t1 with
              | mk r3 u1 =>
                have hf3 := (scanContinue_frame_eq h3).1
                have hle3 := scanContinue_le h3
                cases r3 with
                | error e =>
                  simp only
                  refine ⟨by omega, fun _ e2 he2 => ?_⟩
                  simp at he2
                  rw [← he2]
                  exact scanContinue_sound h3
                | ok comma =>
                  have hp3 := scanContinue_ok_pos h3
                  simp only
                  cases comma with
                  | false =>
                    simp only [Bool.false_eq_true, if_false]
                    exact ⟨by omega, fun _ => by simp⟩
                  | true =>
                    simp only [if_true]
                    have := ih u1 (poly ++ [cs])
                    rw [hf3, hf] at this
                    rw [hf] at hp3
                    exact ⟨by omega, fun hfuel => this.2 (by omega)⟩
          · rename_i hnone
            exfalso
            have hne : cs ≠ [] := by
              intro hc; subst hc; simp at hlen
            exact hnone (cs.head hne) (cs.getLast hne) (List.head?_eq_head hne)
              (List.getLast?_eq_getLast cs hne)

theorem scanPolydata_pos {F : Type} (N : Num F) (s : scanner) :
    s.i ≤ (scanPolydata (F := F) N s).2.i ∧
    (∀ e, (scanPolydata (F := F) N s).1 = .error e → ¬ e.artefact) := by
  unfold scanPolydata
  cases h1 : scanStart s with
  | mk r1 t1 =>
    have hle1 := scanStart_le h1
    cases r1 with
    | error e =>
      simp only
      refine ⟨hle1, fun e2 he2 => ?_⟩
      simp at he2
      rw [← he2]
      exact scanStart_sound h1
    | ok u =>
      simp only
      have := scanPolydataLoop_pos (F := F) N (t1.raw.length + 1) t1 []
      exact ⟨by omega, this.2 (by omega)⟩

theorem scanMultiPolydataLoop_pos {F : Type} (N : Num F) :
    ∀ (fuel : Nat) (s : scanner) (multi : List (List (List (Coord F)))),
      s.i ≤ (scanMultiPolydataLoop N fuel s multi).2.i ∧
      (s.raw.length - s.i < fuel →
        ∀ e, (scanMultiPolydataLoop N fuel s multi).1 = .error e → ¬ e.artefact) := by
  intro fuel
  induction fuel with
  | zero => intro s multi; simp [scanMultiPolydataLoop]
  | succ n ih =>
    intro s multi
    have hp := scanPolydata_pos (F := F) N s
    unfold scanMultiPolydataLoop
    cases h1 : scanPolydata (F := F) N s with
    | mk r1 t1 =>
      rw [h1] at hp
      simp only at hp
      have hf := (scanPolydata_frame_eq h1).1
      cases r1 with
      | error e =>
        simp only
        exact ⟨hp.1, fun _ e2 he2 => by simp at he2; rw [← he2]; exact hp.2 e rfl⟩
      | ok poly =>
        simp only
        cases h3 : scanContinue t1 with
        | mk r3 u1 =>
          have hf3 := (scanContinue_frame_eq h3).1
          have hle3 := scanContinue_le h3
          cases r3 with
          | error e =>
            simp only
            refine ⟨by omega, fun _ e2 he2 => ?_⟩
            simp at he2
            rw [← he2]
            exact scanContinue_sound h3
          | ok comma =>
            have hp3 := scanContinue_ok_pos h3
            simp only
            cases comma with
            | false =>
              simp only [Bool.false_eq_true, if_false]
              exact ⟨by omega, fun _ => by simp⟩
            | true =>
              simp only [if_true]
              have := ih u1 (multi ++ [poly])
              rw [hf3, hf] at this
              rw [hf] at hp3
              exact ⟨by omega, fun hfuel => this.2 (by omega)⟩

theorem scanMultiPolydata_pos {F : Type} (N : Num F) (s : scanner) :
    s.i ≤ (scanMultiPolydata (F := F) N s).2.i ∧
    (∀ e, (scanMultiPolydata (F := F) N s).1 = .error e → ¬ e.artefact) := by
  unfold scanMultiPolydata
  cases h1 : scanStart s with
  | mk r1 t1 =>
    have hle1 := scanStart_le h1
    cases r1 with
    | error e =>
      simp only
      refine ⟨hle1, fun e2 he2 => ?_⟩
      simp at he2
      rw [← he2]
      exact scanStart_sound h1
    | ok u =>
      simp only
      have := scanMultiPolydataLoop_pos (F := F) N (t1.raw.length + 1) t1 []
      exact ⟨by omega, this.2 (by omega)⟩

theorem scanBody_sound {F : Type} (N : Num F) (ident : List Nat) (s : scanner) (e : Err)
    (h : (scanBody (F := F) N ident s).1 = .error e) : ¬ e.artefact := by
  unfold scanBody at h
  split at h
  · have hp := scanCoords_pos (F := F) N (ident == ascii "MULTIPOINT") s
    cases h1 : scanCoords (F := F) N (ident == ascii "MULTIPOINT") s with
    | mk r1 t1 =>
      rw [h1] at h hp
      cases r1 with
      | error e2 =>
        simp at h
        rw [← h]
        exact hp.2 e2 rfl
      | ok cs =>
        simp only at h
        split at h
        · split at h
          · simp at h; rw [← h]; simp [Err.artefact]
          · rename_i hlen
            split at h
            · simp at h
            · rename_i hnone
              exfalso
              have hne : cs ≠ [] := by
                intro hc; subst hc; simp at hlen
              rw [List.head?_eq_head hne] at hnone
              simp at hnone
        · split at h <;> simp at h
  · split at h
    · have hp := scanPolydata_pos (F := F) N s
      cases h1 : scanPolydata (F := F) N s with
      | mk r1 t1 =>
        rw [h1] at h hp
        cases r1 with
        | error e2 =>
          simp at h
          rw [← h]
          exact hp.2 e2 rfl
        | ok cs => simp at h
    · split at h
      · have hp := scanMultiPolydata_pos (F := F) N s
        cases h1 : scanMultiPolydata (F := F) N s with
        | mk r1 t1 =>
          rw [h1] at h hp
          cases r1 with
          | error e2 =>
            simp at h
            rw [← h]
            exact hp.2 e2 rfl
          | ok cs => simp at h
      · simp at h
        rw [← h]; simp [Err.artefact]

/-- Function `Parse` is total: every error it returns is an error of the Go program; the fuel
of the loops is always enough and no index is out of range. -/
theorem Parse_sound {F : Type} (N : Num F) (data : List Nat) (e : Err)
    (h : Parse (F := F) N data = .error e) : e ≠ .outOfFuel ∧ e ≠ .panic := by
  have key : ¬ e.artefact := by
    cases hsi : scanIdent { raw := data, i := 0, opt := 0 } with
    | mk res s1 =>
      cases res with
      | error e2 =>
        have hP : Parse (F := F) N data = .error e2 := by
          unfold Parse scanGeom; rw [hsi]
        rw [hP] at h
        simp at h
        rw [← h]
        rcases scanIdent_error hsi with h1 | ⟨b, h1⟩ <;> subst h1 <;> simp [Err.artefact]
      | ok ident =>
        rw [Parse_of_ident N data ident s1 hsi] at h
        exact scanBody_sound N ident _ e h
  constructor
  · intro hc; subst hc; exact key trivial
  · intro hc; subst hc; exact key trivial

/-! ## Symmetry and reflexivity of `Equal` -/

theorem rangeEq_symm {α : Type} (eq : α → α → Bool) (hs : ∀ x y, eq x y = eq y x) :
    ∀ c o : List α, c.length = o.length → rangeEq eq c o = rangeEq eq o c
  | [], [], _ => rfl
  | [], _ :: _, h => by simp at h
  | _ :: _, [], h => by simp at h
  | x :: c, y :: o, h => by
    have ih := rangeEq_symm eq hs c o (by simpa using h)
    simp only [rangeEq, hs x y, ih]

theorem lenRangeEq_symm {α : Type} (eq : α → α → Bool) (hs : ∀ x y, eq x y = eq y x)
    (c o : List α) :
    (if c.length != o.length then false else rangeEq eq c o) =
      (if o.length != c.length then false else rangeEq eq o c) := by
  by_cases h : c.length = o.length
  · simp [h, rangeEq_symm eq hs c o h]
  · have h2 : ¬ o.length = c.length := fun e => h e.symm
    simp [h, h2]

theorem coordEq_symm {F : Type} (N : Num F) (hs : ∀ x y, N.eq x y = N.eq y x)
    (c o : Coord F) : coordEq N c o = coordEq N o c := by
  simp only [coordEq, hs c.X, hs c.Y, hs c.Z, hs c.M]

theorem equalCoords_symm {F : Type} (N : Num F) (hs : ∀ x y, N.eq x y = N.eq y x)
    (c o : List (Coord F)) : equalCoords N c o = equalCoords N o c :=
  lenRangeEq_symm (coordEq N) (coordEq_symm N hs) c o

theorem equalRings_symm {F : Type} (N : Num F) (hs : ∀ x y, N.eq x y = N.eq y x)
    (r o : List (List (Coord F))) : equalRings N r o = equalRings N o r :=
  lenRangeEq_symm (equalCoords N) (equalCoords_symm N hs) r o

theorem Equal_symm {F : Type} (N : Num F) (hs : ∀ x y, N.eq x y = N.eq y x)
    (a b : Geom F) : Geom.Equal N a b = Geom.Equal N b a := by
  cases a <;> cases b <;> simp only [Geom.Equal]
  · rw [coordEq_symm N hs, Bool.beq_comm]
  · rw [equalCoords_symm N hs, Bool.beq_comm]
  · rw [equalCoords_symm N hs, Bool.beq_comm]
  · rename_i rs o rs2 o2
    rw [equalRings_symm N hs rs rs2]
    by_cases h : o = o2
    · simp [h]
    · have h2 : ¬ o2 = o := fun e => h e.symm
      simp [h, h2]
  · rename_i ps o ps2 o2
    have := lenRangeEq_symm (equalRings N) (equalRings_symm N hs) ps ps2
    by_cases h : o = o2
    · subst h
      simpa using this
    · have h2 : ¬ o2 = o := fun e => h e.symm
      simp [h, h2]

/-- C12 (counterexample): the input `POINT(nan 0)` parses to a Point whose X is NaN, and this
geometry is not `Equal` to itself. -/
theorem C12_counterexample :
    Parse decNaN (ascii "POINT(nan 0)") = .ok (.Point ⟨none, some 0, some 0, some 0⟩ 0) ∧
    Geom.Equal decNaN (.Point ⟨none, some 0, some 0, some 0⟩ 0)
      (.Point ⟨none, some 0, some 0, some 0⟩ 0) = false :=
  ⟨by rfl, by rfl⟩

/-- A geometry that is `Equal` to itself has coordinates that are each `==` to themselves. -/
theorem Equal_self_coords {F : Type} (N : Num F) (g : Geom F)
    (h : Geom.Equal N g g = true) : ∀ c ∈ g.coords, coordEq N c c = true := by
  rw [Equal_iff_sameGeom] at h
  intro c hc
  rw [coordEq_iff]
  cases g with
  | Point c0 o =>
    simp only [Geom.coords, List.mem_singleton] at hc
    subst hc
    exact h.2
  | MultiPoint cs o => exact List.forall₂_same.mp h.2 c hc
  | LineString cs o => exact List.forall₂_same.mp h.2 c hc
  | Polygon rs o =>
    simp only [Geom.coords, List.mem_flatten] at hc
    obtain ⟨r, hr, h1⟩ := hc
    exact List.forall₂_same.mp (List.forall₂_same.mp h.2 r hr) c h1
  | MultiPolygon ps o =>
    simp only [Geom.coords, List.mem_flatten] at hc
    obtain ⟨r, ⟨q, hq, hr⟩, h1⟩ := hc
    exact List.forall₂_same.mp (List.forall₂_same.mp (List.forall₂_same.mp h.2 q hq) r hr) c h1

/-- C12: `Equal` is symmetric (the comparison `==` of numbers being symmetric); a geometry is
`Equal` to itself when each of its coordinates is `==` to itself, which holds for every
coordinate without a NaN field; and a geometry with a coordinate that is not `==` to itself,
that is with a NaN field, is not `Equal` to itself. -/
theorem C12_equal_symm_refl {F : Type} (N : Num F) (hs : ∀ x y, N.eq x y = N.eq y x)
    (a b : Geom F) :
    Geom.Equal N a b = Geom.Equal N b a ∧
    ((∀ c ∈ a.coords, coordEq N c c = true) → Geom.Equal N a a = true) ∧
    ((∃ c ∈ a.coords, coordEq N c c = false) → Geom.Equal N a a = false) := by
  refine ⟨Equal_symm N hs a b, Equal_self N a, ?_⟩
  rintro ⟨c, hc, hf⟩
  cases he : Geom.Equal N a a with
  | false => rfl
  | true =>
    rw [Equal_self_coords N a he c hc] at hf
    exact absurd hf (by decide)

theorem C12_equal_symm_refl_witness :
    (∀ x y, decNaN.eq x y = decNaN.eq y x) ∧
    Geom.Equal decNaN (.Point ⟨none, some 0, some 0, some 0⟩ 0)
        (.Point ⟨some 1, some 0, some 0, some 0⟩ 0) =
      Geom.Equal decNaN (.Point ⟨some 1, some 0, some 0, some 0⟩ 0)
        (.Point ⟨none, some 0, some 0, some 0⟩ 0) ∧
    Geom.Equal decNaN
      (.LineString [⟨some 1, some 2, some 0, some 0⟩, ⟨some 3, some 4, some 0, some 0⟩] Z)
      (.LineString [⟨some 1, some 2, some 0, some 0⟩, ⟨some 3, some 4, some 0, some 0⟩] Z) =
        true ∧
    Geom.Equal decNaN
      (.LineString [⟨some 1, some 2, some 0, some 0⟩, ⟨none, some 4, some 0, some 0⟩] Z)
      (.LineString [⟨some 1, some 2, some 0, some 0⟩, ⟨none, some 4, some 0, some 0⟩] Z) =
        false := by
  have hs : ∀ x y, decNaN.eq x y = decNaN.eq y x := by
    intro x y
    cases x <;> cases y <;> simp [decNaN, nanEq, eq_comm]
  refine ⟨hs, (C12_equal_symm_refl decNaN hs _ _).1, ?_, ?_⟩
  · exact (C12_equal_symm_refl decNaN hs
      (.LineString [⟨some 1, some 2, some 0, some 0⟩, ⟨some 3, some 4, some 0, some 0⟩] Z)
      (.LineString [⟨some 1, some 2, some 0, some 0⟩, ⟨some 3, some 4, some 0, some 0⟩] Z)).2.1
      (by decide)
  · exact (C12_equal_symm_refl decNaN hs
      (.LineString [⟨some 1, some 2, some 0, some 0⟩, ⟨none, some 4, some 0, some 0⟩] Z)
      (.LineString [⟨some 1, some 2, some 0, some 0⟩, ⟨none, some 4, some 0, some 0⟩] Z)).2.2
      ⟨⟨none, some 4, some 0, some 0⟩, by simp [Geom.coords], by rfl⟩

/-! ## The cursor after `skipWs`, `scanIdent`, `scanCoord` and after a failed call -/

/-- The two cases of `skipWs`: the unread bytes are all white space (or there is none) and the
cursor stays, or the cursor moves over the white space in front of the first other byte. -/
theorem skipWs_cases (s : scanner) :
    ((∀ x ∈ s.raw.drop s.i, isWs x = true) ∧ skipWs s = s) ∨
    (∃ w b r, s.raw.drop s.i = w ++ b :: r ∧ (∀ x ∈ w, isWs x = true) ∧ isWs b = false ∧
      skipWs s = { s with i := s.i + w.length }) := by
  obtain ⟨h1, h2, h3⟩ := span_cases isWs (s.raw.drop s.i)
  rcases h3 with h3 | ⟨b, r, h3, hb⟩
  · left
    rw [h3, List.append_nil] at h2
    have hall : ∀ x ∈ s.raw.drop s.i, isWs x = true := by
      intro x hx
      rw [h2] at hx
      exact h1 x hx
    exact ⟨hall, skipWs_all hall⟩
  · right
    rw [h3] at h2
    exact ⟨_, b, r, h2, h1, hb, skipWs_at h2 h1 hb⟩

/-- C13 (failing input): on `POINT(1 2 3 4 5)`, with the cursor behind `(` and no dimension
option, `scanCoord` succeeds after four literals without having met a delimiter: the flag is
false and the cursor stands in front of the unconsumed literal `5`, the last consumed byte
being a space; `Parse` then accepts the input as the Point 1 2 3 4. -/
theorem C13_scanCoord_without_delimiter :
    scanCoord dec { raw := ascii "POINT(1 2 3 4 5)", i := 6, opt := 0 } =
      (.ok (⟨1, 2, 3, 4⟩, false), { raw := ascii "POINT(1 2 3 4 5)", i := 14, opt := 0 }) ∧
    (ascii "POINT(1 2 3 4 5)")[14]? = some 53 ∧ (ascii "POINT(1 2 3 4 5)")[13]? = some 32 ∧
    Parse dec (ascii "POINT(1 2 3 4 5)") = .ok (.Point ⟨1, 2, 3, 4⟩ 0) ∧
    Parse dec (ascii "LINESTRING(1 2 3 4 5 6, 7 8)") = .ok (.LineString [⟨1, 2, 3, 4⟩] 0) :=
  ⟨by rfl, by rfl, by rfl, by rfl, by rfl⟩

/-- C14 (failing input): on a buffer whose unread bytes are all white space `skipWs` leaves the
cursor where it is, in front of a white space byte and not at the end of the buffer; the byte
read next is that space, so that `POINT ` fails with "expect '(' got ' '" and
`POINT(1 2 3 4 ` is accepted. -/
theorem C14_skipWs_stays_on_trailing_space :
    skipWs { raw := ascii "  ", i := 0, opt := 0 } = { raw := ascii "  ", i := 0, opt := 0 } ∧
    (ascii "  ")[0]? = some 32 ∧ isWs 32 = true ∧
    skipWs { raw := ascii "POINT(1 2 3 4 ", i := 13, opt := 0 } =
      { raw := ascii "POINT(1 2 3 4 ", i := 13, opt := 0 } ∧
    peek (skipWs { raw := ascii "POINT(1 2 3 4 ", i := 13, opt := 0 }) = .ok 32 ∧
    Parse dec (ascii "POINT ") = .error (.expectOpen 32) ∧
    Parse dec (ascii "POINT(1 2 3 4 ") = .ok (.Point ⟨1, 2, 3, 4⟩ 0) ∧
    Parse dec (ascii "POINT(1 2 3 4") = .error .unexpectedEOF :=
  ⟨by rfl, by rfl, by rfl, by rfl, by rfl, by rfl, by rfl, by rfl⟩

/-- C15 (failing input): when the run of letters reaches the end of the input, `scanIdent`
returns the run and leaves the cursor on its last letter, not behind it: on `P` the cursor is
still 0, on `POINT` it is 4, and a second call reads the last letter again; `Parse` of `POINT`
therefore fails with "expect '(' got 'T'". -/
theorem C15_scanIdent_stops_on_last_letter :
    scanIdent { raw := ascii "P", i := 0, opt := 0 } =
      (.ok (ascii "P"), { raw := ascii "P", i := 0, opt := 0 }) ∧
    scanIdent { raw := ascii "POINT", i := 0, opt := 0 } =
      (.ok (ascii "POINT"), { raw := ascii "POINT", i := 4, opt := 0 }) ∧
    scanIdent { raw := ascii "POINT", i := 4, opt := 0 } =
      (.ok (ascii "T"), { raw := ascii "POINT", i := 4, opt := 0 }) ∧
    scanIdent { raw := ascii "POINT(", i := 0, opt := 0 } =
      (.ok (ascii "POINT"), { raw := ascii "POINT(", i := 5, opt := 0 }) ∧
    Parse dec (ascii "POINT") = .error (.expectOpen 84) :=
  ⟨by rfl, by rfl, by rfl, by rfl, by rfl⟩

theorem scanStart_error_state {s t : scanner} {e : Err} (h : scanStart s = (.error e, t)) :
    t = skipWs s := by
  unfold scanStart at h
  simp only at h
  split at h
  · simp at h; exact h.2.symm
  · split at h
    · simp at h; exact h.2.symm
    · simp at h

theorem scanIdent_error_state {s t : scanner} {e : Err} (h : scanIdent s = (.error e, t)) :
    t = skipWs s := by
  unfold scanIdent at h
  simp only at h
  split at h
  · simp at h; exact h.2.symm
  · split at h
    · simp at h; exact h.2.symm
    · simp at h

theorem skipWs_skipped (s : scanner) :
    ∀ x ∈ (s.raw.drop s.i).take ((skipWs s).i - s.i), isWs x = true := by
  rcases skipWs_cases s with ⟨_, h⟩ | ⟨w, b, r, hd, hw, _, h⟩
  · rw [h]; simp
  · rw [h, hd]
    simp only [Nat.add_sub_cancel_left]
    intro x hx
    rw [List.take_left' rfl] at hx
    exact hw x hx

/-- C16 (counterexample): the nested trial of `scanCoords` on `MULTIPOINT( 1 2)` calls
`scanStart` at position 11; the call fails and leaves the cursor at 12.  The suffix read of
`scanGeom` on `POINT (1 2)` calls `scanIdent` at position 5; the call fails and leaves the
cursor at 6. -/
theorem C16_counterexample :
    scanStart { raw := ascii "MULTIPOINT( 1 2)", i := 11, opt := 0 } =
      (.error (.expectOpen 49), { raw := ascii "MULTIPOINT( 1 2)", i := 12, opt := 0 }) ∧
    scanIdent { raw := ascii "POINT (1 2)", i := 5, opt := 0 } =
      (.error (.noIdent 40), { raw := ascii "POINT (1 2)", i := 6, opt := 0 }) :=
  ⟨by rfl, by rfl⟩

/-- C16: a failed `scanStart` and a failed `scanIdent` leave the scanner in the state reached
by `skipWs`: the buffer and the option are unchanged, the cursor has not moved back, every
byte it has passed is white space, and it has not moved at all when the byte at the cursor is
not white space. -/
theorem C16_failed_lookahead_skips_ws (s t : scanner) (e : Err)
    (h : scanStart s = (.error e, t) ∨ scanIdent s = (.error e, t)) :
    t = skipWs s ∧ t.raw = s.raw ∧ t.opt = s.opt ∧ s.i ≤ t.i ∧
    (∀ x ∈ (s.raw.drop s.i).take (t.i - s.i), isWs x = true) ∧
    (∀ b, peek s = .ok b → isWs b = false → t.i = s.i) := by
  have ht : t = skipWs s := by
    rcases h with h | h
    · exact scanStart_error_state h
    · exact scanIdent_error_state h
  subst ht
  refine ⟨rfl, skipWs_raw s, skipWs_opt s, skipWs_le s, skipWs_skipped s, ?_⟩
  intro b hb hws
  rw [peek_eq_head] at hb
  cases hd : s.raw.drop s.i with
  | nil => rw [hd] at hb; simp at hb
  | cons x r =>
    rw [hd] at hb
    simp at hb
    subst hb
    rw [skipWs_nonws hd hws]

theorem C16_failed_lookahead_skips_ws_witness :
    ({ raw := ascii "MULTIPOINT( 1 2)", i := 12, opt := 0 } : scanner) =
        skipWs { raw := ascii "MULTIPOINT( 1 2)", i := 11, opt := 0 } ∧
      ascii "MULTIPOINT( 1 2)" = ascii "MULTIPOINT( 1 2)" ∧ (0 : Opt) = 0 ∧ 11 ≤ 12 ∧
      (∀ x ∈ ((ascii "MULTIPOINT( 1 2)").drop 11).take (12 - 11), isWs x = true) ∧
      (∀ b, peek { raw := ascii "MULTIPOINT( 1 2)", i := 11, opt := 0 } = .ok b →
        isWs b = false → 12 = 11) :=
  C16_failed_lookahead_skips_ws { raw := ascii "MULTIPOINT( 1 2)", i := 11, opt := 0 }
    { raw := ascii "MULTIPOINT( 1 2)", i := 12, opt := 0 } (.expectOpen 49) (Or.inl (by rfl))

/-! ## No empty sequence in a parsed geometry -/

theorem scanCoordsLoop_ne_nil {F : Type} (N : Num F) (multi : Bool) :
    ∀ (fuel : Nat) (s s2 : scanner) (cs res : List (Coord F)),
      scanCoordsLoop N multi fuel s cs = (.ok res, s2) → res ≠ [] := by
  intro fuel
  induction fuel with
  | zero => intro s s2 cs res h; simp [scanCoordsLoop] at h
  | succ n ih =>
    intro s s2 cs res h
    unfold scanCoordsLoop at h
    split at h
    · simp at h
    · simp only at h
      split at h
      · split at h
        · simp at h
        · exact ih _ _ _ _ h
      · split at h
        · split at h
          · simp at h
          · split at h
            · split at h
              · simp at h
              · exact ih _ _ _ _ h
            · simp at h; rw [← h.1]; simp
        · simp at h; rw [← h.1]; simp

theorem scanCoords_ne_nil {F : Type} (N : Num F) (multi : Bool) (s s2 : scanner)
    (res : List (Coord F)) (h : scanCoords N multi s = (.ok res, s2)) : res ≠ [] := by
  unfold scanCoords at h
  split at h
  · simp at h
  · split at h
    · split at h
      · exact scanCoordsLoop_ne_nil N _ _ _ _ _ _ h
      · exact scanCoordsLoop_ne_nil N _ _ _ _ _ _ h
    · exact scanCoordsLoop_ne_nil N _ _ _ _ _ _ h

theorem scanPolydataLoop_ne_nil {F : Type} (N : Num F) :
    ∀ (fuel : Nat) (s s2 : scanner) (poly res : List (List (Coord F))),
      scanPolydataLoop N fuel s poly = (.ok res, s2) → res ≠ [] := by
  intro fuel
  induction fuel with
  | zero => intro s s2 poly res h; simp [scanPolydataLoop] at h
  | succ n ih =>
    intro s s2 poly res h
    unfold scanPolydataLoop at h
    split at h
    · simp at h
    · split at h
      · simp at h
      · split at h
        · split at h
          · simp at h
          · split at h
            · simp at h
            · split at h
              · exact ih _ _ _ _ h
              · simp at h; rw [← h.1]; simp
        · simp at h

theorem scanPolydata_ne_nil {F : Type} (N : Num F) (s s2 : scanner)
    (res : List (List (Coord F))) (h : scanPolydata N s = (.ok res, s2)) : res ≠ [] := by
  unfold scanPolydata at h
  split at h
  · simp at h
  · exact scanPolydataLoop_ne_nil N _ _ _ _ _ h

theorem scanMultiPolydataLoop_ne_nil {F : Type} (N : Num F) :
    ∀ (fuel : Nat) (s s2 : scanner) (multi res : List (List (List (Coord F)))),
      (∀ p ∈ multi, p ≠ []) → scanMultiPolydataLoop N fuel s multi = (.ok res, s2) →
      res ≠ [] ∧ ∀ p ∈ res, p ≠ [] := by
  intro fuel
  induction fuel with
  | zero => intro s s2 multi res _ h; simp [scanMultiPolydataLoop] at h
  | succ n ih =>
    intro s s2 multi res hm h
    unfold scanMultiPolydataLoop at h
    split at h
    · simp at h
    · rename_i poly s1 hc
      have hp2 : ∀ p ∈ multi ++ [poly], p ≠ [] := by
        intro p hp
        rcases List.mem_append.mp hp with h0 | h0
        · exact hm p h0
        · simp at h0; subst h0; exact scanPolydata_ne_nil N _ _ _ hc
      split at h
      · simp at h
      · split at h
        · exact ih _ _ _ _ hp2 h
        · simp at h; rw [← h.1]; exact ⟨by simp, hp2⟩

theorem scanMultiPolydata_ne_nil {F : Type} (N : Num F) (s s2 : scanner)
    (res : List (List (List (Coord F)))) (h : scanMultiPolydata N s = (.ok res, s2)) :
    res ≠ [] ∧ ∀ p ∈ res, p ≠ [] := by
  unfold scanMultiPolydata at h
  split at h
  · simp at h
  · exact scanMultiPolydataLoop_ne_nil N _ _ _ _ _ (by simp) h

theorem ringOK_ne_nil {F : Type} (N : Num F) (r : List (Coord F)) (h : ringOK N r) :
    r ≠ [] := by
  intro hr
  subst hr
  have := h.1
  simp at this

theorem scanBody_nonEmpty {F : Type} (N : Num F) (ident : List Nat) (s s2 : scanner)
    (g : Geom F) (h : scanBody N ident s = (.ok g, s2)) : g.nonEmpty := by
  have hr := scanBody_ringOK N ident s s2 g h
  unfold scanBody at h
  split at h
  · split at h
    · simp at h
    · rename_i cs s1 hc
      have hne := scanCoords_ne_nil N _ _ _ _ hc
      split at h
      · split at h
        · simp at h
        · split at h
          · simp at h; rw [← h.1]; trivial
          · simp at h
      · split at h
        · simp at h; rw [← h.1]; exact hne
        · simp at h; rw [← h.1]; exact hne
  · split at h
    · split at h
      · simp at h
      · rename_i rings s1 hc
        have hne := scanPolydata_ne_nil N _ _ _ hc
        simp at h
        obtain ⟨hg, _⟩ := h
        subst hg
        exact ⟨hne, fun r hr0 => ringOK_ne_nil N r (hr r hr0)⟩
    · split at h
      · split at h
        · simp at h
        · rename_i multi s1 hc
          have hne := scanMultiPolydata_ne_nil N _ _ _ hc
          simp at h
          obtain ⟨hg, _⟩ := h
          subst hg
          refine ⟨hne.1, fun p hp => ⟨hne.2 p hp, fun r hr0 => ringOK_ne_nil N r (hr r ?_)⟩⟩
          simp only [Geom.rings, List.mem_flatten]
          exact ⟨p, hp, hr0⟩
      · simp at h

/-- When the first byte after the white space is the start of a text that `fscan` rejects,
`scanCoord` fails with the error of `fmt.Fscan`; the cursor stands on that byte. -/
theorem scanCoord_fscan_fail {F : Type} (N : Num F) {s : scanner} {w r : List Nat} {b : Nat}
    (h : s.raw.drop s.i = w ++ b :: r) (hw : ∀ x ∈ w, isWs x = true) (hb : isWs b = false)
    (hf : N.fscan (b :: r) = none) :
    scanCoord N s = (.error .fscan, { s with i := s.i + w.length }) := by
  have hsk := skipWs_at h hw hb
  have hd : s.raw.drop (s.i + w.length) = b :: r := drop_add_of_drop h
  have hlt : s.i + w.length < s.raw.length := drop_cons_lt hd
  unfold scanCoord scanCoordCount
  simp only [hsk]
  rw [if_neg (by omega), hd]
  split <;> (unfold scanFields; rw [hf])

theorem scanCoordsLoop_fscan_fail {F : Type} (N : Num F) (multi : Bool) (fuel : Nat)
    {s : scanner} {w r : List Nat} {b : Nat} (cs : List (Coord F))
    (h : s.raw.drop s.i = w ++ b :: r) (hw : ∀ x ∈ w, isWs x = true) (hb : isWs b = false)
    (hf : N.fscan (b :: r) = none) :
    scanCoordsLoop N multi (fuel + 1) s cs = (.error .fscan, { s with i := s.i + w.length }) := by
  unfold scanCoordsLoop
  rw [scanCoord_fscan_fail N h hw hb hf]

/-- An empty body `()` is rejected whatever the keyword, when `fscan` rejects a text that
starts with `)`. -/
theorem scanBody_empty_body {F : Type} (N : Num F) (ident : List Nat) (s : scanner)
    (w w2 rest : List Nat) (h : s.raw.drop s.i = w ++ 40 :: (w2 ++ 41 :: rest))
    (hw : ∀ x ∈ w, isWs x = true) (hw2 : ∀ x ∈ w2, isWs x = true)
    (hf : ∀ r, N.fscan (41 :: r) = none) :
    ∃ e, (scanBody (F := F) N ident s).1 = .error e := by
  have hs1 := scanStart_at h hw
  have hd1 : List.drop (s.i + w.length + 1) s.raw = w2 ++ 41 :: rest := by
    have h0 : s.raw.drop s.i = (w ++ [40]) ++ (w2 ++ 41 :: rest) := by simpa using h
    have := drop_add_of_drop h0
    rw [List.length_append, ← Nat.add_assoc] at this
    exact this
  have hs2 := scanStart_at_fail (s := { s with i := s.i + w.length + 1 }) hd1 hw2
    (by decide) (by decide)
  have hl0 := scanCoordsLoop_fscan_fail N false s.raw.length (s := { s with i := s.i + w.length + 1 })
    ([] : List (Coord F)) hd1 hw2 (by decide) (hf rest)
  have hd2 : List.drop (s.i + w.length + 1 + w2.length) s.raw = [] ++ 41 :: rest := by
    simpa using drop_add_of_drop hd1
  have hl1 := scanCoordsLoop_fscan_fail N false s.raw.length
    (s := { s with i := s.i + w.length + 1 + w2.length })
    ([] : List (Coord F)) hd2 (by simp) (by decide) (hf rest)
  have hcf : ∃ t, scanCoords (F := F) N false s = (.error .fscan, t) := by
    unfold scanCoords
    rw [hs1]
    simp only [Bool.false_eq_true, if_false]
    rw [hl0]
    exact ⟨_, rfl⟩
  have hct : ∃ t, scanCoords (F := F) N true s = (.error .fscan, t) := by
    unfold scanCoords
    rw [hs1]
    simp only [if_true]
    rw [hs2]
    simp only
    rw [hl1]
    exact ⟨_, rfl⟩
  have hpo : ∃ t, scanPolydata (F := F) N s = (.error (.expectOpen 41), t) := by
    unfold scanPolydata
    rw [hs1]
    simp only
    unfold scanPolydataLoop scanCoords
    rw [hs2]
    exact ⟨_, rfl⟩
  have hmp : ∃ t, scanMultiPolydata (F := F) N s = (.error (.expectOpen 41), t) := by
    unfold scanMultiPolydata
    rw [hs1]
    simp only
    unfold scanMultiPolydataLoop scanPolydata
    rw [hs2]
    exact ⟨_, rfl⟩
  unfold scanBody
  split
  · cases hb : (ident == ascii "MULTIPOINT")
    · obtain ⟨t, ht⟩ := hcf
      rw [ht]
      exact ⟨_, rfl⟩
    · obtain ⟨t, ht⟩ := hct
      rw [ht]
      exact ⟨_, rfl⟩
  · split
    · obtain ⟨t, ht⟩ := hpo
      rw [ht]
      exact ⟨_, rfl⟩
    · split
      · obtain ⟨t, ht⟩ := hmp
        rw [ht]
        exact ⟨_, rfl⟩
      · exact ⟨_, rfl⟩

/-- C18: when `Parse` succeeds no sequence of the result is empty (a MultiPoint or LineString
has a coordinate, a Polygon a ring, a MultiPolygon a polygon, each polygon a ring and each
ring a coordinate); and an input with an empty body `()` after its header is rejected,
`fmt.Fscan` failing on a text that starts with `)`. -/
theorem C18_no_empty_sequence {F : Type} (N : Num F) (data : List Nat) :
    (∀ g : Geom F, Parse N data = .ok g → g.nonEmpty) ∧
    ((∀ r, N.fscan (41 :: r) = none) →
      ∀ ws0 kw ws1 sfx ws2 w rest : List Nat, headerOK ws0 kw ws1 sfx ws2 →
        (∀ x ∈ w, isWs x = true) →
        data = headerText ws0 kw ws1 sfx ws2 ++ 40 :: (w ++ 41 :: rest) →
        ∃ e, Parse (F := F) N data = .error e) := by
  constructor
  · intro g h
    obtain ⟨ident, s, s2, hb⟩ := Parse_ok_scanBody N data g h
    exact scanBody_nonEmpty N ident s s2 g hb
  · intro hf ws0 kw ws1 sfx ws2 w rest hh hw hdata
    obtain ⟨p, w0, hw0, hd, hp⟩ := Parse_header N ws0 kw ws1 sfx ws2 (w ++ 41 :: rest) hh
    rw [hdata, hp]
    exact scanBody_empty_body N _ _ w0 w rest hd hw0 hw hf

theorem C18_no_empty_sequence_witness :
    (∀ g : Geom Int, Parse dec (ascii "LINESTRING()") = .ok g → g.nonEmpty) ∧
    Parse dec (ascii "LINESTRING()") = .error .fscan ∧
    Parse dec (ascii "MULTIPOINT()") = .error .fscan ∧
    Parse dec (ascii "POLYGON()") = .error (.expectOpen 41) ∧
    Parse dec (ascii "MULTIPOLYGON(())") = .error (.expectOpen 41) ∧
    (∃ e, Parse dec (ascii "LINESTRING()") = .error e) :=
  ⟨(C18_no_empty_sequence dec (ascii "LINESTRING()")).1, by rfl, by rfl, by rfl, by rfl,
    (C18_no_empty_sequence dec (ascii "LINESTRING()")).2 (by intro r; rfl)
      [] (ascii "LINESTRING") [] [] [] [] []
      ⟨by simp, by decide, by decide, by simp, by simp, by simp, by simp⟩ (by simp) (by rfl)⟩

/-! ## The cursor stays inside the buffer -/

theorem skipWs_bound (s : scanner) (h : s.i ≤ s.raw.length) :
    (skipWs s).i ≤ s.raw.length := by
  rcases skipWs_cases s with ⟨_, h1⟩ | ⟨w, b, r, hd, _, _, h1⟩
  · rw [h1]; exact h
  · rw [h1]
    have hd2 : s.raw.drop (s.i + w.length) = b :: r := drop_add_of_drop hd
    have := drop_cons_lt hd2
    simp only
    omega

theorem scanStart_bound {s t : scanner} {r : Except Err Unit} (h : scanStart s = (r, t))
    (hb : s.i ≤ s.raw.length) : t.i ≤ s.raw.length := by
  cases r with
  | error e => rw [scanStart_error_state h]; exact skipWs_bound s hb
  | ok u => exact (scanStart_ok_pos h).2

theorem scanContinue_bound {s t : scanner} {r : Except Err Bool} (h : scanContinue s = (r, t))
    (hb : s.i ≤ s.raw.length) : t.i ≤ s.raw.length := by
  cases r with
  | error e =>
    have : t = skipWs s := by
      unfold scanContinue at h
      simp only at h
      split at h
      · simp at h; exact h.2.symm
      · split at h
        · simp at h; exact h.2.symm
        · simp at h
    rw [this]; exact skipWs_bound s hb
  | ok u => exact (scanContinue_ok_pos h).2

theorem scanIdent_bound {s t : scanner} {r : Except Err (List Nat)}
    (h : scanIdent s = (r, t)) (hb : s.i ≤ s.raw.length) : t.i ≤ s.raw.length := by
  cases r with
  | error e => rw [scanIdent_error_state h]; exact skipWs_bound s hb
  | ok ident =>
    have hf := (scanIdent_frame_eq h).1
    have hlt : t.i < t.raw.length := by
      rcases scanIdent_ok_pos h with ⟨_, h2⟩ | ⟨b, h2, _⟩
      · obtain ⟨x, xs, hx⟩ := List.exists_cons_of_ne_nil h2
        exact drop_cons_lt hx
      · exact drop_cons_lt h2
    rw [hf] at hlt
    omega

theorem scanFields_bound {F : Type} (N : Num F) :
    ∀ (fs : List Fld) (r : List Nat) (c : Coord F) (s : scanner) (n : Nat),
      s.i ≤ s.raw.length → (scanFields N fs r c s n).1.2.i ≤ s.raw.length
  | [], _, _, _, _, h => by simpa [scanFields] using h
  | f :: fs, r, c, s, n, h => by
    unfold scanFields
    split
    · exact h
    · rename_i v k hf
      simp only
      have hb := skipWs_bound { s with i := s.raw.length - (r.drop k).length }
        (by simp only; omega)
      simp only at hb
      split
      · exact hb
      · rename_i b hp
        have hlt := peek_ok_lt hp
        rw [skipWs_raw] at hlt
        simp only at hlt
        split
        · simp only; omega
        · have ih := scanFields_bound N fs (r.drop k) (c.set f v)
            (skipWs { s with i := s.raw.length - (r.drop k).length }) (n + 1)
            (by rw [skipWs_raw]; exact hb)
          rw [skipWs_raw] at ih
          exact ih

theorem scanCoord_bound {F : Type} {N : Num F} {s t : scanner}
    {r : Except Err (Coord F × Bool)} (h : scanCoord N s = (r, t))
    (hb : s.i ≤ s.raw.length) : t.i ≤ s.raw.length := by
  have hs := skipWs_bound s hb
  have : (scanCoord N s).2.i ≤ s.raw.length := by
    unfold scanCoord scanCoordCount
    simp only
    split
    · exact hs
    · have := scanFields_bound N
        (if (skipWs s).opt == M then [Fld.X, Fld.Y, Fld.M] else [Fld.X, Fld.Y, Fld.Z, Fld.M])
        ((skipWs s).raw.drop (skipWs s).i) (Coord.zero N) (skipWs s) 0
        (by rw [skipWs_raw]; exact hs)
      have hl : (skipWs s).raw.length = s.raw.length := by rw [skipWs_raw]
      rw [hl] at this
      exact this
  rw [h] at this
  exact this

theorem scanCoordsLoop_bound {F : Type} (N : Num F) (multi : Bool) :
    ∀ (fuel : Nat) (s : scanner) (cs : List (Coord F)), s.i ≤ s.raw.length →
      (scanCoordsLoop N multi fuel s cs).2.i ≤ s.raw.length := by
  intro fuel
  induction fuel with
  | zero => intro s cs h; simpa [scanCoordsLoop] using h
  | succ n ih =>
    intro s cs hb
    unfold scanCoordsLoop
    cases h1 : scanCoord N s with
    | mk r1 t1 =>
      have hf := (scanCoord_frame_eq h1).1
      have hb1 := scanCoord_bound h1 hb
      cases r1 with
      | error e => exact hb1
      | ok cc =>
        obtain ⟨c, comma⟩ := cc
        simp only
        split
        · split
          · exact hb1
          · have := ih t1 (cs ++ [c]) (by rw [hf]; exact hb1)
            rw [hf] at this
            exact this
        · split
          · cases h3 : scanContinue t1 with
            | mk r3 u1 =>
              have hf3 := (scanContinue_frame_eq h3).1
              have hb3 := scanContinue_bound h3 (by rw [hf]; exact hb1)
              rw [hf] at hb3
              cases r3 with
              | error e => exact hb3
              | ok comma2 =>
                simp only
                split
                · cases h5 : scanStart u1 with
                  | mk r5 v1 =>
                    have hf5 := (scanStart_frame_eq h5).1
                    have hb5 := scanStart_bound h5 (by rw [hf3, hf]; exact hb3)
                    rw [hf3, hf] at hb5
                    cases r5 with
                    | error e => exact hb5
                    | ok u =>
                      simp only
                      have := ih v1 (cs ++ [c]) (by rw [hf5, hf3, hf]; exact hb5)
                      rw [hf5, hf3, hf] at this
                      exact this
                · exact hb3
          · exact hb1

theorem scanCoords_bound {F : Type} {N : Num F} {multi : Bool} {s t : scanner}
    {r : Except Err (List (Coord F))} (h : scanCoords N multi s = (r, t))
    (hb : s.i ≤ s.raw.length) : t.i ≤ s.raw.length := by
  have : (scanCoords (F := F) N multi s).2.i ≤ s.raw.length := by
    unfold scanCoords
    cases h1 : scanStart s with
    | mk r1 t1 =>
      have hf1 := (scanStart_frame_eq h1).1
      have hb1 := scanStart_bound h1 hb
      cases r1 with
      | error e => exact hb1
      | ok u =>
        simp only
        split
        · cases h3 : scanStart t1 with
          | mk r3 u1 =>
            have hf3 := (scanStart_frame_eq h3).1
            have hb3 := scanStart_bound h3 (by rw [hf1]; exact hb1)
            rw [hf1] at hb3
            cases r3 with
            | error e =>
              simp only
              have := scanCoordsLoop_bound (F := F) N false (u1.raw.length + 1) u1 []
                (by rw [hf3, hf1]; exact hb3)
              rw [hf3, hf1] at this
              rw [hf3, hf1]
              exact this
            | ok u =>
              simp only
              have := scanCoordsLoop_bound (F := F) N true (u1.raw.length + 1) u1 []
                (by rw [hf3, hf1]; exact hb3)
              rw [hf3, hf1] at this
              rw [hf3, hf1]
              exact this
        · have := scanCoordsLoop_bound (F := F) N false (t1.raw.length + 1) t1 []
            (by rw [hf1]; exact hb1)
          rw [hf1] at this
          rw [hf1]
          exact this
  rw [h] at this
  exact this

theorem scanPolydataLoop_bound {F : Type} (N : Num F) :
    ∀ (fuel : Nat) (s : scanner) (poly : List (List (Coord F))), s.i ≤ s.raw.length →
      (scanPolydataLoop N fuel s poly).2.i ≤ s.raw.length := by
  intro fuel
  induction fuel with
  | zero => intro s poly h; simpa [scanPolydataLoop] using h
  | succ n ih =>
    intro s poly hb
    unfold scanPolydataLoop
    cases h1 : scanCoords N false s with
    | mk r1 t1 =>
      have hf := (scanCoords_frame_eq h1).1
      have hb1 := scanCoords_bound h1 hb
      cases r1 with
      | error e => exact hb1
      | ok cs =>
        simp only
        split
        · exact hb1
        · split
          · split
            · exact hb1
            · cases h3 : scanContinue t1 with
              | mk r3 u1 =>
                have hf3 := (scanContinue_frame_eq h3).1
                have hb3 := scanContinue_bound h3 (by rw [hf]; exact hb1)
                rw [hf] at hb3
                cases r3 with
                | error e => exact hb3
                | ok comma2 =>
                  simp only
                  split
                  · have := ih u1 (poly ++ [cs]) (by rw [hf3, hf]; exact hb3)
                    rw [hf3, hf] at this
                    exact this
                  · exact hb3
          · exact hb1

theorem scanPolydata_bound {F : Type} {N : Num F} {s t : scanner}
    {r : Except Err (List (List (Coord F)))} (h : scanPolydata N s = (r, t))
    (hb : s.i ≤ s.raw.length) : t.i ≤ s.raw.length := by
  have : (scanPolydata (F := F) N s).2.i ≤ s.raw.length := by
    unfold scanPolydata
    cases h1 : scanStart s with
    | mk r1 t1 =>
      have hf1 := (scanStart_frame_eq h1).1
      have hb1 := scanStart_bound h1 hb
      cases r1 with
      | error e => exact hb1
      | ok u =>
        simp only
        have := scanPolydataLoop_bound (F := F) N (t1.raw.length + 1) t1 []
          (by rw [hf1]; exact hb1)
        rw [hf1] at this
        rw [hf1]
        exact this
  rw [h] at this
  exact this

theorem scanMultiPolydataLoop_bound {F : Type} (N : Num F) :
    ∀ (fuel : Nat) (s : scanner) (multi : List (List (List (Coord F)))), s.i ≤ s.raw.length →
      (scanMultiPolydataLoop N fuel s multi).2.i ≤ s.raw.length := by
  intro fuel
  induction fuel with
  | zero => intro s multi h; simpa [scanMultiPolydataLoop] using h
  | succ n ih =>
    intro s multi hb
    unfold scanMultiPolydataLoop
    cases h1 : scanPolydata N s with
    | mk r1 t1 =>
      have hf := (scanPolydata_frame_eq h1).1
      have hb1 := scanPolydata_bound h1 hb
      cases r1 with
      | error e => exact hb1
      | ok poly =>
        simp only
        cases h3 : scanContinue t1 with
        | mk r3 u1 =>
          have hf3 := (scanContinue_frame_eq h3).1
          have hb3 := scanContinue_bound h3 (by rw [hf]; exact hb1)
          rw [hf] at hb3
          cases r3 with
          | error e => exact hb3
          | ok comma2 =>
            simp only
            split
            · have := ih u1 (multi ++ [poly]) (by rw [hf3, hf]; exact hb3)
              rw [hf3, hf] at this
              exact this
            · exact hb3

theorem scanMultiPolydata_bound {F : Type} {N : Num F} {s t : scanner}
    {r : Except Err (List (List (List (Coord F))))} (h : scanMultiPolydata N s = (r, t))
    (hb : s.i ≤ s.raw.length) : t.i ≤ s.raw.length := by
  have : (scanMultiPolydata (F := F) N s).2.i ≤ s.raw.length := by
    unfold scanMultiPolydata
    cases h1 : scanStart s with
    | mk r1 t1 =>
      have hf1 := (scanStart_frame_eq h1).1
      have hb1 := scanStart_bound h1 hb
      cases r1 with
      | error e => exact hb1
      | ok u =>
        simp only
        have := scanMultiPolydataLoop_bound (F := F) N (t1.raw.length + 1) t1 []
          (by rw [hf1]; exact hb1)
        rw [hf1] at this
        rw [hf1]
        exact this
  rw [h] at this
  exact this

theorem scanBody_bound {F : Type} (N : Num F) (ident : List Nat) (s : scanner)
    (hb : s.i ≤ s.raw.length) : (scanBody (F := F) N ident s).2.i ≤ s.raw.length := by
  unfold scanBody
  split
  · cases h1 : scanCoords N (ident == ascii "MULTIPOINT") s with
    | mk r1 t1 =>
      have hb1 := scanCoords_bound h1 hb
      cases r1 with
      | error e => exact hb1
      | ok cs =>
        simp only
        split
        · split
          · exact hb1
          · split <;> exact hb1
        · split <;> exact hb1
  · split
    · cases h1 : scanPolydata N s with
      | mk r1 t1 =>
        have hb1 := scanPolydata_bound h1 hb
        cases r1 <;> exact hb1
    · split
      · cases h1 : scanMultiPolydata N s with
        | mk r1 t1 =>
          have hb1 := scanMultiPolydata_bound h1 hb
          cases r1 <;> exact hb1
      · exact hb

theorem scanGeom_bound {F : Type} (N : Num F) (s : scanner) (hb : s.i ≤ s.raw.length) :
    (scanGeom (F := F) N s).2.i ≤ s.raw.length := by
  unfold scanGeom
  cases h1 : scanIdent s with
  | mk r1 t1 =>
    have hf1 := (scanIdent_frame_eq h1).1
    have hb1 := scanIdent_bound h1 hb
    cases r1 with
    | error e => exact hb1
    | ok ident =>
      simp only
      cases h2 : scanIdent t1 with
      | mk r2 t2 =>
        have hf2 := (scanIdent_frame_eq h2).1
        have hb2 := scanIdent_bound h2 (by rw [hf1]; exact hb1)
        rw [hf1] at hb2
        cases r2 with
        | error e =>
          simp only
          have := scanBody_bound (F := F) N ident { t2 with opt := optOfIdent [] }
            (by simp only; rw [hf2, hf1]; exact hb2)
          have hl : t2.raw.length = s.raw.length := by rw [hf2, hf1]
          simp only at this
          rw [hl] at this
          exact this
        | ok z =>
          simp only
          have := scanBody_bound (F := F) N ident { t2 with opt := optOfIdent z }
            (by simp only; rw [hf2, hf1]; exact hb2)
          have hl : t2.raw.length = s.raw.length := by rw [hf2, hf1]
          simp only at this
          rw [hl] at this
          exact this

theorem peek_ok_get {s : scanner} {b : Nat} (h : peek s = .ok b) :
    s.i < s.raw.length ∧ s.raw[s.i]? = some b := by
  have hlt := peek_ok_lt h
  refine ⟨hlt, ?_⟩
  unfold peek at h
  rw [dif_neg (by omega)] at h
  simp at h
  rw [← h]
  simp [List.getElem?_eq_getElem hlt]

/-- C20: for every input `Parse` returns a geometry or a Go error: never the index out of
range of `cs[0]` or `cs[len(cs)-1]`, and the loops end.  The cursor starts at 0 and every scan
routine keeps it within `0..len(raw)`; `peek` reads the buffer only below `len(raw)`, at the
cursor; no body of `scanGeom` reaches an index out of range, from any state. -/
theorem C20_parse_in_bounds {F : Type} (N : Num F) (data : List Nat) :
    ((∃ g, Parse N data = .ok g) ∨
      ∃ e, Parse N data = .error e ∧ e ≠ .panic ∧ e ≠ .outOfFuel) ∧
    (scanGeom N { raw := data, i := 0, opt := 0 }).2.i ≤ data.length ∧
    (∀ s : scanner, s.i ≤ s.raw.length →
      (skipWs s).i ≤ s.raw.length ∧ (scanStart s).2.i ≤ s.raw.length ∧
      (scanContinue s).2.i ≤ s.raw.length ∧ (scanIdent s).2.i ≤ s.raw.length ∧
      (scanCoord N s).2.i ≤ s.raw.length ∧
      (∀ multi, (scanCoords N multi s).2.i ≤ s.raw.length) ∧
      (scanPolydata N s).2.i ≤ s.raw.length ∧ (scanMultiPolydata N s).2.i ≤ s.raw.length ∧
      (∀ ident, (scanBody N ident s).2.i ≤ s.raw.length) ∧
      (scanGeom N s).2.i ≤ s.raw.length) ∧
    (∀ (s : scanner) (b : Nat), peek s = .ok b → s.i < s.raw.length ∧ s.raw[s.i]? = some b) ∧
    (∀ (s : scanner), s.raw.length ≤ s.i → peek s = .error .unexpectedEOF) ∧
    (∀ (ident : List Nat) (s : scanner) (e : Err),
      (scanBody N ident s).1 = .error e → e ≠ .panic ∧ e ≠ .outOfFuel) := by
  refine ⟨?_, scanGeom_bound N _ (by simp), ?_, fun s b h => peek_ok_get h, ?_, ?_⟩
  · cases h : Parse N data with
    | ok g => exact Or.inl ⟨g, rfl⟩
    | error e =>
      have := Parse_sound N data e h
      exact Or.inr ⟨e, rfl, this.2, this.1⟩
  · intro s hb
    exact ⟨skipWs_bound s hb, scanStart_bound rfl hb, scanContinue_bound rfl hb,
      scanIdent_bound rfl hb, scanCoord_bound rfl hb, fun multi => scanCoords_bound rfl hb,
      scanPolydata_bound rfl hb, scanMultiPolydata_bound rfl hb,
      fun ident => scanBody_bound N ident s hb, scanGeom_bound N s hb⟩
  · intro s h
    unfold peek
    rw [dif_pos h]
  · intro ident s e h
    have := scanBody_sound N ident s e h
    constructor
    · intro he; subst he; exact this trivial
    · intro he; subst he; exact this trivial

theorem C20_parse_in_bounds_witness :
    ((∃ g, Parse dec [] = .ok g) ∨
      ∃ e, Parse dec [] = .error e ∧ e ≠ .panic ∧ e ≠ .outOfFuel) ∧
    Parse dec [] = .error .unexpectedEOF ∧
    (scanGeom dec { raw := ascii "POLYGON((30 10, 10 20, 20 40))", i := 0, opt := 0 }).2.i ≤
      (ascii "POLYGON((30 10, 10 20, 20 40))").length ∧
    Parse dec (ascii "POLYGON((30 10, 10 20, 20 40))") = .error (.ringTooShort 3) :=
  ⟨(C20_parse_in_bounds dec []).1, by rfl,
    (C20_parse_in_bounds dec (ascii "POLYGON((30 10, 10 20, 20 40))")).2.1, by rfl⟩

/-! ## MULTIPOINT bodies that mix nested and flat entries -/

theorem scanContinue_at_fail {s : scanner} {ws rest : List Nat} {b : Nat}
    (h : s.raw.drop s.i = ws ++ b :: rest) (hws : ∀ x ∈ ws, isWs x = true)
    (hb : isWs b = false) (h1 : b ≠ 44) (h2 : b ≠ 41) :
    scanContinue s = (.error (.expectCommaOrClose b), { s with i := s.i + ws.length }) := by
  have hsk := skipWs_at h hws hb
  have hd : s.raw.drop (s.i + ws.length) = b :: rest := drop_add_of_drop h
  have hp : peek { s with i := s.i + ws.length } = .ok b := peek_of_drop hd
  unfold scanContinue
  simp only [hsk, hp]
  simp [h1, h2]

theorem nestedIn_length {F : Type} (es : List (List Nat × List Nat × Coord F)) :
    es.length ≤ (nestedIn es).length := by
  induction es with
  | nil => simp
  | cons e more ih =>
    obtain ⟨w, t, c⟩ := e
    simp only [nestedIn, List.length_cons, List.length_append]
    omega

theorem flatPre_length {F : Type} (es : List (List Nat × List Nat × Coord F)) :
    es.length ≤ (flatPre es).length := by
  induction es with
  | nil => simp
  | cons e more ih =>
    obtain ⟨w, t, c⟩ := e
    simp only [flatPre, List.length_cons, List.length_append]
    omega

/-- The loop of `scanCoords` in nested mode reads the leading entries of a nested list, one
per iteration. -/
theorem scanCoordsLoop_nestedIn {F : Type} (N : Num F) (o : Opt) :
    ∀ (es : List (List Nat × List Nat × Coord F)) (fuel : Nat) (s : scanner)
      (cs : List (Coord F)) (tail : List Nat),
      elemsOK N o es → s.opt = o → s.raw.drop s.i = nestedIn es ++ tail →
      scanCoordsLoop N true (fuel + es.length) s cs =
        scanCoordsLoop N true fuel { s with i := s.i + (nestedIn es).length }
          (cs ++ elemVals es)
  | [], fuel, s, cs, tail, _, _, _ => by simp [nestedIn, elemVals]
  | (w, t, c) :: more, fuel, s, cs, tail, hok, ho, h => by
    obtain ⟨hw, ht⟩ := hok (w, t, c) (by simp)
    have hok2 : elemsOK N o more := fun e he => hok e (by simp [he])
    have h0 : s.raw.drop s.i = [] ++ (t ++ 41 :: (44 :: (w ++ 40 :: (nestedIn more ++ tail)))) := by
      rw [h]; simp [nestedIn]
    have hc := scanCoord_at N ht ho (w := []) (by simp) (Or.inr rfl) (d := 41) (s := s) h0
    have hat : List.drop (s.i + t.length + 1) s.raw =
        [] ++ 44 :: (w ++ 40 :: (nestedIn more ++ tail)) := by
      have h2 : List.drop s.i s.raw =
          (t ++ [41]) ++ (44 :: (w ++ 40 :: (nestedIn more ++ tail))) := by
        rw [h]; simp [nestedIn]
      have := drop_add_of_drop h2
      simpa [Nat.add_assoc] using this
    have hk := scanContinue_at (s := { s with i := s.i + t.length + 1 }) hat (by simp)
      (Or.inl rfl)
    have hat2 : List.drop (s.i + t.length + 1 + 1) s.raw =
        w ++ 40 :: (nestedIn more ++ tail) :=
      drop_succ_of_drop (by simpa using hat)
    have hs := scanStart_at (s := { s with i := s.i + t.length + 1 + 1 }) hat2 hw
    have hat3 : List.drop (s.i + t.length + 1 + 1 + w.length + 1) s.raw =
        nestedIn more ++ tail := drop_succ_of_drop (drop_add_of_drop hat2)
    have ih := scanCoordsLoop_nestedIn N o more fuel
      { s with i := s.i + t.length + 1 + 1 + w.length + 1 } (cs ++ [c]) tail hok2 ho hat3
    have hfuel : fuel + ((w, t, c) :: more).length = (fuel + more.length) + 1 := by
      simp; omega
    have h4144 : ((41 : Nat) == 44) = false := by decide
    rw [hfuel]
    conv_lhs => unfold scanCoordsLoop
    rw [hc]
    simp only [List.length_nil, Nat.add_zero] at hk hs ⊢
    simp only [h4144, hk]
    simp only [beq_self_eq_true, if_true, Bool.false_eq_true, if_false]
    simp only [hs]
    rw [ih]
    simp only [nestedIn, elemVals, List.length_append, List.length_cons, List.map_cons,
      List.append_assoc, List.singleton_append]
    congr 2
    omega

/-- The loop of `scanCoords` in flat mode reads the leading entries of a flat list, one per
iteration. -/
theorem scanCoordsLoop_flatPre {F : Type} (N : Num F) (o : Opt) :
    ∀ (es : List (List Nat × List Nat × Coord F)) (fuel : Nat) (s : scanner)
      (cs : List (Coord F)) (tail : List Nat),
      elemsOK N o es → s.opt = o → s.raw.drop s.i = flatPre es ++ tail →
      scanCoordsLoop N false (fuel + es.length) s cs =
        scanCoordsLoop N false fuel { s with i := s.i + (flatPre es).length }
          (cs ++ elemVals es)
  | [], fuel, s, cs, tail, _, _, _ => by simp [flatPre, elemVals]
  | (w, t, c) :: more, fuel, s, cs, tail, hok, ho, h => by
    obtain ⟨hw, ht⟩ := hok (w, t, c) (by simp)
    have hok2 : elemsOK N o more := fun e he => hok e (by simp [he])
    have h0 : s.raw.drop s.i = w ++ (t ++ 44 :: (flatPre more ++ tail)) := by
      rw [h]; simp [flatPre]
    have hc := scanCoord_at N ht ho hw (Or.inl rfl) (d := 44) (s := s) h0
    have hat : List.drop (s.i + w.length + t.length + 1) s.raw = flatPre more ++ tail := by
      have h2 : List.drop s.i s.raw = (w ++ t ++ [44]) ++ (flatPre more ++ tail) := by
        rw [h]; simp [flatPre]
      have := drop_add_of_drop h2
      simpa [Nat.add_assoc] using this
    have ih := scanCoordsLoop_flatPre N o more fuel
      { s with i := s.i + w.length + t.length + 1 } (cs ++ [c]) tail hok2 ho hat
    have hfuel : fuel + ((w, t, c) :: more).length = (fuel + more.length) + 1 := by
      simp; omega
    rw [hfuel]
    conv_lhs => unfold scanCoordsLoop
    rw [hc]
    simp only [beq_self_eq_true, if_true, Bool.false_eq_true, if_false]
    rw [ih]
    simp only [flatPre, elemVals, List.length_append, List.length_cons, List.map_cons,
      List.append_assoc, List.singleton_append]
    congr 2
    omega

theorem scanCoordsLoop_nested_comma {F : Type} (N : Num F) {o : Opt} {s : scanner}
    {t rest : List Nat} {c : Coord F} (fuel : Nat) (cs : List (Coord F))
    (ht : CoordText N o t c) (ho : s.opt = o) (h : s.raw.drop s.i = t ++ 44 :: rest) :
    (scanCoordsLoop N true (fuel + 1) s cs).1 = .error .expectCloseGotComma := by
  have hc := ht.2 s 44 rest ho h (Or.inl rfl)
  unfold scanCoordsLoop
  rw [hc]
  simp

theorem scanCoordsLoop_nested_noopen {F : Type} (N : Num F) {o : Opt} {s : scanner}
    {t w rest : List Nat} {b : Nat} {c : Coord F} (fuel : Nat) (cs : List (Coord F))
    (ht : CoordText N o t c) (ho : s.opt = o) (hw : ∀ x ∈ w, isWs x = true)
    (hb : isWs b = false) (hb2 : b ≠ 40)
    (h : s.raw.drop s.i = t ++ 41 :: 44 :: (w ++ b :: rest)) :
    (scanCoordsLoop N true (fuel + 1) s cs).1 = .error (.expectOpen b) := by
  have hc := ht.2 s 41 (44 :: (w ++ b :: rest)) ho h (Or.inr rfl)
  have hat : List.drop (s.i + t.length + 1) s.raw = [] ++ 44 :: (w ++ b :: rest) := by
    have h2 : List.drop s.i s.raw = (t ++ [41]) ++ (44 :: (w ++ b :: rest)) := by
      rw [h]; simp
    have := drop_add_of_drop h2
    simpa [Nat.add_assoc] using this
  have hk := scanContinue_at (s := { s with i := s.i + t.length + 1 }) hat (by simp)
    (Or.inl rfl)
  have hat2 : List.drop (s.i + t.length + 1 + 1) s.raw = w ++ b :: rest :=
    drop_succ_of_drop (by simpa using hat)
  have hs := scanStart_at_fail (s := { s with i := s.i + t.length + 1 + 1 }) hat2 hw hb hb2
  have h4144 : ((41 : Nat) == 44) = false := by decide
  unfold scanCoordsLoop
  rw [hc]
  simp only [List.length_nil, Nat.add_zero] at hk hs ⊢
  simp only [h4144, hk]
  simp only [beq_self_eq_true, if_true, Bool.false_eq_true, if_false]
  simp only [hs]

theorem scanCoordsLoop_nested_nosep {F : Type} (N : Num F) {o : Opt} {s : scanner}
    {t w rest : List Nat} {b : Nat} {c : Coord F} (fuel : Nat) (cs : List (Coord F))
    (ht : CoordText N o t c) (ho : s.opt = o) (hw : ∀ x ∈ w, isWs x = true)
    (hb : isWs b = false) (hb1 : b ≠ 44) (hb2 : b ≠ 41)
    (h : s.raw.drop s.i = t ++ 41 :: (w ++ b :: rest)) :
    (scanCoordsLoop N true (fuel + 1) s cs).1 = .error (.expectCommaOrClose b) := by
  have hc := ht.2 s 41 (w ++ b :: rest) ho h (Or.inr rfl)
  have hat : List.drop (s.i + t.length + 1) s.raw = w ++ b :: rest := by
    have h2 : List.drop s.i s.raw = (t ++ [41]) ++ (w ++ b :: rest) := by
      rw [h]; simp
    have := drop_add_of_drop h2
    simpa [Nat.add_assoc] using this
  have hk := scanContinue_at_fail (s := { s with i := s.i + t.length + 1 }) hat hw hb hb1 hb2
  have h4144 : ((41 : Nat) == 44) = false := by decide
  unfold scanCoordsLoop
  rw [hc]
  simp only [h4144, hk]
  simp

/-- On a nested list `scanCoords` (with the nested trial) reaches the text behind the leading
entries with fuel left. -/
theorem scanCoords_nestedIn {F : Type} (N : Num F) (o : Opt)
    (es : List (List Nat × List Nat × Coord F)) (s : scanner) (w0 w1 tail : List Nat)
    (hok : elemsOK N o es) (ho : s.opt = o)
    (hw0 : ∀ x ∈ w0, isWs x = true) (hw1 : ∀ x ∈ w1, isWs x = true)
    (h : s.raw.drop s.i = w0 ++ 40 :: (w1 ++ 40 :: (nestedIn es ++ tail))) :
    ∃ (fuel : Nat) (s3 : scanner),
      scanCoords N true s = scanCoordsLoop N true (fuel + 1) s3 (elemVals es) ∧
      s3.opt = o ∧ s3.raw.drop s3.i = tail := by
  have hs := scanStart_at h hw0
  have hat : List.drop (s.i + w0.length + 1) s.raw = w1 ++ 40 :: (nestedIn es ++ tail) :=
    drop_succ_of_drop (drop_add_of_drop h)
  have hs2 := scanStart_at (s := { s with i := s.i + w0.length + 1 }) hat hw1
  have hat2 : List.drop (s.i + w0.length + 1 + w1.length + 1) s.raw = nestedIn es ++ tail :=
    drop_succ_of_drop (drop_add_of_drop hat)
  have hlen : es.length ≤ s.raw.length := by
    have h1 := nestedIn_length es
    have h2 : (List.drop (s.i + w0.length + 1 + w1.length + 1) s.raw).length ≤ s.raw.length := by
      rw [List.length_drop]; omega
    rw [hat2] at h2
    simp at h2
    omega
  have hfuel : s.raw.length + 1 = (s.raw.length - es.length + 1) + es.length := by omega
  have hl := scanCoordsLoop_nestedIn N o es (s.raw.length - es.length + 1)
    { s with i := s.i + w0.length + 1 + w1.length + 1 } [] tail hok ho hat2
  refine ⟨s.raw.length - es.length,
    { s with i := s.i + w0.length + 1 + w1.length + 1 + (nestedIn es).length }, ?_, ho, ?_⟩
  · unfold scanCoords
    rw [hs]
    simp only [if_true]
    rw [hs2]
    simp only
    rw [hfuel, hl]
    simp
  · exact drop_add_of_drop hat2

/-- On a flat list `scanCoords` (with the nested trial) falls back to the flat mode and reaches
the text behind the leading entries with fuel left. -/
theorem scanCoords_flatPre {F : Type} (N : Num F) (o : Opt)
    (es : List (List Nat × List Nat × Coord F)) (s : scanner) (w0 tail : List Nat)
    (hne : es ≠ []) (hok : elemsOK N o es) (ho : s.opt = o)
    (hw0 : ∀ x ∈ w0, isWs x = true)
    (h : s.raw.drop s.i = w0 ++ 40 :: (flatPre es ++ tail)) :
    ∃ (fuel : Nat) (s3 : scanner),
      scanCoords N true s = scanCoordsLoop N false (fuel + 1) s3 (elemVals es) ∧
      s3.opt = o ∧ s3.raw.drop s3.i = tail := by
  obtain ⟨e, more, rfl⟩ := List.exists_cons_of_ne_nil hne
  obtain ⟨w, t, c⟩ := e
  obtain ⟨hw, ht⟩ := hok (w, t, c) (by simp)
  simp only at hw ht
  obtain ⟨b, t2, htb, hbw, hb40⟩ := ht.1
  have hok2 : elemsOK N o (([], t, c) :: more) := by
    intro e he
    simp at he
    rcases he with he | he
    · subst he; exact ⟨by simp, ht⟩
    · exact hok e (by simp [he])
  have hs := scanStart_at h hw0
  have hat : List.drop (s.i + w0.length + 1) s.raw =
      w ++ b :: (t2 ++ 44 :: (flatPre more ++ tail)) := by
    have := drop_succ_of_drop (drop_add_of_drop h)
    rw [this]
    simp [flatPre, htb]
  have hs2 := scanStart_at_fail (s := { s with i := s.i + w0.length + 1 }) hat hw hbw hb40
  have hat2 : List.drop (s.i + w0.length + 1 + w.length) s.raw =
      flatPre (([], t, c) :: more) ++ tail := by
    have := drop_add_of_drop hat
    rw [this]
    simp [flatPre, htb]
  have hlen : (([], t, c) :: more).length ≤ s.raw.length := by
    have h1 := flatPre_length (([], t, c) :: more)
    have h2 : (List.drop (s.i + w0.length + 1 + w.length) s.raw).length ≤ s.raw.length := by
      rw [List.length_drop]; omega
    rw [hat2] at h2
    simp only [List.length_append] at h2
    omega
  have hfuel : s.raw.length + 1 =
      (s.raw.length - (([], t, c) :: more).length + 1) + (([], t, c) :: more).length := by
    omega
  have hl := scanCoordsLoop_flatPre N o (([], t, c) :: more)
    (s.raw.length - (([], t, c) :: more).length + 1)
    { s with i := s.i + w0.length + 1 + w.length } [] tail hok2 ho hat2
  refine ⟨s.raw.length - (([], t, c) :: more).length,
    { s with i := s.i + w0.length + 1 + w.length + (flatPre (([], t, c) :: more)).length },
    ?_, ho, ?_⟩
  · unfold scanCoords
    rw [hs]
    simp only [if_true]
    rw [hs2]
    simp only
    rw [hfuel, hl]
    simp [elemVals]
  · exact drop_add_of_drop hat2

theorem scanBody_multipoint_error {F : Type} (N : Num F) (s : scanner) (e : Err)
    (h : (scanCoords (F := F) N true s).1 = .error e) :
    (scanBody (F := F) N (ascii "MULTIPOINT") s).1 = .error e := by
  unfold scanBody
  rw [if_pos (Or.inr (Or.inl rfl))]
  have hb : (ascii "MULTIPOINT" == ascii "MULTIPOINT") = true := by decide
  rw [hb]
  cases hc : scanCoords (F := F) N true s with
  | mk r t =>
    rw [hc] at h
    simp only at h
    subst h
    rfl

/-- The four ways in which a MULTIPOINT body that mixes nested and flat entries is rejected,
for entries given as coordinate texts. -/
theorem parse_multipoint_mixed {F : Type} (N : Num F)
    (ws0 kw ws1 sfx ws2 w1 w rest : List Nat)
    (es : List (List Nat × List Nat × Coord F)) (t : List Nat) (c : Coord F)
    (hh : headerOK ws0 kw ws1 sfx ws2) (hkw : kw.map upper = ascii "MULTIPOINT")
    (hw1 : ∀ x ∈ w1, isWs x = true) (hw : ∀ x ∈ w, isWs x = true)
    (hok : elemsOK N (optOfIdent (sfx.map upper)) es)
    (ht : CoordText N (optOfIdent (sfx.map upper)) t c) :
    Parse N (headerText ws0 kw ws1 sfx ws2 ++
        40 :: (w1 ++ 40 :: (nestedIn es ++ (t ++ 44 :: rest)))) =
      .error .expectCloseGotComma ∧
    (∀ b, isWs b = false → b ≠ 40 →
      Parse N (headerText ws0 kw ws1 sfx ws2 ++
          40 :: (w1 ++ 40 :: (nestedIn es ++ (t ++ 41 :: 44 :: (w ++ b :: rest))))) =
        .error (.expectOpen b)) ∧
    (∀ b, isWs b = false → b ≠ 44 → b ≠ 41 →
      Parse N (headerText ws0 kw ws1 sfx ws2 ++
          40 :: (w1 ++ 40 :: (nestedIn es ++ (t ++ 41 :: (w ++ b :: rest))))) =
        .error (.expectCommaOrClose b)) ∧
    ((∀ r, N.fscan (40 :: r) = none) → es ≠ [] →
      Parse N (headerText ws0 kw ws1 sfx ws2 ++ 40 :: (flatPre es ++ (w ++ 40 :: rest))) =
        .error .fscan) := by
  refine ⟨?_, ?_, ?_, ?_⟩
  · obtain ⟨p, w0, hw0, hd, hp⟩ := Parse_header N ws0 kw ws1 sfx ws2
      (w1 ++ 40 :: (nestedIn es ++ (t ++ 44 :: rest))) hh
    rw [hp, hkw]
    apply scanBody_multipoint_error
    obtain ⟨f, s3, hsc, ho3, hd3⟩ := scanCoords_nestedIn N _ es
      { raw := headerText ws0 kw ws1 sfx ws2 ++ 40 :: (w1 ++ 40 :: (nestedIn es ++ (t ++ 44 :: rest))), i := p,
        opt := optOfIdent (sfx.map upper) }
      w0 w1 (t ++ 44 :: rest) hok rfl hw0 hw1 hd
    rw [hsc]
    exact scanCoordsLoop_nested_comma N f _ ht ho3 hd3
  · intro b hb hb2
    obtain ⟨p, w0, hw0, hd, hp⟩ := Parse_header N ws0 kw ws1 sfx ws2
      (w1 ++ 40 :: (nestedIn es ++ (t ++ 41 :: 44 :: (w ++ b :: rest)))) hh
    rw [hp, hkw]
    apply scanBody_multipoint_error
    obtain ⟨f, s3, hsc, ho3, hd3⟩ := scanCoords_nestedIn N _ es
      { raw := headerText ws0 kw ws1 sfx ws2 ++ 40 :: (w1 ++ 40 :: (nestedIn es ++ (t ++ 41 :: 44 :: (w ++ b :: rest)))), i := p,
        opt := optOfIdent (sfx.map upper) }
      w0 w1 (t ++ 41 :: 44 :: (w ++ b :: rest)) hok rfl hw0 hw1 hd
    rw [hsc]
    exact scanCoordsLoop_nested_noopen N f _ ht ho3 hw hb hb2 hd3
  · intro b hb hb1 hb2
    obtain ⟨p, w0, hw0, hd, hp⟩ := Parse_header N ws0 kw ws1 sfx ws2
      (w1 ++ 40 :: (nestedIn es ++ (t ++ 41 :: (w ++ b :: rest)))) hh
    rw [hp, hkw]
    apply scanBody_multipoint_error
    obtain ⟨f, s3, hsc, ho3, hd3⟩ := scanCoords_nestedIn N _ es
      { raw := headerText ws0 kw ws1 sfx ws2 ++ 40 :: (w1 ++ 40 :: (nestedIn es ++ (t ++ 41 :: (w ++ b :: rest)))), i := p,
        opt := optOfIdent (sfx.map upper) }
      w0 w1 (t ++ 41 :: (w ++ b :: rest)) hok rfl hw0 hw1 hd
    rw [hsc]
    exact scanCoordsLoop_nested_nosep N f _ ht ho3 hw hb hb1 hb2 hd3
  · intro hf hne
    obtain ⟨p, w0, hw0, hd, hp⟩ := Parse_header N ws0 kw ws1 sfx ws2
      (flatPre es ++ (w ++ 40 :: rest)) hh
    rw [hp, hkw]
    apply scanBody_multipoint_error
    obtain ⟨f, s3, hsc, ho3, hd3⟩ := scanCoords_flatPre N _ es
      { raw := headerText ws0 kw ws1 sfx ws2 ++ 40 :: (flatPre es ++ (w ++ 40 :: rest)), i := p,
        opt := optOfIdent (sfx.map upper) }
      w0 (w ++ 40 :: rest) hne hok rfl hw0 hd
    rw [hsc, scanCoordsLoop_fscan_fail N false f _ hd3 hw (by decide) (hf rest)]

/-- On well formed coordinates, a MULTIPOINT body that mixes parenthesised and flat
coordinates is rejected.  After a body that opens with a nested `(` and any number of
parenthesised coordinates, a coordinate followed by `,` inside its parentheses fails with
"expect ')' got ','"; a `,` behind a closed
coordinate that is not followed by `(` fails with "expect '(' got b"; a closed coordinate that
is followed by neither `,` nor `)` fails with "expect ',' or ')' got b".  After a body that
starts flat, an entry that starts with `(` fails in `fmt.Fscan`, which rejects a text that
starts with `(`.  The coordinates are runs of literals, with no more literals than
`scanCoord` has targets. -/
theorem multipoint_mixed_rejected_runs {F : Type} (N : Num F)
    (ws0 kw ws1 sfx ws2 w1 w rest : List Nat)
    (ls : List (List Nat × List (List Nat × F × List Nat)))
    (toks : List (List Nat × F × List Nat))
    (hh : headerOK ws0 kw ws1 sfx ws2) (hkw : kw.map upper = ascii "MULTIPOINT")
    (hw1 : ∀ x ∈ w1, isWs x = true) (hw : ∀ x ∈ w, isWs x = true)
    (hok : runsOK N (optOfIdent (sfx.map upper)) ls)
    (hne : toks ≠ []) (hlen : toks.length ≤ (fieldsOf (optOfIdent (sfx.map upper))).length)
    (htoks : litsOK N toks) :
    Parse N (headerText ws0 kw ws1 sfx ws2 ++
        40 :: (w1 ++ 40 :: (nestedIn (runElems N (optOfIdent (sfx.map upper)) ls) ++
          (litsText toks ++ 44 :: rest)))) =
      .error .expectCloseGotComma ∧
    (∀ b, isWs b = false → b ≠ 40 →
      Parse N (headerText ws0 kw ws1 sfx ws2 ++
          40 :: (w1 ++ 40 :: (nestedIn (runElems N (optOfIdent (sfx.map upper)) ls) ++
            (litsText toks ++ 41 :: 44 :: (w ++ b :: rest))))) =
        .error (.expectOpen b)) ∧
    (∀ b, isWs b = false → b ≠ 44 → b ≠ 41 →
      Parse N (headerText ws0 kw ws1 sfx ws2 ++
          40 :: (w1 ++ 40 :: (nestedIn (runElems N (optOfIdent (sfx.map upper)) ls) ++
            (litsText toks ++ 41 :: (w ++ b :: rest))))) =
        .error (.expectCommaOrClose b)) ∧
    ((∀ r, N.fscan (40 :: r) = none) → ls ≠ [] →
      Parse N (headerText ws0 kw ws1 sfx ws2 ++
          40 :: (flatPre (runElems N (optOfIdent (sfx.map upper)) ls) ++ (w ++ 40 :: rest))) =
        .error .fscan) := by
  have h := parse_multipoint_mixed N ws0 kw ws1 sfx ws2 w1 w rest
    (runElems N (optOfIdent (sfx.map upper)) ls) (litsText toks) _ hh hkw hw1 hw
    (elemsOK_runElems N _ ls hok) (coordText_of_lits N _ toks hne hlen htoks)
  exact ⟨h.1, h.2.1, h.2.2.1, fun hf hls => h.2.2.2 hf (runElems_ne_nil N _ ls hls)⟩

theorem multipoint_mixed_rejected_runs_witness :
    Parse dec (ascii "MULTIPOINT((0 0),(1 1,x") = .error .expectCloseGotComma ∧
    Parse dec (ascii "MULTIPOINT((0 0),(1 1), #x") = .error (.expectOpen 35) ∧
    Parse dec (ascii "MULTIPOINT((0 0),(1 1) #x") = .error (.expectCommaOrClose 35) ∧
    Parse dec (ascii "MULTIPOINT(0 0, (x") = .error .fscan := by
  have h := multipoint_mixed_rejected_runs dec [] (ascii "MULTIPOINT") [] [] [] [] [32]
    (ascii "x")
    [([], [(ascii "0", (0 : Int), [32]), (ascii "0", (0 : Int), [])])]
    [(ascii "1", (1 : Int), [32]), (ascii "1", (1 : Int), [])]
    ⟨by simp, by decide, by decide, by simp, by simp, by simp, by simp⟩ (by decide)
    (by simp) (by decide)
    (by
      intro e he
      simp at he
      subst he
      exact ⟨by simp, by simp, by decide,
        dec_lit (ascii "0") (by decide) (by decide) (by decide), by decide, by simp,
        dec_lit (ascii "0") (by decide) (by decide) (by decide), by simp, by simp, trivial⟩)
    (by simp) (by decide)
    ⟨dec_lit (ascii "1") (by decide) (by decide) (by decide), by decide, by simp,
      dec_lit (ascii "1") (by decide) (by decide) (by decide), by simp, by simp, trivial⟩
  exact ⟨h.1, h.2.1 35 (by decide) (by decide), h.2.2.1 35 (by decide) (by decide) (by decide),
    h.2.2.2 (by intro r; rfl) (by simp)⟩

/-- C17, the failing input: the body of `MULTIPOINT M(1 2 3 4, (5 6 7))` starts flat and has
a later element that starts with `(`, and `Parse` returns the MultiPoint of the single
coordinate `(1, 2, 0, 3)`.  The call of `scanCoord` behind the `(` has three targets; it reads
`1 2 3`, finds `4` where a delimiter is due, leaves its loop by exhaustion and reports a
coordinate without a comma, with the cursor in front of `4`, so that the loop of `scanCoords`
ends and the rest of the body is never read.  With three literals in the first coordinate
the input is rejected, and without option the same happens at the fifth literal. -/
theorem C17_multipoint_flat_then_nested_accepted :
    Parse dec (ascii "MULTIPOINT M(1 2 3 4, (5 6 7))") = .ok (.MultiPoint [⟨1, 2, 0, 3⟩] M) ∧
    scanCoord dec { raw := ascii "MULTIPOINT M(1 2 3 4, (5 6 7))", i := 13, opt := M } =
      (.ok (⟨1, 2, 0, 3⟩, false),
        { raw := ascii "MULTIPOINT M(1 2 3 4, (5 6 7))", i := 19, opt := M }) ∧
    Parse dec (ascii "MULTIPOINT M(1 2 3, (5 6 7))") = .error .fscan ∧
    Parse dec (ascii "MULTIPOINT(1 2 3 4 5, (6 7))") = .ok (.MultiPoint [⟨1, 2, 3, 4⟩] 0) :=
  ⟨by rfl, by rfl, by rfl, by rfl⟩

/-! ## Bytes behind a complete geometry -/

theorem drop_extend (raw t : List Nat) (i : Nat) (h : i ≤ raw.length) :
    (raw ++ t).drop i = raw.drop i ++ t :=
  List.drop_append_of_le_length h

theorem extend_raw (t : List Nat) (s : scanner) : (extend t s).raw = s.raw ++ t := rfl

theorem extend_i (t : List Nat) (s : scanner) : (extend t s).i = s.i := rfl

theorem extend_opt (t : List Nat) (s : scanner) : (extend t s).opt = s.opt := rfl

theorem extend_drop {s : scanner} {t a : List Nat} {b : Nat} {r : List Nat}
    (h : s.raw.drop s.i = a ++ b :: r) :
    (extend t s).raw.drop (extend t s).i = a ++ b :: (r ++ t) := by
  have hlt : s.i + a.length < s.raw.length := drop_cons_lt (drop_add_of_drop h)
  show (s.raw ++ t).drop s.i = _
  rw [drop_extend _ _ _ (by omega), h]
  simp

theorem not_dead_split {s : scanner} (h : ¬ dead s) :
    ∃ w b r, s.raw.drop s.i = w ++ b :: r ∧ (∀ x ∈ w, isWs x = true) ∧ isWs b = false := by
  rcases skipWs_cases s with ⟨h1, _⟩ | ⟨w, b, r, hd, hw, hb, _⟩
  · exact absurd h1 h
  · exact ⟨w, b, r, hd, hw, hb⟩

theorem dead_skipWs {s : scanner} (h : dead s) : skipWs s = s := skipWs_all h

theorem dead_peek {s : scanner} (h : dead s) :
    peek s = .error .unexpectedEOF ∨ ∃ b, peek s = .ok b ∧ isWs b = true := by
  rw [peek_eq_head]
  cases hd : s.raw.drop s.i with
  | nil => exact Or.inl rfl
  | cons b r => exact Or.inr ⟨b, rfl, h b (by rw [hd]; simp)⟩

theorem dead_scanStart {s : scanner} (h : dead s) : ∃ e, scanStart s = (.error e, s) := by
  unfold scanStart
  simp only [dead_skipWs h]
  rcases dead_peek h with hp | ⟨b, hp, hb⟩
  · rw [hp]; exact ⟨_, rfl⟩
  · rw [hp]
    have : b ≠ 40 := by intro hc; subst hc; simp [isWs] at hb
    simp [this]

theorem dead_scanContinue {s : scanner} (h : dead s) :
    ∃ e, scanContinue s = (.error e, s) := by
  unfold scanContinue
  simp only [dead_skipWs h]
  rcases dead_peek h with hp | ⟨b, hp, hb⟩
  · rw [hp]; exact ⟨_, rfl⟩
  · rw [hp]
    have h1 : b ≠ 44 := by intro hc; subst hc; simp [isWs] at hb
    have h2 : b ≠ 41 := by intro hc; subst hc; simp [isWs] at hb
    simp [h1, h2]

theorem scanStart_extend {s : scanner} (t : List Nat) (h : ¬ dead s) :
    scanStart (extend t s) = ((scanStart s).1, extend t (scanStart s).2) := by
  obtain ⟨w, b, r, hd, hw, hb⟩ := not_dead_split h
  have hd2 := extend_drop (t := t) hd
  by_cases hb40 : b = 40
  · subst hb40
    rw [scanStart_at hd hw, scanStart_at hd2 hw]
    rfl
  · rw [scanStart_at_fail hd hw hb hb40, scanStart_at_fail hd2 hw hb hb40]
    rfl

theorem scanContinue_extend {s : scanner} (t : List Nat) (h : ¬ dead s) :
    scanContinue (extend t s) = ((scanContinue s).1, extend t (scanContinue s).2) := by
  obtain ⟨w, b, r, hd, hw, hb⟩ := not_dead_split h
  have hd2 := extend_drop (t := t) hd
  by_cases hbd : b = 44 ∨ b = 41
  · rw [scanContinue_at hd hw hbd, scanContinue_at hd2 hw hbd]
    rfl
  · have h1 : b ≠ 44 := fun hc => hbd (Or.inl hc)
    have h2 : b ≠ 41 := fun hc => hbd (Or.inr hc)
    rw [scanContinue_at_fail hd hw hb h1 h2, scanContinue_at_fail hd2 hw hb h1 h2]
    rfl

theorem skipWs_extend {s : scanner} (t : List Nat) (h : ¬ dead s) :
    skipWs (extend t s) = extend t (skipWs s) := by
  obtain ⟨w, b, r, hd, hw, hb⟩ := not_dead_split h
  have hd2 := extend_drop (t := t) hd
  rw [skipWs_at hd hw hb, skipWs_at hd2 hw hb]
  rfl

theorem peek_extend {s : scanner} (t : List Nat) (h : s.i < s.raw.length) :
    peek (extend t s) = peek s := by
  rw [peek_eq_head, peek_eq_head]
  show (match (s.raw ++ t).drop s.i with | [] => _ | b :: _ => _) = _
  rw [drop_extend _ _ _ (by omega)]
  cases hd : s.raw.drop s.i with
  | nil =>
    have := congrArg List.length hd
    simp at this
    omega
  | cons b r => rfl

theorem dead_of_le {s : scanner} {p : Nat} (h : ∀ x ∈ s.raw.drop p, isWs x = true)
    (hp : p ≤ s.i) : dead s := by
  intro x hx
  have : s.raw.drop s.i = (s.raw.drop p).drop (s.i - p) := by
    rw [List.drop_drop]; congr 1; omega
  rw [this] at hx
  exact h x (List.mem_of_mem_drop hx)

/-- From a state whose unread bytes are all white space `scanFields` cannot meet a delimiter:
when it succeeds, the cursor is still in front of white space only and not at the end. -/
theorem dead_scanFields {F : Type} (N : Num F) :
    ∀ (fs : List Fld) (r : List Nat) (c : Coord F) (s : scanner) (n : Nat)
      (c2 : Coord F) (b : Bool) (s2 : scanner) (n2 : Nat),
      dead s → s.i ≤ s.raw.length - r.length → s.i < s.raw.length →
      scanFields N fs r c s n = ((.ok (c2, b), s2), n2) →
      dead s2 ∧ s2.i < s2.raw.length
  | [], r, c, s, n, c2, b, s2, n2, hd, _, hlt, h => by
    simp [scanFields] at h
    obtain ⟨⟨_, hs⟩, _⟩ := h
    subst hs
    exact ⟨hd, hlt⟩
  | f :: fs, r, c, s, n, c2, b, s2, n2, hd, hle, hlt, h => by
    unfold scanFields at h
    cases hf : N.fscan r with
    | none => rw [hf] at h; simp at h
    | some vk =>
      obtain ⟨v, k⟩ := vk
      rw [hf] at h
      simp only at h
      have hlen : (r.drop k).length ≤ r.length := by rw [List.length_drop]; omega
      have hd0 : dead { s with i := s.raw.length - (r.drop k).length } :=
        dead_of_le (s := { s with i := s.raw.length - (r.drop k).length }) (p := s.i) hd
          (by simp only; omega)
      rw [dead_skipWs hd0] at h
      rcases dead_peek hd0 with hp | ⟨x, hp, hx⟩
      · rw [hp] at h; simp at h
      · rw [hp] at h
        simp only at h
        have h1 : (x == 44) = false := by
          cases hc : x == 44
          · rfl
          · simp at hc; subst hc; simp [isWs] at hx
        have h2 : (x == 41) = false := by
          cases hc : x == 41
          · rfl
          · simp at hc; subst hc; simp [isWs] at hx
        rw [h1, h2] at h
        simp only [Bool.or_self, Bool.false_eq_true, if_false] at h
        have hlt2 := peek_ok_lt hp
        exact dead_scanFields N fs (r.drop k) (c.set f v) _ (n + 1) c2 b s2 n2 hd0
          (by simp only; omega) hlt2 h

theorem dead_scanCoord {F : Type} (N : Num F) {s s2 : scanner} {c : Coord F} {b : Bool}
    (hd : dead s) (h : scanCoord N s = (.ok (c, b), s2)) : dead s2 ∧ s2.i < s2.raw.length := by
  obtain ⟨n, hn⟩ := scanCoord_eq_count h
  unfold scanCoordCount at hn
  simp only [dead_skipWs hd] at hn
  split at hn
  · simp at hn
  · rename_i hlt
    exact dead_scanFields N _ _ _ s 0 c b s2 n hd
      (by rw [List.length_drop]; omega) (by omega) hn

theorem dead_scanCoordsLoop {F : Type} (N : Num F) (multi : Bool) :
    ∀ (fuel : Nat) (s s2 : scanner) (cs res : List (Coord F)),
      dead s → scanCoordsLoop N multi fuel s cs = (.ok res, s2) →
      dead s2 ∧ s2.i < s2.raw.length := by
  intro fuel
  induction fuel with
  | zero => intro s s2 cs res _ h; simp [scanCoordsLoop] at h
  | succ n ih =>
    intro s s2 cs res hd h
    unfold scanCoordsLoop at h
    split at h
    · simp at h
    · rename_i c comma s1 hc
      have hd1 := dead_scanCoord N hd hc
      simp only at h
      split at h
      · split at h
        · simp at h
        · exact ih _ _ _ _ hd1.1 h
      · split at h
        · obtain ⟨e, he⟩ := dead_scanContinue hd1.1
          rw [he] at h
          simp at h
        · simp at h
          rw [← h.2]
          exact hd1

theorem dead_scanBody {F : Type} (N : Num F) (ident : List Nat) {s : scanner} (hd : dead s) :
    ∃ e, (scanBody (F := F) N ident s).1 = .error e := by
  obtain ⟨e, he⟩ := dead_scanStart hd
  rcases scanBody_of_scanStart_error (F := F) N ident _ _ _ he with h | h
  · exact ⟨_, h⟩
  · exact ⟨_, h⟩

/-- On an input extended by trailing bytes `scanFields` reads the same coordinate, unless it
ends in front of trailing white space. -/
theorem scanFields_extend {F : Type} (N : Num F) (hN : prefixStable N) (t : List Nat) :
    ∀ (fs : List Fld) (r : List Nat) (c : Coord F) (s : scanner) (n : Nat)
      (c2 : Coord F) (b : Bool) (s2 : scanner) (n2 : Nat),
      s.raw.drop (s.raw.length - r.length) = r →
      scanFields N fs r c s n = ((.ok (c2, b), s2), n2) →
      ¬ (dead s2 ∧ s2.i < s2.raw.length) →
      scanFields N fs (r ++ t) c (extend t s) n = ((.ok (c2, b), extend t s2), n2)
  | [], r, c, s, n, c2, b, s2, n2, _, h, _ => by
    simp [scanFields] at h
    obtain ⟨⟨⟨hc, hb⟩, hs⟩, hn⟩ := h
    subst hc hb hs hn
    simp [scanFields]
  | f :: fs, r, c, s, n, c2, b, s2, n2, hr, h, hbad => by
    have hrlen : r.length ≤ s.raw.length := by
      have := congrArg List.length hr
      rw [List.length_drop] at this
      omega
    unfold scanFields at h
    cases hf : N.fscan r with
    | none => rw [hf] at h; simp at h
    | some vk =>
      obtain ⟨v, k⟩ := vk
      rw [hf] at h
      simp only at h
      have hlen : (r.drop k).length ≤ r.length := by rw [List.length_drop]; omega
      cases hp : peek (skipWs { s with i := s.raw.length - (r.drop k).length }) with
      | error e => rw [hp] at h; simp at h
      | ok x =>
        rw [hp] at h
        simp only at h
        have hlt := peek_ok_lt hp
        rw [skipWs_raw] at hlt
        simp only at hlt
        have hle := skipWs_le { s with i := s.raw.length - (r.drop k).length }
        simp only at hle
        have hk : k < r.length := by
          by_contra hc
          have : (r.drop k).length = 0 := by rw [List.length_drop]; omega
          omega
        have hfs := hN r t v k hf hk
        have hdrop : (r ++ t).drop k = r.drop k ++ t :=
          List.drop_append_of_le_length (by omega)
        have hcur : (extend t s).raw.length - (r.drop k ++ t).length =
            s.raw.length - (r.drop k).length := by
          show (s.raw ++ t).length - _ = _
          simp only [List.length_append]
          omega
        have hnd : ¬ dead { s with i := s.raw.length - (r.drop k).length } := by
          intro hd0
          rw [dead_skipWs hd0] at h hp
          rcases dead_peek hd0 with hp2 | ⟨y, hp2, hy⟩
          · rw [hp2] at hp; simp at hp
          · rw [hp2] at hp
            simp at hp
            subst hp
            have h1 : (y == 44) = false := by
              cases hc : y == 44
              · rfl
              · simp at hc; subst hc; simp [isWs] at hy
            have h2 : (y == 41) = false := by
              cases hc : y == 41
              · rfl
              · simp at hc; subst hc; simp [isWs] at hy
            rw [h1, h2] at h
            simp only [Bool.or_self, Bool.false_eq_true, if_false] at h
            exact hbad (dead_scanFields N fs (r.drop k) (c.set f v) _ (n + 1) c2 b s2 n2 hd0
              (by simp only; omega) (peek_ok_lt hp2) h)
        have hsk := skipWs_extend t hnd
        have hpe : peek (extend t (skipWs { s with i := s.raw.length - (r.drop k).length })) =
            .ok x := by
          rw [peek_extend t (by rw [skipWs_raw]; exact hlt), hp]
        have hext : ({ extend t s with i := (extend t s).raw.length - (r.drop k ++ t).length } :
            scanner) = extend t { s with i := s.raw.length - (r.drop k).length } := by
          rw [hcur]; rfl
        unfold scanFields
        rw [hfs]
        simp only
        rw [hdrop, hext, hsk, hpe]
        simp only
        split at h
        · rename_i hdel
          rw [if_pos hdel]
          simp only [Prod.mk.injEq, Except.ok.injEq] at h
          obtain ⟨⟨⟨hc, hb⟩, hs⟩, hn⟩ := h
          subst hc hb hs hn
          rfl
        · rename_i hdel
          rw [if_neg hdel]
          have hraw : (skipWs { s with i := s.raw.length - (r.drop k).length }).raw =
              s.raw := skipWs_raw _
          exact scanFields_extend N hN t fs (r.drop k) (c.set f v) _ (n + 1) c2 b s2 n2
            (by rw [hraw]; exact suffix_drop hr k) h hbad

theorem scanCoord_extend {F : Type} (N : Num F) (hN : prefixStable N) (t : List Nat)
    {s s2 : scanner} {c : Coord F} {b : Bool} (h : scanCoord N s = (.ok (c, b), s2))
    (hbad : ¬ (dead s2 ∧ s2.i < s2.raw.length)) :
    scanCoord N (extend t s) = (.ok (c, b), extend t s2) := by
  have hnd : ¬ dead s := fun hd => hbad (dead_scanCoord N hd h)
  obtain ⟨n, hn⟩ := scanCoord_eq_count h
  unfold scanCoordCount at hn
  simp only at hn
  split at hn
  · simp at hn
  · rename_i hlt
    have hlt2 : (skipWs s).i < (skipWs s).raw.length := by omega
    have hr : (skipWs s).raw.drop ((skipWs s).raw.length -
        ((skipWs s).raw.drop (skipWs s).i).length) = (skipWs s).raw.drop (skipWs s).i := by
      rw [List.length_drop]
      congr 1
      omega
    have hx := scanFields_extend N hN t _ _ _ _ 0 c b s2 n hr hn hbad
    have hdr : ((skipWs s).raw ++ t).drop (skipWs s).i =
        (skipWs s).raw.drop (skipWs s).i ++ t :=
      drop_extend _ _ _ (by omega)
    have hg : ¬ (skipWs s).i ≥ ((skipWs s).raw ++ t).length := by
      simp only [List.length_append]
      omega
    unfold scanCoord scanCoordCount
    simp only [skipWs_extend t hnd, extend_i, extend_raw, extend_opt]
    rw [if_neg hg, hdr, hx]

/-- On an input extended by trailing bytes the loop of `scanCoords` returns the same list,
with any fuel at least as large, unless it ends in front of trailing white space. -/
theorem scanCoordsLoop_extend {F : Type} (N : Num F) (hN : prefixStable N) (t : List Nat)
    (multi : Bool) :
    ∀ (fuel : Nat) (s s2 : scanner) (cs res : List (Coord F)),
      scanCoordsLoop N multi fuel s cs = (.ok res, s2) →
      ¬ (dead s2 ∧ s2.i < s2.raw.length) →
      ∀ fuel2, fuel ≤ fuel2 →
        scanCoordsLoop N multi fuel2 (extend t s) cs = (.ok res, extend t s2) := by
  intro fuel
  induction fuel with
  | zero => intro s s2 cs res h; simp [scanCoordsLoop] at h
  | succ n ih =>
    intro s s2 cs res h hbad fuel2 hfuel
    obtain ⟨f2, rfl⟩ : ∃ f2, fuel2 = f2 + 1 := ⟨fuel2 - 1, by omega⟩
    unfold scanCoordsLoop at h
    cases hc : scanCoord N s with
    | mk r1 s1 =>
      rw [hc] at h
      cases r1 with
      | error e => simp at h
      | ok cc =>
        obtain ⟨c, comma⟩ := cc
        simp only at h
        cases comma with
        | true =>
          simp only [if_true] at h
          cases multi with
          | true => simp at h
          | false =>
            simp only [Bool.false_eq_true, if_false] at h
            have hnb : ¬ (dead s1 ∧ s1.i < s1.raw.length) :=
              fun hd => hbad (dead_scanCoordsLoop N false _ _ _ _ _ hd.1 h)
            have hce := scanCoord_extend N hN t hc hnb
            unfold scanCoordsLoop
            rw [hce]
            simp only [if_true, Bool.false_eq_true, if_false]
            exact ih _ _ _ _ h hbad f2 (by omega)
        | false =>
          simp only [Bool.false_eq_true, if_false] at h
          cases multi with
          | false =>
            simp only [Bool.false_eq_true, if_false, Prod.mk.injEq, Except.ok.injEq] at h
            obtain ⟨h1, h2⟩ := h
            subst h1 h2
            have hce := scanCoord_extend N hN t hc hbad
            unfold scanCoordsLoop
            rw [hce]
            simp only [Bool.false_eq_true, if_false]
          | true =>
            simp only [if_true] at h
            cases hk : scanContinue s1 with
            | mk r3 s3 =>
              rw [hk] at h
              cases r3 with
              | error e => simp at h
              | ok comma2 =>
                simp only at h
                have hnd1 : ¬ dead s1 := by
                  intro hd
                  obtain ⟨e, he⟩ := dead_scanContinue hd
                  rw [he] at hk
                  simp at hk
                have hce := scanCoord_extend N hN t hc (fun hd => hnd1 hd.1)
                have hke := scanContinue_extend t hnd1
                rw [hk] at hke
                simp only at hke
                cases comma2 with
                | false =>
                  simp only [Bool.false_eq_true, if_false, Prod.mk.injEq, Except.ok.injEq] at h
                  obtain ⟨h1, h2⟩ := h
                  subst h1 h2
                  unfold scanCoordsLoop
                  rw [hce]
                  simp only [Bool.false_eq_true, if_false, if_true, hke]
                | true =>
                  simp only [if_true] at h
                  cases hs : scanStart s3 with
                  | mk r5 s4 =>
                    rw [hs] at h
                    cases r5 with
                    | error e => simp at h
                    | ok u =>
                      simp only at h
                      have hnd3 : ¬ dead s3 := by
                        intro hd
                        obtain ⟨e, he⟩ := dead_scanStart hd
                        rw [he] at hs
                        simp at hs
                      have hse := scanStart_extend t hnd3
                      rw [hs] at hse
                      simp only at hse
                      unfold scanCoordsLoop
                      rw [hce]
                      simp only [Bool.false_eq_true, if_false, if_true, hke, hse]
                      exact ih _ _ _ _ h hbad f2 (by omega)

theorem scanStart_ok_extend {s s2 : scanner} (t : List Nat) (h : scanStart s = (.ok (), s2)) :
    scanStart (extend t s) = (.ok (), extend t s2) := by
  have hnd : ¬ dead s := by
    intro hd
    obtain ⟨e, he⟩ := dead_scanStart hd
    rw [he] at h
    simp at h
  have := scanStart_extend t hnd
  rw [h] at this
  exact this

theorem scanContinue_ok_extend {s s2 : scanner} {b : Bool} (t : List Nat)
    (h : scanContinue s = (.ok b, s2)) :
    scanContinue (extend t s) = (.ok b, extend t s2) := by
  have hnd : ¬ dead s := by
    intro hd
    obtain ⟨e, he⟩ := dead_scanContinue hd
    rw [he] at h
    simp at h
  have := scanContinue_extend t hnd
  rw [h] at this
  exact this

theorem scanCoords_extend {F : Type} (N : Num F) (hN : prefixStable N) (t : List Nat)
    (multi : Bool) {s s2 : scanner} {res : List (Coord F)}
    (h : scanCoords N multi s = (.ok res, s2)) (hbad : ¬ (dead s2 ∧ s2.i < s2.raw.length)) :
    scanCoords N multi (extend t s) = (.ok res, extend t s2) := by
  have hfuel : ∀ u : scanner, u.raw.length + 1 ≤ (extend t u).raw.length + 1 := by
    intro u
    show u.raw.length + 1 ≤ (u.raw ++ t).length + 1
    simp
  unfold scanCoords at h
  cases hs : scanStart s with
  | mk r1 s1 =>
    rw [hs] at h
    cases r1 with
    | error e => simp at h
    | ok u =>
      simp only at h
      have hse := scanStart_ok_extend t hs
      cases multi with
      | false =>
        simp only [Bool.false_eq_true, if_false] at h
        unfold scanCoords
        rw [hse]
        simp only [Bool.false_eq_true, if_false]
        exact scanCoordsLoop_extend N hN t false _ _ _ _ _ h hbad _ (hfuel s1)
      | true =>
        simp only [if_true] at h
        cases hs3 : scanStart s1 with
        | mk r3 s3 =>
          rw [hs3] at h
          cases r3 with
          | error e =>
            simp only at h
            have hnd1 : ¬ dead s1 := by
              intro hd
              obtain ⟨e2, he⟩ := dead_scanStart hd
              rw [he] at hs3
              simp only [Prod.mk.injEq] at hs3
              rw [← hs3.2] at h
              exact hbad (dead_scanCoordsLoop N false _ _ _ _ _ hd h)
            have hs3e := scanStart_extend t hnd1
            rw [hs3] at hs3e
            simp only at hs3e
            unfold scanCoords
            rw [hse]
            simp only [if_true, hs3e]
            exact scanCoordsLoop_extend N hN t false _ _ _ _ _ h hbad _ (hfuel s3)
          | ok u2 =>
            simp only at h
            have hs3e := scanStart_ok_extend t hs3
            unfold scanCoords
            rw [hse]
            simp only [if_true, hs3e]
            exact scanCoordsLoop_extend N hN t true _ _ _ _ _ h hbad _ (hfuel s3)

theorem scanPolydataLoop_extend {F : Type} (N : Num F) (hN : prefixStable N) (t : List Nat) :
    ∀ (fuel : Nat) (s s2 : scanner) (poly res : List (List (Coord F))),
      scanPolydataLoop N fuel s poly = (.ok res, s2) →
      ∀ fuel2, fuel ≤ fuel2 →
        scanPolydataLoop N fuel2 (extend t s) poly = (.ok res, extend t s2) := by
  intro fuel
  induction fuel with
  | zero => intro s s2 poly res h; simp [scanPolydataLoop] at h
  | succ n ih =>
    intro s s2 poly res h fuel2 hfuel
    obtain ⟨f2, rfl⟩ : ∃ f2, fuel2 = f2 + 1 := ⟨fuel2 - 1, by omega⟩
    unfold scanPolydataLoop at h
    cases hc : scanCoords N false s with
    | mk r1 s1 =>
      rw [hc] at h
      cases r1 with
      | error e => simp at h
      | ok cs =>
        simp only at h
        split at h
        · simp at h
        · rename_i hlen
          split at h
          · rename_i c0 cn h0 hn
            split at h
            · simp at h
            · rename_i hclosed
              cases hk : scanContinue s1 with
              | mk r3 s3 =>
                rw [hk] at h
                cases r3 with
                | error e => simp at h
                | ok comma =>
                  simp only at h
                  have hnd1 : ¬ dead s1 := by
                    intro hd
                    obtain ⟨e, he⟩ := dead_scanContinue hd
                    rw [he] at hk
                    simp at hk
                  have hce := scanCoords_extend N hN t false hc (fun hd => hnd1 hd.1)
                  have hke := scanContinue_extend t hnd1
                  rw [hk] at hke
                  simp only at hke
                  unfold scanPolydataLoop
                  rw [hce]
                  simp only
                  rw [if_neg hlen]
                  simp only [h0, hn]
                  rw [if_neg hclosed, hke]
                  simp only
                  cases comma with
                  | true =>
                    simp only [if_true] at h ⊢
                    exact ih _ _ _ _ h f2 (by omega)
                  | false =>
                    simp only [Bool.false_eq_true, if_false, Prod.mk.injEq,
                      Except.ok.injEq] at h ⊢
                    exact ⟨h.1, by rw [h.2]⟩
          · simp at h

theorem scanPolydata_extend {F : Type} (N : Num F) (hN : prefixStable N) (t : List Nat)
    {s s2 : scanner} {res : List (List (Coord F))}
    (h : scanPolydata N s = (.ok res, s2)) :
    scanPolydata N (extend t s) = (.ok res, extend t s2) := by
  unfold scanPolydata at h
  cases hs : scanStart s with
  | mk r1 s1 =>
    rw [hs] at h
    cases r1 with
    | error e => simp at h
    | ok u =>
      simp only at h
      have hse := scanStart_ok_extend t hs
      unfold scanPolydata
      rw [hse]
      simp only
      exact scanPolydataLoop_extend N hN t _ _ _ _ _ h _
        (by show s1.raw.length + 1 ≤ (s1.raw ++ t).length + 1; simp)

theorem scanMultiPolydataLoop_extend {F : Type} (N : Num F) (hN : prefixStable N)
    (t : List Nat) :
    ∀ (fuel : Nat) (s s2 : scanner) (multi res : List (List (List (Coord F)))),
      scanMultiPolydataLoop N fuel s multi = (.ok res, s2) →
      ∀ fuel2, fuel ≤ fuel2 →
        scanMultiPolydataLoop N fuel2 (extend t s) multi = (.ok res, extend t s2) := by
  intro fuel
  induction fuel with
  | zero => intro s s2 multi res h; simp [scanMultiPolydataLoop] at h
  | succ n ih =>
    intro s s2 multi res h fuel2 hfuel
    obtain ⟨f2, rfl⟩ : ∃ f2, fuel2 = f2 + 1 := ⟨fuel2 - 1, by omega⟩
    unfold scanMultiPolydataLoop at h
    cases hc : scanPolydata N s with
    | mk r1 s1 =>
      rw [hc] at h
      cases r1 with
      | error e => simp at h
      | ok poly =>
        simp only at h
        cases hk : scanContinue s1 with
        | mk r3 s3 =>
          rw [hk] at h
          cases r3 with
          | error e => simp at h
          | ok comma =>
            simp only at h
            have hce := scanPolydata_extend N hN t hc
            have hke := scanContinue_ok_extend t hk
            unfold scanMultiPolydataLoop
            rw [hce]
            simp only
            rw [hke]
            simp only
            cases comma with
            | true =>
              simp only [if_true] at h ⊢
              exact ih _ _ _ _ h f2 (by omega)
            | false =>
              simp only [Bool.false_eq_true, if_false, Prod.mk.injEq, Except.ok.injEq] at h ⊢
              exact ⟨h.1, by rw [h.2]⟩

theorem scanMultiPolydata_extend {F : Type} (N : Num F) (hN : prefixStable N) (t : List Nat)
    {s s2 : scanner} {res : List (List (List (Coord F)))}
    (h : scanMultiPolydata N s = (.ok res, s2)) :
    scanMultiPolydata N (extend t s) = (.ok res, extend t s2) := by
  unfold scanMultiPolydata at h
  cases hs : scanStart s with
  | mk r1 s1 =>
    rw [hs] at h
    cases r1 with
    | error e => simp at h
    | ok u =>
      simp only at h
      have hse := scanStart_ok_extend t hs
      unfold scanMultiPolydata
      rw [hse]
      simp only
      exact scanMultiPolydataLoop_extend N hN t _ _ _ _ _ h _
        (by show s1.raw.length + 1 ≤ (s1.raw ++ t).length + 1; simp)

/-- On an input extended by trailing bytes `scanBody` returns the same geometry, unless it
ends in front of trailing white space. -/
theorem scanBody_extend {F : Type} (N : Num F) (hN : prefixStable N) (t : List Nat)
    (ident : List Nat) {s s2 : scanner} {g : Geom F}
    (h : scanBody N ident s = (.ok g, s2)) (hbad : ¬ (dead s2 ∧ s2.i < s2.raw.length)) :
    scanBody N ident (extend t s) = (.ok g, extend t s2) := by
  unfold scanBody at h
  split at h
  · rename_i hid
    cases hc : scanCoords N (ident == ascii "MULTIPOINT") s with
    | mk r1 s1 =>
      rw [hc] at h
      cases r1 with
      | error e => simp at h
      | ok cs =>
        simp only at h
        have hs21 : s2 = s1 := by
          split at h
          · split at h
            · simp at h
            · split at h
              · simp at h; exact h.2.symm
              · simp at h
          · split at h <;> (simp at h; exact h.2.symm)
        subst hs21
        have hce := scanCoords_extend N hN t _ hc hbad
        unfold scanBody
        rw [if_pos hid, hce]
        simp only
        split at h
        · rename_i hp
          rw [if_pos hp]
          split at h
          · simp at h
          · rename_i hl
            rw [if_neg hl]
            split at h
            · simp only [Prod.mk.injEq, Except.ok.injEq, and_true] at h ⊢
              exact h
            · simp at h
        · rename_i hp
          rw [if_neg hp]
          split at h
          · rename_i hm
            rw [if_pos hm]
            simp only [Prod.mk.injEq, Except.ok.injEq, and_true] at h ⊢
            exact h
          · rename_i hm
            rw [if_neg hm]
            simp only [Prod.mk.injEq, Except.ok.injEq, and_true] at h ⊢
            exact h
  · rename_i hid
    split at h
    · rename_i hpoly
      cases hc : scanPolydata N s with
      | mk r1 s1 =>
        rw [hc] at h
        cases r1 with
        | error e => simp at h
        | ok rings =>
          simp only [Prod.mk.injEq, Except.ok.injEq] at h
          obtain ⟨h1, h2⟩ := h
          subst h1 h2
          have hce := scanPolydata_extend N hN t hc
          unfold scanBody
          rw [if_neg hid, if_pos hpoly, hce]
          rfl
    · rename_i hpoly
      split at h
      · rename_i hmp
        cases hc : scanMultiPolydata N s with
        | mk r1 s1 =>
          rw [hc] at h
          cases r1 with
          | error e => simp at h
          | ok multi =>
            simp only [Prod.mk.injEq, Except.ok.injEq] at h
            obtain ⟨h1, h2⟩ := h
            subst h1 h2
            have hce := scanMultiPolydata_extend N hN t hc
            unfold scanBody
            rw [if_neg hid, if_neg hpoly, if_pos hmp, hce]
            rfl
      · simp at h

theorem drop_last_of_drop {l w ls : List Nat} {i : Nat} (h : l.drop i = w ++ ls)
    (hne : ls ≠ []) : ∃ x, l.drop (i + w.length + ls.length - 1) = [x] ∧ x ∈ ls := by
  have hl := List.dropLast_append_getLast hne
  have h2 : l.drop i = (w ++ ls.dropLast) ++ ([ls.getLast hne]) := by
    rw [List.append_assoc, hl]; exact h
  have h3 := drop_add_of_drop h2
  have hlen : ls.length = ls.dropLast.length + 1 := by
    have := congrArg List.length hl
    simp only [List.length_append, List.length_singleton] at this
    omega
  refine ⟨ls.getLast hne, ?_, List.getLast_mem hne⟩
  rw [List.length_append] at h3
  have : i + w.length + ls.length - 1 = i + (w.length + ls.dropLast.length) := by omega
  rw [this]
  exact h3

/-- When the cursor stands on a letter no body can be read: `scanBody` fails. -/
theorem scanBody_fail_on_letter {F : Type} (N : Num F) (ident : List Nat) {s : scanner}
    {b : Nat} {r : List Nat} (h : s.raw.drop s.i = b :: r) (hb : isLetter b = true) :
    ∃ e, (scanBody (F := F) N ident s).1 = .error e := by
  have h0 : s.raw.drop s.i = [] ++ b :: r := by simpa using h
  have h2 := scanStart_at_fail h0 (by simp) (isWs_of_isLetter hb)
    (by intro hc; subst hc; simp [isLetter] at hb)
  rcases scanBody_of_scanStart_error (F := F) N ident _ _ _ h2 with h3 | h3
  · exact ⟨_, h3⟩
  · exact ⟨_, h3⟩

/-- The two ways in which `scanIdent` succeeds: the cursor is left on a byte that is no letter,
or on the last byte of the input, which is a letter. -/
theorem scanIdent_ok_cases {s s1 : scanner} {ident : List Nat}
    (h : scanIdent s = (.ok ident, s1)) :
    (∃ w ls b r, s.raw.drop s.i = w ++ (ls ++ b :: r) ∧ (∀ y ∈ w, isWs y = true) ∧
      (∀ y ∈ ls, isLetter y = true) ∧ ls ≠ [] ∧ isLetter b = false ∧
      ident = ls.map upper ∧ s1 = { s with i := s.i + w.length + ls.length }) ∨
    (∃ x, s1.raw.drop s1.i = [x] ∧ isLetter x = true) := by
  rcases scanIdent_total s with ⟨_, h1⟩ | ⟨_, _, _, _, h1⟩ | ⟨_, _, _, _, _, _, _, h1⟩ |
      ⟨w, ls, b, r, hd, hw, hls, hne, hb, h1⟩ | ⟨w, ls, hd, hw, hls, hne, h1⟩
  · rw [h1] at h; simp at h
  · rw [h1] at h; simp at h
  · rw [h1] at h; simp at h
  · rw [h1] at h
    simp only [Prod.mk.injEq, Except.ok.injEq] at h
    exact Or.inl ⟨w, ls, b, r, hd, hw, hls, hne, hb, h.1.symm, h.2.symm⟩
  · rw [h1] at h
    simp only [Prod.mk.injEq, Except.ok.injEq] at h
    obtain ⟨x, hx, hmem⟩ := drop_last_of_drop hd hne
    right
    rw [← h.2]
    exact ⟨x, hx, hls x hmem⟩

theorem scanIdent_at_extend {s : scanner} (t : List Nat) {w ls r : List Nat} {b : Nat}
    (hd : s.raw.drop s.i = w ++ (ls ++ b :: r)) (hw : ∀ y ∈ w, isWs y = true)
    (hls : ∀ y ∈ ls, isLetter y = true) (hne : ls ≠ []) (hb : isLetter b = false) :
    scanIdent (extend t s) =
      (.ok (ls.map upper), extend t { s with i := s.i + w.length + ls.length }) := by
  have h0 : s.raw.drop s.i = (w ++ ls) ++ b :: r := by rw [hd]; simp
  have h1 := extend_drop (t := t) h0
  rw [List.append_assoc] at h1
  rw [scanIdent_at h1 hw hls hne hb]
  rfl

/-- On an input extended by trailing bytes `scanGeom` returns the same geometry, unless it
ends in front of trailing white space. -/
theorem scanGeom_extend {F : Type} (N : Num F) (hN : prefixStable N) (t : List Nat)
    {s s2 : scanner} {g : Geom F} (h : scanGeom N s = (.ok g, s2))
    (hbad : ¬ (dead s2 ∧ s2.i < s2.raw.length)) :
    scanGeom N (extend t s) = (.ok g, extend t s2) := by
  unfold scanGeom at h
  cases h1 : scanIdent s with
  | mk r1 s1 =>
    rw [h1] at h
    cases r1 with
    | error e => simp at h
    | ok ident =>
      simp only at h
      rcases scanIdent_ok_cases h1 with ⟨w, ls, b, r, hd, hw, hls, hne, hb, hid, hs1⟩ |
          ⟨x, hx, hxl⟩
      · have h1e := scanIdent_at_extend t hd hw hls hne hb
        rw [← hid, ← hs1] at h1e
        rcases scanIdent_total s1 with ⟨hnil, h2⟩ | ⟨y, ys, hcons, hall, h2⟩ |
            ⟨w2, b2, r2, hd2, hw2, hbw2, hbl2, h2⟩ |
            ⟨w2, ls2, b2, r2, hd2, hw2, hls2, hne2, hb2, h2⟩ | ⟨w2, ls2, hd2, hw2, hls2, hne2, h2⟩
        · rw [h2] at h
          simp only at h
          have hdead : dead { s1 with opt := optOfIdent [] } := by
            intro z hz
            simp only at hz
            rw [hnil] at hz
            simp at hz
          obtain ⟨e, he⟩ := dead_scanBody (F := F) N ident hdead
          rw [h] at he
          simp at he
        · rw [h2] at h
          simp only at h
          have hdead : dead { s1 with opt := optOfIdent [] } := by
            intro z hz
            simp only at hz
            rw [hcons] at hz
            exact hall z hz
          obtain ⟨e, he⟩ := dead_scanBody (F := F) N ident hdead
          rw [h] at he
          simp at he
        · rw [h2] at h
          simp only at h
          have h2e := scanIdent_at_fail (extend_drop (t := t) hd2) hw2 hbw2 hbl2
          have hbe := scanBody_extend N hN t ident h hbad
          unfold scanGeom
          rw [h1e]
          simp only
          rw [h2e]
          exact hbe
        · rw [h2] at h
          simp only at h
          have h2e := scanIdent_at_extend t hd2 hw2 hls2 hne2 hb2
          have hbe := scanBody_extend N hN t ident h hbad
          unfold scanGeom
          rw [h1e]
          simp only
          rw [h2e]
          exact hbe
        · rw [h2] at h
          simp only at h
          obtain ⟨x, hx, hmem⟩ := drop_last_of_drop hd2 hne2
          obtain ⟨e, he⟩ := scanBody_fail_on_letter (F := F) N ident
            (s := { raw := s1.raw, i := s1.i + w2.length + ls2.length - 1,
                    opt := optOfIdent (ls2.map upper) }) hx (hls2 x hmem)
          rw [h] at he
          simp at he
      · obtain ⟨e, he⟩ := scanBody_fail_on_last_letter (F := F) N ident s1 x
          (optOfIdent (identOr (scanIdent s1).1)) hx hxl
        exfalso
        cases h2 : scanIdent s1 with
        | mk r2 u =>
          rw [h2] at h he
          cases r2 with
          | error e2 =>
            simp only [identOr] at h he
            rw [h] at he
            simp at he
          | ok z =>
            simp only [identOr] at h he
            rw [h] at he
            simp at he

/-- The trailing bytes behind a geometry that was read up to the end of its input are
ignored. -/
theorem Parse_append {F : Type} (N : Num F) (hN : prefixStable N) (data t : List Nat)
    (g : Geom F) (s2 : scanner)
    (h : scanGeom N { raw := data, i := 0, opt := 0 } = (.ok g, s2))
    (hbad : ¬ (dead s2 ∧ s2.i < s2.raw.length)) : Parse N (data ++ t) = .ok g := by
  have := scanGeom_extend N hN t h hbad
  unfold Parse
  show (scanGeom N (extend t { raw := data, i := 0, opt := 0 })).1 = _
  rw [this]

/-! ## The concrete back end reads a literal from the bytes it takes and the next one -/

theorem span_append_of_ne_nil (p : Nat → Bool) :
    ∀ (l t : List Nat), l.dropWhile p ≠ [] →
      (l ++ t).takeWhile p = l.takeWhile p ∧ (l ++ t).dropWhile p = l.dropWhile p ++ t
  | [], _, h => by simp at h
  | x :: l, t, h => by
    by_cases hx : p x = true
    · have h2 : l.dropWhile p ≠ [] := by simpa [List.dropWhile, hx] using h
      have ih := span_append_of_ne_nil p l t h2
      simp [List.takeWhile, List.dropWhile, hx, ih.1, ih.2]
    · simp [List.takeWhile, List.dropWhile, hx]

theorem head?_append_of_ne_nil {l : List Nat} (t : List Nat) (h : l ≠ []) :
    (l ++ t).head? = l.head? := by
  cases l with
  | nil => exact absurd rfl h
  | cons x l => rfl

theorem dec_prefixStable : prefixStable dec := by
  intro r t v k h hk
  change decFscan r = some (v, k) at h
  show decFscan (r ++ t) = some (v, k)
  have hsplit1 := List.takeWhile_append_dropWhile isSpaceByte r
  have hl1 : r.length = (r.takeWhile isSpaceByte).length + (r.dropWhile isSpaceByte).length := by
    have := congrArg List.length hsplit1
    rw [List.length_append] at this
    omega
  unfold decFscan at h
  simp only at h
  generalize hr1 : r.dropWhile isSpaceByte = r1 at h hl1
  generalize hsg : (if (r1.head? == some 45 || r1.head? == some 43) = true then 1 else 0) = sgn
    at h
  have hsplit2 := List.takeWhile_append_dropWhile isDigit (r1.drop sgn)
  have hl2 : (r1.drop sgn).length =
      ((r1.drop sgn).takeWhile isDigit).length + ((r1.drop sgn).dropWhile isDigit).length := by
    have := congrArg List.length hsplit2
    rw [List.length_append] at this
    omega
  split at h
  · simp at h
  · rename_i hds
    split at h
    · simp at h
    · rename_i hcont
      split at h
      · simp at h
      · rename_i hval
        simp only [Option.some.injEq, Prod.mk.injEq] at h
        obtain ⟨hv, hkk⟩ := h
        have hdsne : ((r1.drop sgn).takeWhile isDigit).length ≠ 0 := by simpa using hds
        have hsgn1 : sgn ≤ 1 := by rw [← hsg]; split <;> omega
        have hr1ne : r1 ≠ [] := by
          intro hc
          rw [hc] at hdsne
          simp at hdsne
        have hsgnle : sgn ≤ r1.length := by
          have : 0 < r1.length := List.length_pos.mpr hr1ne
          omega
        have hl3 : (r1.drop sgn).length = r1.length - sgn := List.length_drop _ _
        have hr3ne : (r1.drop sgn).dropWhile isDigit ≠ [] := by
          intro hc
          rw [hc] at hl2
          simp only [List.length_nil, Nat.add_zero] at hl2
          omega
        have ha := span_append_of_ne_nil isSpaceByte r t (by rw [hr1]; exact hr1ne)
        rw [hr1] at ha
        have hb := span_append_of_ne_nil isDigit (r1.drop sgn) t hr3ne
        have hdrop : (r1 ++ t).drop sgn = r1.drop sgn ++ t :=
          List.drop_append_of_le_length hsgnle
        unfold decFscan
        simp only
        rw [ha.1, ha.2, head?_append_of_ne_nil t hr1ne, hsg, hdrop, hb.1, hb.2,
          head?_append_of_ne_nil t hr3ne]
        rw [if_neg hds, if_neg hcont, if_neg hval, hv, hkk]

theorem scanGeom_raw {F : Type} (N : Num F) (s : scanner) :
    (scanGeom (F := F) N s).2.raw = s.raw := by
  unfold scanGeom
  cases h1 : scanIdent s with
  | mk r1 s1 =>
    have hf1 := (scanIdent_frame_eq h1).1
    cases r1 with
    | error e => exact hf1
    | ok ident =>
      simp only
      cases h2 : scanIdent s1 with
      | mk r2 s2 =>
        have hf2 := (scanIdent_frame_eq h2).1
        cases r2 with
        | error e =>
          simp only
          cases h3 : scanBody (F := F) N ident { s2 with opt := optOfIdent [] } with
          | mk r3 s3 =>
            have hf3 := (scanBody_frame_eq h3).1
            simp only at hf3 ⊢
            rw [hf3, hf2, hf1]
        | ok z =>
          simp only
          cases h3 : scanBody (F := F) N ident { s2 with opt := optOfIdent z } with
          | mk r3 s3 =>
            have hf3 := (scanBody_frame_eq h3).1
            simp only at hf3 ⊢
            rw [hf3, hf2, hf1]

/-- C19: when `Parse` succeeds on an input with the cursor at the end of the input, it
succeeds on the input followed by any bytes and returns the same geometry, which is `Equal`
to itself as soon as each of its coordinates is `==` to itself.  The assumption on
`fmt.Fscan` is that bytes behind the byte that follows a literal do not change what it
reads. -/
theorem C19_trailing_bytes_ignored {F : Type} (N : Num F) (hN : prefixStable N)
    (data t : List Nat) (g : Geom F) (s2 : scanner)
    (h : scanGeom N { raw := data, i := 0, opt := 0 } = (.ok g, s2))
    (hend : s2.i = data.length) :
    Parse N data = .ok g ∧ Parse N (data ++ t) = .ok g ∧
    ((∀ c ∈ g.coords, coordEq N c c = true) → Geom.Equal N g g = true) := by
  have hraw : s2.raw = data := by
    have := scanGeom_raw (F := F) N { raw := data, i := 0, opt := 0 }
    rw [h] at this
    exact this
  refine ⟨by unfold Parse; rw [h], ?_, Equal_self N g⟩
  apply Parse_append N hN data t g s2 h
  intro hb
  rw [hraw] at hb
  omega

theorem C19_trailing_bytes_ignored_witness :
    Parse dec (ascii "POINT(1 2)") = .ok (.Point ⟨1, 2, 0, 0⟩ 0) ∧
    Parse dec (ascii "POINT(1 2)" ++ ascii ") trailing bytes") = .ok (.Point ⟨1, 2, 0, 0⟩ 0) ∧
    Geom.Equal dec (.Point ⟨1, 2, 0, 0⟩ 0) (.Point ⟨1, 2, 0, 0⟩ 0) = true := by
  have h := C19_trailing_bytes_ignored dec dec_prefixStable (ascii "POINT(1 2)")
    (ascii ") trailing bytes") (.Point ⟨1, 2, 0, 0⟩ 0)
    { raw := ascii "POINT(1 2)", i := 10, opt := 0 } (by rfl) (by rfl)
  exact ⟨h.1, h.2.1, h.2.2 (by decide)⟩

/-- C19, counterexample: `Parse` succeeds on `POINT(nan 0)` with the cursor at the end of
the input, and on the input followed by more bytes it returns the same Point, whose `X` is
NaN; the two results are not `Equal`. -/
theorem C19_counterexample :
    scanGeom decNaN { raw := ascii "POINT(nan 0)", i := 0, opt := 0 } =
      (.ok (.Point ⟨none, some 0, some 0, some 0⟩ 0),
        { raw := ascii "POINT(nan 0)", i := 12, opt := 0 }) ∧
    (ascii "POINT(nan 0)").length = 12 ∧
    Parse decNaN (ascii "POINT(nan 0)") = .ok (.Point ⟨none, some 0, some 0, some 0⟩ 0) ∧
    Parse decNaN (ascii "POINT(nan 0)" ++ ascii " trailing") =
      .ok (.Point ⟨none, some 0, some 0, some 0⟩ 0) ∧
    Geom.Equal decNaN (.Point ⟨none, some 0, some 0, some 0⟩ 0)
      (.Point ⟨none, some 0, some 0, some 0⟩ 0) = false :=
  ⟨by rfl, by rfl, by rfl, by rfl, by rfl⟩

/-! ## White space inserted at a boundary -/

theorem isSep_of_isWs {x : Nat} (h : isWs x = true) : isSep x = true := by
  simp [isSep, h]

theorem isLetter_of_isSep {x : Nat} (h : isSep x = true) : isLetter x = false := by
  simp only [isSep, Bool.or_eq_true, beq_iff_eq] at h
  rcases h with ((h | h) | h) | h
  · exact isLetter_of_isWs h
  · subst h; decide
  · subst h; decide
  · subst h; decide

theorem boundary_tail {x : Nat} {a b : List Nat} (h : boundary (x :: a) b) : boundary a b := by
  rcases h with h | ⟨y, h, hy⟩ | h
  · simp at h
  · cases a with
    | nil => exact Or.inl rfl
    | cons z a => exact Or.inr (Or.inl ⟨y, by simpa [List.getLast?_cons_cons] using h, hy⟩)
  · exact Or.inr (Or.inr h)

theorem boundary_append_left {p a b : List Nat} (h : boundary (p ++ a) b) :
    boundary a b := by
  induction p with
  | nil => simpa using h
  | cons x p ih =>
    apply ih
    exact boundary_tail (by simpa using h)

theorem wsRel_of_wsRelS {w u1 u2 : List Nat} (h : wsRelS w u1 u2) : wsRel w u1 u2 := by
  rcases h with h | ⟨a, b, _, h1, h2, h3⟩
  · exact Or.inl h
  · exact Or.inr ⟨a, b, h1, h2, h3⟩

theorem wsRel_allWs {w u1 u2 : List Nat} (h : wsRel w u1 u2) (hw : ∀ x ∈ w, isWs x = true)
    (h1 : ∀ x ∈ u1, isWs x = true) : ∀ x ∈ u2, isWs x = true := by
  rcases h with h | ⟨a, b, ha, hb, _⟩
  · rw [← h]; exact h1
  · subst ha hb
    intro x hx
    simp only [List.mem_append] at hx h1
    rcases hx with hx | hx | hx
    · exact h1 x (Or.inl hx)
    · exact hw x hx
    · exact h1 x (Or.inr hx)

theorem wsRel_nil_right {w u1 u2 : List Nat} (h : wsRel w u1 u2) (h2 : u2 = []) : u1 = [] := by
  rcases h with h | ⟨a, b, ha, hb, _⟩
  · rw [h, h2]
  · subst ha hb
    simp only [List.append_eq_nil] at h2
    simp [h2.1, h2.2.2]

/-- The first byte that is not white space is the same in two related texts; behind the white
space in front of it the texts are related, the inserted white space standing behind it. -/
theorem wsRel_align {w u1 u2 w1 r1 : List Nat} {c : Nat} (h : wsRel w u1 u2)
    (hw : ∀ x ∈ w, isWs x = true) (hu : u1 = w1 ++ c :: r1)
    (hw1 : ∀ x ∈ w1, isWs x = true) :
    ∃ w2 r2, u2 = w2 ++ c :: r2 ∧ (∀ x ∈ w2, isWs x = true) ∧ wsRelS w (c :: r1) (c :: r2) := by
  rcases h with h | ⟨a, b, ha, hb, hbd⟩
  · exact ⟨w1, r1, by rw [← h, hu], hw1, Or.inl rfl⟩
  · rw [hu] at ha
    rcases List.append_eq_append_iff.mp ha with ⟨a', h1, h2⟩ | ⟨c', h1, h2⟩
    · -- the white space is inserted behind `c`
      cases a' with
      | nil =>
        simp only [List.append_nil] at h1
        simp only [List.nil_append] at h2
        subst h1
        refine ⟨a ++ w, r1, by rw [hb, ← h2]; simp, ?_, Or.inl rfl⟩
        intro x hx
        rcases List.mem_append.mp hx with hx | hx
        · exact hw1 x hx
        · exact hw x hx
      | cons z a'' =>
        simp only [List.cons_append, List.cons.injEq] at h2
        obtain ⟨hz, h2⟩ := h2
        subst hz
        refine ⟨w1, a'' ++ (w ++ b), by rw [hb, h1]; simp, hw1, Or.inr ⟨c :: a'', b, by simp,
          by rw [h2]; simp, by simp, ?_⟩⟩
        rw [h1] at hbd
        exact boundary_append_left hbd
    · -- the white space is inserted in front of `c`
      have hwa : ∀ x ∈ a, isWs x = true := fun x hx => hw1 x (by rw [h1]; simp [hx])
      refine ⟨a ++ (w ++ c'), r1, by rw [hb, h2]; simp, ?_, Or.inl rfl⟩
      intro x hx
      simp only [List.mem_append] at hx
      rcases hx with hx | hx | hx
      · exact hwa x hx
      · exact hw x hx
      · exact hw1 x (by rw [h1]; simp [hx])

theorem wsRelS_tail {w r1 r2 : List Nat} {c : Nat} (h : wsRelS w (c :: r1) (c :: r2)) :
    wsRel w r1 r2 := by
  rcases h with h | ⟨a, b, hne, ha, hb, hbd⟩
  · simp only [List.cons.injEq, true_and] at h
    exact Or.inl h
  · cases a with
    | nil => exact absurd rfl hne
    | cons z a' =>
      simp only [List.cons_append, List.cons.injEq] at ha hb
      exact Or.inr ⟨a', b, ha.2, hb.2, boundary_tail hbd⟩

theorem wsSim_dead {w : List Nat} {s1 s2 : scanner} (h : wsSim w s1 s2)
    (hw : ∀ x ∈ w, isWs x = true) (hd : dead s1) : dead s2 :=
  wsRel_allWs h.2 hw hd

/-- The two cases of two related scanners: both have white space only in front of them, or the
first byte that is not white space is the same for both. -/
theorem wsSim_cases {w : List Nat} {s1 s2 : scanner} (h : wsSim w s1 s2)
    (hw : ∀ x ∈ w, isWs x = true) :
    (dead s1 ∧ dead s2) ∨
    (∃ w1 w2 c r1 r2, s1.raw.drop s1.i = w1 ++ c :: r1 ∧ s2.raw.drop s2.i = w2 ++ c :: r2 ∧
      (∀ x ∈ w1, isWs x = true) ∧ (∀ x ∈ w2, isWs x = true) ∧ isWs c = false ∧
      wsRelS w (c :: r1) (c :: r2)) := by
  rcases skipWs_cases s1 with ⟨h1, _⟩ | ⟨w1, c, r1, hd, hw1, hc, _⟩
  · exact Or.inl ⟨h1, wsSim_dead h hw h1⟩
  · obtain ⟨w2, r2, h2, hw2, hrel⟩ := wsRel_align h.2 hw hd hw1
    exact Or.inr ⟨w1, w2, c, r1, r2, hd, h2, hw1, hw2, hc, hrel⟩

theorem wsSim_advance {w : List Nat} {s1 s2 : scanner} {w1 w2 r1 r2 : List Nat} {c : Nat}
    (ho : s1.opt = s2.opt) (h1 : s1.raw.drop s1.i = w1 ++ c :: r1)
    (h2 : s2.raw.drop s2.i = w2 ++ c :: r2) (hrel : wsRelS w (c :: r1) (c :: r2)) :
    wsSim w { s1 with i := s1.i + w1.length } { s2 with i := s2.i + w2.length } ∧
    wsSim w { s1 with i := s1.i + w1.length + 1 } { s2 with i := s2.i + w2.length + 1 } := by
  have ha1 : s1.raw.drop (s1.i + w1.length) = c :: r1 := drop_add_of_drop h1
  have ha2 : s2.raw.drop (s2.i + w2.length) = c :: r2 := drop_add_of_drop h2
  have hb1 : s1.raw.drop (s1.i + w1.length + 1) = r1 := drop_succ_of_drop ha1
  have hb2 : s2.raw.drop (s2.i + w2.length + 1) = r2 := drop_succ_of_drop ha2
  constructor
  · refine ⟨ho, ?_⟩
    show wsRel w (s1.raw.drop (s1.i + w1.length)) (s2.raw.drop (s2.i + w2.length))
    rw [ha1, ha2]
    exact wsRel_of_wsRelS hrel
  · refine ⟨ho, ?_⟩
    show wsRel w (s1.raw.drop (s1.i + w1.length + 1)) (s2.raw.drop (s2.i + w2.length + 1))
    rw [hb1, hb2]
    exact wsRelS_tail hrel

/-- Method `scanStart` on two related scanners: the same outcome, and related scanners also
when it fails. -/
theorem scanStart_wsSim {w : List Nat} {s1 s2 : scanner} (h : wsSim w s1 s2)
    (hw : ∀ x ∈ w, isWs x = true) :
    simOut w (scanStart s1) (scanStart s2) ∧ wsSim w (scanStart s1).2 (scanStart s2).2 := by
  rcases wsSim_cases h hw with ⟨hd1, hd2⟩ | ⟨w1, w2, c, r1, r2, h1, h2, hw1, hw2, hc, hrel⟩
  · obtain ⟨e1, he1⟩ := dead_scanStart hd1
    obtain ⟨e2, he2⟩ := dead_scanStart hd2
    rw [he1, he2]
    exact ⟨Or.inl ⟨e1, e2, rfl, rfl⟩, h⟩
  · have hadv := wsSim_advance h.1 h1 h2 hrel
    by_cases hc40 : c = 40
    · subst hc40
      rw [scanStart_at h1 hw1, scanStart_at h2 hw2]
      exact ⟨Or.inr ⟨(), rfl, rfl, hadv.2⟩, hadv.2⟩
    · rw [scanStart_at_fail h1 hw1 hc hc40, scanStart_at_fail h2 hw2 hc hc40]
      exact ⟨Or.inl ⟨_, _, rfl, rfl⟩, hadv.1⟩

/-- Method `scanContinue` on two related scanners. -/
theorem scanContinue_wsSim {w : List Nat} {s1 s2 : scanner} (h : wsSim w s1 s2)
    (hw : ∀ x ∈ w, isWs x = true) :
    simOut w (scanContinue s1) (scanContinue s2) := by
  rcases wsSim_cases h hw with ⟨hd1, hd2⟩ | ⟨w1, w2, c, r1, r2, h1, h2, hw1, hw2, hc, hrel⟩
  · obtain ⟨e1, he1⟩ := dead_scanContinue hd1
    obtain ⟨e2, he2⟩ := dead_scanContinue hd2
    rw [he1, he2]
    exact Or.inl ⟨e1, e2, rfl, rfl⟩
  · have hadv := wsSim_advance h.1 h1 h2 hrel
    by_cases hcd : c = 44 ∨ c = 41
    · rw [scanContinue_at h1 hw1 hcd, scanContinue_at h2 hw2 hcd]
      exact Or.inr ⟨_, rfl, rfl, hadv.2⟩
    · have hc1 : c ≠ 44 := fun hx => hcd (Or.inl hx)
      have hc2 : c ≠ 41 := fun hx => hcd (Or.inr hx)
      rw [scanContinue_at_fail h1 hw1 hc hc1 hc2, scanContinue_at_fail h2 hw2 hc hc1 hc2]
      exact Or.inl ⟨_, _, rfl, rfl⟩

theorem dead_scanIdent {s : scanner} (h : dead s) : ∃ e, scanIdent s = (.error e, s) := by
  cases hd : s.raw.drop s.i with
  | nil => exact ⟨_, scanIdent_nil hd⟩
  | cons x xs => exact ⟨_, scanIdent_allws hd (by rw [← hd]; exact h)⟩

/-- The run of letters at the start of two related texts is the same; behind it the texts are
related, and both are empty or both start with a byte that is no letter. -/
theorem wsRel_letters {w : List Nat} (hw : ∀ x ∈ w, isWs x = true) :
    ∀ (a b : List Nat), a ≠ [] → boundary a b →
      ∃ ls d1 d2, a ++ b = ls ++ d1 ∧ a ++ (w ++ b) = ls ++ d2 ∧
        (∀ x ∈ ls, isLetter x = true) ∧ wsRel w d1 d2 ∧
        ((d1 = [] ∧ d2 = []) ∨ ∃ y1 t1 y2 t2, d1 = y1 :: t1 ∧ d2 = y2 :: t2 ∧
          isLetter y1 = false ∧ isLetter y2 = false)
  | [], _, hne, _ => absurd rfl hne
  | x :: a, b, _, hbd => by
    by_cases hx : isLetter x = true
    · cases a with
      | nil =>
        -- the white space is inserted behind the letter `x`: a separator follows
        rcases hbd with h | ⟨y, h, hy⟩ | ⟨y, h, hy⟩
        · simp at h
        · simp at h
          subst h
          rw [isLetter_of_isSep hy] at hx
          simp at hx
        · cases b with
          | nil => simp at h
          | cons z b =>
            simp at h
            subst h
            have hz := isLetter_of_isSep hy
            refine ⟨[x], z :: b, w ++ z :: b, rfl, rfl, by simpa using hx,
              Or.inr ⟨[], z :: b, rfl, rfl, Or.inl rfl⟩, Or.inr ?_⟩
            cases w with
            | nil => exact ⟨z, b, z, b, rfl, rfl, hz, hz⟩
            | cons v w' =>
              exact ⟨z, b, v, w' ++ z :: b, rfl, rfl, hz,
                isLetter_of_isWs (hw v (by simp))⟩
      | cons z a' =>
        obtain ⟨ls, d1, d2, h1, h2, hls, hrel, hd⟩ :=
          wsRel_letters hw (z :: a') b (by simp) (boundary_tail hbd)
        refine ⟨x :: ls, d1, d2, by simp [← h1], by simp [← h2], ?_, hrel, hd⟩
        intro y hy
        simp at hy
        rcases hy with hy | hy
        · subst hy; exact hx
        · exact hls y hy
    · have hx2 : isLetter x = false := by simpa using hx
      refine ⟨[], x :: a ++ b, x :: a ++ (w ++ b), rfl, rfl, by simp,
        Or.inr ⟨x :: a, b, rfl, rfl, hbd⟩, Or.inr ⟨x, a ++ b, x, a ++ (w ++ b), rfl, rfl, hx2, hx2⟩⟩

theorem wsRelS_letters {w u1 u2 : List Nat} (hw : ∀ x ∈ w, isWs x = true)
    (h : wsRelS w u1 u2) :
    ∃ ls d1 d2, u1 = ls ++ d1 ∧ u2 = ls ++ d2 ∧
      (∀ x ∈ ls, isLetter x = true) ∧ wsRel w d1 d2 ∧
      ((d1 = [] ∧ d2 = []) ∨ ∃ y1 t1 y2 t2, d1 = y1 :: t1 ∧ d2 = y2 :: t2 ∧
        isLetter y1 = false ∧ isLetter y2 = false) := by
  rcases h with h | ⟨a, b, hne, ha, hb, hbd⟩
  · subst h
    obtain ⟨h1, h2, h3⟩ := span_cases isLetter u1
    refine ⟨_, _, _, h2, h2, h1, Or.inl rfl, ?_⟩
    rcases h3 with h3 | ⟨y, t, h3, hy⟩
    · exact Or.inl ⟨h3, h3⟩
    · exact Or.inr ⟨y, t, y, t, h3, h3, hy, hy⟩
  · subst ha hb
    exact wsRel_letters hw a b hne hbd

theorem drop_getLast_of_drop {l w ls : List Nat} {i : Nat} (h : l.drop i = w ++ ls)
    (hne : ls ≠ []) : l.drop (i + w.length + ls.length - 1) = [ls.getLast hne] := by
  have hl := List.dropLast_append_getLast hne
  have h2 : l.drop i = (w ++ ls.dropLast) ++ ([ls.getLast hne]) := by
    rw [List.append_assoc, hl]; exact h
  have h3 := drop_add_of_drop h2
  have hlen : ls.length = ls.dropLast.length + 1 := by
    have := congrArg List.length hl
    simp only [List.length_append, List.length_singleton] at this
    omega
  rw [List.length_append] at h3
  have : i + w.length + ls.length - 1 = i + (w.length + ls.dropLast.length) := by omega
  rw [this]
  exact h3

/-- Method `scanIdent` on two related scanners: the same outcome, and related scanners also
when it fails. -/
theorem scanIdent_wsSim {w : List Nat} {s1 s2 : scanner} (h : wsSim w s1 s2)
    (hw : ∀ x ∈ w, isWs x = true) :
    simOut w (scanIdent s1) (scanIdent s2) ∧ wsSim w (scanIdent s1).2 (scanIdent s2).2 := by
  rcases wsSim_cases h hw with ⟨hd1, hd2⟩ | ⟨w1, w2, c, r1, r2, h1, h2, hw1, hw2, hc, hrel⟩
  · obtain ⟨e1, he1⟩ := dead_scanIdent hd1
    obtain ⟨e2, he2⟩ := dead_scanIdent hd2
    rw [he1, he2]
    exact ⟨Or.inl ⟨e1, e2, rfl, rfl⟩, h⟩
  · by_cases hcl : isLetter c = true
    · obtain ⟨ls, d1, d2, hl1, hl2, hls, hdrel, hd⟩ := wsRelS_letters hw hrel
      have hne : ls ≠ [] := by
        intro hnil
        subst hnil
        simp only [List.nil_append] at hl1
        rcases hd with ⟨hd1, _⟩ | ⟨y1, t1, _, _, hd1, _, hy1, _⟩
        · rw [← hl1] at hd1; simp at hd1
        · rw [← hl1] at hd1
          simp only [List.cons.injEq] at hd1
          rw [← hd1.1, hcl] at hy1
          simp at hy1
      rcases hd with ⟨hd1, hd2⟩ | ⟨y1, t1, y2, t2, hd1, hd2, hy1, hy2⟩
      · subst hd1 hd2
        simp only [List.append_nil] at hl1 hl2
        rw [hl1] at h1
        rw [hl2] at h2
        rw [scanIdent_at_end h1 hw1 hls hne, scanIdent_at_end h2 hw2 hls hne]
        have hsim : wsSim w { s1 with i := s1.i + w1.length + ls.length - 1 }
            { s2 with i := s2.i + w2.length + ls.length - 1 } := by
          refine ⟨h.1, ?_⟩
          show wsRel w (s1.raw.drop (s1.i + w1.length + ls.length - 1))
            (s2.raw.drop (s2.i + w2.length + ls.length - 1))
          rw [drop_getLast_of_drop h1 hne, drop_getLast_of_drop h2 hne]
          exact Or.inl rfl
        exact ⟨Or.inr ⟨_, rfl, rfl, hsim⟩, hsim⟩
      · subst hd1 hd2
        rw [hl1] at h1
        rw [hl2] at h2
        rw [scanIdent_at h1 hw1 hls hne hy1, scanIdent_at h2 hw2 hls hne hy2]
        have hsim : wsSim w { s1 with i := s1.i + w1.length + ls.length }
            { s2 with i := s2.i + w2.length + ls.length } := by
          refine ⟨h.1, ?_⟩
          show wsRel w (s1.raw.drop (s1.i + w1.length + ls.length))
            (s2.raw.drop (s2.i + w2.length + ls.length))
          have e1 : s1.raw.drop s1.i = (w1 ++ ls) ++ y1 :: t1 := by rw [h1]; simp
          have e2 : s2.raw.drop s2.i = (w2 ++ ls) ++ y2 :: t2 := by rw [h2]; simp
          have f1 := drop_add_of_drop e1
          have f2 := drop_add_of_drop e2
          rw [List.length_append, ← Nat.add_assoc] at f1 f2
          rw [f1, f2]
          exact hdrel
        exact ⟨Or.inr ⟨_, rfl, rfl, hsim⟩, hsim⟩
    · have hcl2 : isLetter c = false := by simpa using hcl
      have hadv := wsSim_advance h.1 h1 h2 hrel
      rw [scanIdent_at_fail h1 hw1 hc hcl2, scanIdent_at_fail h2 hw2 hc hcl2]
      exact ⟨Or.inl ⟨_, _, rfl, rfl⟩, hadv.1⟩

theorem scanFields_none {F : Type} (N : Num F) (f : Fld) (fs : List Fld) (r : List Nat)
    (c : Coord F) (s : scanner) (n : Nat) (hf : N.fscan r = none) :
    scanFields N (f :: fs) r c s n = ((.error .fscan, s), n) := by
  unfold scanFields
  rw [hf]

theorem scanFields_eof {F : Type} (N : Num F) (f : Fld) (fs : List Fld) (r : List Nat)
    (c : Coord F) (s : scanner) (n : Nat) {v : F} {k : Nat} {e : Err}
    (hf : N.fscan r = some (v, k))
    (hp : peek (skipWs { s with i := s.raw.length - (r.drop k).length }) = .error e) :
    scanFields N (f :: fs) r c s n =
      ((.error .unexpectedEOF, skipWs { s with i := s.raw.length - (r.drop k).length }),
        n + 1) := by
  unfold scanFields
  rw [hf]
  simp only
  rw [hp]

theorem scanFields_delim {F : Type} (N : Num F) (f : Fld) (fs : List Fld) (r : List Nat)
    (c : Coord F) (s : scanner) (n : Nat) {v : F} {k x : Nat}
    (hf : N.fscan r = some (v, k))
    (hp : peek (skipWs { s with i := s.raw.length - (r.drop k).length }) = .ok x)
    (hx : (x == 44 || x == 41) = true) :
    scanFields N (f :: fs) r c s n =
      ((.ok (c.set f v, x == 44),
        { skipWs { s with i := s.raw.length - (r.drop k).length } with
          i := (skipWs { s with i := s.raw.length - (r.drop k).length }).i + 1 }), n + 1) := by
  unfold scanFields
  rw [hf]
  simp only
  rw [hp]
  simp only
  rw [if_pos hx]

theorem scanFields_next {F : Type} (N : Num F) (f : Fld) (fs : List Fld) (r : List Nat)
    (c : Coord F) (s : scanner) (n : Nat) {v : F} {k x : Nat}
    (hf : N.fscan r = some (v, k))
    (hp : peek (skipWs { s with i := s.raw.length - (r.drop k).length }) = .ok x)
    (hx : (x == 44 || x == 41) = false) :
    scanFields N (f :: fs) r c s n =
      scanFields N fs (r.drop k) (c.set f v)
        (skipWs { s with i := s.raw.length - (r.drop k).length }) (n + 1) := by
  conv_lhs => unfold scanFields
  rw [hf]
  simp only
  rw [hp]
  simp only
  rw [if_neg (by simp [hx])]

theorem not_delim_of_isWs {x : Nat} (h : isWs x = true) : (x == 44 || x == 41) = false := by
  simp only [isWs, Bool.or_eq_true, beq_iff_eq] at h
  simp only [Bool.or_eq_false_iff, beq_eq_false_iff_ne]
  omega

theorem getLast?_getElem?_append {a b : List Nat} {x : Nat} (h : a.getLast? = some x) :
    (a ++ b)[a.length - 1]? = some x := by
  have hne : a ≠ [] := by intro hc; subst hc; simp at h
  have hpos : 0 < a.length := List.length_pos.mpr hne
  rw [List.getElem?_append_left (by omega)]
  rw [← h, List.getLast?_eq_getElem?]

theorem boundary_drop {a b : List Nat} (k : Nat) (h : boundary a b) : boundary (a.drop k) b := by
  have : boundary (a.take k ++ a.drop k) b := by rw [List.take_append_drop]; exact h
  exact boundary_append_left this

/-- One call of `fmt.Fscan` on two related readers: it fails on both, or it reads the same
value and leaves related readers, of which the first one is not exhausted unless the second
one is. -/
theorem fscan_wsRel {F : Type} (N : Num F) (h1 : wsStable N) (h2 : tokenEnd N) {w : List Nat}
    (hw : ∀ x ∈ w, isWs x = true) {r1 r2 : List Nat} (hrel : wsRel w r1 r2) :
    (N.fscan r1 = none ∧ N.fscan r2 = none) ∨
    ∃ v k1 k2, N.fscan r1 = some (v, k1) ∧ N.fscan r2 = some (v, k2) ∧
      wsRel w (r1.drop k1) (r2.drop k2) ∧ (r1.drop k1 = [] → r2.drop k2 = []) := by
  rcases hrel with h | ⟨a, b, ha, hb, hbd⟩
  · subst h
    cases hf : N.fscan r1 with
    | none => exact Or.inl ⟨rfl, rfl⟩
    | some vk => exact Or.inr ⟨vk.1, vk.2, vk.2, rfl, rfl, Or.inl rfl, fun h => h⟩
  · subst ha hb
    rcases h1 a w b hw hbd with hn | ⟨v, k1, k2, hf1, hf2, hk⟩
    · exact Or.inl hn
    · refine Or.inr ⟨v, k1, k2, hf1, hf2, ?_⟩
      rcases hk with ⟨hle, hk2⟩ | ⟨hle, hk2⟩
      · rw [hk2]
        have e1 : (a ++ b).drop k1 = a.drop k1 ++ b := List.drop_append_of_le_length hle
        have e2 : (a ++ (w ++ b)).drop k1 = a.drop k1 ++ (w ++ b) :=
          List.drop_append_of_le_length hle
        rw [e1, e2]
        refine ⟨Or.inr ⟨_, _, rfl, rfl, boundary_drop k1 hbd⟩, ?_⟩
        intro hnil
        exfalso
        simp only [List.append_eq_nil, List.drop_eq_nil_iff] at hnil
        obtain ⟨hge, hbnil⟩ := hnil
        have hk1 : k1 = a.length := by omega
        obtain ⟨hpos, _, hlast⟩ := h2 _ _ _ hf1
        rcases hbd with h | ⟨x, h, hx⟩ | ⟨y, h, _⟩
        · subst h; simp at hk1; omega
        · have := hlast x (by rw [hk1]; exact getLast?_getElem?_append h)
          rw [hx] at this
          simp at this
        · subst hbnil; simp at h
      · rw [hk2]
        obtain ⟨m, rfl⟩ : ∃ m, k1 = a.length + m := ⟨k1 - a.length, by omega⟩
        have e1 : (a ++ b).drop (a.length + m) = b.drop m := List.drop_append m
        have e2 : (a ++ (w ++ b)).drop (a.length + m + w.length) = b.drop m := by
          have : a.length + m + w.length = a.length + (w.length + m) := by omega
          rw [this, List.drop_append, List.drop_append]
        rw [e1, e2]
        exact ⟨Or.inl rfl, fun h => h⟩

theorem fscan_allWs_none {F : Type} (N : Num F) (h2 : tokenEnd N) {r : List Nat}
    (hr : ∀ x ∈ r, isWs x = true) : N.fscan r = none := by
  cases hf : N.fscan r with
  | none => rfl
  | some vk =>
    exfalso
    obtain ⟨hpos, hle, hlast⟩ := h2 r vk.1 vk.2 hf
    have hlt : vk.2 - 1 < r.length := by omega
    have := hlast (r[vk.2 - 1]) (List.getElem?_eq_getElem hlt)
    rw [isSep_of_isWs (hr _ (List.getElem_mem hlt))] at this
    simp at this

/-- The loop of `scanCoord` on two related scanners with related readers. -/
theorem scanFields_wsSim {F : Type} (N : Num F) (h1 : wsStable N) (h2 : tokenEnd N)
    {w : List Nat} (hw : ∀ x ∈ w, isWs x = true) :
    ∀ (fs : List Fld) (r1 r2 : List Nat) (c : Coord F) (s1 s2 : scanner) (n : Nat),
      wsRel w r1 r2 → wsSim w s1 s2 →
      s1.raw.drop (s1.raw.length - r1.length) = r1 →
      s2.raw.drop (s2.raw.length - r2.length) = r2 →
      simOut w (scanFields N fs r1 c s1 n).1 (scanFields N fs r2 c s2 n).1
  | [], r1, r2, c, s1, s2, n, _, hs, _, _ => by
    simp only [scanFields]
    exact Or.inr ⟨_, rfl, rfl, hs⟩
  | f :: fs, r1, r2, c, s1, s2, n, hrel, hs, hr1, hr2 => by
    rcases fscan_wsRel N h1 h2 hw hrel with ⟨hf1, hf2⟩ | ⟨v, k1, k2, hf1, hf2, hrel2, heof⟩
    · rw [scanFields_none N f fs r1 c s1 n hf1, scanFields_none N f fs r2 c s2 n hf2]
      exact Or.inl ⟨_, _, rfl, rfl⟩
    · have hu1 := suffix_drop hr1 k1
      have hu2 := suffix_drop hr2 k2
      have hsim : wsSim w { s1 with i := s1.raw.length - (r1.drop k1).length }
          { s2 with i := s2.raw.length - (r2.drop k2).length } := by
        refine ⟨hs.1, ?_⟩
        show wsRel w (s1.raw.drop _) (s2.raw.drop _)
        rw [hu1, hu2]
        exact hrel2
      rcases wsSim_cases hsim hw with ⟨hd1, hd2⟩ |
          ⟨w1, w2, x, t1, t2, e1, e2, hw1, hw2, hx, hrelS⟩
      · -- only white space is left behind the literal
        have hsk1 := dead_skipWs hd1
        have hsk2 := dead_skipWs hd2
        cases hq : r1.drop k1 with
        | nil =>
          have hq2 := heof hq
          have hp1 : peek { s1 with i := s1.raw.length - (r1.drop k1).length } =
              .error .unexpectedEOF := peek_of_drop_nil (by simp only; rw [hu1, hq])
          have hp2 : peek { s2 with i := s2.raw.length - (r2.drop k2).length } =
              .error .unexpectedEOF := peek_of_drop_nil (by simp only; rw [hu2, hq2])
          rw [scanFields_eof N f fs r1 c s1 n hf1 (by rw [hsk1]; exact hp1),
            scanFields_eof N f fs r2 c s2 n hf2 (by rw [hsk2]; exact hp2)]
          exact Or.inl ⟨_, _, rfl, rfl⟩
        | cons y1 q1 =>
          cases hq2 : r2.drop k2 with
          | nil =>
            have := wsRel_nil_right hrel2 hq2
            rw [hq] at this
            simp at this
          | cons y2 q2 =>
            have hp1 : peek { s1 with i := s1.raw.length - (r1.drop k1).length } = .ok y1 :=
              peek_of_drop (by simp only; rw [hu1, hq])
            have hp2 : peek { s2 with i := s2.raw.length - (r2.drop k2).length } = .ok y2 :=
              peek_of_drop (by simp only; rw [hu2, hq2])
            have hy1 : isWs y1 = true := hd1 y1 (by simp only; rw [hu1, hq]; simp)
            have hy2 : isWs y2 = true := hd2 y2 (by simp only; rw [hu2, hq2]; simp)
            rw [scanFields_next N f fs r1 c s1 n hf1 (by rw [hsk1]; exact hp1)
                (not_delim_of_isWs hy1),
              scanFields_next N f fs r2 c s2 n hf2 (by rw [hsk2]; exact hp2)
                (not_delim_of_isWs hy2), hsk1, hsk2]
            exact scanFields_wsSim N h1 h2 hw fs _ _ _ _ _ _ hrel2 hsim hu1 hu2
      · -- the same byte follows the literal and its white space
        have hsk1 := skipWs_at e1 hw1 hx
        have hsk2 := skipWs_at e2 hw2 hx
        have hadv := wsSim_advance hsim.1 e1 e2 hrelS
        have hp1 : peek { ({ s1 with i := s1.raw.length - (r1.drop k1).length } : scanner) with
            i := s1.raw.length - (r1.drop k1).length + w1.length } = .ok x :=
          peek_of_drop (drop_add_of_drop e1)
        have hp2 : peek { ({ s2 with i := s2.raw.length - (r2.drop k2).length } : scanner) with
            i := s2.raw.length - (r2.drop k2).length + w2.length } = .ok x :=
          peek_of_drop (drop_add_of_drop e2)
        cases hdel : (x == 44 || x == 41) with
        | true =>
          rw [scanFields_delim N f fs r1 c s1 n hf1 (by rw [hsk1]; exact hp1) hdel,
            scanFields_delim N f fs r2 c s2 n hf2 (by rw [hsk2]; exact hp2) hdel, hsk1, hsk2]
          exact Or.inr ⟨_, rfl, rfl, hadv.2⟩
        | false =>
          rw [scanFields_next N f fs r1 c s1 n hf1 (by rw [hsk1]; exact hp1) hdel,
            scanFields_next N f fs r2 c s2 n hf2 (by rw [hsk2]; exact hp2) hdel, hsk1, hsk2]
          exact scanFields_wsSim N h1 h2 hw fs _ _ _ _ _ _ hrel2 hadv.1 hu1 hu2

theorem dead_scanCoord_error {F : Type} (N : Num F) (h2 : tokenEnd N) {s : scanner}
    (hd : dead s) : ∃ e, (scanCoord N s).1 = .error e := by
  unfold scanCoord scanCoordCount
  simp only [dead_skipWs hd]
  split
  · exact ⟨_, rfl⟩
  · have hf := fscan_allWs_none N h2 hd
    split <;> (rw [scanFields_none N _ _ _ _ _ _ hf]; exact ⟨_, rfl⟩)

theorem scanCoord_eq_fields {F : Type} (N : Num F) {s : scanner} {w t : List Nat} {x : Nat}
    (h : s.raw.drop s.i = w ++ x :: t) (hw : ∀ y ∈ w, isWs y = true) (hx : isWs x = false) :
    scanCoord N s =
      (scanFields N (if s.opt == M then [Fld.X, Fld.Y, Fld.M] else [Fld.X, Fld.Y, Fld.Z, Fld.M])
        (x :: t) (Coord.zero N) { s with i := s.i + w.length } 0).1 := by
  have hsk := skipWs_at h hw hx
  have d : s.raw.drop (s.i + w.length) = x :: t := drop_add_of_drop h
  have l : s.i + w.length < s.raw.length := drop_cons_lt d
  unfold scanCoord scanCoordCount
  simp only [hsk]
  split
  · rename_i hge
    exfalso
    omega
  · rw [d]

/-- Method `scanCoord` on two related scanners. -/
theorem scanCoord_wsSim {F : Type} (N : Num F) (h1 : wsStable N) (h2 : tokenEnd N)
    {w : List Nat} (hw : ∀ x ∈ w, isWs x = true) {s1 s2 : scanner} (h : wsSim w s1 s2) :
    simOut w (scanCoord N s1) (scanCoord N s2) := by
  rcases wsSim_cases h hw with ⟨hd1, hd2⟩ | ⟨w1, w2, x, t1, t2, e1, e2, hw1, hw2, hx, hrelS⟩
  · obtain ⟨e1, he1⟩ := dead_scanCoord_error N h2 hd1
    obtain ⟨e2, he2⟩ := dead_scanCoord_error N h2 hd2
    exact Or.inl ⟨e1, e2, he1, he2⟩
  · have hadv := wsSim_advance h.1 e1 e2 hrelS
    have d1 : s1.raw.drop (s1.i + w1.length) = x :: t1 := drop_add_of_drop e1
    have d2 : s2.raw.drop (s2.i + w2.length) = x :: t2 := drop_add_of_drop e2
    have l1 : s1.i + w1.length < s1.raw.length := drop_cons_lt d1
    have l2 : s2.i + w2.length < s2.raw.length := drop_cons_lt d2
    have hr1 : s1.raw.drop (s1.raw.length - (x :: t1).length) = x :: t1 := by
      have := congrArg List.length d1
      rw [List.length_drop] at this
      rw [← this]
      have e : s1.raw.length - (s1.raw.length - (s1.i + w1.length)) = s1.i + w1.length := by
        omega
      rw [e, d1]
    have hr2 : s2.raw.drop (s2.raw.length - (x :: t2).length) = x :: t2 := by
      have := congrArg List.length d2
      rw [List.length_drop] at this
      rw [← this]
      have e : s2.raw.length - (s2.raw.length - (s2.i + w2.length)) = s2.i + w2.length := by
        omega
      rw [e, d2]
    have hfs := scanFields_wsSim N h1 h2 hw
      (if s1.opt == M then [Fld.X, Fld.Y, Fld.M] else [Fld.X, Fld.Y, Fld.Z, Fld.M])
      (x :: t1) (x :: t2) (Coord.zero N)
      { s1 with i := s1.i + w1.length } { s2 with i := s2.i + w2.length } 0
      (wsRel_of_wsRelS hrelS) hadv.1 hr1 hr2
    rw [scanCoord_eq_fields N e1 hw1 hx, scanCoord_eq_fields N e2 hw2 hx, ← h.1]
    rw [← h.1] at hfs
    exact hfs

/-- The two cases of two related results, with the results split into value and scanner. -/
theorem simOut_elim {α : Type} {w : List Nat} {o1 o2 : Except Err α × scanner}
    (h : simOut w o1 o2) :
    (∃ e1 e2 t1 t2, o1 = (.error e1, t1) ∧ o2 = (.error e2, t2)) ∨
    (∃ v t1 t2, o1 = (.ok v, t1) ∧ o2 = (.ok v, t2) ∧ wsSim w t1 t2) := by
  obtain ⟨r1, t1⟩ := o1
  obtain ⟨r2, t2⟩ := o2
  rcases h with ⟨e1, e2, he1, he2⟩ | ⟨v, hv1, hv2, hs⟩
  · simp only at he1 he2
    subst he1
    subst he2
    exact Or.inl ⟨e1, e2, t1, t2, rfl, rfl⟩
  · simp only at hv1 hv2 hs
    subst hv1
    subst hv2
    exact Or.inr ⟨v, t1, t2, rfl, rfl, hs⟩

/-- The loop of `scanCoords` on two related scanners, for any two amounts of fuel: the same
outcome, unless one of the runs is out of fuel. -/
theorem scanCoordsLoop_wsSim {F : Type} (N : Num F) (h1 : wsStable N) (h2 : tokenEnd N)
    {w : List Nat} (hw : ∀ x ∈ w, isWs x = true) (multi : Bool) :
    ∀ (f1 f2 : Nat) (s1 s2 : scanner) (cs : List (Coord F)), wsSim w s1 s2 →
      simOut w (scanCoordsLoop N multi f1 s1 cs) (scanCoordsLoop N multi f2 s2 cs) ∨
      (scanCoordsLoop N multi f1 s1 cs).1 = .error .outOfFuel ∨
      (scanCoordsLoop N multi f2 s2 cs).1 = .error .outOfFuel := by
  intro f1
  induction f1 with
  | zero => intro f2 s1 s2 cs _; exact Or.inr (Or.inl rfl)
  | succ n ih =>
    intro f2 s1 s2 cs h
    cases f2 with
    | zero => exact Or.inr (Or.inr rfl)
    | succ m =>
      rcases simOut_elim (scanCoord_wsSim N h1 h2 hw h) with
        ⟨e1, e2, t1, t2, hc1, hc2⟩ | ⟨⟨c, comma⟩, t1, t2, hc1, hc2, hs⟩
      · simp only [scanCoordsLoop, hc1, hc2]
        exact Or.inl (Or.inl ⟨e1, e2, rfl, rfl⟩)
      · simp only [scanCoordsLoop, hc1, hc2]
        cases comma with
        | true =>
          cases multi with
          | true => exact Or.inl (Or.inl ⟨_, _, rfl, rfl⟩)
          | false => exact ih m t1 t2 (cs ++ [c]) hs
        | false =>
          cases multi with
          | false => exact Or.inl (Or.inr ⟨_, rfl, rfl, hs⟩)
          | true =>
            rcases simOut_elim (scanContinue_wsSim hs hw) with
              ⟨e1, e2, u1, u2, hk1, hk2⟩ | ⟨comma2, u1, u2, hk1, hk2, hs2⟩
            · simp only [hk1, hk2]
              exact Or.inl (Or.inl ⟨e1, e2, rfl, rfl⟩)
            · simp only [hk1, hk2]
              cases comma2 with
              | false => exact Or.inl (Or.inr ⟨_, rfl, rfl, hs2⟩)
              | true =>
                rcases simOut_elim (scanStart_wsSim hs2 hw).1 with
                  ⟨e1, e2, v1, v2, hs1, hs2⟩ | ⟨⟨⟩, v1, v2, hs1, hs2, hs3⟩
                · simp only [hs1, hs2]
                  exact Or.inl (Or.inl ⟨e1, e2, rfl, rfl⟩)
                · simp only [hs1, hs2]
                  exact ih m v1 v2 (cs ++ [c]) hs3

/-- The loop of `scanCoords` is never out of fuel with the fuel `scanCoords` gives it. -/
theorem scanCoordsLoop_fuel {F : Type} (N : Num F) (multi : Bool) (s : scanner)
    (cs : List (Coord F)) :
    (scanCoordsLoop N multi (s.raw.length + 1) s cs).1 ≠ .error .outOfFuel := by
  intro h
  exact (scanCoordsLoop_pos N multi (s.raw.length + 1) s cs).2 (by omega) _ h trivial

/-- Method `scanCoords` on two related scanners. -/
theorem scanCoords_wsSim {F : Type} (N : Num F) (h1 : wsStable N) (h2 : tokenEnd N)
    {w : List Nat} (hw : ∀ x ∈ w, isWs x = true) (multi : Bool) {s1 s2 : scanner}
    (h : wsSim w s1 s2) :
    simOut w (scanCoords N multi s1) (scanCoords N multi s2) := by
  have loop : ∀ (m : Bool) (u1 u2 : scanner), wsSim w u1 u2 →
      simOut w (scanCoordsLoop (F := F) N m (u1.raw.length + 1) u1 [])
        (scanCoordsLoop (F := F) N m (u2.raw.length + 1) u2 []) := by
    intro m u1 u2 hu
    rcases scanCoordsLoop_wsSim N h1 h2 hw m (u1.raw.length + 1) (u2.raw.length + 1) u1 u2 []
      hu with hsim | hf | hf
    · exact hsim
    · exact absurd hf (scanCoordsLoop_fuel N m u1 [])
    · exact absurd hf (scanCoordsLoop_fuel N m u2 [])
  rcases simOut_elim (scanStart_wsSim h hw).1 with
    ⟨e1, e2, t1, t2, hc1, hc2⟩ | ⟨⟨⟩, t1, t2, hc1, hc2, hs⟩
  · simp only [scanCoords, hc1, hc2]
    exact Or.inl ⟨e1, e2, rfl, rfl⟩
  · simp only [scanCoords, hc1, hc2]
    cases multi with
    | false => exact loop false t1 t2 hs
    | true =>
      have hst := scanStart_wsSim hs hw
      rcases simOut_elim hst.1 with
        ⟨e1, e2, u1, u2, hk1, hk2⟩ | ⟨⟨⟩, u1, u2, hk1, hk2, hs2⟩
      · rw [hk1, hk2] at hst
        simp only [hk1, hk2]
        exact loop false u1 u2 hst.2
      · simp only [hk1, hk2]
        exact loop true u1 u2 hs2

/-- The loop of `scanPolydata` on two related scanners, for any two amounts of fuel. -/
theorem scanPolydataLoop_wsSim {F : Type} (N : Num F) (h1 : wsStable N) (h2 : tokenEnd N)
    {w : List Nat} (hw : ∀ x ∈ w, isWs x = true) :
    ∀ (f1 f2 : Nat) (s1 s2 : scanner) (poly : List (List (Coord F))), wsSim w s1 s2 →
      simOut w (scanPolydataLoop N f1 s1 poly) (scanPolydataLoop N f2 s2 poly) ∨
      (scanPolydataLoop N f1 s1 poly).1 = .error .outOfFuel ∨
      (scanPolydataLoop N f2 s2 poly).1 = .error .outOfFuel := by
  intro f1
  induction f1 with
  | zero => intro f2 s1 s2 poly _; exact Or.inr (Or.inl rfl)
  | succ n ih =>
    intro f2 s1 s2 poly h
    cases f2 with
    | zero => exact Or.inr (Or.inr rfl)
    | succ m =>
      rcases simOut_elim (scanCoords_wsSim N h1 h2 hw false h) with
        ⟨e1, e2, t1, t2, hc1, hc2⟩ | ⟨cs, t1, t2, hc1, hc2, hs⟩
      · simp only [scanPolydataLoop, hc1, hc2]
        exact Or.inl (Or.inl ⟨e1, e2, rfl, rfl⟩)
      · simp only [scanPolydataLoop, hc1, hc2]
        by_cases hlen : cs.length < 4
        · simp only [hlen, if_true]
          exact Or.inl (Or.inl ⟨_, _, rfl, rfl⟩)
        · simp only [hlen, if_false]
          cases hh : cs.head? with
          | none => exact Or.inl (Or.inl ⟨_, _, rfl, rfl⟩)
          | some c0 =>
            cases hl : cs.getLast? with
            | none => exact Or.inl (Or.inl ⟨_, _, rfl, rfl⟩)
            | some cn =>
              simp only
              cases hce : coordEq N c0 cn with
              | false => exact Or.inl (Or.inl ⟨_, _, rfl, rfl⟩)
              | true =>
                simp only [Bool.not_true, Bool.false_eq_true, if_false]
                rcases simOut_elim (scanContinue_wsSim hs hw) with
                  ⟨e1, e2, u1, u2, hk1, hk2⟩ | ⟨comma, u1, u2, hk1, hk2, hs2⟩
                · simp only [hk1, hk2]
                  exact Or.inl (Or.inl ⟨e1, e2, rfl, rfl⟩)
                · simp only [hk1, hk2]
                  cases comma with
                  | false => exact Or.inl (Or.inr ⟨_, rfl, rfl, hs2⟩)
                  | true => exact ih m u1 u2 (poly ++ [cs]) hs2

/-- The loop of `scanPolydata` is never out of fuel with the fuel `scanPolydata` gives it. -/
theorem scanPolydataLoop_fuel {F : Type} (N : Num F) (s : scanner)
    (poly : List (List (Coord F))) :
    (scanPolydataLoop N (s.raw.length + 1) s poly).1 ≠ .error .outOfFuel := by
  intro h
  exact (scanPolydataLoop_pos N (s.raw.length + 1) s poly).2 (by omega) _ h trivial

/-- Method `scanPolydata` on two related scanners. -/
theorem scanPolydata_wsSim {F : Type} (N : Num F) (h1 : wsStable N) (h2 : tokenEnd N)
    {w : List Nat} (hw : ∀ x ∈ w, isWs x = true) {s1 s2 : scanner} (h : wsSim w s1 s2) :
    simOut w (scanPolydata N s1) (scanPolydata N s2) := by
  rcases simOut_elim (scanStart_wsSim h hw).1 with
    ⟨e1, e2, t1, t2, hc1, hc2⟩ | ⟨⟨⟩, t1, t2, hc1, hc2, hs⟩
  · simp only [scanPolydata, hc1, hc2]
    exact Or.inl ⟨e1, e2, rfl, rfl⟩
  · simp only [scanPolydata, hc1, hc2]
    rcases scanPolydataLoop_wsSim N h1 h2 hw (t1.raw.length + 1) (t2.raw.length + 1) t1 t2 []
      hs with hsim | hf | hf
    · exact hsim
    · exact absurd hf (scanPolydataLoop_fuel N t1 [])
    · exact absurd hf (scanPolydataLoop_fuel N t2 [])

/-- The loop of `scanMultiPolydata` on two related scanners, for any two amounts of fuel. -/
theorem scanMultiPolydataLoop_wsSim {F : Type} (N : Num F) (h1 : wsStable N) (h2 : tokenEnd N)
    {w : List Nat} (hw : ∀ x ∈ w, isWs x = true) :
    ∀ (f1 f2 : Nat) (s1 s2 : scanner) (multi : List (List (List (Coord F)))), wsSim w s1 s2 →
      simOut w (scanMultiPolydataLoop N f1 s1 multi) (scanMultiPolydataLoop N f2 s2 multi) ∨
      (scanMultiPolydataLoop N f1 s1 multi).1 = .error .outOfFuel ∨
      (scanMultiPolydataLoop N f2 s2 multi).1 = .error .outOfFuel := by
  intro f1
  induction f1 with
  | zero => intro f2 s1 s2 multi _; exact Or.inr (Or.inl rfl)
  | succ n ih =>
    intro f2 s1 s2 multi h
    cases f2 with
    | zero => exact Or.inr (Or.inr rfl)
    | succ m =>
      rcases simOut_elim (scanPolydata_wsSim N h1 h2 hw h) with
        ⟨e1, e2, t1, t2, hc1, hc2⟩ | ⟨poly, t1, t2, hc1, hc2, hs⟩
      · simp only [scanMultiPolydataLoop, hc1, hc2]
        exact Or.inl (Or.inl ⟨e1, e2, rfl, rfl⟩)
      · simp only [scanMultiPolydataLoop, hc1, hc2]
        rcases simOut_elim (scanContinue_wsSim hs hw) with
          ⟨e1, e2, u1, u2, hk1, hk2⟩ | ⟨comma, u1, u2, hk1, hk2, hs2⟩
        · simp only [hk1, hk2]
          exact Or.inl (Or.inl ⟨e1, e2, rfl, rfl⟩)
        · simp only [hk1, hk2]
          cases comma with
          | false => exact Or.inl (Or.inr ⟨_, rfl, rfl, hs2⟩)
          | true => exact ih m u1 u2 (multi ++ [poly]) hs2

/-- The loop of `scanMultiPolydata` is never out of fuel with the fuel `scanMultiPolydata`
gives it. -/
theorem scanMultiPolydataLoop_fuel {F : Type} (N : Num F) (s : scanner)
    (multi : List (List (List (Coord F)))) :
    (scanMultiPolydataLoop N (s.raw.length + 1) s multi).1 ≠ .error .outOfFuel := by
  intro h
  exact (scanMultiPolydataLoop_pos N (s.raw.length + 1) s multi).2 (by omega) _ h trivial

/-- Method `scanMultiPolydata` on two related scanners. -/
theorem scanMultiPolydata_wsSim {F : Type} (N : Num F) (h1 : wsStable N) (h2 : tokenEnd N)
    {w : List Nat} (hw : ∀ x ∈ w, isWs x = true) {s1 s2 : scanner} (h : wsSim w s1 s2) :
    simOut w (scanMultiPolydata N s1) (scanMultiPolydata N s2) := by
  rcases simOut_elim (scanStart_wsSim h hw).1 with
    ⟨e1, e2, t1, t2, hc1, hc2⟩ | ⟨⟨⟩, t1, t2, hc1, hc2, hs⟩
  · simp only [scanMultiPolydata, hc1, hc2]
    exact Or.inl ⟨e1, e2, rfl, rfl⟩
  · simp only [scanMultiPolydata, hc1, hc2]
    rcases scanMultiPolydataLoop_wsSim N h1 h2 hw (t1.raw.length + 1) (t2.raw.length + 1)
      t1 t2 [] hs with hsim | hf | hf
    · exact hsim
    · exact absurd hf (scanMultiPolydataLoop_fuel N t1 [])
    · exact absurd hf (scanMultiPolydataLoop_fuel N t2 [])

/-- The second `switch` of `scanGeom` on two related scanners. -/
theorem scanBody_wsSim {F : Type} (N : Num F) (h1 : wsStable N) (h2 : tokenEnd N)
    {w : List Nat} (hw : ∀ x ∈ w, isWs x = true) (ident : List Nat) {s1 s2 : scanner}
    (h : wsSim w s1 s2) :
    simOut w (scanBody N ident s1) (scanBody N ident s2) := by
  unfold scanBody
  split
  · rcases simOut_elim (scanCoords_wsSim N h1 h2 hw (ident == ascii "MULTIPOINT") h) with
      ⟨e1, e2, t1, t2, hc1, hc2⟩ | ⟨cs, t1, t2, hc1, hc2, hs⟩
    · simp only [hc1, hc2]
      exact Or.inl ⟨e1, e2, rfl, rfl⟩
    · simp only [hc1, hc2]
      split
      · split
        · exact Or.inl ⟨_, _, rfl, rfl⟩
        · cases cs.head? with
          | none => exact Or.inl ⟨_, _, rfl, rfl⟩
          | some c =>
            simp only
            rw [hs.1]
            exact Or.inr ⟨_, rfl, rfl, hs⟩
      · split
        · rw [hs.1]
          exact Or.inr ⟨_, rfl, rfl, hs⟩
        · rw [hs.1]
          exact Or.inr ⟨_, rfl, rfl, hs⟩
  · split
    · rcases simOut_elim (scanPolydata_wsSim N h1 h2 hw h) with
        ⟨e1, e2, t1, t2, hc1, hc2⟩ | ⟨cs, t1, t2, hc1, hc2, hs⟩
      · simp only [hc1, hc2]
        exact Or.inl ⟨e1, e2, rfl, rfl⟩
      · simp only [hc1, hc2]
        rw [hs.1]
        exact Or.inr ⟨_, rfl, rfl, hs⟩
    · split
      · rcases simOut_elim (scanMultiPolydata_wsSim N h1 h2 hw h) with
          ⟨e1, e2, t1, t2, hc1, hc2⟩ | ⟨cs, t1, t2, hc1, hc2, hs⟩
        · simp only [hc1, hc2]
          exact Or.inl ⟨e1, e2, rfl, rfl⟩
        · simp only [hc1, hc2]
          rw [hs.1]
          exact Or.inr ⟨_, rfl, rfl, hs⟩
      · exact Or.inl ⟨_, _, rfl, rfl⟩

/-- Setting the option of two related scanners to the same value. -/
theorem wsSim_setOpt {w : List Nat} {s1 s2 : scanner} (h : wsSim w s1 s2) (o : Opt) :
    wsSim w { s1 with opt := o } { s2 with opt := o } :=
  ⟨rfl, h.2⟩

/-- Method `scanGeom` on two related scanners. -/
theorem scanGeom_wsSim {F : Type} (N : Num F) (h1 : wsStable N) (h2 : tokenEnd N)
    {w : List Nat} (hw : ∀ x ∈ w, isWs x = true) {s1 s2 : scanner} (h : wsSim w s1 s2) :
    simOut w (scanGeom N s1) (scanGeom N s2) := by
  rcases simOut_elim (scanIdent_wsSim h hw).1 with
    ⟨e1, e2, t1, t2, hc1, hc2⟩ | ⟨ident, t1, t2, hc1, hc2, hs⟩
  · simp only [scanGeom, hc1, hc2]
    exact Or.inl ⟨e1, e2, rfl, rfl⟩
  · simp only [scanGeom, hc1, hc2]
    have hst := scanIdent_wsSim hs hw
    rcases simOut_elim hst.1 with
      ⟨e1, e2, u1, u2, hk1, hk2⟩ | ⟨zmident, u1, u2, hk1, hk2, hs2⟩
    · rw [hk1, hk2] at hst
      simp only [hk1, hk2]
      exact scanBody_wsSim N h1 h2 hw ident (wsSim_setOpt hst.2 _)
    · simp only [hk1, hk2]
      exact scanBody_wsSim N h1 h2 hw ident (wsSim_setOpt hs2 _)

/-- Function `Parse` on a text and on the text with white space inserted at a boundary. -/
theorem Parse_wsSim {F : Type} (N : Num F) (h1 : wsStable N) (h2 : tokenEnd N)
    (pre w post : List Nat) (hw : ∀ x ∈ w, isWs x = true) (hb : boundary pre post) :
    (∃ e1 e2, Parse N (pre ++ post) = .error e1 ∧ Parse N (pre ++ (w ++ post)) = .error e2) ∨
    (∃ g, Parse N (pre ++ post) = .ok g ∧ Parse N (pre ++ (w ++ post)) = .ok g) := by
  have hs : wsSim w { raw := pre ++ post, i := 0, opt := 0 }
      { raw := pre ++ (w ++ post), i := 0, opt := 0 } :=
    ⟨rfl, Or.inr ⟨pre, post, rfl, rfl, hb⟩⟩
  rcases scanGeom_wsSim N h1 h2 hw hs with ⟨e1, e2, he1, he2⟩ | ⟨g, hg1, hg2, _⟩
  · exact Or.inl ⟨e1, e2, he1, he2⟩
  · exact Or.inr ⟨g, hg1, hg2⟩

/-- Function `decFscan` as white space, sign and `decDigits`. -/
theorem decFscan_eq_decDigits (r : List Nat) :
    decFscan r =
      decDigits ((r.dropWhile isSpaceByte).head? == some 45)
        ((r.takeWhile isSpaceByte).length +
          (if (r.dropWhile isSpaceByte).head? == some 45 ||
            (r.dropWhile isSpaceByte).head? == some 43 then 1 else 0))
        ((r.dropWhile isSpaceByte).drop
          (if (r.dropWhile isSpaceByte).head? == some 45 ||
            (r.dropWhile isSpaceByte).head? == some 43 then 1 else 0)) := by
  unfold decFscan decDigits
  rfl

theorem span_append_of_all (p : Nat → Bool) :
    ∀ (l t : List Nat), (∀ x ∈ l, p x = true) →
      (l ++ t).takeWhile p = l ++ t.takeWhile p ∧ (l ++ t).dropWhile p = t.dropWhile p
  | [], _, _ => by simp
  | x :: l, t, h => by
    have hx : p x = true := h x (List.mem_cons_self x l)
    have ih := span_append_of_all p l t (fun y hy => h y (List.mem_cons_of_mem x hy))
    simp [List.takeWhile, List.dropWhile, hx, ih.1, ih.2]

theorem all_of_dropWhile_nil (p : Nat → Bool) :
    ∀ (l : List Nat), l.dropWhile p = [] → ∀ x ∈ l, p x = true
  | [], _ => by simp
  | y :: l, h => by
    by_cases hy : p y = true
    · have h2 : l.dropWhile p = [] := by simpa [List.dropWhile, hy] using h
      intro x hx
      rcases List.mem_cons.mp hx with rfl | hx
      · exact hy
      · exact all_of_dropWhile_nil p l h2 x hx
    · simp [List.dropWhile, hy] at h

theorem span_of_head_not (p : Nat → Bool) {t : List Nat} {y : Nat} (h : t.head? = some y)
    (hy : p y = false) : t.takeWhile p = [] ∧ t.dropWhile p = t := by
  cases t with
  | nil => simp at h
  | cons z t =>
    simp only [List.head?_cons, Option.some.injEq] at h
    subst h
    simp [List.takeWhile, List.dropWhile, hy]

theorem isDigit_of_isSep {x : Nat} (h : isSep x = true) : isDigit x = false := by
  unfold isSep isWs at h
  unfold isDigit
  simp only [Bool.or_eq_true, beq_iff_eq, or_assoc] at h
  rcases h with h | h | h | h | h | h | h <;> subst h <;> decide

theorem continuesToken_of_isSep {x : Nat} (h : isSep x = true) :
    continuesToken (some x) = false := by
  unfold isSep isWs at h
  unfold continuesToken
  simp only [Bool.or_eq_true, beq_iff_eq, or_assoc] at h
  rcases h with h | h | h | h | h | h | h <;> subst h <;> decide

theorem isSpaceByte_of_isWs {x : Nat} (h : isWs x = true) : isSpaceByte x = true := by
  unfold isWs at h
  unfold isSpaceByte
  simp only [Bool.or_eq_true, beq_iff_eq, or_assoc] at h
  rcases h with h | h | h | h <;> subst h <;> decide

/-- The head of white space followed by a text that starts with a separator is a separator. -/
theorem head_sep_append {w b : List Nat} {y : Nat} (hw : ∀ x ∈ w, isWs x = true)
    (hb : b.head? = some y) (hy : isSep y = true) :
    ∃ z, (w ++ b).head? = some z ∧ isSep z = true := by
  cases w with
  | nil => exact ⟨y, hb, hy⟩
  | cons z w => exact ⟨z, rfl, isSep_of_isWs (hw z (List.mem_cons_self z w))⟩

/-- Function `decDigits` on digits followed by a separator. -/
theorem decDigits_all {a t : List Nat} {y : Nat} (neg : Bool) (off : Nat)
    (ha : ∀ x ∈ a, isDigit x = true) (ht : t.head? = some y) (hy : isSep y = true) :
    decDigits neg off (a ++ t) =
      (if a.length == 0 then none
       else if digitsVal a ≥ 2 ^ 53 then none
       else some (if neg then - (digitsVal a : Int) else (digitsVal a : Int), off + a.length)) := by
  have h1 := span_append_of_all isDigit a t ha
  have h2 := span_of_head_not isDigit ht (isDigit_of_isSep hy)
  unfold decDigits
  simp only
  rw [h1.1, h1.2, h2.1, h2.2, ht, continuesToken_of_isSep hy, List.append_nil]
  simp

/-- Function `decDigits` on a text whose digits end inside the text. -/
theorem decDigits_inner {a : List Nat} (t : List Nat) (neg : Bool) (off : Nat)
    (ha : a.dropWhile isDigit ≠ []) :
    decDigits neg off (a ++ t) = decDigits neg off a := by
  have h1 := span_append_of_ne_nil isDigit a t ha
  unfold decDigits
  simp only
  rw [h1.1, h1.2, head?_append_of_ne_nil t ha]

theorem decDigits_le {a : List Nat} {neg : Bool} {off k : Nat} {v : Int}
    (h : decDigits neg off a = some (v, k)) : k ≤ off + a.length := by
  unfold decDigits at h
  simp only at h
  split at h
  · simp at h
  · split at h
    · simp at h
    · split at h
      · simp at h
      · simp only [Option.some.injEq, Prod.mk.injEq] at h
        have := (List.takeWhile_sublist isDigit (l := a)).length_le
        omega

/-- White space inserted behind `a`, at a place next to a separator, does not change what
`decDigits` reads, and what it reads ends inside `a`. -/
theorem decDigits_ws {a w b : List Nat} (neg : Bool) (off : Nat)
    (hw : ∀ x ∈ w, isWs x = true)
    (hb : (∃ x, a.getLast? = some x ∧ isSep x = true) ∨
      (∃ y, b.head? = some y ∧ isSep y = true)) :
    decDigits neg off (a ++ (w ++ b)) = decDigits neg off (a ++ b) ∧
    ∀ v k, decDigits neg off (a ++ b) = some (v, k) → k ≤ off + a.length := by
  by_cases ha : a.dropWhile isDigit = []
  · have hall := all_of_dropWhile_nil isDigit a ha
    have hy : ∃ y, b.head? = some y ∧ isSep y = true := by
      rcases hb with ⟨x, hx, hs⟩ | hb
      · have hm : x ∈ a := List.mem_of_getLast?_eq_some hx
        have := hall x hm
        rw [isDigit_of_isSep hs] at this
        exact absurd this (by decide)
      · exact hb
    obtain ⟨y, hy1, hy2⟩ := hy
    obtain ⟨z, hz1, hz2⟩ := head_sep_append hw hy1 hy2
    rw [decDigits_all neg off hall hz1 hz2, decDigits_all neg off hall hy1 hy2]
    refine ⟨rfl, ?_⟩
    intro v k h
    split at h
    · simp at h
    · split at h
      · simp at h
      · simp only [Option.some.injEq, Prod.mk.injEq] at h
        omega
  · rw [decDigits_inner (w ++ b) neg off ha, decDigits_inner b neg off ha]
    refine ⟨rfl, ?_⟩
    intro v k h
    exact decDigits_le h

theorem decDigits_shift (neg : Bool) (n off : Nat) (r : List Nat) :
    decDigits neg (n + off) r = (decDigits neg off r).map (fun p => (p.1, n + p.2)) := by
  unfold decDigits
  simp only
  split
  · rfl
  · split
    · rfl
    · split
      · rfl
      · simp only [Option.map_some', Nat.add_assoc]

/-- Function `decFscan` behind bytes it skips. -/
theorem decFscan_spaces {sp : List Nat} (r : List Nat) (h : ∀ x ∈ sp, isSpaceByte x = true) :
    decFscan (sp ++ r) = (decFscan r).map (fun p => (p.1, sp.length + p.2)) := by
  have hs := span_append_of_all isSpaceByte sp r h
  rw [decFscan_eq_decDigits, decFscan_eq_decDigits, hs.1, hs.2, List.length_append,
    Nat.add_assoc, decDigits_shift]

/-- Function `decFscan` on a text that starts with a sign. -/
theorem decFscan_sign {c : Nat} (r : List Nat) (hc : c = 45 ∨ c = 43) :
    decFscan (c :: r) = decDigits (c == 45) 1 r := by
  rw [decFscan_eq_decDigits]
  rcases hc with rfl | rfl <;> rfl

/-- Function `decFscan` on a text that starts with a byte that is neither skipped nor a
sign. -/
theorem decFscan_nosign {c : Nat} (r : List Nat) (hs : isSpaceByte c = false) (h1 : c ≠ 45)
    (h2 : c ≠ 43) : decFscan (c :: r) = decDigits false 0 (c :: r) := by
  rw [decFscan_eq_decDigits]
  have e1 : (c :: r).dropWhile isSpaceByte = c :: r := by simp [List.dropWhile, hs]
  have e2 : (c :: r).takeWhile isSpaceByte = [] := by simp [List.takeWhile, hs]
  have e4 : (some c == some 45) = false := by simp [h1]
  have e5 : (some c == some 43) = false := by simp [h2]
  rw [e1, e2]
  simp only [List.head?_cons, e4, e5, Bool.or_self, Bool.false_eq_true, if_false,
    List.length_nil, Nat.add_zero, List.drop_zero]

theorem split_first_not (p : Nat → Bool) :
    ∀ (l : List Nat), l.dropWhile p ≠ [] →
      ∃ sp c rest, l = sp ++ c :: rest ∧ (∀ x ∈ sp, p x = true) ∧ p c = false
  | [], h => by simp at h
  | y :: l, h => by
    by_cases hy : p y = true
    · have h2 : l.dropWhile p ≠ [] := by simpa [List.dropWhile, hy] using h
      obtain ⟨sp, c, rest, e, hsp, hc⟩ := split_first_not p l h2
      refine ⟨y :: sp, c, rest, by rw [e]; rfl, ?_, hc⟩
      intro x hx
      rcases List.mem_cons.mp hx with rfl | hx
      · exact hy
      · exact hsp x hx
    · exact ⟨[], y, l, rfl, by simp, by simpa using hy⟩

/-- The scanner `decFscan` has the property `wsStable`. -/
theorem dec_wsStable : wsStable dec := by
  intro a w b hw hb
  show (decFscan (a ++ b) = none ∧ decFscan (a ++ (w ++ b)) = none) ∨
    (∃ v k1 k2, decFscan (a ++ b) = some (v, k1) ∧ decFscan (a ++ (w ++ b)) = some (v, k2) ∧
      ((k1 ≤ a.length ∧ k2 = k1) ∨ (a.length ≤ k1 ∧ k2 = k1 + w.length)))
  by_cases ha : a.dropWhile isSpaceByte = []
  · have hall := all_of_dropWhile_nil isSpaceByte a ha
    have hall2 : ∀ x ∈ a ++ w, isSpaceByte x = true := by
      intro x hx
      rcases List.mem_append.mp hx with hx | hx
      · exact hall x hx
      · exact isSpaceByte_of_isWs (hw x hx)
    rw [← List.append_assoc, decFscan_spaces b hall, decFscan_spaces b hall2]
    cases decFscan b with
    | none => exact Or.inl ⟨rfl, rfl⟩
    | some p =>
      refine Or.inr ⟨p.1, a.length + p.2, (a ++ w).length + p.2, rfl, rfl, Or.inr ⟨by omega, ?_⟩⟩
      rw [List.length_append]
      omega
  · obtain ⟨sp, c, rest, e, hsp, hc⟩ := split_first_not isSpaceByte a ha
    subst e
    have hbS : (∃ x, (c :: rest).getLast? = some x ∧ isSep x = true) ∨
        (∃ y, b.head? = some y ∧ isSep y = true) := by
      rcases hb with h | ⟨x, hx, hs⟩ | h
      · simp at h
      · rw [List.getLast?_append_of_ne_nil sp (List.cons_ne_nil c rest)] at hx
        exact Or.inl ⟨x, hx, hs⟩
      · exact Or.inr h
    have key : ∃ neg off a2, off + a2.length = (c :: rest).length ∧
        (∀ t, decFscan (c :: rest ++ t) = decDigits neg off (a2 ++ t)) ∧
        ((∃ x, a2.getLast? = some x ∧ isSep x = true) ∨
          (∃ y, b.head? = some y ∧ isSep y = true)) := by
      by_cases hsg : c = 45 ∨ c = 43
      · refine ⟨c == 45, 1, rest, by simp [Nat.add_comm], ?_, ?_⟩
        · intro t
          exact decFscan_sign (rest ++ t) hsg
        · rcases hbS with ⟨x, hx, hs⟩ | h
          · cases rest with
            | nil =>
              simp only [List.getLast?_singleton, Option.some.injEq] at hx
              subst hx
              rcases hsg with rfl | rfl <;> simp [isSep, isWs] at hs
            | cons y rest =>
              rw [List.getLast?_cons_cons] at hx
              exact Or.inl ⟨x, hx, hs⟩
          · exact Or.inr h
      · have h45 : c ≠ 45 := fun h => hsg (Or.inl h)
        have h43 : c ≠ 43 := fun h => hsg (Or.inr h)
        refine ⟨false, 0, c :: rest, by simp, ?_, hbS⟩
        intro t
        exact decFscan_nosign (rest ++ t) hc h45 h43
    obtain ⟨neg, off, a2, hlen, hdec, hb2⟩ := key
    have hd := decDigits_ws neg off hw hb2
    have e1 : sp ++ c :: rest ++ b = sp ++ (c :: rest ++ b) := by simp
    have e2 : sp ++ c :: rest ++ (w ++ b) = sp ++ (c :: rest ++ (w ++ b)) := by simp
    rw [e1, e2, decFscan_spaces _ hsp, decFscan_spaces _ hsp, hdec, hdec, hd.1]
    cases hp : decDigits neg off (a2 ++ b) with
    | none => exact Or.inl ⟨rfl, rfl⟩
    | some p =>
      have hle := hd.2 p.1 p.2 hp
      refine Or.inr ⟨p.1, sp.length + p.2, sp.length + p.2, rfl, rfl, Or.inl ⟨?_, rfl⟩⟩
      rw [List.length_append]
      omega

/-- The scanner `decFscan` has the property `tokenEnd`. -/
theorem dec_tokenEnd : tokenEnd dec := by
  intro r v k h
  change decFscan r = some (v, k) at h
  have hsplit1 := List.takeWhile_append_dropWhile isSpaceByte r
  unfold decFscan at h
  simp only at h
  generalize hr1 : r.dropWhile isSpaceByte = r1 at h hsplit1
  generalize hws : r.takeWhile isSpaceByte = ws at h hsplit1
  generalize hsg : (if (r1.head? == some 45 || r1.head? == some 43) = true then 1 else 0) = sgn
    at h
  have hsplit2 := List.takeWhile_append_dropWhile isDigit (r1.drop sgn)
  have hds : ∀ x ∈ (r1.drop sgn).takeWhile isDigit, isDigit x = true :=
    fun x hx => List.mem_takeWhile_imp hx
  generalize hdsd : (r1.drop sgn).takeWhile isDigit = ds at h hsplit2 hds
  generalize hr3d : (r1.drop sgn).dropWhile isDigit = r3 at h hsplit2
  have hsplit3 := List.take_append_drop sgn r1
  split at h
  · simp at h
  · rename_i hne
    split at h
    · simp at h
    · split at h
      · simp at h
      · simp only [Option.some.injEq, Prod.mk.injEq] at h
        obtain ⟨_, hk⟩ := h
        have hdsne : ds ≠ [] := by
          intro hc
          rw [hc] at hne
          simp at hne
        have hdl : 0 < ds.length := List.length_pos.mpr hdsne
        have hl2 : (r1.drop sgn).length = ds.length + r3.length := by
          rw [← hsplit2, List.length_append]
        have hl3 : (r1.drop sgn).length = r1.length - sgn := List.length_drop _ _
        have htk : (r1.take sgn).length = sgn := by
          rw [List.length_take]
          omega
        have hr : r = ws ++ (r1.take sgn ++ (ds ++ r3)) := by
          rw [hsplit2, hsplit3, hsplit1]
        have hrl : r.length = ws.length + (sgn + (ds.length + r3.length)) := by
          rw [hr]
          simp only [List.length_append, htk]
        refine ⟨by omega, by omega, ?_⟩
        intro x hx
        have hidx : k - 1 = ws.length + (sgn + (ds.length - 1)) := by omega
        rw [hidx, hr, List.getElem?_append_right (by omega)] at hx
        have e1 : ws.length + (sgn + (ds.length - 1)) - ws.length = sgn + (ds.length - 1) := by
          omega
        rw [e1, List.getElem?_append_right (by omega), htk] at hx
        have e2 : sgn + (ds.length - 1) - sgn = ds.length - 1 := by omega
        rw [e2, List.getElem?_append_left (by omega)] at hx
        have hm : x ∈ ds := List.getElem?_mem hx
        have hd := hds x hm
        cases hsx : isSep x with
        | false => rfl
        | true =>
          rw [isDigit_of_isSep hsx] at hd
          exact absurd hd (by decide)

/-- C11, counterexample: the white space between the keyword and the dimension suffix and the
white space between two numeric literals cannot be removed.  `POINT Z(1 2 3)` is a point with
option `Z` and `POINTZ(1 2 3)` is rejected; `POINT(1 2)` is the point `(1, 2)` and `POINT(12)`
is the point `(12, 0)`, which are not `Equal`.  And with a space inserted behind the `(` of
`POINT(nan 0)` both inputs give the same point, which is not `Equal` to itself. -/
theorem C11_counterexample :
    Parse dec (ascii "POINT" ++ (ascii " " ++ ascii "Z(1 2 3)")) = .ok (.Point ⟨1, 2, 3, 0⟩ Z) ∧
    Parse dec (ascii "POINT" ++ ascii "Z(1 2 3)") = .error (.unknownGeom (ascii "POINTZ")) ∧
    Parse dec (ascii "POINT(1" ++ (ascii " " ++ ascii "2)")) = .ok (.Point ⟨1, 2, 0, 0⟩ 0) ∧
    Parse dec (ascii "POINT(1" ++ ascii "2)") = .ok (.Point ⟨12, 0, 0, 0⟩ 0) ∧
    Geom.Equal dec (.Point ⟨1, 2, 0, 0⟩ 0) (.Point ⟨12, 0, 0, 0⟩ 0) = false ∧
    Parse decNaN (ascii "POINT(" ++ ascii "nan 0)") =
      .ok (.Point ⟨none, some 0, some 0, some 0⟩ 0) ∧
    Parse decNaN (ascii "POINT(" ++ (ascii " " ++ ascii "nan 0)")) =
      .ok (.Point ⟨none, some 0, some 0, some 0⟩ 0) ∧
    Geom.Equal decNaN (.Point ⟨none, some 0, some 0, some 0⟩ 0)
      (.Point ⟨none, some 0, some 0, some 0⟩ 0) = false :=
  ⟨by rfl, by rfl, by rfl, by rfl, by rfl, by rfl, by rfl, by rfl⟩

/-- C11: inserting or removing a run `w` of space, tab, CR or LF bytes at a place of the input
that is its start or lies next to white space or next to `(`, `)` or `,` does not change the
outcome of `Parse`: it fails on both inputs, or it returns the same geometry for both, which
is `Equal` to itself as soon as each of its coordinates is `==` to itself.  The assumptions on
`fmt.Fscan` are `wsStable` and `tokenEnd`. -/
theorem C11_whitespace_at_boundary {F : Type} (N : Num F) (h1 : wsStable N) (h2 : tokenEnd N)
    (pre w post : List Nat) (hw : ∀ x ∈ w, isWs x = true) (hb : boundary pre post) :
    (∃ e1 e2, Parse N (pre ++ post) = .error e1 ∧ Parse N (pre ++ (w ++ post)) = .error e2) ∨
    (∃ g, Parse N (pre ++ post) = .ok g ∧ Parse N (pre ++ (w ++ post)) = .ok g ∧
      ((∀ c ∈ g.coords, coordEq N c c = true) → Geom.Equal N g g = true)) := by
  rcases Parse_wsSim N h1 h2 pre w post hw hb with h | ⟨g, hg1, hg2⟩
  · exact Or.inl h
  · exact Or.inr ⟨g, hg1, hg2, Equal_self N g⟩

theorem C11_whitespace_at_boundary_witness :
    (∀ x ∈ [32, 9, 13, 10], isWs x = true) ∧
    boundary (ascii "POINT Z(1") (ascii " 2 3)") ∧
    Parse dec (ascii "POINT Z(1" ++ ascii " 2 3)") = .ok (.Point ⟨1, 2, 3, 0⟩ Z) ∧
    Parse dec (ascii "POINT Z(1" ++ ([32, 9, 13, 10] ++ ascii " 2 3)")) =
      .ok (.Point ⟨1, 2, 3, 0⟩ Z) ∧
    Geom.Equal dec (.Point ⟨1, 2, 3, 0⟩ Z) (.Point ⟨1, 2, 3, 0⟩ Z) = true := by
  have hw : ∀ x ∈ [32, 9, 13, 10], isWs x = true := by decide
  have hb : boundary (ascii "POINT Z(1") (ascii " 2 3)") :=
    Or.inr (Or.inr ⟨32, rfl, rfl⟩)
  have h0 : Parse dec (ascii "POINT Z(1" ++ ascii " 2 3)") = .ok (.Point ⟨1, 2, 3, 0⟩ Z) := by
    rfl
  refine ⟨hw, hb, h0, ?_⟩
  rcases C11_whitespace_at_boundary dec dec_wsStable dec_tokenEnd (ascii "POINT Z(1")
    [32, 9, 13, 10] (ascii " 2 3)") hw hb with ⟨e1, e2, he1, _⟩ | ⟨g, hg1, hg2, hg3⟩
  · rw [h0] at he1
    cases he1
  · rw [h0] at hg1
    cases hg1
    exact ⟨hg2, hg3 (by decide)⟩

end wkt
